import Mathlib

/-!
# watcor: water-model conversion of GROMACS `.gro` coordinate files

A shallow embedding of `gro.cpp` (line codec, molecule classifier, rewriter)
and `model.cpp` (geometric idealiser), followed by theorems about them.

Conventions of the embedding.

* A `std::string` is the list of its `char`s (`Str`); a `char` is a Lean `Char`.
* A `std::vector<std::string>` is a `List Str`; `operator[]` is the checked
  accessor `line_at`, which reports an access past the end as `Err.bad_index`
  (undefined behaviour in C++).
* C++ exceptions are values of `Err`; a function that may throw returns `Except Err _`.
* The output stream is the list of lines written so far; `process_gro` returns the
  lines it wrote together with its result or the exception that ended it (`Run`).
* `double` is an arbitrary type `F` with the arithmetic operators, `<`, decimal
  literals, the `<cmath>` functions (`MathFns`) and the text conversions
  `std::stod` / `printf("%8.3f")` (`TextFns`) as parameters.  Theorems about the
  rewriter hold for every such `F`; theorems about geometry are stated over `ℝ`.
* `size_t` and `int` counters are natural numbers: they count lines of the input,
  so they stay far below the machine bounds.
* Loops are recursive functions with a fuel argument; `Err.fuel` marks fuel
  exhaustion and is shown never to be returned by `process_gro`.
-/

namespace Watcor

/-- A `std::string`. -/
abbrev Str := List Char

/-- The exceptions that can leave the functions of `gro.cpp` and `model.cpp`. -/
inductive Err where
  /-- Exception `gro_error(msg, line)` -/
  | gro_error (msg : Str) (line : Str)
  /-- Exception `std::runtime_error(msg)` thrown by `model::transform` -/
  | runtime_error (msg : Str)
  /-- Exception `std::logic_error(msg)` thrown by `model::check` -/
  | logic_error (msg : Str)
  /-- Exception `std::out_of_range` thrown by `std::stol` / `std::stod`; nothing catches it -/
  | out_of_range (fn : Str)
  /-- Access by `operator[]` to a vector at an index past its end -/
  | bad_index (i : Nat)
  /-- the fuel of a loop of the embedding ran out -/
  | fuel
  deriving DecidableEq, Repr

/-- Result of `std::stol` / `std::stod`: a value, or one of the two exceptions. -/
inductive Conv (α : Type) where
  | value (v : α)
  | invalid_argument
  | out_of_range
  deriving DecidableEq, Repr

deriving instance DecidableEq for Except

/-- Lines written to the output stream, and how the call ended. -/
structure Run (α : Type) where
  out : List Str
  res : Except Err α
  deriving DecidableEq

/-- The function `gro_error::what()`: `msg + "; current line:\n" + line`. -/
def gro_what (msg line : Str) : Str :=
  msg ++ "; current line:\n".toList ++ line

/-- Element access `v[i]` for a `std::vector<std::string>`. -/
def line_at (lines : List Str) (i : Nat) : Except Err Str :=
  match lines.get? i with
  | some l => .ok l
  | none => .error (.bad_index i)

/-- The call `s.substr(pos, len)` for `pos <= s.size()`. -/
def substr (s : Str) (pos len : Nat) : Str := (s.drop pos).take len

/-! ## Line codec (`gro.cpp` lines 5-85) -/

/-- The function `atom_name`: columns 11-15 with the surrounding blanks removed. -/
def atom_name (l : Str) : Except Err Str :=
  if l.length < 15 then
    .error (.gro_error "file format error (atom name)".toList l)
  else
    let nm := substr l 10 5
    let nm := nm.dropWhile (fun c => c == ' ')
    let nm := (nm.reverse.dropWhile (fun c => c == ' ')).reverse
    .ok nm

/-- The loop body of `standardise`: `if (c >= 'a' && c <= 'z') c += 'A' - 'a'`. -/
def upper (c : Char) : Char :=
  if 'a'.toNat ≤ c.toNat ∧ c.toNat ≤ 'z'.toNat then Char.ofNat (c.toNat - 32) else c

/-- The function `standardise`: the first two characters, in upper case. -/
def standardise (n : Str) : Str :=
  let v := n.map upper
  if v.length < 2 then v else substr v 0 2

/-- Right-justify `s` in a field of `w` characters (`%5ld`, `%5s`). -/
def pad_left (w : Nat) (s : Str) : Str := List.replicate (w - s.length) ' ' ++ s

/-- The characters `printf` produces for `%ld` when it is handed the `size_t` value `c`:
the 64 bits of `c` are read as a `long`, so values from `2^63` on print as negative
numbers. -/
def ld_text (c : Nat) : Str :=
  if c % 2 ^ 64 < 2 ^ 63 then Nat.toDigits 10 (c % 2 ^ 64)
  else '-' :: Nat.toDigits 10 (2 ^ 64 - c % 2 ^ 64)

/-- The call `snprintf(buf, 6, "%5ld", c)`: at most 5 characters are stored. -/
def fmt_5ld (c : Nat) : Str := (pad_left 5 (ld_text c)).take 5

/-- The call `snprintf(buf, 6, "%5s", atnam)`. -/
def fmt_5s (atnam : Str) : Str := (pad_left 5 atnam).take 5

/-- The function `update_line(l, c)`: new atom counter, velocities removed. -/
def update_line (l : Str) (c : Nat) : Except Err Str :=
  if l.length < 44 then
    .error (.gro_error "file format error (atom)".toList l)
  else
    .ok (substr l 0 15 ++ fmt_5ld c ++ substr l 20 24)

/-- The `<cstdlib>`/`<cstdio>` conversions between text and `double`. -/
structure TextFns (F : Type) where
  /-- The function `std::stod` -/
  stod : Str → Conv F
  /-- the characters `printf` produces for `%8.3f` -/
  fmt_8_3f : F → Str

/-- The `<cmath>` functions used by `model.cpp`. -/
structure MathFns (F : Type) where
  sqrt : F → F
  cos : F → F
  sin : F → F
  fabs : F → F

/-! ## Reading the header and classifying atoms (`gro.cpp` lines 93-148) -/

/-- The function `isspace` in the "C" locale, used by `std::stol` to skip leading blanks. -/
def isspace (c : Char) : Bool :=
  c == ' ' || (9 ≤ c.toNat && c.toNat ≤ 13)

/-- The constant `LONG_MAX` on the LP64 targets of the program. -/
def LONG_MAX : Int := 9223372036854775807

/-- Value of a string of decimal digits. -/
def digits_value (ds : Str) : Nat := ds.foldl (fun a c => 10 * a + (c.toNat - '0'.toNat)) 0

/-- The function `std::stol(s)`: leading blanks, an optional sign, then decimal digits; the
rest of the string is ignored.  `invalid_argument` when there is no digit,
`out_of_range` when the value does not fit a `long`. -/
def stol (s : Str) : Conv Int :=
  let s := s.dropWhile isspace
  let neg := s.head? == some '-'
  let s := if s.head? == some '-' || s.head? == some '+' then s.drop 1 else s
  let ds := s.takeWhile Char.isDigit
  if ds.isEmpty then .invalid_argument
  else
    let v : Int := if neg then - (digits_value ds : Int) else (digits_value ds : Int)
    if v < - LONG_MAX - 1 ∨ v > LONG_MAX then .out_of_range else .value v

/-- The function `std::to_string` of an unsigned number, also `os << n`. -/
def to_string (n : Nat) : Str := Nat.toDigits 10 n

/-- Lines 101-116 of `process_gro`: the number of atoms `na` read from `lines[1]`. -/
def read_na (lines : List Str) : Except Err Nat :=
  match line_at lines 1 with
  | .error e => .error e
  | .ok l1 =>
    match stol l1 with
    | .out_of_range => .error (.out_of_range "stol".toList)
    | r =>
      let nas : Int := match r with
        | .value v => v
        | _ => -1
      if nas < 0 then
        .error (.gro_error "file format error (atom count)".toList l1)
      else .ok nas.toNat

/-- The expression `standardise(atom_name(lines[i]))`. -/
def tag (lines : List Str) (i : Nat) : Except Err Str :=
  match line_at lines i with
  | .error e => .error e
  | .ok l =>
    match atom_name l with
    | .error e => .error e
    | .ok nm => .ok (standardise nm)

/-- The test `an == "OW" && standardise(atom_name(lines[cur+1])) == "HW"
&& standardise(atom_name(lines[cur+2])) == "HW"`, evaluated left to right. -/
def is_water (lines : List Str) (cur : Nat) (an : Str) : Except Err Bool :=
  if an = "OW".toList then
    match tag lines (cur + 1) with
    | .error e => .error e
    | .ok t1 =>
      if t1 = "HW".toList then
        match tag lines (cur + 2) with
        | .error e => .error e
        | .ok t2 => .ok (decide (t2 = "HW".toList))
      else .ok false
  else .ok false

/-- The test `an=="MW" || an=="LP" || an=="EP"`. -/
def is_extra (an : Str) : Bool :=
  an == "MW".toList || an == "LP".toList || an == "EP".toList

/-- The inner loop of the counting pass (lines 141-144):
`while ((cur < na + 2) && (an=="MW" || an=="LP" || an=="EP")) { ++cur; ++nwa; an = ...; }`.
Returns the final `cur` and `nwa`. -/
def count_skip (lines : List Str) (na : Nat) :
    Nat → Nat → Str → Nat → Except Err (Nat × Nat)
  | fuel, cur, an, nwa =>
    if cur < na + 2 ∧ is_extra an = true then
      match fuel with
      | 0 => .error .fuel
      | fuel + 1 =>
        match tag lines (cur + 1) with
        | .error e => .error e
        | .ok an1 => count_skip lines na fuel (cur + 1) an1 (nwa + 1)
    else .ok (cur, nwa)

/-- The counting pass (lines 133-148).  Returns the final `cur`, `nw` and `nwa`. -/
def count_loop (lines : List Str) (na : Nat) :
    Nat → Nat → Nat → Nat → Except Err (Nat × Nat × Nat)
  | fuel, cur, nw, nwa =>
    if cur < na then
      match fuel with
      | 0 => .error .fuel
      | fuel + 1 =>
        match tag lines cur with
        | .error e => .error e
        | .ok an =>
          match is_water lines cur an with
          | .error e => .error e
          | .ok true =>
            match count_skip lines na (na + 2) (cur + 2) "MW".toList (nwa + 2) with
            | .error e => .error e
            | .ok (cur1, nwa1) => count_loop lines na fuel cur1 (nw + 1) nwa1
          | .ok false => count_loop lines na fuel (cur + 1) nw nwa
    else .ok (cur, nw, nwa)

/-! ## Writing to the output stream -/

/-- Evaluate an expression that may throw; the output written so far stays. -/
def Run.eval {α β : Type} (out : List Str) (r : Except Err β) (k : β → Run α) : Run α :=
  match r with
  | .error e => ⟨out, .error e⟩
  | .ok b => k b

/-- The statement `os << r << '\n'` where computing `r` may throw. -/
def Run.put {α : Type} (out : List Str) (r : Except Err Str) (k : List Str → Run α) : Run α :=
  match r with
  | .error e => ⟨out, .error e⟩
  | .ok l => k (out ++ [l])

/-- Sequencing: continue with the output and the result of the first part. -/
def Run.andThen {α β : Type} (r : Run α) (k : List Str → α → Run β) : Run β :=
  match r.res with
  | .error e => ⟨r.out, .error e⟩
  | .ok a => k r.out a

/-- The skip loop of the emission pass (lines 209-212):
`while ((cur < na + 2) && (an=="MW" || an=="LP" || an=="EP")) { ++cur; an = ...; }`. -/
def emit_skip (lines : List Str) (na : Nat) : Nat → Nat → Str → Except Err Nat
  | fuel, cur, an =>
    if cur < na + 2 ∧ is_extra an = true then
      match fuel with
      | 0 => .error .fuel
      | fuel + 1 =>
        match tag lines (cur + 1) with
        | .error e => .error e
        | .ok an1 => emit_skip lines na fuel (cur + 1) an1
    else .ok cur

/-- The final loop (lines 223-231): remaining atom lines are renumbered, the
rest of the file is copied.  Returns the final `cur` and `counter`. -/
def copy_rest (lines : List Str) (na : Nat) : Nat → Nat → Nat → List Str → Run (Nat × Nat)
  | fuel, cur, counter, out =>
    if cur < lines.length then
      match fuel with
      | 0 => ⟨out, .error .fuel⟩
      | fuel + 1 =>
        if cur < na + 2 then
          Run.eval out (line_at lines cur) fun l =>
          Run.put out (update_line l counter) fun out =>
          copy_rest lines na fuel (cur + 1) (counter + 1) out
        else
          Run.put out (line_at lines cur) fun out =>
          copy_rest lines na fuel (cur + 1) counter out
    else ⟨out, .ok (cur, counter)⟩

section Generic

variable {F : Type} [Add F] [Sub F] [Mul F] [Div F] [LT F]
  [DecidableRel (fun (a b : F) => a < b)] [OfScientific F]

/-- One `std::stod(l.substr(pos,8))*10.0` of `coordinates`, with its `catch`. -/
def coordinate (tx : TextFns F) (l : Str) (pos : Nat) : Except Err F :=
  match tx.stod (substr l pos 8) with
  | .value v => .ok (v * 10.0)
  | .invalid_argument => .error (.gro_error "file format error (coordinates)".toList l)
  | .out_of_range => .error (.out_of_range "stod".toList)

/-- The function `coordinates`: the position in Angstrom read from columns 21-44. -/
def coordinates (tx : TextFns F) (l : Str) : Except Err (F × F × F) :=
  if l.length < 44 then
    .error (.gro_error "file format error (coordinates)".toList l)
  else
    match coordinate tx l 20 with
    | .error e => .error e
    | .ok x =>
      match coordinate tx l 28 with
      | .error e => .error e
      | .ok y =>
        match coordinate tx l 36 with
        | .error e => .error e
        | .ok z => .ok (x, y, z)

/-- The call `snprintf(buf, 25, "%8.3f%8.3f%8.3f", x, y, z)`: at most 24 characters are stored. -/
def fmt_xyz (tx : TextFns F) (x y z : F) : Str :=
  (tx.fmt_8_3f x ++ tx.fmt_8_3f y ++ tx.fmt_8_3f z).take 24

/-- The function `update_line(l, c, x, y, z)`: new counter and new coordinates. -/
def update_line_xyz (tx : TextFns F) (l : Str) (c : Nat) (x y z : F) : Except Err Str :=
  match update_line l c with
  | .error e => .error e
  | .ok t => .ok (substr t 0 20 ++ fmt_xyz tx x y z)

/-- The function `update_line(l, atnam, c, x, y, z)`: the atom name is replaced as well
(`t.replace(10, 5, buf)`). -/
def update_line_name (tx : TextFns F) (l : Str) (atnam : Str) (c : Nat) (x y z : F) :
    Except Err Str :=
  match update_line_xyz tx l c x y z with
  | .error e => .error e
  | .ok t => .ok (t.take 10 ++ fmt_5s atnam ++ t.drop 15)

/-! ## Water models (`model.h`, `model.cpp`) -/

/-- The `struct model_param`: geometric parameters of a water model. -/
structure model_param (F : Type) where
  name : Str
  rOH : F
  angle : F
  rOM : F
  rOL : F
  lpangle : F

/-- The `class model`: the current parameters and the initialisation flag. -/
structure model (F : Type) where
  parameters : model_param F
  is_initialised : Bool

/-- The constant `model::n_models`. -/
def n_models : Nat := 12

/-- The table `model::models`: the table of known models. -/
def models : List (model_param F) :=
  [ ⟨"tip3p".toList,    0.9572, 104.52, 0.00,   0.0, 0.0⟩,
    ⟨"tip3p-fb".toList, 1.0118, 108.15, 0.00,   0.0, 0.0⟩,
    ⟨"spc/e".toList,    1.0000, 109.47, 0.00,   0.0, 0.0⟩,
    ⟨"spc/fw".toList,   1.0120, 113.24, 0.00,   0.0, 0.0⟩,
    ⟨"spc/eb".toList,   1.0100, 109.47, 0.00,   0.0, 0.0⟩,
    ⟨"opc3".toList,    0.97888, 109.47, 0.00,   0.0, 0.0⟩,
    ⟨"opc".toList,     0.87243, 103.60, 0.1594, 0.0, 0.0⟩,
    ⟨"tip4p".toList,    0.9572, 104.52, 0.15,   0.0, 0.0⟩,
    ⟨"tip4p-ew".toList, 0.9572, 104.52, 0.125,  0.0, 0.0⟩,
    ⟨"tip4p-fb".toList, 0.9572, 104.52, 0.10527, 0.0, 0.0⟩,
    ⟨"tip5p".toList,    0.9572, 104.52, 0.00,   0.7, 109.47⟩,
    ⟨"tip5p-e".toList,  0.9572, 104.52, 0.00,   0.7, 109.47⟩ ]

/-- The constructor `model()`: a model that is not initialised (its parameters are indeterminate
in C++; zero here). -/
def model.new : model F := ⟨⟨[], 0.0, 0.0, 0.0, 0.0, 0.0⟩, false⟩

/-- The function `model::initialise(int id)`: the model after the call; the returned flag is
its `is_initialised`. -/
def model.initialise (m : model F) (id : Int) : model F :=
  if id ≥ (n_models : Int) ∨ id < 0 then
    { m with is_initialised := false }
  else
    match (models (F := F)).get? id.toNat with
    | some p => { parameters := p, is_initialised := true }
    | none => { m with is_initialised := false }

/-- The function `model::check`: throws when the model is not initialised. -/
def model.check (m : model F) : Except Err Unit :=
  if !m.is_initialised then
    .error (.logic_error "access to uninitialised model".toList)
  else .ok ()

/-- The function `model::size`: number of sites of the current model. -/
def model.size (mf : MathFns F) (m : model F) : Except Err Nat :=
  match m.check with
  | .error e => .error e
  | .ok _ =>
    let s := 3
    let s := if mf.fabs m.parameters.rOM > 1.0e-4 then s + 1 else s
    let s := if mf.fabs m.parameters.rOL > 1.0e-4 then s + 2 else s
    .ok s

/-- The function `vec_length`. -/
def vec_length (mf : MathFns F) (x y z : F) : F := mf.sqrt (x*x + y*y + z*z)

/-- The constant `degree`: degree to radian conversion. -/
def degree : F := 0.017453292519943295769139

/-- The nine coordinate arguments of `model::transform` (passed by reference). -/
structure Coords (F : Type) where
  xO : F
  yO : F
  zO : F
  x1 : F
  y1 : F
  z1 : F
  x2 : F
  y2 : F
  z2 : F

/-- The function `model::transform`.  The first component is the value of the nine reference
arguments when the call ends, the second the returned site list or the exception. -/
def model.transform (mf : MathFns F) (m : model F) (c : Coords F) :
    Coords F × Except Err (List F) :=
  match m.check with
  | .error e => (c, .error e)
  | .ok _ =>
    let parameters := m.parameters
    -- O-H vectors and their lengths (v1, v2)
    let vx1 := c.x1 - c.xO
    let vy1 := c.y1 - c.yO
    let vz1 := c.z1 - c.zO
    let lv1 := vec_length mf vx1 vy1 vz1
    let vx2 := c.x2 - c.xO
    let vy2 := c.y2 - c.yO
    let vz2 := c.z2 - c.zO
    let lv2 := vec_length mf vx2 vy2 vz2
    -- if either O-H is too short, bail out
    if lv1 < 1.0e-4 ∨ lv2 < 1.0e-4 then
      (c, .error (.runtime_error "bad input water structure".toList))
    else
    -- normalise O-H vectors
    let vx1 := vx1 / lv1
    let vy1 := vy1 / lv1
    let vz1 := vz1 / lv1
    let vx2 := vx2 / lv2
    let vy2 := vy2 / lv2
    let vz2 := vz2 / lv2
    -- bisector direction
    let ax := vx1 + vx2
    let ay := vy1 + vy2
    let az := vz1 + vz2
    let la := vec_length mf ax ay az
    if la < 1.0e-4 ∨ la > 1.9999 then
      (c, .error (.runtime_error "bad input water structure".toList))
    else
    let ax := ax / la
    let ay := ay / la
    let az := az / la
    -- unit vector b
    let bx := vx1 - vx2
    let b_y := vy1 - vy2
    let bz := vz1 - vz2
    let lb := vec_length mf bx b_y bz
    let bx := bx / lb
    let b_y := b_y / lb
    let bz := bz / lb
    -- new O-H vectors
    let cosa := mf.cos (parameters.angle * degree / 2.0) * parameters.rOH
    let acx := ax * cosa
    let acy := ay * cosa
    let acz := az * cosa
    let sinb := mf.sin (parameters.angle * degree / 2.0) * parameters.rOH
    let bsx := bx * sinb
    let bsy := b_y * sinb
    let bsz := bz * sinb
    let c' : Coords F :=
      { xO := c.xO, yO := c.yO, zO := c.zO,
        x1 := c.xO + acx + bsx, y1 := c.yO + acy + bsy, z1 := c.zO + acz + bsz,
        x2 := c.xO + acx - bsx, y2 := c.yO + acy - bsy, z2 := c.zO + acz - bsz }
    -- build up extra sites
    let sites : List F := []
    let sites :=
      if mf.fabs parameters.rOM > 1.0e-4 then
        let xm := c.xO + ax * parameters.rOM
        let ym := c.yO + ay * parameters.rOM
        let zm := c.zO + az * parameters.rOM
        sites ++ [xm, ym, zm]
      else sites
    let sites :=
      if mf.fabs parameters.rOL > 1.0e-4 then
        let cx := ay * bz - az * b_y
        let cy := az * bx - ax * bz
        let cz := ax * b_y - ay * bx
        let cosl := mf.cos (parameters.lpangle * degree / 2.0) * parameters.rOL
        let sinl := mf.sin (parameters.lpangle * degree / 2.0) * parameters.rOL
        let xl1 := c.xO + cx * sinl - ax * cosl
        let xl2 := c.xO - cx * sinl - ax * cosl
        let yl1 := c.yO + cy * sinl - ay * cosl
        let yl2 := c.yO - cy * sinl - ay * cosl
        let zl1 := c.zO + cz * sinl - az * cosl
        let zl2 := c.zO - cz * sinl - az * cosl
        sites ++ [xl1, yl1, zl1, xl2, yl2, zl2]
      else sites
    (c', .ok sites)

/-! ## The rewriter (`gro.cpp` lines 87-239) -/

/-- Element access `extras[i]` for the `std::vector<double>` returned by `transform`. -/
def extras_at (extras : List F) (i : Nat) : Except Err F :=
  match extras.get? i with
  | some v => .ok v
  | none => .error (.bad_index i)

/-- Lines 189-193: the M site of 4-site models. -/
def emit_M (tx : TextFns F) (l2 : Str) (model_size counter : Nat) (extras : List F)
    (out : List Str) : Run Unit :=
  if model_size = 4 then
    Run.eval out (extras_at extras 0) fun e0 =>
    Run.eval out (extras_at extras 1) fun e1 =>
    Run.eval out (extras_at extras 2) fun e2 =>
    Run.put out (update_line_name tx l2 "MW".toList (counter + 3)
      (e0 / 10.0) (e1 / 10.0) (e2 / 10.0)) fun out =>
    ⟨out, .ok ()⟩
  else ⟨out, .ok ()⟩

/-- Lines 196-204: the LP sites of 5-site models. -/
def emit_LP (tx : TextFns F) (l2 : Str) (model_size counter : Nat) (extras : List F)
    (out : List Str) : Run Unit :=
  if model_size = 5 then
    Run.eval out (extras_at extras 0) fun e0 =>
    Run.eval out (extras_at extras 1) fun e1 =>
    Run.eval out (extras_at extras 2) fun e2 =>
    Run.put out (update_line_name tx l2 "LP1".toList (counter + 3)
      (e0 / 10.0) (e1 / 10.0) (e2 / 10.0)) fun out =>
    Run.eval out (extras_at extras 3) fun e3 =>
    Run.eval out (extras_at extras 4) fun e4 =>
    Run.eval out (extras_at extras 5) fun e5 =>
    Run.put out (update_line_name tx l2 "LP2".toList (counter + 4)
      (e3 / 10.0) (e4 / 10.0) (e5 / 10.0)) fun out =>
    ⟨out, .ok ()⟩
  else ⟨out, .ok ()⟩

/-- Lines 169-213: the body of the emission loop for a water molecule at `cur`.
Returns the new `cur` and `counter`. -/
def emit_water (mf : MathFns F) (tx : TextFns F) (lines : List Str) (wm : model F)
    (model_size na cur counter : Nat) (out : List Str) : Run (Nat × Nat) :=
  Run.eval out (line_at lines cur) fun l0 =>
  Run.eval out (coordinates tx l0) fun p0 =>
  Run.eval out (line_at lines (cur + 1)) fun l1 =>
  Run.eval out (coordinates tx l1) fun p1 =>
  Run.eval out (line_at lines (cur + 2)) fun l2 =>
  Run.eval out (coordinates tx l2) fun p2 =>
  let t := wm.transform mf
    ⟨p0.1, p0.2.1, p0.2.2, p1.1, p1.2.1, p1.2.2, p2.1, p2.2.1, p2.2.2⟩
  Run.eval out t.2 fun extras =>
  let c := t.1
  let x0 := c.xO / 10.0
  let y0 := c.yO / 10.0
  let z0 := c.zO / 10.0
  let x1 := c.x1 / 10.0
  let y1 := c.y1 / 10.0
  let z1 := c.z1 / 10.0
  let x2 := c.x2 / 10.0
  let y2 := c.y2 / 10.0
  let z2 := c.z2 / 10.0
  Run.put out (update_line_xyz tx l0 counter x0 y0 z0) fun out =>
  Run.put out (update_line_xyz tx l1 (counter + 1) x1 y1 z1) fun out =>
  Run.put out (update_line_xyz tx l2 (counter + 2) x2 y2 z2) fun out =>
  Run.andThen (emit_M tx l2 model_size counter extras out) fun out _ =>
  Run.andThen (emit_LP tx l2 model_size counter extras out) fun out _ =>
  Run.eval out (emit_skip lines na (na + 2) (cur + 2) "MW".toList) fun cur1 =>
  ⟨out, .ok (cur1, counter + model_size)⟩

/-- The emission loop (lines 164-220).  Returns the final `cur` and `counter`. -/
def emit_loop (mf : MathFns F) (tx : TextFns F) (lines : List Str) (wm : model F)
    (model_size na : Nat) : Nat → Nat → Nat → List Str → Run (Nat × Nat)
  | fuel, cur, counter, out =>
    if cur < na then
      match fuel with
      | 0 => ⟨out, .error .fuel⟩
      | fuel + 1 =>
        Run.eval out (tag lines cur) fun an =>
        Run.eval out (is_water lines cur an) fun w =>
        if w then
          Run.andThen (emit_water mf tx lines wm model_size na cur counter out)
            fun out s => emit_loop mf tx lines wm model_size na fuel s.1 s.2 out
        else
          Run.eval out (line_at lines cur) fun l =>
          Run.put out (update_line l counter) fun out =>
          emit_loop mf tx lines wm model_size na fuel (cur + 1) (counter + 1) out
    else ⟨out, .ok (cur, counter)⟩

/-- The function `process_gro`: the lines written to `os`, and the number of water molecules
changed or the exception thrown. -/
def process_gro (mf : MathFns F) (tx : TextFns F) (lines : List Str) (wm : model F) :
    Run Nat :=
  Run.eval [] (wm.size mf) fun model_size =>
  let n := lines.length
  if n < 5 then
    ⟨[], .error (.gro_error "file too short to contain a water molecule".toList (to_string n))⟩
  else
  Run.eval [] (read_na lines) fun na =>
  if n < na + 2 then
    Run.eval [] (line_at lines 1) fun l1 =>
    ⟨[], .error (.gro_error
      ("file too short for ".toList ++ to_string na ++ " atoms".toList) l1)⟩
  else
  -- count water molecules to figure out how many atoms we will have
  Run.eval [] (count_loop lines na n 2 0 0) fun cnt =>
  let nw := cnt.2.1
  let nwa := cnt.2.2
  -- now we can write the modified file
  Run.put [] (line_at lines 0) fun out =>
  Run.put out (.ok (to_string (na - nwa + nw * model_size))) fun out =>
  Run.andThen (emit_loop mf tx lines wm model_size na n 2 1 out) fun out s =>
  Run.andThen (copy_rest lines na n s.1 s.2 out) fun out _ =>
  ⟨out, .ok nw⟩

/-! ## Named intermediate values of `model::transform` -/

/-- Length of the raw O-H1 vector (`lv1` in `model::transform`). -/
def len_OH1 (mf : MathFns F) (c : Coords F) : F :=
  vec_length mf (c.x1 - c.xO) (c.y1 - c.yO) (c.z1 - c.zO)

/-- Length of the raw O-H2 vector (`lv2`). -/
def len_OH2 (mf : MathFns F) (c : Coords F) : F :=
  vec_length mf (c.x2 - c.xO) (c.y2 - c.yO) (c.z2 - c.zO)

/-- The normalised O-H1 vector (`v1` after line 82). -/
def unit_OH1 (mf : MathFns F) (c : Coords F) : F × F × F :=
  ((c.x1 - c.xO) / len_OH1 mf c, (c.y1 - c.yO) / len_OH1 mf c, (c.z1 - c.zO) / len_OH1 mf c)

/-- The normalised O-H2 vector (`v2` after line 83). -/
def unit_OH2 (mf : MathFns F) (c : Coords F) : F × F × F :=
  ((c.x2 - c.xO) / len_OH2 mf c, (c.y2 - c.yO) / len_OH2 mf c, (c.z2 - c.zO) / len_OH2 mf c)

/-- Length of `v1 + v2` (`la`). -/
def len_a (mf : MathFns F) (c : Coords F) : F :=
  vec_length mf ((unit_OH1 mf c).1 + (unit_OH2 mf c).1)
    ((unit_OH1 mf c).2.1 + (unit_OH2 mf c).2.1) ((unit_OH1 mf c).2.2 + (unit_OH2 mf c).2.2)

/-- Length of `v1 - v2` (`lb`). -/
def len_b (mf : MathFns F) (c : Coords F) : F :=
  vec_length mf ((unit_OH1 mf c).1 - (unit_OH2 mf c).1)
    ((unit_OH1 mf c).2.1 - (unit_OH2 mf c).2.1) ((unit_OH1 mf c).2.2 - (unit_OH2 mf c).2.2)

/-- The vector `a` of `model::transform` after line 96. -/
def vec_a (mf : MathFns F) (c : Coords F) : F × F × F :=
  (((unit_OH1 mf c).1 + (unit_OH2 mf c).1) / len_a mf c,
   ((unit_OH1 mf c).2.1 + (unit_OH2 mf c).2.1) / len_a mf c,
   ((unit_OH1 mf c).2.2 + (unit_OH2 mf c).2.2) / len_a mf c)

/-- The vector `b` of `model::transform` after line 104. -/
def vec_b (mf : MathFns F) (c : Coords F) : F × F × F :=
  (((unit_OH1 mf c).1 - (unit_OH2 mf c).1) / len_b mf c,
   ((unit_OH1 mf c).2.1 - (unit_OH2 mf c).2.1) / len_b mf c,
   ((unit_OH1 mf c).2.2 - (unit_OH2 mf c).2.2) / len_b mf c)

/-- The test of line 77. -/
def short_bond (mf : MathFns F) (c : Coords F) : Prop :=
  len_OH1 mf c < 1.0e-4 ∨ len_OH2 mf c < 1.0e-4

/-- The test of line 92. -/
def collinear (mf : MathFns F) (c : Coords F) : Prop :=
  len_a mf c < 1.0e-4 ∨ len_a mf c > 1.9999

/-- The M site of lines 128-135 (empty without an M site). -/
def sites_M (mf : MathFns F) (p : model_param F) (c : Coords F) : List F :=
  if mf.fabs p.rOM > 1.0e-4 then
    [c.xO + (vec_a mf c).1 * p.rOM, c.yO + (vec_a mf c).2.1 * p.rOM,
     c.zO + (vec_a mf c).2.2 * p.rOM]
  else []

/-- The vector `c` of lines 140-142: the cross product of `a` and `b`. -/
def vec_c (mf : MathFns F) (c : Coords F) : F × F × F :=
  ((vec_a mf c).2.1 * (vec_b mf c).2.2 - (vec_a mf c).2.2 * (vec_b mf c).2.1,
   (vec_a mf c).2.2 * (vec_b mf c).1 - (vec_a mf c).1 * (vec_b mf c).2.2,
   (vec_a mf c).1 * (vec_b mf c).2.1 - (vec_a mf c).2.1 * (vec_b mf c).1)

/-- The lone-pair sites of lines 138-164 (empty without lone pairs). -/
def sites_LP (mf : MathFns F) (p : model_param F) (c : Coords F) : List F :=
  if mf.fabs p.rOL > 1.0e-4 then
    [c.xO + (vec_c mf c).1 * (mf.sin (p.lpangle * degree / 2.0) * p.rOL)
        - (vec_a mf c).1 * (mf.cos (p.lpangle * degree / 2.0) * p.rOL),
     c.yO + (vec_c mf c).2.1 * (mf.sin (p.lpangle * degree / 2.0) * p.rOL)
        - (vec_a mf c).2.1 * (mf.cos (p.lpangle * degree / 2.0) * p.rOL),
     c.zO + (vec_c mf c).2.2 * (mf.sin (p.lpangle * degree / 2.0) * p.rOL)
        - (vec_a mf c).2.2 * (mf.cos (p.lpangle * degree / 2.0) * p.rOL),
     c.xO - (vec_c mf c).1 * (mf.sin (p.lpangle * degree / 2.0) * p.rOL)
        - (vec_a mf c).1 * (mf.cos (p.lpangle * degree / 2.0) * p.rOL),
     c.yO - (vec_c mf c).2.1 * (mf.sin (p.lpangle * degree / 2.0) * p.rOL)
        - (vec_a mf c).2.1 * (mf.cos (p.lpangle * degree / 2.0) * p.rOL),
     c.zO - (vec_c mf c).2.2 * (mf.sin (p.lpangle * degree / 2.0) * p.rOL)
        - (vec_a mf c).2.2 * (mf.cos (p.lpangle * degree / 2.0) * p.rOL)]
  else []

end Generic

/-! ## Geometry over the real numbers -/

/-- The `<cmath>` functions read over the real numbers. -/
noncomputable def realMath : MathFns ℝ :=
  { sqrt := Real.sqrt, cos := Real.cos, sin := Real.sin, fabs := fun x => |x| }

/-- A point of Euclidean 3-space from its Cartesian coordinates. -/
noncomputable def point (x y z : ℝ) : EuclideanSpace ℝ (Fin 3) :=
  (WithLp.equiv 2 (Fin 3 → ℝ)).symm ![x, y, z]

/-- Position of the oxygen. -/
noncomputable def Coords.O (c : Coords ℝ) : EuclideanSpace ℝ (Fin 3) := point c.xO c.yO c.zO

/-- Position of the first hydrogen. -/
noncomputable def Coords.H1 (c : Coords ℝ) : EuclideanSpace ℝ (Fin 3) := point c.x1 c.y1 c.z1

/-- Position of the second hydrogen. -/
noncomputable def Coords.H2 (c : Coords ℝ) : EuclideanSpace ℝ (Fin 3) := point c.x2 c.y2 c.z2

/-! ## Text conversions over the real numbers, and a sample input -/

/-- Decimal reading of a number as `std::stod` does for plain decimal notation:
leading blanks, an optional sign, digits with an optional fractional part.
Returns the mantissa and the number of decimals; `none` when there is no digit. -/
def stod_dec (s : Str) : Option (Int × Nat) :=
  let s := s.dropWhile isspace
  let neg := s.head? == some '-'
  let s := if s.head? == some '-' || s.head? == some '+' then s.drop 1 else s
  let ip := s.takeWhile Char.isDigit
  let r := s.dropWhile Char.isDigit
  let fp := if r.head? == some '.' then (r.drop 1).takeWhile Char.isDigit else []
  if ip.isEmpty && fp.isEmpty then none
  else
    let mant : Int := digits_value (ip ++ fp)
    some (if neg then - mant else mant, fp.length)

/-- The characters of `%8.3f` for the number `r / 1000`. -/
def fmt_milli (r : Int) : Str :=
  pad_left 8 ((if r < 0 then ['-'] else []) ++ Nat.toDigits 10 (r.natAbs / 1000) ++ ['.']
    ++ List.replicate (3 - (Nat.toDigits 10 (r.natAbs % 1000)).length) '0'
    ++ Nat.toDigits 10 (r.natAbs % 1000))

/-- The text conversions read over the real numbers: exact decimal reading, and
rounding to three decimals for printing. -/
noncomputable def realText : TextFns ℝ :=
  { stod := fun s =>
      match stod_dec s with
      | some (m, d) => .value ((m : ℝ) / 10 ^ d)
      | none => .invalid_argument
    fmt_8_3f := fun x => fmt_milli (round (x * 1000)) }

/-- The model `tip4p` of the registry (index 7), over the reals. -/
noncomputable def demo_model : model ℝ := model.new.initialise 7

/-- A water molecule with O at the origin and the hydrogens on the x and y axes. -/
noncomputable def demo_coords : Coords ℝ :=
  { xO := 0, yO := 0, zO := 0, x1 := 1, y1 := 0, z1 := 0, x2 := 0, y2 := 1, z2 := 0 }

/-- A sample `.gro` file: an ion, a 4-site water molecule, another ion, the box. -/
def demo_lines : List Str :=
  [ "sample".toList,
    "6".toList,
    "    1NA      NA    1   0.500   0.500   0.500".toList,
    "    2SOL     OW    2   0.000   0.000   0.000".toList,
    "    2SOL    HW1    3   0.100   0.000   0.000".toList,
    "    2SOL    HW2    4   0.000   0.100   0.000".toList,
    "    2SOL     MW    5   0.010   0.010   0.000".toList,
    "    3CL      CL    6   0.700   0.700   0.700".toList,
    "   1.00000   1.00000   1.00000".toList ]

/-- The 5-line file of one water molecule without a box line. -/
def truncated_lines : List Str :=
  [ "water".toList,
    "3".toList,
    "    1SOL     OW    1   0.000   0.000   0.000".toList,
    "    1SOL    HW1    2   0.100   0.000   0.000".toList,
    "    1SOL    HW2    3   0.000   0.100   0.000".toList ]

/-! ## The classifier as the specification words it

A water run is three lines tagged OW, HW, HW followed by the lines tagged MW, LP or
EP that come immediately after them inside the atom range; those are discarded. -/

/-- The standardised tag of a line is one of MW, LP, EP. -/
def is_extra_line (l : Str) : Bool :=
  match atom_name l with
  | .ok nm => is_extra (standardise nm)
  | .error _ => false

/-- Number of consecutive extra-site lines from index `j` on, inside the atom
range (indices below `na + 2`). -/
def extra_sites_after (lines : List Str) (na j : Nat) : Nat :=
  (((lines.take (na + 2)).drop j).takeWhile is_extra_line).length

/-- The water runs found from cursor `i` on: start index and number of discarded
extra sites of each.  `fuel` bounds the number of cursor positions visited. -/
def water_runs (lines : List Str) (na : Nat) : Nat → Nat → List (Nat × Nat)
  | 0, _ => []
  | fuel + 1, i =>
    if i < na then
      if tag lines i = .ok "OW".toList ∧ tag lines (i + 1) = .ok "HW".toList
          ∧ tag lines (i + 2) = .ok "HW".toList then
        (i, extra_sites_after lines na (i + 3))
          :: water_runs lines na fuel (i + 3 + extra_sites_after lines na (i + 3))
      else water_runs lines na fuel (i + 1)
    else []

/-- The number `W` of the specification: the number of water molecules detected in the file. -/
def water_count (lines : List Str) (na : Nat) : Nat :=
  (water_runs lines na lines.length 2).length

/-- The number `k` of the specification: the number of original extra-site atoms discarded. -/
def discarded_count (lines : List Str) (na : Nat) : Nat :=
  ((water_runs lines na lines.length 2).map Prod.snd).sum

/-! ## More sample inputs -/

/-- A file whose second line is not a number. -/
def bad_count_lines : List Str :=
  [ "sample".toList, "abc".toList, "x".toList, "y".toList, "z".toList ]

/-- A file that declares 7 atoms and has 6 lines. -/
def too_few_lines : List Str :=
  [ "sample".toList, "7".toList,
    "    1NA      NA    1   0.500   0.500   0.500".toList,
    "    2NA      NA    2   0.600   0.600   0.600".toList,
    "    3NA      NA    3   0.700   0.700   0.700".toList,
    "   1.00000   1.00000   1.00000".toList ]

/-- An ordinary atom whose line stops after the index field (20 characters). -/
def short_atom_lines : List Str :=
  [ "sample".toList, "3".toList,
    "    1NA      NA    1".toList,
    "    2NA      NA    2   0.600   0.600   0.600".toList,
    "    3NA      NA    3   0.700   0.700   0.700".toList,
    "   1.00000   1.00000   1.00000".toList ]

/-- A water molecule whose second hydrogen line stops after the index field. -/
def short_water_lines : List Str :=
  [ "sample".toList, "4".toList,
    "    1NA      NA    1   0.500   0.500   0.500".toList,
    "    2SOL     OW    2   0.000   0.000   0.000".toList,
    "    2SOL    HW1    3   0.100   0.000   0.000".toList,
    "    2SOL    HW2    4".toList,
    "   1.00000   1.00000   1.00000".toList ]

/-- An oxygen tagged OW that is not followed by two HW atoms. -/
def lone_OW_lines : List Str :=
  [ "sample".toList, "3".toList,
    "    1SOL     OW    1   0.100   0.200   0.300  0.1000  0.2000  0.3000".toList,
    "    2NA      NA    2   0.600   0.600   0.600".toList,
    "    3NA      NA    3   0.700   0.700   0.700".toList,
    "   1.00000   1.00000   1.00000".toList ]

/-- A lone OW whose line stops after the index field. -/
def short_OW_lines : List Str :=
  [ "sample".toList, "3".toList,
    "    1SOL     OW    1".toList,
    "    2NA      NA    2   0.600   0.600   0.600".toList,
    "    3NA      NA    3   0.700   0.700   0.700".toList,
    "   1.00000   1.00000   1.00000".toList ]

/-- The exceptions thrown by the header validation of `process_gro` (lines 95-122). -/
def header_error : Err → Prop
  | .gro_error msg _ =>
      msg = "file too short to contain a water molecule".toList ∨
      msg = "file format error (atom count)".toList ∨
      ∃ na : Nat, msg = "file too short for ".toList ++ to_string na ++ " atoms".toList
  | .out_of_range fn => fn = "stol".toList
  | _ => False

/-! ## The molecule as points and vectors of Euclidean space -/

/-- The unit vector from O to H1 of the input molecule. -/
noncomputable def Coords.u1 (c : Coords ℝ) : EuclideanSpace ℝ (Fin 3) :=
  ‖c.H1 - c.O‖⁻¹ • (c.H1 - c.O)

/-- The unit vector from O to H2 of the input molecule. -/
noncomputable def Coords.u2 (c : Coords ℝ) : EuclideanSpace ℝ (Fin 3) :=
  ‖c.H2 - c.O‖⁻¹ • (c.H2 - c.O)

/-- The bisector direction: the sum of the unit vectors along the two O-H bonds. -/
noncomputable def Coords.bisector (c : Coords ℝ) : EuclideanSpace ℝ (Fin 3) := c.u1 + c.u2

/-- The unit bisector of the H-O-H angle (the vector `a`). -/
noncomputable def Coords.unit_a (c : Coords ℝ) : EuclideanSpace ℝ (Fin 3) :=
  ‖c.bisector‖⁻¹ • c.bisector

/-- The unit vector in the molecular plane perpendicular to the bisector (the vector `b`). -/
noncomputable def Coords.unit_b (c : Coords ℝ) : EuclideanSpace ℝ (Fin 3) :=
  ‖c.u1 - c.u2‖⁻¹ • (c.u1 - c.u2)

/-- The cross product of two vectors of 3-space. -/
noncomputable def cross (a b : EuclideanSpace ℝ (Fin 3)) : EuclideanSpace ℝ (Fin 3) :=
  point (a 1 * b 2 - a 2 * b 1) (a 2 * b 0 - a 0 * b 2) (a 0 * b 1 - a 1 * b 0)

/-- The normal of the molecular plane (the vector `c`, the cross product of `a` and `b`). -/
noncomputable def Coords.unit_c (c : Coords ℝ) : EuclideanSpace ℝ (Fin 3) :=
  cross c.unit_a c.unit_b

/-- The model `tip5p` of the registry (index 10), over the reals. -/
noncomputable def tip5p_model : model ℝ := model.new.initialise 10

/-- The molecule of the scenario of the specification: O at the origin, H1 at
(0.957, 0, 0), H2 at (-0.240, 0.927, 0), in Angstrom. -/
noncomputable def scenario_coords : Coords ℝ :=
  { xO := 0, yO := 0, zO := 0, x1 := 0.957, y1 := 0, z1 := 0,
    x2 := -0.240, y2 := 0.927, z2 := 0 }

/-! ## Describing the emitted records -/

/-- Record `r` carries the index `c` in columns 16-20, as `%5ld` prints it in five
characters. -/
def has_index (r : Str) (c : Nat) : Prop := (r.drop 15).take 5 = fmt_5ld c

/-- The records of the list carry the consecutive indices `c`, `c + 1`, ... -/
def numbered_from : Nat → List Str → Prop
  | _, [] => True
  | c, r :: rs => has_index r c ∧ numbered_from (c + 1) rs

/-- The records of the list are `update_line` of the consecutive input lines `j`, `j + 1`,
... with the consecutive counters `c`, `c + 1`, ... -/
def atom_records (lines : List Str) : Nat → Nat → List Str → Prop
  | _, _, [] => True
  | j, c, r :: rs =>
    (∃ l, line_at lines j = .ok l ∧ update_line l c = .ok r) ∧ atom_records lines (j + 1) (c + 1) rs

/-- The three-tag condition that starts a water run at line `i`. -/
def starts_water (lines : List Str) (i : Nat) : Prop :=
  tag lines i = .ok "OW".toList ∧ tag lines (i + 1) = .ok "HW".toList
    ∧ tag lines (i + 2) = .ok "HW".toList

instance (lines : List Str) (i : Nat) : Decidable (starts_water lines i) := by
  unfold starts_water; infer_instance

/-- Provenance of the records written while the cursor scans from `i`: `some j` for a
record made from input line `j`, `none` for a freshly generated extra site (`s - 3`
of them after the three atoms of each water run). -/
def scan_layout (lines : List Str) (na s : Nat) : Nat → Nat → List (Option Nat)
  | 0, _ => []
  | fuel + 1, i =>
    if i < na then
      if starts_water lines i then
        [some i, some (i + 1), some (i + 2)] ++ List.replicate (s - 3) none
          ++ scan_layout lines na s fuel (i + 3 + extra_sites_after lines na (i + 3))
      else some i :: scan_layout lines na s fuel (i + 1)
    else []

/-- The cursor at which the scan started at `i` ends. -/
def scan_end (lines : List Str) (na : Nat) : Nat → Nat → Nat
  | 0, i => i
  | fuel + 1, i =>
    if i < na then
      if starts_water lines i then
        scan_end lines na fuel (i + 3 + extra_sites_after lines na (i + 3))
      else scan_end lines na fuel (i + 1)
    else i

/-- Provenance of all atom records of the output: those of the scan, then one record
for each atom line left between the end of the scan and index `na + 1`. -/
def record_layout (lines : List Str) (na s : Nat) : List (Option Nat) :=
  scan_layout lines na s lines.length 2
    ++ (List.range' (scan_end lines na lines.length 2)
          (na + 2 - scan_end lines na lines.length 2)).map some

/-- Line `j` is one of the extra-site lines discarded after one of the runs. -/
def is_discarded (runs : List (Nat × Nat)) (j : Nat) : Bool :=
  runs.any fun r => decide (r.1 + 3 ≤ j) && decide (j < r.1 + 3 + r.2)

/-- The input atom lines `2 .. na + 1` that are not discarded, in order. -/
def kept_indices (lines : List Str) (na : Nat) : List Nat :=
  (List.range' 2 na).filter fun j => !is_discarded (water_runs lines na lines.length 2) j

/-- A water molecule followed, inside the atom range, by a line too short to hold an
atom name. -/
def junk_after_water_lines : List Str :=
  [ "sample".toList, "5".toList,
    "    1SOL     OW    1   0.000   0.000   0.000".toList,
    "    1SOL    HW1    2   0.100   0.000   0.000".toList,
    "    1SOL    HW2    3   0.000   0.100   0.000".toList,
    "junk".toList,
    "    2NA      NA    5   0.700   0.700   0.700".toList,
    "   1.00000   1.00000   1.00000".toList ]

/-- Record `r` is made from the input line the provenance names: it keeps columns 1-15
of that line.  A fresh record (`none`) is not constrained. -/
def record_from (lines : List Str) (r : Str) (p : Option Nat) : Prop :=
  ∀ j, p = some j → ∃ l, line_at lines j = .ok l ∧ r.take 15 = l.take 15

/-- A file of one water molecule and a box line of 30 characters. -/
def boxed_water_lines : List Str :=
  [ "sample".toList, "3".toList,
    "    2SOL     OW    2   0.000   0.000   0.000".toList,
    "    2SOL    HW1    3   0.100   0.000   0.000".toList,
    "    2SOL    HW2    4   0.000   0.100   0.000".toList,
    "   1.00000   1.00000   1.00000".toList ]

/-- The same file with the box vectors written in free format (11 characters). -/
def free_box_water_lines : List Str :=
  [ "sample".toList, "3".toList,
    "    2SOL     OW    2   0.000   0.000   0.000".toList,
    "    2SOL    HW1    3   0.100   0.000   0.000".toList,
    "    2SOL    HW2    4   0.000   0.100   0.000".toList,
    "1.0 1.0 1.0".toList ]

/-! ## Describing the lines of the output for a second pass -/

/-- Provenance of the records written from cursor `i` on: those of the scan, then one
record for each atom line left when the scan ends.  `record_layout` is the layout from
cursor 2. -/
def layout_from (lines : List Str) (na s fuel i : Nat) : List (Option Nat) :=
  scan_layout lines na s fuel i
    ++ (List.range' (scan_end lines na fuel i) (na + 2 - scan_end lines na fuel i)).map some

/-- The tag of record `r` (read as `standardise(atom_name(r))`) is the tag of the input
line the record is made from; a fresh record is tagged MW, LP or EP. -/
def record_tagged (lines : List Str) (r : Str) (p : Option Nat) : Prop :=
  match p with
  | some j => ∃ t, tag lines j = .ok t ∧ tag [r] 0 = .ok t
  | none => ∃ t, tag [r] 0 = .ok t ∧ is_extra t = true

/-- The tags of the lines of `out` from index `p` on are those the layout describes. -/
def tags_follow (lines out : List Str) (p : Nat) (lay : List (Option Nat)) : Prop :=
  ∀ q, (∀ j, lay[q]? = some (some j) → ∃ t, tag lines j = .ok t ∧ tag out (p + q) = .ok t) ∧
    (lay[q]? = some none → ∃ t, tag out (p + q) = .ok t ∧ is_extra t = true)

/-- A file whose second line is a negative number too large for a `long`. -/
def huge_negative_count_lines : List Str :=
  [ "sample".toList, "-99999999999999999999".toList,
    "    1NA      NA    1   0.500   0.500   0.500".toList,
    "    2NA      NA    2   0.600   0.600   0.600".toList,
    "   1.00000   1.00000   1.00000".toList ]

/-- A file of 6 lines that declares more atoms than a `long` can hold. -/
def huge_count_lines : List Str :=
  [ "sample".toList, "99999999999999999999".toList,
    "    1NA      NA    1   0.500   0.500   0.500".toList,
    "    2NA      NA    2   0.600   0.600   0.600".toList,
    "    3NA      NA    3   0.700   0.700   0.700".toList,
    "   1.00000   1.00000   1.00000".toList ]

/-- The sample file with its discarded MW line cut after the index field (20 characters). -/
def short_MW_lines : List Str :=
  [ "sample".toList,
    "6".toList,
    "    1NA      NA    1   0.500   0.500   0.500".toList,
    "    2SOL     OW    2   0.000   0.000   0.000".toList,
    "    2SOL    HW1    3   0.100   0.000   0.000".toList,
    "    2SOL    HW2    4   0.000   0.100   0.000".toList,
    "    2SOL     MW    5".toList,
    "    3CL      CL    6   0.700   0.700   0.700".toList,
    "   1.00000   1.00000   1.00000".toList ]

/-- A lone OW line of 44 characters followed by a line too short to hold an atom name. -/
def OW_then_junk_lines : List Str :=
  [ "sample".toList, "3".toList,
    "    1SOL     OW    1   0.100   0.200   0.300".toList,
    "junk".toList,
    "    3NA      NA    3   0.700   0.700   0.700".toList,
    "   1.00000   1.00000   1.00000".toList ]

/-- A file whose first atom line is too short to hold an atom name. -/
def junk_atom_lines : List Str :=
  [ "sample".toList, "3".toList,
    "junk".toList,
    "    2NA      NA    2   0.600   0.600   0.600".toList,
    "    3NA      NA    3   0.700   0.700   0.700".toList,
    "   1.00000   1.00000   1.00000".toList ]

/-! ## Arithmetic with overflow

The type `double` read without rounding but with its range: an operation whose exact
result lies beyond `DBL_MAX` gives an infinity, and infinities and NaN propagate as in
IEEE 754 arithmetic. -/

/-- A `double` without rounding: a finite value, one of the two infinities, or NaN.
The two signed zeros are not distinguished. -/
inductive Dbl where
  | fin (x : ℝ)
  | pinf
  | ninf
  | nan

/-- The constant `DBL_MAX`, the largest finite `double`. -/
noncomputable def DBL_MAX : ℝ := 1.7976931348623157e308

/-- The `double` for the exact result `x` of an operation: a result beyond `DBL_MAX`
overflows to an infinity. -/
noncomputable def Dbl.ofReal (x : ℝ) : Dbl :=
  if DBL_MAX < x then .pinf else if x < -DBL_MAX then .ninf else .fin x

/-- Unary minus. -/
noncomputable def Dbl.neg : Dbl → Dbl
  | .fin x => .fin (-x)
  | .pinf => .ninf
  | .ninf => .pinf
  | .nan => .nan

/-- Addition: the sum of two opposite infinities is NaN. -/
noncomputable def Dbl.add : Dbl → Dbl → Dbl
  | .fin a, .fin b => Dbl.ofReal (a + b)
  | .nan, _ => .nan
  | _, .nan => .nan
  | .pinf, .ninf => .nan
  | .ninf, .pinf => .nan
  | .pinf, _ => .pinf
  | _, .pinf => .pinf
  | .ninf, _ => .ninf
  | _, .ninf => .ninf

/-- The sign rule for a product or quotient that is infinite: `pos` tells whether the
two signs agree. -/
def Dbl.inf_of (pos : Prop) [Decidable pos] : Dbl := if pos then .pinf else .ninf

/-- Multiplication: zero times an infinity is NaN. -/
noncomputable def Dbl.mul : Dbl → Dbl → Dbl
  | .fin a, .fin b => Dbl.ofReal (a * b)
  | .nan, _ => .nan
  | _, .nan => .nan
  | .fin a, .pinf => if a = 0 then .nan else Dbl.inf_of (0 < a)
  | .fin a, .ninf => if a = 0 then .nan else Dbl.inf_of (a < 0)
  | .pinf, .fin b => if b = 0 then .nan else Dbl.inf_of (0 < b)
  | .ninf, .fin b => if b = 0 then .nan else Dbl.inf_of (b < 0)
  | .pinf, .pinf => .pinf
  | .pinf, .ninf => .ninf
  | .ninf, .pinf => .ninf
  | .ninf, .ninf => .pinf

/-- Division: a finite number divided by an infinity is zero, a nonzero number divided
by zero is an infinity, and `0/0` and the quotient of two infinities are NaN. -/
noncomputable def Dbl.div : Dbl → Dbl → Dbl
  | .fin a, .fin b =>
    if b = 0 then (if a = 0 then .nan else Dbl.inf_of (0 < a)) else Dbl.ofReal (a / b)
  | .nan, _ => .nan
  | _, .nan => .nan
  | .fin _, .pinf => .fin 0
  | .fin _, .ninf => .fin 0
  | .pinf, .fin b => Dbl.inf_of (0 ≤ b)
  | .ninf, .fin b => Dbl.inf_of (b < 0)
  | _, _ => .nan

/-- The comparison `<`: false whenever an operand is NaN. -/
def Dbl.lt : Dbl → Dbl → Prop
  | .fin a, .fin b => a < b
  | .fin _, .pinf => True
  | .ninf, .fin _ => True
  | .ninf, .pinf => True
  | _, _ => False

noncomputable instance : Add Dbl := ⟨Dbl.add⟩

noncomputable instance : Sub Dbl := ⟨fun a b => Dbl.add a (Dbl.neg b)⟩

noncomputable instance : Mul Dbl := ⟨Dbl.mul⟩

noncomputable instance : Div Dbl := ⟨Dbl.div⟩

instance : LT Dbl := ⟨Dbl.lt⟩

noncomputable instance : DecidableRel (fun (a b : Dbl) => a < b) :=
  fun _ _ => Classical.propDecidable _

/-- A decimal literal of the program text, read exactly. -/
noncomputable instance : OfScientific Dbl :=
  ⟨fun m s e => Dbl.ofReal (OfScientific.ofScientific m s e)⟩

/-- The `<cmath>` functions on this arithmetic: `sqrt` of a negative number and the
cosine and sine of an infinity are NaN. -/
noncomputable def dblMath : MathFns Dbl :=
  { sqrt := fun x =>
      match x with
      | .fin a => if a < 0 then .nan else .fin (Real.sqrt a)
      | .pinf => .pinf
      | _ => .nan
    cos := fun x =>
      match x with
      | .fin a => .fin (Real.cos a)
      | _ => .nan
    sin := fun x =>
      match x with
      | .fin a => .fin (Real.sin a)
      | _ => .nan
    fabs := fun x =>
      match x with
      | .fin a => .fin |a|
      | .pinf => .pinf
      | .ninf => .pinf
      | .nan => .nan }

/-- The real value of a finite number (zero for an infinity or NaN). -/
noncomputable def Dbl.val : Dbl → ℝ
  | .fin x => x
  | _ => 0

/-- The nine coordinates as real numbers. -/
noncomputable def Coords.val (c : Coords Dbl) : Coords ℝ :=
  ⟨c.xO.val, c.yO.val, c.zO.val, c.x1.val, c.y1.val, c.z1.val, c.x2.val, c.y2.val, c.z2.val⟩

/-- A molecule whose first hydrogen is very far away: O at the origin, H1 at
(1e200, 0, 0), H2 at (0, 1, 0).  The square of `1e200` is beyond `DBL_MAX`. -/
noncomputable def far_coords : Coords Dbl :=
  ⟨.fin 0, .fin 0, .fin 0, .fin 1e200, .fin 0, .fin 0, .fin 0, .fin 1, .fin 0⟩

/-- The model `tip4p` of the registry (index 7), in the arithmetic with overflow. -/
noncomputable def far_tip4p : model Dbl := model.new.initialise 7

/-- The model `tip5p` of the registry (index 10), in the arithmetic with overflow. -/
noncomputable def far_tip5p : model Dbl := model.new.initialise 10

/-- Every coordinate has magnitude at most `1e150`. -/
def Coords.bounded (c : Coords ℝ) : Prop :=
  |c.xO| ≤ 1e150 ∧ |c.yO| ≤ 1e150 ∧ |c.zO| ≤ 1e150 ∧
  |c.x1| ≤ 1e150 ∧ |c.y1| ≤ 1e150 ∧ |c.z1| ≤ 1e150 ∧
  |c.x2| ≤ 1e150 ∧ |c.y2| ≤ 1e150 ∧ |c.z2| ≤ 1e150

/-- Every parameter has magnitude at most `1e150`. -/
def model_param.bounded (p : model_param ℝ) : Prop :=
  |p.rOH| ≤ 1e150 ∧ |p.angle| ≤ 1e150 ∧ |p.rOM| ≤ 1e150 ∧ |p.rOL| ≤ 1e150 ∧
  |p.lpangle| ≤ 1e150

/-- Nine finite coordinates as numbers of the arithmetic with overflow. -/
noncomputable def Coords.toDbl (c : Coords ℝ) : Coords Dbl :=
  ⟨.fin c.xO, .fin c.yO, .fin c.zO, .fin c.x1, .fin c.y1, .fin c.z1,
   .fin c.x2, .fin c.y2, .fin c.z2⟩

/-- Finite parameters as numbers of the arithmetic with overflow. -/
noncomputable def model_param.toDbl (p : model_param ℝ) : model_param Dbl :=
  ⟨p.name, .fin p.rOH, .fin p.angle, .fin p.rOM, .fin p.rOL, .fin p.lpangle⟩

/-- A model with finite parameters in the arithmetic with overflow. -/
noncomputable def model.toDbl (m : model ℝ) : model Dbl :=
  ⟨m.parameters.toDbl, m.is_initialised⟩

/-! # Lemmas and theorems -/

set_option linter.unusedSectionVars false

section GenericTheorems

variable {F : Type} [Add F] [Sub F] [Mul F] [Div F] [LT F]
  [DecidableRel (fun (a b : F) => a < b)] [OfScientific F]

/-- The skip loop never moves the cursor backwards. -/
theorem emit_skip_ge (lines : List Str) (na : Nat) :
    ∀ (fuel cur : Nat) (an : Str) (c : Nat),
      emit_skip lines na fuel cur an = .ok c → cur ≤ c := by
  intro fuel
  induction fuel with
  | zero =>
    intro cur an c h
    unfold emit_skip at h
    split at h
    · simp at h
    · simp at h; omega
  | succ k ih =>
    intro cur an c h
    unfold emit_skip at h
    split at h
    · simp only at h
      split at h
      · simp at h
      · have := ih _ _ _ h; omega
    · simp at h; omega

/-- The skip loop stops inside the atom range: at most at `na + 2`. -/
theorem emit_skip_le (lines : List Str) (na : Nat) :
    ∀ (fuel cur : Nat) (an : Str) (c : Nat),
      emit_skip lines na fuel cur an = .ok c → cur ≤ na + 2 → c ≤ na + 2 := by
  intro fuel
  induction fuel with
  | zero =>
    intro cur an c h hc
    unfold emit_skip at h
    split at h
    · simp at h
    · simp at h; omega
  | succ k ih =>
    intro cur an c h hc
    unfold emit_skip at h
    split at h
    · next hlt =>
      simp only at h
      split at h
      · simp at h
      · exact ih _ _ _ h (by omega)
    · simp at h; omega

/-- The two copies of the skip loop agree: the counting copy ends at the same
cursor and has added to `nwa` the distance the cursor moved. -/
theorem count_skip_eq (lines : List Str) (na : Nat) :
    ∀ (fuel cur : Nat) (an : Str) (nwa : Nat),
      count_skip lines na fuel cur an nwa =
        match emit_skip lines na fuel cur an with
        | .error e => .error e
        | .ok c => .ok (c, nwa + (c - cur)) := by
  intro fuel
  induction fuel with
  | zero =>
    intro cur an nwa
    unfold count_skip emit_skip
    split <;> simp
  | succ k ih =>
    intro cur an nwa
    unfold count_skip emit_skip
    split
    · simp only
      split
      · rfl
      · next an1 htag =>
        rw [ih]
        cases hs : emit_skip lines na k (cur + 1) an1 with
        | error e => rfl
        | ok c =>
          have := emit_skip_ge lines na k (cur + 1) an1 c hs
          simp only [Except.ok.injEq, Prod.mk.injEq, true_and]
          omega
    · simp

theorem Run.eval_ok {α β : Type} {out : List Str} {r : Except Err β} {k : β → Run α}
    {o : List Str} {v : α} (h : Run.eval out r k = ⟨o, .ok v⟩) :
    ∃ b, r = .ok b ∧ k b = ⟨o, .ok v⟩ := by
  cases r with
  | error e => simp [Run.eval] at h
  | ok b => exact ⟨b, rfl, h⟩

theorem Run.put_ok {α : Type} {out : List Str} {r : Except Err Str} {k : List Str → Run α}
    {o : List Str} {v : α} (h : Run.put out r k = ⟨o, .ok v⟩) :
    ∃ l, r = .ok l ∧ k (out ++ [l]) = ⟨o, .ok v⟩ := by
  cases r with
  | error e => simp [Run.put] at h
  | ok l => exact ⟨l, rfl, h⟩

theorem Run.andThen_ok {α β : Type} {r : Run α} {k : List Str → α → Run β}
    {o : List Str} {v : β} (h : Run.andThen r k = ⟨o, .ok v⟩) :
    ∃ a, r = ⟨r.out, .ok a⟩ ∧ k r.out a = ⟨o, .ok v⟩ := by
  obtain ⟨ro, rr⟩ := r
  cases rr with
  | error e => simp [Run.andThen] at h
  | ok a => exact ⟨a, rfl, h⟩

/-- A successful `emit_M` writes one record for a 4-site model and none otherwise. -/
theorem emit_M_ok (tx : TextFns F) (l2 : Str) (model_size counter : Nat) (extras : List F)
    (out o : List Str) (h : emit_M tx l2 model_size counter extras out = ⟨o, .ok ()⟩) :
    ∃ recs, o = out ++ recs ∧ recs.length = if model_size = 4 then 1 else 0 := by
  unfold emit_M at h
  split at h
  · next hm =>
    obtain ⟨e0, -, h⟩ := Run.eval_ok h
    obtain ⟨e1, -, h⟩ := Run.eval_ok h
    obtain ⟨e2, -, h⟩ := Run.eval_ok h
    obtain ⟨r, -, h⟩ := Run.put_ok h
    simp only [Run.mk.injEq, and_true] at h
    exact ⟨[r], h.symm, by simp [hm]⟩
  · next hm =>
    simp only [Run.mk.injEq, and_true] at h
    exact ⟨[], by simp [h], by simp [hm]⟩

/-- A successful `emit_LP` writes two records for a 5-site model and none otherwise. -/
theorem emit_LP_ok (tx : TextFns F) (l2 : Str) (model_size counter : Nat) (extras : List F)
    (out o : List Str) (h : emit_LP tx l2 model_size counter extras out = ⟨o, .ok ()⟩) :
    ∃ recs, o = out ++ recs ∧ recs.length = if model_size = 5 then 2 else 0 := by
  unfold emit_LP at h
  split at h
  · next hm =>
    obtain ⟨e0, -, h⟩ := Run.eval_ok h
    obtain ⟨e1, -, h⟩ := Run.eval_ok h
    obtain ⟨e2, -, h⟩ := Run.eval_ok h
    obtain ⟨r1, -, h⟩ := Run.put_ok h
    obtain ⟨e3, -, h⟩ := Run.eval_ok h
    obtain ⟨e4, -, h⟩ := Run.eval_ok h
    obtain ⟨e5, -, h⟩ := Run.eval_ok h
    obtain ⟨r2, -, h⟩ := Run.put_ok h
    simp only [Run.mk.injEq, and_true] at h
    exact ⟨[r1, r2], by simp [← h], by simp [hm]⟩
  · next hm =>
    simp only [Run.mk.injEq, and_true] at h
    exact ⟨[], by simp [h], by simp [hm]⟩

/-- A successful water step writes `3 + [size = 4] + 2 [size = 5]` records, advances
the counter by `model_size` and moves the cursor as the skip loop says. -/
theorem emit_water_ok (mf : MathFns F) (tx : TextFns F) (lines : List Str) (wm : model F)
    (model_size na cur counter : Nat) (out o : List Str) (c1 counter1 : Nat)
    (h : emit_water mf tx lines wm model_size na cur counter out = ⟨o, .ok (c1, counter1)⟩) :
    emit_skip lines na (na + 2) (cur + 2) "MW".toList = .ok c1 ∧
    counter1 = counter + model_size ∧
    ∃ recs, o = out ++ recs ∧
      recs.length = 3 + (if model_size = 4 then 1 else 0) + (if model_size = 5 then 2 else 0) := by
  unfold emit_water at h
  obtain ⟨l0, -, h⟩ := Run.eval_ok h
  obtain ⟨p0, -, h⟩ := Run.eval_ok h
  obtain ⟨l1, -, h⟩ := Run.eval_ok h
  obtain ⟨p1, -, h⟩ := Run.eval_ok h
  obtain ⟨l2, -, h⟩ := Run.eval_ok h
  obtain ⟨p2, -, h⟩ := Run.eval_ok h
  simp only at h
  obtain ⟨extras, -, h⟩ := Run.eval_ok h
  obtain ⟨r0, -, h⟩ := Run.put_ok h
  obtain ⟨r1, -, h⟩ := Run.put_ok h
  obtain ⟨r2, -, h⟩ := Run.put_ok h
  obtain ⟨u, hM, h⟩ := Run.andThen_ok h
  obtain ⟨v, hL, h⟩ := Run.andThen_ok h
  obtain ⟨c, hs, h⟩ := Run.eval_ok h
  simp only [Run.mk.injEq, Except.ok.injEq, Prod.mk.injEq] at h
  obtain ⟨ho, hc, hcnt⟩ := h
  obtain ⟨rM, hMo, hMl⟩ := emit_M_ok _ _ _ _ _ _ _ hM
  obtain ⟨rL, hLo, hLl⟩ := emit_LP_ok _ _ _ _ _ _ _ hL
  refine ⟨by rw [hs, hc], hcnt.symm, [r0, r1, r2] ++ rM ++ rL, ?_, ?_⟩
  · rw [← ho, hLo, hMo]; simp
  · simp [hMl, hLl]; omega

/-- Joint run of the two passes from a common cursor: when both succeed they end at
the same cursor, the records written number `counter1 - counter`, and
`counter + nwa - nw * model_size - cur` is the same before and after. -/
theorem count_emit_agree (mf : MathFns F) (tx : TextFns F) (lines : List Str) (wm : model F)
    (model_size na : Nat) (hs : model_size = 3 ∨ model_size = 4 ∨ model_size = 5) :
    ∀ (fuel cur nw nwa counter : Nat) (out o : List Str) (c1 nw1 nwa1 c2 counter1 : Nat),
      count_loop lines na fuel cur nw nwa = .ok (c1, nw1, nwa1) →
      emit_loop mf tx lines wm model_size na fuel cur counter out = ⟨o, .ok (c2, counter1)⟩ →
      cur ≤ na + 2 →
      c1 = c2 ∧ na ≤ c1 ∧ c1 ≤ na + 2 ∧ cur ≤ c1 ∧
      counter1 + nwa1 + nw * model_size + cur = counter + nwa + nw1 * model_size + c1 ∧
      nwa1 + cur ≤ nwa + c1 ∧ nw ≤ nw1 ∧
      ∃ recs, o = out ++ recs ∧ counter + recs.length = counter1 := by
  intro fuel
  induction fuel with
  | zero =>
    intro cur nw nwa counter out o c1 nw1 nwa1 c2 counter1 hc he hcur
    unfold count_loop at hc
    unfold emit_loop at he
    split at hc
    · simp at hc
    · next hlt =>
      rw [if_neg hlt] at he
      simp only [Except.ok.injEq, Prod.mk.injEq] at hc
      simp only [Run.mk.injEq, Except.ok.injEq, Prod.mk.injEq] at he
      obtain ⟨rfl, rfl, rfl⟩ := hc
      obtain ⟨rfl, rfl, rfl⟩ := he
      refine ⟨rfl, by omega, hcur, le_refl _, rfl, le_refl _, le_refl _, [], by simp, rfl⟩
  | succ k ih =>
    intro cur nw nwa counter out o c1 nw1 nwa1 c2 counter1 hc he hcur
    unfold count_loop at hc
    unfold emit_loop at he
    split at hc
    · next hlt =>
      rw [if_pos hlt] at he
      simp only at hc he
      obtain ⟨an, htag, he⟩ := Run.eval_ok he
      obtain ⟨w, hw, he⟩ := Run.eval_ok he
      rw [htag] at hc
      simp only at hc
      rw [hw] at hc
      cases w with
      | true =>
        simp only [if_true] at he
        simp only at hc
        obtain ⟨s, hws, he⟩ := Run.andThen_ok he
        obtain ⟨hskip, hcnt, recs, ho, hl⟩ :=
          emit_water_ok mf tx lines wm model_size na cur counter out _ s.1 s.2 hws
        rw [count_skip_eq, hskip] at hc
        simp only at hc
        have hge := emit_skip_ge _ _ _ _ _ _ hskip
        have hle := emit_skip_le _ _ _ _ _ _ hskip (by omega)
        obtain ⟨h1, h2, h3, h4, h5, h6, h7, recs2, ho2, hl2⟩ :=
          ih _ _ _ _ _ _ _ _ _ _ _ hc he hle
        refine ⟨h1, h2, h3, by omega, ?_, by omega, by omega, recs ++ recs2, ?_, ?_⟩
        · rw [hcnt] at h5
          have : (nw + 1) * model_size = nw * model_size + model_size := by ring
          omega
        · rw [ho2, ho]; simp
        · rw [List.length_append, ← hl2, hcnt, hl]
          rcases hs with h | h | h <;> simp [h] <;> omega
      | false =>
        simp only [Bool.false_eq_true, if_false] at he
        simp only at hc
        obtain ⟨l, -, he⟩ := Run.eval_ok he
        obtain ⟨r, -, he⟩ := Run.put_ok he
        obtain ⟨h1, h2, h3, h4, h5, h6, h7, recs2, ho2, hl2⟩ :=
          ih _ _ _ _ _ _ _ _ _ _ _ hc he (by omega)
        refine ⟨h1, h2, h3, by omega, by omega, by omega, h7, r :: recs2, ?_, ?_⟩
        · rw [ho2]; simp
        · simp; omega
    · next hlt =>
      rw [if_neg hlt] at he
      simp only [Except.ok.injEq, Prod.mk.injEq] at hc
      simp only [Run.mk.injEq, Except.ok.injEq, Prod.mk.injEq] at he
      obtain ⟨rfl, rfl, rfl⟩ := hc
      obtain ⟨rfl, rfl, rfl⟩ := he
      refine ⟨rfl, by omega, hcur, le_refl _, rfl, le_refl _, le_refl _, [], by simp, rfl⟩

/-- The final loop, started inside the atom range: the remaining atom lines give one
record each, then the lines from `na + 2` on are copied. -/
theorem copy_rest_ok (lines : List Str) (na : Nat) (hn : na + 2 ≤ lines.length) :
    ∀ (fuel cur counter : Nat) (out o : List Str) (c1 counter1 : Nat),
      copy_rest lines na fuel cur counter out = ⟨o, .ok (c1, counter1)⟩ →
      cur ≤ lines.length →
      c1 = lines.length ∧ counter1 = counter + (na + 2 - cur) ∧
      ∃ recs, recs.length = na + 2 - cur ∧
        o = out ++ recs ++ lines.drop (max cur (na + 2)) := by
  intro fuel
  induction fuel with
  | zero =>
    intro cur counter out o c1 counter1 h hcur
    unfold copy_rest at h
    split at h
    · simp at h
    · next hlt =>
      simp only [Run.mk.injEq, Except.ok.injEq, Prod.mk.injEq] at h
      obtain ⟨rfl, rfl, rfl⟩ := h
      have hc : cur = lines.length := by omega
      refine ⟨hc, by omega, [], by simp; omega, ?_⟩
      rw [List.drop_eq_nil_of_le (by omega)]; simp
  | succ k ih =>
    intro cur counter out o c1 counter1 h hcur
    unfold copy_rest at h
    split at h
    · next hlt =>
      simp only at h
      split at h
      · next hna =>
        obtain ⟨l, -, h⟩ := Run.eval_ok h
        obtain ⟨r, -, h⟩ := Run.put_ok h
        obtain ⟨h1, h2, recs, hl, ho⟩ := ih _ _ _ _ _ _ h (by omega)
        refine ⟨h1, by omega, r :: recs, by simp; omega, ?_⟩
        rw [ho]
        have : max (cur + 1) (na + 2) = max cur (na + 2) := by omega
        rw [this]; simp
      · next hna =>
        obtain ⟨l, hl, h⟩ := Run.put_ok h
        obtain ⟨h1, h2, recs, hlen, ho⟩ := ih _ _ _ _ _ _ h (by omega)
        have hr : recs = [] := by
          apply List.eq_nil_of_length_eq_zero; omega
        subst hr
        refine ⟨h1, by omega, [], by simp; omega, ?_⟩
        rw [ho]
        have e1 : max (cur + 1) (na + 2) = cur + 1 := by omega
        have e2 : max cur (na + 2) = cur := by omega
        rw [e1, e2]
        unfold line_at at hl
        split at hl
        · next l' hget =>
          simp only [Except.ok.injEq] at hl
          subst hl
          have := List.drop_eq_getElem_cons hlt
          rw [this]
          have hg : lines[cur] = l' := by
            rw [List.get?_eq_getElem?, List.getElem?_eq_getElem hlt] at hget
            simpa using hget
          simp [hg]
        · simp at hl
    · next hlt =>
      simp only [Run.mk.injEq, Except.ok.injEq, Prod.mk.injEq] at h
      obtain ⟨rfl, rfl, rfl⟩ := h
      have hc : cur = lines.length := by omega
      refine ⟨hc, by omega, [], by simp; omega, ?_⟩
      rw [List.drop_eq_nil_of_le (by omega)]; simp

/-- C1: when `process_gro` succeeds with a model of size 3, 4 or 5, its output is the
title, the count `N`, exactly `N` atom records and then the lines from index `na + 2` on,
where `N + 1` is the final value of the renumbering counter (the counter the final loop
ends with): the count computed by the counting pass is the number of records the
emission pass writes. -/
theorem process_gro_count_matches_records (mf : MathFns F) (tx : TextFns F)
    (lines : List Str) (wm : model F) (s m : Nat)
    (hsize : wm.size mf = .ok s) (hs : s = 3 ∨ s = 4 ∨ s = 5)
    (hrun : (process_gro mf tx lines wm).res = .ok m) :
    ∃ (title : Str) (na : Nat) (records : List Str) (cur counter0 cur1 counter : Nat)
      (out1 : List Str),
      line_at lines 0 = .ok title ∧ read_na lines = .ok na ∧
      emit_loop mf tx lines wm s na lines.length 2 1 [title, to_string (counter - 1)]
        = ⟨out1, .ok (cur, counter0)⟩ ∧
      copy_rest lines na lines.length cur counter0 out1
        = ⟨(process_gro mf tx lines wm).out, .ok (cur1, counter)⟩ ∧
      (process_gro mf tx lines wm).out
        = title :: to_string (counter - 1) :: (records ++ lines.drop (na + 2)) ∧
      records.length = counter - 1 := by
  have hrun2 : process_gro mf tx lines wm = ⟨(process_gro mf tx lines wm).out, .ok m⟩ := by
    rw [← hrun]
  generalize (process_gro mf tx lines wm).out = out at hrun2 ⊢
  unfold process_gro at hrun2
  rw [hsize] at hrun2
  simp only [Run.eval] at hrun2
  split at hrun2
  · simp at hrun2
  · next hn5 =>
    cases hna : read_na lines with
    | error e => rw [hna] at hrun2; simp at hrun2
    | ok na =>
      rw [hna] at hrun2
      simp only at hrun2
      split at hrun2
      · cases h1 : line_at lines 1 <;> rw [h1] at hrun2 <;> simp at hrun2
      · next hn =>
        cases hcl : count_loop lines na lines.length 2 0 0 with
        | error e => rw [hcl] at hrun2; simp at hrun2
        | ok cnt =>
          obtain ⟨c1, nw1, nwa1⟩ := cnt
          rw [hcl] at hrun2
          simp only at hrun2
          obtain ⟨title, htitle, hrun2⟩ := Run.put_ok hrun2
          obtain ⟨cl, hcl2, hrun2⟩ := Run.put_ok hrun2
          obtain ⟨s1, hel, hrun2⟩ := Run.andThen_ok hrun2
          generalize (emit_loop mf tx lines wm s na lines.length 2 1
            ([] ++ [title] ++ [cl])).out = out1 at hel hrun2
          obtain ⟨s2, hcr, hrun2⟩ := Run.andThen_ok hrun2
          generalize (copy_rest lines na lines.length s1.1 s1.2 out1).out = out2 at hcr hrun2
          simp only [Run.mk.injEq, Except.ok.injEq] at hrun2
          obtain ⟨hout, hm⟩ := hrun2
          simp only [Except.ok.injEq] at hcl2
          obtain ⟨h1, h2, h3, h4, h5, h6, h7, recs, ho, hl⟩ :=
            count_emit_agree mf tx lines wm s na hs _ _ _ _ _ _ _ _ _ _ _ _ hcl hel (by omega)
          obtain ⟨g1, g2, recs2, hl2, ho2⟩ :=
            copy_rest_ok lines na (by omega) _ _ _ _ _ _ _ hcr (by omega)
          have hcount : na - nwa1 + nw1 * s = s2.2 - 1 := by
            simp only [zero_mul, zero_add, add_zero] at h5 h6
            omega
          have hmax : max s1.1 (na + 2) = na + 2 := by omega
          refine ⟨title, na, recs ++ recs2, s1.1, s1.2, s2.1, s2.2, out1, htitle, rfl, ?_, ?_, ?_, ?_⟩
          · rw [← hcount, hcl2]; simpa using hel
          · rw [← hout]; exact hcr
          · rw [← hout, ho2, ho, hmax, ← hcl2, hcount]; simp
          · rw [List.length_append, hl2, g2]; omega

/-! ## The idealiser: case analysis -/

theorem transform_uninit (mf : MathFns F) (wm : model F) (c : Coords F)
    (h : wm.is_initialised = false) :
    wm.transform mf c = (c, .error (.logic_error "access to uninitialised model".toList)) := by
  unfold model.transform
  simp [model.check, h]

theorem transform_short (mf : MathFns F) (wm : model F) (c : Coords F)
    (hinit : wm.is_initialised = true) (h : short_bond mf c) :
    wm.transform mf c = (c, .error (.runtime_error "bad input water structure".toList)) := by
  unfold model.transform
  simp only [model.check, hinit]
  simp only [Bool.not_true, Bool.false_eq_true, if_false]
  unfold short_bond len_OH1 len_OH2 at h
  rw [if_pos h]

theorem transform_collinear (mf : MathFns F) (wm : model F) (c : Coords F)
    (hinit : wm.is_initialised = true) (h : ¬ short_bond mf c) (h2 : collinear mf c) :
    wm.transform mf c = (c, .error (.runtime_error "bad input water structure".toList)) := by
  unfold model.transform
  simp only [model.check, hinit]
  simp only [Bool.not_true, Bool.false_eq_true, if_false]
  unfold short_bond len_OH1 len_OH2 at h
  unfold collinear len_a unit_OH1 unit_OH2 len_OH1 len_OH2 at h2
  dsimp only at h2
  rw [if_neg h, if_pos h2]

theorem transform_good (mf : MathFns F) (wm : model F) (c : Coords F)
    (hinit : wm.is_initialised = true) (h : ¬ short_bond mf c) (h2 : ¬ collinear mf c) :
    (wm.transform mf c).1 =
      { xO := c.xO, yO := c.yO, zO := c.zO,
        x1 := c.xO + (vec_a mf c).1 * (mf.cos (wm.parameters.angle * degree / 2.0) * wm.parameters.rOH)
                + (vec_b mf c).1 * (mf.sin (wm.parameters.angle * degree / 2.0) * wm.parameters.rOH),
        y1 := c.yO + (vec_a mf c).2.1 * (mf.cos (wm.parameters.angle * degree / 2.0) * wm.parameters.rOH)
                + (vec_b mf c).2.1 * (mf.sin (wm.parameters.angle * degree / 2.0) * wm.parameters.rOH),
        z1 := c.zO + (vec_a mf c).2.2 * (mf.cos (wm.parameters.angle * degree / 2.0) * wm.parameters.rOH)
                + (vec_b mf c).2.2 * (mf.sin (wm.parameters.angle * degree / 2.0) * wm.parameters.rOH),
        x2 := c.xO + (vec_a mf c).1 * (mf.cos (wm.parameters.angle * degree / 2.0) * wm.parameters.rOH)
                - (vec_b mf c).1 * (mf.sin (wm.parameters.angle * degree / 2.0) * wm.parameters.rOH),
        y2 := c.yO + (vec_a mf c).2.1 * (mf.cos (wm.parameters.angle * degree / 2.0) * wm.parameters.rOH)
                - (vec_b mf c).2.1 * (mf.sin (wm.parameters.angle * degree / 2.0) * wm.parameters.rOH),
        z2 := c.zO + (vec_a mf c).2.2 * (mf.cos (wm.parameters.angle * degree / 2.0) * wm.parameters.rOH)
                - (vec_b mf c).2.2 * (mf.sin (wm.parameters.angle * degree / 2.0) * wm.parameters.rOH) } ∧
    (wm.transform mf c).2 = .ok (sites_M mf wm.parameters c ++ sites_LP mf wm.parameters c) := by
  unfold model.transform
  simp only [model.check, hinit]
  simp only [Bool.not_true, Bool.false_eq_true, if_false]
  unfold short_bond len_OH1 len_OH2 at h
  unfold collinear len_a unit_OH1 unit_OH2 len_OH1 len_OH2 at h2
  dsimp only at h2
  rw [if_neg h, if_neg h2]
  refine ⟨rfl, ?_⟩
  unfold sites_M sites_LP vec_c vec_b vec_a len_b len_a unit_OH1 unit_OH2 len_OH1 len_OH2
  dsimp only
  split <;> split <;> rfl

/-- A successful `transform` was called on an initialised model and passed both
degeneracy tests. -/
theorem transform_ok_cases (mf : MathFns F) (wm : model F) (c : Coords F) (sites : List F)
    (h : (wm.transform mf c).2 = .ok sites) :
    wm.is_initialised = true ∧ ¬ short_bond mf c ∧ ¬ collinear mf c := by
  cases hi : wm.is_initialised with
  | false => rw [transform_uninit mf wm c hi] at h; simp at h
  | true =>
    refine ⟨rfl, ?_, ?_⟩
    · intro hs; rw [transform_short mf wm c hi hs] at h; simp at h
    · intro hc
      by_cases hs : short_bond mf c
      · rw [transform_short mf wm c hi hs] at h; simp at h
      · rw [transform_collinear mf wm c hi hs hc] at h; simp at h

/-! ## Running the loops forwards -/

theorem emit_loop_exit (mf : MathFns F) (tx : TextFns F) (lines : List Str) (wm : model F)
    (model_size na fuel cur counter : Nat) (out : List Str) (h : ¬ cur < na) :
    emit_loop mf tx lines wm model_size na fuel cur counter out = ⟨out, .ok (cur, counter)⟩ := by
  unfold emit_loop
  rw [if_neg h]

/-- One turn of the emission loop at an ordinary atom. -/
theorem emit_loop_ordinary (mf : MathFns F) (tx : TextFns F) (lines : List Str) (wm : model F)
    (model_size na fuel cur counter : Nat) (out : List Str) (an l r : Str)
    (h : cur < na) (htag : tag lines cur = .ok an) (hw : is_water lines cur an = .ok false)
    (hl : line_at lines cur = .ok l) (hr : update_line l counter = .ok r) :
    emit_loop mf tx lines wm model_size na (fuel + 1) cur counter out
      = emit_loop mf tx lines wm model_size na fuel (cur + 1) (counter + 1) (out ++ [r]) := by
  rw [emit_loop, if_pos h]
  simp only [htag, hw, hl, hr, Run.eval, Run.put, Bool.false_eq_true, if_false]

/-- One turn of the emission loop at a water molecule. -/
theorem emit_loop_water (mf : MathFns F) (tx : TextFns F) (lines : List Str) (wm : model F)
    (model_size na fuel cur counter : Nat) (out o : List Str) (an : Str) (s : Nat × Nat)
    (h : cur < na) (htag : tag lines cur = .ok an) (hw : is_water lines cur an = .ok true)
    (he : emit_water mf tx lines wm model_size na cur counter out = ⟨o, .ok s⟩) :
    emit_loop mf tx lines wm model_size na (fuel + 1) cur counter out
      = emit_loop mf tx lines wm model_size na fuel s.1 s.2 o := by
  rw [emit_loop, if_pos h]
  simp only [htag, hw, he, Run.eval, Run.andThen, if_true]

theorem update_line_ok (l : Str) (c : Nat) (h : 44 ≤ l.length) :
    update_line l c = .ok (substr l 0 15 ++ fmt_5ld c ++ substr l 20 24) := by
  unfold update_line
  rw [if_neg (by omega)]

/-- A water step succeeds when the three lines hold readable coordinates, the
idealiser succeeds with enough sites for the model size, and the skip loop succeeds. -/
theorem emit_water_run (mf : MathFns F) (tx : TextFns F) (lines : List Str) (wm : model F)
    (model_size na cur counter c1 : Nat) (out : List Str) (l0 l1 l2 : Str)
    (p0 p1 p2 : F × F × F) (extras : List F)
    (h0 : line_at lines cur = .ok l0) (h1 : line_at lines (cur + 1) = .ok l1)
    (h2 : line_at lines (cur + 2) = .ok l2)
    (hl0 : 44 ≤ l0.length) (hl1 : 44 ≤ l1.length) (hl2 : 44 ≤ l2.length)
    (hp0 : coordinates tx l0 = .ok p0) (hp1 : coordinates tx l1 = .ok p1)
    (hp2 : coordinates tx l2 = .ok p2)
    (ht : (wm.transform mf
      ⟨p0.1, p0.2.1, p0.2.2, p1.1, p1.2.1, p1.2.2, p2.1, p2.2.1, p2.2.2⟩).2 = .ok extras)
    (hx4 : model_size = 4 → 3 ≤ extras.length) (hx5 : model_size = 5 → 6 ≤ extras.length)
    (hskip : emit_skip lines na (na + 2) (cur + 2) "MW".toList = .ok c1) :
    ∃ o, emit_water mf tx lines wm model_size na cur counter out
      = ⟨o, .ok (c1, counter + model_size)⟩ := by
  have hget : ∀ i, i < extras.length → ∃ v, extras_at extras i = .ok v := by
    intro i hi
    unfold extras_at
    rw [List.get?_eq_getElem?, List.getElem?_eq_getElem hi]
    exact ⟨_, rfl⟩
  unfold emit_water
  simp only [h0, h1, h2, hp0, hp1, hp2, ht, Run.eval, Run.put, update_line_xyz,
    update_line_ok _ _ hl0, update_line_ok _ _ hl1, update_line_ok _ _ hl2, hskip]
  by_cases h4 : model_size = 4
  · obtain ⟨e0, he0⟩ := hget 0 (by have := hx4 h4; omega)
    obtain ⟨e1, he1⟩ := hget 1 (by have := hx4 h4; omega)
    obtain ⟨e2, he2⟩ := hget 2 (by have := hx4 h4; omega)
    have h5 : ¬ model_size = 5 := by omega
    simp only [emit_M, emit_LP, if_pos h4, if_neg h5, he0, he1, he2, Run.eval, Run.put,
      Run.andThen, update_line_name, update_line_xyz, update_line_ok _ _ hl2]
    exact ⟨_, rfl⟩
  · by_cases h5 : model_size = 5
    · obtain ⟨e0, he0⟩ := hget 0 (by have := hx5 h5; omega)
      obtain ⟨e1, he1⟩ := hget 1 (by have := hx5 h5; omega)
      obtain ⟨e2, he2⟩ := hget 2 (by have := hx5 h5; omega)
      obtain ⟨e3, he3⟩ := hget 3 (by have := hx5 h5; omega)
      obtain ⟨e4, he4⟩ := hget 4 (by have := hx5 h5; omega)
      obtain ⟨e5, he5⟩ := hget 5 (by have := hx5 h5; omega)
      simp only [emit_M, emit_LP, if_neg h4, if_pos h5, he0, he1, he2, he3, he4, he5, Run.eval,
        Run.put, Run.andThen, update_line_name, update_line_xyz, update_line_ok _ _ hl2]
      exact ⟨_, rfl⟩
    · simp only [emit_M, emit_LP, if_neg h4, if_neg h5, Run.andThen]
      exact ⟨_, rfl⟩

theorem copy_rest_exit (lines : List Str) (na fuel cur counter : Nat) (out : List Str)
    (h : ¬ cur < lines.length) :
    copy_rest lines na fuel cur counter out = ⟨out, .ok (cur, counter)⟩ := by
  unfold copy_rest
  rw [if_neg h]

theorem copy_rest_atom (lines : List Str) (na fuel cur counter : Nat) (out : List Str)
    (l : Str) (h : cur < lines.length) (hna : cur < na + 2) (hl : line_at lines cur = .ok l)
    (h44 : 44 ≤ l.length) :
    copy_rest lines na (fuel + 1) cur counter out
      = copy_rest lines na fuel (cur + 1) (counter + 1)
          (out ++ [substr l 0 15 ++ fmt_5ld counter ++ substr l 20 24]) := by
  rw [copy_rest, if_pos h]
  simp only [if_pos hna, hl, update_line_ok _ _ h44, Run.eval, Run.put]

theorem copy_rest_copy (lines : List Str) (na fuel cur counter : Nat) (out : List Str)
    (l : Str) (h : cur < lines.length) (hna : ¬ cur < na + 2) (hl : line_at lines cur = .ok l) :
    copy_rest lines na (fuel + 1) cur counter out
      = copy_rest lines na fuel (cur + 1) counter (out ++ [l]) := by
  rw [copy_rest, if_pos h]
  simp only [if_neg hna, hl, Run.put]

/-- Unfolding of `process_gro` after a header that passes validation and a counting pass that
succeeds: title, new count, emission loop, final loop. -/
theorem process_gro_body (mf : MathFns F) (tx : TextFns F) (lines : List Str) (wm : model F)
    (s na c nw nwa : Nat) (title : Str)
    (hsize : wm.size mf = .ok s) (hn5 : 5 ≤ lines.length) (hna : read_na lines = .ok na)
    (hn : na + 2 ≤ lines.length)
    (hcnt : count_loop lines na lines.length 2 0 0 = .ok (c, nw, nwa))
    (ht : line_at lines 0 = .ok title) :
    process_gro mf tx lines wm =
      Run.andThen (emit_loop mf tx lines wm s na lines.length 2 1
          [title, to_string (na - nwa + nw * s)]) fun out st =>
        Run.andThen (copy_rest lines na lines.length st.1 st.2 out) fun out _ =>
          ⟨out, .ok nw⟩ := by
  unfold process_gro
  simp only [hsize, hna, hcnt, ht, Run.eval, Run.put, if_neg (show ¬ lines.length < 5 by omega),
    if_neg (show ¬ lines.length < na + 2 by omega), List.nil_append, List.singleton_append]

/-! ## The counting pass refines the classifier of the specification -/

theorem line_at_ok {lines : List Str} {i : Nat} {l : Str} (h : line_at lines i = .ok l) :
    ∃ hi : i < lines.length, lines[i] = l := by
  unfold line_at at h
  split at h
  · next l' hget =>
    simp only [Except.ok.injEq] at h
    rw [List.get?_eq_getElem?] at hget
    obtain ⟨hi, hl⟩ := List.getElem?_eq_some_iff.mp hget
    exact ⟨hi, by rw [hl, h]⟩
  · simp at h

theorem tag_ok {lines : List Str} {i : Nat} {an : Str} (h : tag lines i = .ok an) :
    ∃ hi : i < lines.length, ∃ nm, atom_name lines[i] = .ok nm ∧ standardise nm = an := by
  unfold tag at h
  split at h
  · simp at h
  · next l hl =>
    obtain ⟨hi, hli⟩ := line_at_ok hl
    split at h
    · simp at h
    · next nm hnm =>
      simp only [Except.ok.injEq] at h
      exact ⟨hi, nm, by rw [hli, hnm], h⟩

theorem is_extra_line_of_tag {lines : List Str} {i : Nat} {an : Str}
    (h : tag lines i = .ok an) :
    ∃ hi : i < lines.length, is_extra_line lines[i] = is_extra an := by
  obtain ⟨hi, nm, hnm, hst⟩ := tag_ok h
  exact ⟨hi, by simp only [is_extra_line, hnm, hst]⟩

theorem extra_sites_after_zero (lines : List Str) (na j : Nat) (h : na + 2 ≤ j) :
    extra_sites_after lines na j = 0 := by
  unfold extra_sites_after
  rw [List.drop_eq_nil_of_le (by rw [List.length_take]; omega)]
  rfl

theorem extra_sites_after_step (lines : List Str) (na j : Nat) (h : j < na + 2)
    (hj : j < lines.length) :
    extra_sites_after lines na j
      = if is_extra_line lines[j] = true then 1 + extra_sites_after lines na (j + 1) else 0 := by
  unfold extra_sites_after
  have hlen : j < (lines.take (na + 2)).length := by rw [List.length_take]; omega
  rw [List.drop_eq_getElem_cons hlen, List.getElem_take, List.takeWhile_cons]
  split
  · rw [List.length_cons]; omega
  · rfl

/-- The skip loop of the counting pass, started at a line whose tag is `an`,
discards exactly the extra-site lines the specification describes. -/
theorem count_skip_spec (lines : List Str) (na : Nat) :
    ∀ (fuel j : Nat) (an : Str) (nwa c nwa1 : Nat),
      count_skip lines na fuel j an nwa = .ok (c, nwa1) → tag lines j = .ok an →
      c = j + extra_sites_after lines na j ∧ nwa1 = nwa + extra_sites_after lines na j := by
  intro fuel
  induction fuel with
  | zero =>
    intro j an nwa c nwa1 h ht
    obtain ⟨hj, hx⟩ := is_extra_line_of_tag ht
    unfold count_skip at h
    split at h
    · simp at h
    · next hc =>
      simp only [Except.ok.injEq, Prod.mk.injEq] at h
      obtain ⟨rfl, rfl⟩ := h
      by_cases hlt : j < na + 2
      · rw [extra_sites_after_step lines na j hlt hj, hx]
        have : ¬ is_extra an = true := fun hh => hc ⟨hlt, hh⟩
        simp [this]
      · rw [extra_sites_after_zero lines na j (by omega)]; simp
  | succ k ih =>
    intro j an nwa c nwa1 h ht
    obtain ⟨hj, hx⟩ := is_extra_line_of_tag ht
    unfold count_skip at h
    split at h
    · next hc =>
      simp only at h
      split at h
      · simp at h
      · next an1 ht1 =>
        obtain ⟨h1, h2⟩ := ih _ _ _ _ _ h ht1
        rw [extra_sites_after_step lines na j hc.1 hj, hx, if_pos hc.2]
        omega
    · next hc =>
      simp only [Except.ok.injEq, Prod.mk.injEq] at h
      obtain ⟨rfl, rfl⟩ := h
      by_cases hlt : j < na + 2
      · rw [extra_sites_after_step lines na j hlt hj, hx]
        have : ¬ is_extra an = true := fun hh => hc ⟨hlt, hh⟩
        simp [this]
      · rw [extra_sites_after_zero lines na j (by omega)]; simp

/-- The first turn of the skip loop (entered with the pretended tag MW on the second
hydrogen) moves to line `i + 3`; from there the loop follows `count_skip_spec`. -/
theorem count_skip_first (lines : List Str) (na i nwa c nwa1 : Nat) (hi : i < na)
    (h : count_skip lines na (na + 2) (i + 2) "MW".toList (nwa + 2) = .ok (c, nwa1)) :
    c = i + 3 + extra_sites_after lines na (i + 3)
      ∧ nwa1 = nwa + 3 + extra_sites_after lines na (i + 3) := by
  rw [count_skip, if_pos ⟨by omega, by decide⟩] at h
  split at h
  · simp at h
  · next an1 ht1 =>
    obtain ⟨h1, h2⟩ := count_skip_spec lines na _ _ _ _ _ _ h ht1
    have e : i + 2 + 1 = i + 3 := rfl
    rw [e] at h1 h2
    omega

/-- The water test of the code agrees with the three-tag condition of the specification. -/
theorem is_water_spec (lines : List Str) (i : Nat) (an : Str) (b : Bool)
    (ht : tag lines i = .ok an) (h : is_water lines i an = .ok b) :
    (b = true ↔ (tag lines i = .ok "OW".toList ∧ tag lines (i + 1) = .ok "HW".toList
          ∧ tag lines (i + 2) = .ok "HW".toList)) := by
  unfold is_water at h
  rw [ht]
  split at h
  · next hOW =>
    split at h
    · simp at h
    · next t1 ht1 =>
      split at h
      · next hHW =>
        split at h
        · simp at h
        · next t2 ht2 =>
          simp only [Except.ok.injEq] at h
          rw [ht1, ht2, ← h, hOW, hHW]
          simp
      · next hHW =>
        simp only [Except.ok.injEq] at h
        rw [ht1, ← h]
        constructor
        · intro hh; simp at hh
        · rintro ⟨-, h2, -⟩
          exact absurd (Except.ok.inj h2) hHW
  · next hOW =>
    simp only [Except.ok.injEq] at h
    rw [← h]
    constructor
    · intro hh; simp at hh
    · rintro ⟨h1, -⟩
      exact absurd (Except.ok.inj h1) hOW

/-- The counting pass counts what the specification's classifier finds: `nw` grows by
the number of water runs and `nwa` by three atoms per run plus the discarded sites. -/
theorem count_loop_spec (lines : List Str) (na : Nat) :
    ∀ (fuel i nw nwa c nw1 nwa1 : Nat),
      count_loop lines na fuel i nw nwa = .ok (c, nw1, nwa1) →
      nw1 = nw + (water_runs lines na fuel i).length ∧
      nwa1 = nwa + 3 * (water_runs lines na fuel i).length
        + ((water_runs lines na fuel i).map Prod.snd).sum := by
  intro fuel
  induction fuel with
  | zero =>
    intro i nw nwa c nw1 nwa1 h
    unfold count_loop at h
    split at h
    · simp at h
    · simp only [Except.ok.injEq, Prod.mk.injEq] at h
      obtain ⟨-, rfl, rfl⟩ := h
      simp [water_runs]
  | succ k ih =>
    intro i nw nwa c nw1 nwa1 h
    unfold count_loop at h
    unfold water_runs
    split at h
    · next hlt =>
      rw [if_pos hlt]
      simp only at h
      split at h
      · simp at h
      · next an ht =>
        split at h
        · simp at h
        · next hw =>
          have hcond := (is_water_spec lines i an true ht hw).mp rfl
          rw [if_pos hcond]
          split at h
          · simp at h
          · next c1 nwa2 hsk =>
            obtain ⟨hc1, hn2⟩ := count_skip_first lines na i nwa c1 nwa2 hlt hsk
            obtain ⟨h1, h2⟩ := ih _ _ _ _ _ _ h
            rw [← hc1]
            simp only [List.length_cons, List.map_cons, List.sum_cons]
            omega
        · next hw =>
          have hcond : ¬ (tag lines i = .ok "OW".toList ∧ tag lines (i + 1) = .ok "HW".toList
              ∧ tag lines (i + 2) = .ok "HW".toList) := by
            intro hh
            have := (is_water_spec lines i an false ht hw).mpr hh
            simp at this
          rw [if_neg hcond]
          exact ih _ _ _ _ _ _ h
    · next hlt =>
      rw [if_neg hlt]
      simp only [Except.ok.injEq, Prod.mk.injEq] at h
      obtain ⟨-, rfl, rfl⟩ := h
      simp

/-! ## The header of `process_gro` -/

/-- An uninitialised model makes `process_gro` stop at once. -/
theorem size_ok_of_init (mf : MathFns F) (wm : model F) (h : wm.is_initialised = true) :
    ∃ s, wm.size mf = .ok s ∧ 3 ≤ s ∧ s ≤ 6 := by
  unfold model.size model.check
  simp only [h, Bool.not_true, Bool.false_eq_true, if_false]
  split <;> split <;> exact ⟨_, rfl, by omega, by omega⟩

theorem process_gro_short (mf : MathFns F) (tx : TextFns F) (lines : List Str) (wm : model F)
    (s : Nat) (hsize : wm.size mf = .ok s) (hn5 : lines.length < 5) :
    process_gro mf tx lines wm = ⟨[], .error (.gro_error
      "file too short to contain a water molecule".toList (to_string lines.length))⟩ := by
  unfold process_gro
  simp only [hsize, Run.eval, if_pos hn5]

theorem process_gro_bad_na (mf : MathFns F) (tx : TextFns F) (lines : List Str) (wm : model F)
    (s : Nat) (e : Err) (hsize : wm.size mf = .ok s) (hn5 : 5 ≤ lines.length)
    (hna : read_na lines = .error e) :
    process_gro mf tx lines wm = ⟨[], .error e⟩ := by
  unfold process_gro
  simp only [hsize, hna, Run.eval, if_neg (show ¬ lines.length < 5 by omega)]

theorem process_gro_too_few (mf : MathFns F) (tx : TextFns F) (lines : List Str) (wm : model F)
    (s na : Nat) (l1 : Str) (hsize : wm.size mf = .ok s) (hn5 : 5 ≤ lines.length)
    (hna : read_na lines = .ok na) (h1 : line_at lines 1 = .ok l1)
    (hn : lines.length < na + 2) :
    process_gro mf tx lines wm = ⟨[], .error (.gro_error
      ("file too short for ".toList ++ to_string na ++ " atoms".toList) l1)⟩ := by
  unfold process_gro
  simp only [hsize, hna, h1, Run.eval, if_neg (show ¬ lines.length < 5 by omega), if_pos hn]

theorem process_gro_count_error (mf : MathFns F) (tx : TextFns F) (lines : List Str)
    (wm : model F) (s na : Nat) (e : Err) (hsize : wm.size mf = .ok s)
    (hn5 : 5 ≤ lines.length) (hna : read_na lines = .ok na) (hn : na + 2 ≤ lines.length)
    (hcnt : count_loop lines na lines.length 2 0 0 = .error e) :
    process_gro mf tx lines wm = ⟨[], .error e⟩ := by
  unfold process_gro
  simp only [hsize, hna, hcnt, Run.eval, if_neg (show ¬ lines.length < 5 by omega),
    if_neg (show ¬ lines.length < na + 2 by omega)]

theorem line_at_lt {lines : List Str} {i : Nat} (h : i < lines.length) :
    line_at lines i = .ok lines[i] := by
  unfold line_at
  rw [List.get?_eq_getElem?, List.getElem?_eq_getElem h]

/-- Unfolding of `read_na` on the result of `std::stol`. -/
theorem read_na_eq (lines : List Str) (l1 : Str) (h1 : line_at lines 1 = .ok l1) :
    read_na lines =
      match stol l1 with
      | .out_of_range => .error (.out_of_range "stol".toList)
      | .invalid_argument => .error (.gro_error "file format error (atom count)".toList l1)
      | .value v =>
        if v < 0 then .error (.gro_error "file format error (atom count)".toList l1)
        else .ok v.toNat := by
  unfold read_na
  simp only [h1]
  generalize stol l1 = r
  cases r <;> simp

/-- The message of a `gro_error` contains its `msg`. -/
theorem gro_what_contains (frag msg line : Str) (h : frag <:+: msg) :
    frag <:+: gro_what msg line := by
  obtain ⟨a, b, hab⟩ := h
  exact ⟨a, b ++ ("; current line:\n".toList ++ line), by
    unfold gro_what; rw [← hab]; simp only [List.append_assoc]⟩

/-! ## The output only grows -/

theorem Run.eval_grows {α β : Type} (out : List Str) (r : Except Err β) (k : β → Run α)
    (hk : ∀ b, out <+: (k b).out) : out <+: (Run.eval out r k).out := by
  cases r with
  | error e => exact List.prefix_refl _
  | ok b => exact hk b

theorem Run.put_grows {α : Type} (out : List Str) (r : Except Err Str) (k : List Str → Run α)
    (hk : ∀ o, o <+: (k o).out) : out <+: (Run.put out r k).out := by
  cases r with
  | error e => exact List.prefix_refl _
  | ok l => exact (List.prefix_append out [l]).trans (hk _)

theorem Run.andThen_grows {α β : Type} (out : List Str) (r : Run α)
    (k : List Str → α → Run β) (hr : out <+: r.out) (hk : ∀ o a, o <+: (k o a).out) :
    out <+: (Run.andThen r k).out := by
  obtain ⟨ro, rr⟩ := r
  cases rr with
  | error e => exact hr
  | ok a => exact hr.trans (hk _ _)

theorem emit_M_grows (tx : TextFns F) (l2 : Str) (model_size counter : Nat) (extras : List F)
    (out : List Str) : out <+: (emit_M tx l2 model_size counter extras out).out := by
  unfold emit_M
  split
  · refine Run.eval_grows _ _ _ fun _ => Run.eval_grows _ _ _ fun _ =>
      Run.eval_grows _ _ _ fun _ => Run.put_grows _ _ _ fun _ => List.prefix_refl _
  · exact List.prefix_refl _

theorem emit_LP_grows (tx : TextFns F) (l2 : Str) (model_size counter : Nat) (extras : List F)
    (out : List Str) : out <+: (emit_LP tx l2 model_size counter extras out).out := by
  unfold emit_LP
  split
  · refine Run.eval_grows _ _ _ fun _ => Run.eval_grows _ _ _ fun _ =>
      Run.eval_grows _ _ _ fun _ => Run.put_grows _ _ _ fun o => ?_
    refine Run.eval_grows _ _ _ fun _ => Run.eval_grows _ _ _ fun _ =>
      Run.eval_grows _ _ _ fun _ => Run.put_grows _ _ _ fun _ => List.prefix_refl _
  · exact List.prefix_refl _

theorem emit_water_grows (mf : MathFns F) (tx : TextFns F) (lines : List Str) (wm : model F)
    (model_size na cur counter : Nat) (out : List Str) :
    out <+: (emit_water mf tx lines wm model_size na cur counter out).out := by
  unfold emit_water
  refine Run.eval_grows _ _ _ fun _ => Run.eval_grows _ _ _ fun _ =>
    Run.eval_grows _ _ _ fun _ => Run.eval_grows _ _ _ fun _ =>
    Run.eval_grows _ _ _ fun _ => Run.eval_grows _ _ _ fun _ =>
    Run.eval_grows _ _ _ fun _ => Run.put_grows _ _ _ fun _ =>
    Run.put_grows _ _ _ fun _ => Run.put_grows _ _ _ fun o =>
    Run.andThen_grows _ _ _ (emit_M_grows _ _ _ _ _ _) fun o _ =>
    Run.andThen_grows _ _ _ (emit_LP_grows _ _ _ _ _ _) fun o _ =>
    Run.eval_grows _ _ _ fun _ => List.prefix_refl _

theorem emit_loop_grows (mf : MathFns F) (tx : TextFns F) (lines : List Str) (wm : model F)
    (model_size na : Nat) :
    ∀ (fuel cur counter : Nat) (out : List Str),
      out <+: (emit_loop mf tx lines wm model_size na fuel cur counter out).out := by
  intro fuel
  induction fuel with
  | zero =>
    intro cur counter out
    unfold emit_loop
    split <;> exact List.prefix_refl _
  | succ k ih =>
    intro cur counter out
    unfold emit_loop
    split
    · refine Run.eval_grows _ _ _ fun an => Run.eval_grows _ _ _ fun w => ?_
      split
      · exact Run.andThen_grows _ _ _ (emit_water_grows _ _ _ _ _ _ _ _ _) fun o s => ih _ _ _
      · exact Run.eval_grows _ _ _ fun _ => Run.put_grows _ _ _ fun o => ih _ _ _
    · exact List.prefix_refl _

theorem copy_rest_grows (lines : List Str) (na : Nat) :
    ∀ (fuel cur counter : Nat) (out : List Str),
      out <+: (copy_rest lines na fuel cur counter out).out := by
  intro fuel
  induction fuel with
  | zero =>
    intro cur counter out
    unfold copy_rest
    split <;> exact List.prefix_refl _
  | succ k ih =>
    intro cur counter out
    rw [copy_rest]
    split
    · split
      · exact Run.eval_grows _ _ _ fun _ => Run.put_grows _ _ _ fun o => ih _ _ _
      · exact Run.put_grows _ _ _ fun o => ih _ _ _
    · exact List.prefix_refl _

/-- Once the header is written it stays: the output starts with the title and the
new atom count, whatever happens later. -/
theorem process_gro_header_out (mf : MathFns F) (tx : TextFns F) (lines : List Str)
    (wm : model F) (s na c nw nwa : Nat) (title : Str)
    (hsize : wm.size mf = .ok s) (hn5 : 5 ≤ lines.length) (hna : read_na lines = .ok na)
    (hn : na + 2 ≤ lines.length)
    (hcnt : count_loop lines na lines.length 2 0 0 = .ok (c, nw, nwa))
    (ht : line_at lines 0 = .ok title) :
    [title, to_string (na - nwa + nw * s)] <+: (process_gro mf tx lines wm).out := by
  rw [process_gro_body mf tx lines wm s na c nw nwa title hsize hn5 hna hn hcnt ht]
  exact Run.andThen_grows _ _ _ (emit_loop_grows _ _ _ _ _ _ _ _ _ _) fun o st =>
    Run.andThen_grows _ _ _ (copy_rest_grows _ _ _ _ _ _) fun o _ => List.prefix_refl _

/-- An exception of the emission loop ends `process_gro` with the output of that moment. -/
theorem process_gro_emit_error (mf : MathFns F) (tx : TextFns F) (lines : List Str)
    (wm : model F) (s na c nw nwa : Nat) (title : Str) (o : List Str) (e : Err)
    (hsize : wm.size mf = .ok s) (hn5 : 5 ≤ lines.length) (hna : read_na lines = .ok na)
    (hn : na + 2 ≤ lines.length)
    (hcnt : count_loop lines na lines.length 2 0 0 = .ok (c, nw, nwa))
    (ht : line_at lines 0 = .ok title)
    (he : emit_loop mf tx lines wm s na lines.length 2 1
      [title, to_string (na - nwa + nw * s)] = ⟨o, .error e⟩) :
    process_gro mf tx lines wm = ⟨o, .error e⟩ := by
  rw [process_gro_body mf tx lines wm s na c nw nwa title hsize hn5 hna hn hcnt ht, he]
  rfl

/-- An exception of the final loop ends `process_gro` with the output of that moment. -/
theorem process_gro_rest_error (mf : MathFns F) (tx : TextFns F) (lines : List Str)
    (wm : model F) (s na c nw nwa : Nat) (title : Str) (o1 o : List Str) (st : Nat × Nat)
    (e : Err)
    (hsize : wm.size mf = .ok s) (hn5 : 5 ≤ lines.length) (hna : read_na lines = .ok na)
    (hn : na + 2 ≤ lines.length)
    (hcnt : count_loop lines na lines.length 2 0 0 = .ok (c, nw, nwa))
    (ht : line_at lines 0 = .ok title)
    (he : emit_loop mf tx lines wm s na lines.length 2 1
      [title, to_string (na - nwa + nw * s)] = ⟨o1, .ok st⟩)
    (hr : copy_rest lines na lines.length st.1 st.2 o1 = ⟨o, .error e⟩) :
    process_gro mf tx lines wm = ⟨o, .error e⟩ := by
  rw [process_gro_body mf tx lines wm s na c nw nwa title hsize hn5 hna hn hcnt ht, he]
  simp only [Run.andThen, hr]

/-! ## What a successful call implies -/

/-- A call that returns normally passed the header validation and the counting pass,
and returns the `nw` of the counting pass. -/
theorem process_gro_ok_header (mf : MathFns F) (tx : TextFns F) (lines : List Str)
    (wm : model F) (m : Nat) (hrun : (process_gro mf tx lines wm).res = .ok m) :
    ∃ s na c nwa title, wm.size mf = .ok s ∧ 5 ≤ lines.length ∧ read_na lines = .ok na ∧
      na + 2 ≤ lines.length ∧ count_loop lines na lines.length 2 0 0 = .ok (c, m, nwa) ∧
      line_at lines 0 = .ok title := by
  cases hsize : wm.size mf with
  | error e =>
    unfold process_gro at hrun
    simp [hsize, Run.eval] at hrun
  | ok s =>
    by_cases hn5 : lines.length < 5
    · rw [process_gro_short mf tx lines wm s hsize hn5] at hrun; simp at hrun
    · cases hna : read_na lines with
      | error e =>
        rw [process_gro_bad_na mf tx lines wm s e hsize (by omega) hna] at hrun; simp at hrun
      | ok na =>
        by_cases hn : lines.length < na + 2
        · rw [process_gro_too_few mf tx lines wm s na _ hsize (by omega) hna
            (line_at_lt (by omega)) hn] at hrun
          simp at hrun
        · cases hcnt : count_loop lines na lines.length 2 0 0 with
          | error e =>
            rw [process_gro_count_error mf tx lines wm s na e hsize (by omega) hna (by omega)
              hcnt] at hrun
            simp at hrun
          | ok cnt =>
            obtain ⟨c, nw, nwa⟩ := cnt
            have ht := @line_at_lt lines 0 (by omega)
            rw [process_gro_body mf tx lines wm s na c nw nwa _ hsize (by omega) hna (by omega)
              hcnt ht] at hrun
            have hm : nw = m := by
              simp only [Run.andThen] at hrun
              split at hrun
              · simp at hrun
              · split at hrun
                · simp at hrun
                · simpa using hrun
            subst hm
            exact ⟨s, na, c, nwa, _, rfl, by omega, rfl, by omega, hcnt, ht⟩

/-- The counting pass stays inside the atom range and never counts more atoms
than the cursor has passed. -/
theorem count_loop_bounds (lines : List Str) (na : Nat) :
    ∀ (fuel cur nw nwa c nw1 nwa1 : Nat),
      count_loop lines na fuel cur nw nwa = .ok (c, nw1, nwa1) → cur ≤ na + 2 →
      c ≤ na + 2 ∧ cur ≤ c ∧ nwa1 + cur ≤ nwa + c := by
  intro fuel
  induction fuel with
  | zero =>
    intro cur nw nwa c nw1 nwa1 h hcur
    unfold count_loop at h
    split at h
    · simp at h
    · simp only [Except.ok.injEq, Prod.mk.injEq] at h
      obtain ⟨rfl, -, rfl⟩ := h
      omega
  | succ k ih =>
    intro cur nw nwa c nw1 nwa1 h hcur
    unfold count_loop at h
    split at h
    · next hlt =>
      simp only at h
      split at h
      · simp at h
      · split at h
        · simp at h
        · rw [count_skip_eq] at h
          split at h
          · simp at h
          · next c1 nwa2 hsk =>
            split at hsk
            · simp at hsk
            · next c2 hes =>
              simp only [Except.ok.injEq, Prod.mk.injEq] at hsk
              obtain ⟨rfl, rfl⟩ := hsk
              have hge := emit_skip_ge _ _ _ _ _ _ hes
              have hle := emit_skip_le _ _ _ _ _ _ hes (by omega)
              obtain ⟨h1, h2, h3⟩ := ih _ _ _ _ _ _ h hle
              omega
        · obtain ⟨h1, h2, h3⟩ := ih _ _ _ _ _ _ h (by omega)
          omega
    · simp only [Except.ok.injEq, Prod.mk.injEq] at h
      obtain ⟨rfl, -, rfl⟩ := h
      omega

theorem prefix_get_one {α : Type} (a b : α) (l : List α) (h : [a, b] <+: l) :
    l.get? 1 = some b := by
  obtain ⟨t, rfl⟩ := h
  rfl

/-- C2 (amended): in every successful call the count written on output line 2 is
`na - k - 3 W + W * model.size()`, where `W` is the number of water runs and `k` the
number of discarded extra-site lines found by the classifier of the specification; the
three atoms of each run are replaced too, so `3 W + k <= na` atoms leave and
`W * model.size()` arrive.  The returned number is `W`. -/
theorem process_gro_count_formula (mf : MathFns F) (tx : TextFns F) (lines : List Str)
    (wm : model F) (s m : Nat) (hsize : wm.size mf = .ok s)
    (hrun : (process_gro mf tx lines wm).res = .ok m) :
    ∃ na, read_na lines = .ok na ∧
      3 * water_count lines na + discarded_count lines na ≤ na ∧
      m = water_count lines na ∧
      (process_gro mf tx lines wm).out.get? 1 = some (to_string
        (na - discarded_count lines na - 3 * water_count lines na
          + water_count lines na * s)) := by
  obtain ⟨s', na, c, nwa, title, hsize', hn5, hna, hn, hcnt, ht⟩ :=
    process_gro_ok_header mf tx lines wm m hrun
  rw [hsize] at hsize'
  simp only [Except.ok.injEq] at hsize'
  subst hsize'
  obtain ⟨hW, hK⟩ := count_loop_spec lines na _ _ _ _ _ _ _ hcnt
  obtain ⟨hb1, hb2, hb3⟩ := count_loop_bounds lines na _ _ _ _ _ _ _ hcnt (by omega)
  have hpre := process_gro_header_out mf tx lines wm s na c m nwa title hsize hn5 hna hn hcnt ht
  simp only [zero_add] at hW hK
  refine ⟨na, hna, ?_, hW, ?_⟩
  · unfold water_count discarded_count; omega
  · rw [prefix_get_one _ _ _ hpre]
    unfold water_count discarded_count
    rw [← hW]
    congr 3
    omega

/-! ## Claims about the idealiser's failures and the header -/

/-- C5: on an initialised model `model::transform` throws "bad input water structure"
exactly when the raw O-H1 or O-H2 length is below `1e-4`, or the length of the sum of
the two unit O-H vectors is below `1e-4` or above `1.9999`; it throws nothing else, and
when it throws the nine coordinate arguments are as they were passed in. -/
theorem transform_error_iff (mf : MathFns F) (wm : model F) (c : Coords F)
    (hinit : wm.is_initialised = true) :
    ((wm.transform mf c).2 = .error (.runtime_error "bad input water structure".toList) ↔
      (len_OH1 mf c < 1.0e-4 ∨ len_OH2 mf c < 1.0e-4 ∨ len_a mf c < 1.0e-4
        ∨ len_a mf c > 1.9999)) ∧
    (∀ e, (wm.transform mf c).2 = .error e →
      e = .runtime_error "bad input water structure".toList ∧ (wm.transform mf c).1 = c) := by
  by_cases hs : short_bond mf c
  · rw [transform_short mf wm c hinit hs]
    refine ⟨⟨fun _ => ?_, fun _ => rfl⟩, fun e he => ⟨?_, rfl⟩⟩
    · rcases hs with h | h
      · exact Or.inl h
      · exact Or.inr (Or.inl h)
    · simp only [Except.error.injEq] at he; exact he.symm
  · by_cases hc : collinear mf c
    · rw [transform_collinear mf wm c hinit hs hc]
      refine ⟨⟨fun _ => ?_, fun _ => rfl⟩, fun e he => ⟨?_, rfl⟩⟩
      · rcases hc with h | h
        · exact Or.inr (Or.inr (Or.inl h))
        · exact Or.inr (Or.inr (Or.inr h))
      · simp only [Except.error.injEq] at he; exact he.symm
    · obtain ⟨-, h2⟩ := transform_good mf wm c hinit hs hc
      rw [h2]
      refine ⟨⟨fun h => by simp at h, fun h => ?_⟩, fun e he => by simp at he⟩
      rcases h with h | h | h | h
      · exact absurd (Or.inl h) hs
      · exact absurd (Or.inr h) hs
      · exact absurd (Or.inl h) hc
      · exact absurd (Or.inr h) hc

/-- Header validation, the count line: with an initialised model and at least 5 lines, a
second line on which `std::stol` finds no integer, or finds a negative one that fits a
`long`, makes `process_gro` throw the format error "file format error (atom count)" (so
`what()` contains "atom count") before anything is written. -/
theorem bad_atom_count_rejected (mf : MathFns F) (tx : TextFns F) (lines : List Str)
    (wm : model F) (l1 : Str) (hinit : wm.is_initialised = true) (hn5 : 5 ≤ lines.length)
    (h1 : line_at lines 1 = .ok l1)
    (hbad : stol l1 = .invalid_argument ∨ ∃ v, stol l1 = .value v ∧ v < 0) :
    process_gro mf tx lines wm
      = ⟨[], .error (.gro_error "file format error (atom count)".toList l1)⟩ ∧
    "atom count".toList <:+: gro_what "file format error (atom count)".toList l1 := by
  obtain ⟨s, hsize, -, -⟩ := size_ok_of_init mf wm hinit
  have hna : read_na lines
      = .error (.gro_error "file format error (atom count)".toList l1) := by
    rw [read_na_eq lines l1 h1]
    rcases hbad with h | ⟨v, h, hv⟩
    · rw [h]
    · rw [h]; simp only [if_pos hv]
  refine ⟨process_gro_bad_na mf tx lines wm s _ hsize hn5 hna, ?_⟩
  exact gro_what_contains _ _ _ ⟨"file format error (".toList, ")".toList, rfl⟩

/-- Header validation, the number of lines: with an initialised model, a declared atom
count `na` (a non-negative value `std::stol` reads from line 2) with
`lines.size() < na + 2` makes `process_gro` throw a `gro_error` before anything is
written; and every call either stops in the header validation, with nothing written, or
has `lines.size() >= 5` and `lines.size() >= na + 2`. -/
theorem atom_count_checked (mf : MathFns F) (tx : TextFns F) (lines : List Str)
    (wm : model F) (hinit : wm.is_initialised = true) :
    (∀ l1 v, line_at lines 1 = .ok l1 → stol l1 = .value v → 0 ≤ v →
      lines.length < v.toNat + 2 →
      ∃ msg line, process_gro mf tx lines wm = ⟨[], .error (.gro_error msg line)⟩) ∧
    ((5 ≤ lines.length ∧ ∃ na, read_na lines = .ok na ∧ na + 2 ≤ lines.length) ∨
      ((process_gro mf tx lines wm).out = [] ∧
        ∃ e, (process_gro mf tx lines wm).res = .error e ∧ header_error e)) := by
  obtain ⟨s, hsize, -, -⟩ := size_ok_of_init mf wm hinit
  constructor
  · intro l1 v h1 hv h0 hlt
    by_cases hn5 : lines.length < 5
    · exact ⟨_, _, process_gro_short mf tx lines wm s hsize hn5⟩
    · have hna : read_na lines = .ok v.toNat := by
        rw [read_na_eq lines l1 h1, hv]
        simp only [if_neg (not_lt.mpr h0)]
      exact ⟨_, _, process_gro_too_few mf tx lines wm s _ l1 hsize (by omega) hna h1 hlt⟩
  · by_cases hn5 : lines.length < 5
    · right
      rw [process_gro_short mf tx lines wm s hsize hn5]
      exact ⟨rfl, _, rfl, Or.inl rfl⟩
    · have h1 := @line_at_lt lines 1 (by omega)
      cases hna : read_na lines with
      | error e =>
        right
        rw [process_gro_bad_na mf tx lines wm s e hsize (by omega) hna]
        refine ⟨rfl, e, rfl, ?_⟩
        rw [read_na_eq lines _ h1] at hna
        split at hna
        · simp only [Except.error.injEq] at hna; rw [← hna]; rfl
        · simp only [Except.error.injEq] at hna; rw [← hna]; exact Or.inr (Or.inl rfl)
        · split at hna
          · simp only [Except.error.injEq] at hna; rw [← hna]; exact Or.inr (Or.inl rfl)
          · simp at hna
      | ok na =>
        by_cases hn : lines.length < na + 2
        · right
          rw [process_gro_too_few mf tx lines wm s na _ hsize (by omega) hna h1 hn]
          exact ⟨rfl, _, rfl, Or.inr (Or.inr ⟨na, rfl⟩)⟩
        · left
          exact ⟨by omega, na, rfl, by omega⟩

/-! ## Short lines and lone oxygens in the emission pass -/

theorem coordinates_short (tx : TextFns F) (l : Str) (h : l.length < 44) :
    coordinates tx l = .error (.gro_error "file format error (coordinates)".toList l) := by
  unfold coordinates
  rw [if_pos h]

theorem update_line_short (l : Str) (c : Nat) (h : l.length < 44) :
    update_line l c = .error (.gro_error "file format error (atom)".toList l) := by
  unfold update_line
  rw [if_pos h]

/-- A water step stops at the first of its three lines that is shorter than 44
characters, before writing anything. -/
theorem emit_water_short (mf : MathFns F) (tx : TextFns F) (lines : List Str) (wm : model F)
    (model_size na cur counter : Nat) (out : List Str) (j : Nat) (l : Str) (hj : j < 3)
    (hl : line_at lines (cur + j) = .ok l) (hshort : l.length < 44)
    (hbefore : ∀ i, i < j → ∃ li p, line_at lines (cur + i) = .ok li ∧ coordinates tx li = .ok p) :
    emit_water mf tx lines wm model_size na cur counter out
      = ⟨out, .error (.gro_error "file format error (coordinates)".toList l)⟩ := by
  unfold emit_water
  have hj' : j = 0 ∨ j = 1 ∨ j = 2 := by omega
  rcases hj' with rfl | rfl | rfl
  · simp only [Nat.add_zero] at hl
    simp only [hl, coordinates_short tx l hshort, Run.eval]
  · obtain ⟨l0, p0, h0, hp0⟩ := hbefore 0 (by omega)
    simp only [Nat.add_zero] at h0
    simp only [h0, hp0, hl, coordinates_short tx l hshort, Run.eval]
  · obtain ⟨l0, p0, h0, hp0⟩ := hbefore 0 (by omega)
    obtain ⟨l1, p1, h1, hp1⟩ := hbefore 1 (by omega)
    simp only [Nat.add_zero] at h0
    simp only [h0, hp0, h1, hp1, hl, coordinates_short tx l hshort, Run.eval]

/-- C7 (amended): after an accepted header and a successful counting pass, when
`process_gro` comes to make a record from an atom line shorter than 44 characters, it
throws a format error and its output is the output of that moment, so nothing is
written for that atom or after it.  The message contains "coordinates" when the line is
one of the three lines of a water run (the earlier lines of the run having readable
coordinates); it is "file format error (atom)" when the line is an ordinary atom, in
the scan loop (state `fuel + 1, cur, counter, out` of the emission loop) or among the
trailing atom lines (same state of the final loop).  The extra-site lines discarded
after a water run are outside this statement: no record is made from them. -/
theorem short_line_stops_emission (mf : MathFns F) (tx : TextFns F) (lines : List Str)
    (wm : model F) (s na c nw nwa : Nat) (title : Str)
    (hsize : wm.size mf = .ok s) (hn5 : 5 ≤ lines.length) (hna : read_na lines = .ok na)
    (hn : na + 2 ≤ lines.length)
    (hcnt : count_loop lines na lines.length 2 0 0 = .ok (c, nw, nwa))
    (ht : line_at lines 0 = .ok title) :
    (∀ (fuel cur counter : Nat) (out : List Str) (an : Str),
      emit_loop mf tx lines wm s na lines.length 2 1 [title, to_string (na - nwa + nw * s)]
        = emit_loop mf tx lines wm s na (fuel + 1) cur counter out →
      cur < na → tag lines cur = .ok an →
      (is_water lines cur an = .ok true →
        ∀ j l, j < 3 → line_at lines (cur + j) = .ok l → l.length < 44 →
          (∀ i, i < j →
            ∃ li p, line_at lines (cur + i) = .ok li ∧ coordinates tx li = .ok p) →
          process_gro mf tx lines wm
            = ⟨out, .error (.gro_error "file format error (coordinates)".toList l)⟩ ∧
          "coordinates".toList <:+: gro_what "file format error (coordinates)".toList l) ∧
      (is_water lines cur an = .ok false →
        ∀ l, line_at lines cur = .ok l → l.length < 44 →
          process_gro mf tx lines wm
            = ⟨out, .error (.gro_error "file format error (atom)".toList l)⟩)) ∧
    (∀ (o1 : List Str) (st : Nat × Nat) (fuel cur counter : Nat) (out : List Str) (l : Str),
      emit_loop mf tx lines wm s na lines.length 2 1 [title, to_string (na - nwa + nw * s)]
        = ⟨o1, .ok st⟩ →
      copy_rest lines na lines.length st.1 st.2 o1
        = copy_rest lines na (fuel + 1) cur counter out →
      cur < lines.length → cur < na + 2 → line_at lines cur = .ok l → l.length < 44 →
      process_gro mf tx lines wm
        = ⟨out, .error (.gro_error "file format error (atom)".toList l)⟩) := by
  refine ⟨fun fuel cur counter out an hreach hcur htag => ⟨?_, ?_⟩, ?_⟩
  · intro hw j l hj hl hshort hbefore
    refine ⟨?_, gro_what_contains _ _ _ ⟨"file format error (".toList, ")".toList, rfl⟩⟩
    apply process_gro_emit_error mf tx lines wm s na c nw nwa title _ _ hsize hn5 hna hn hcnt ht
    rw [hreach, emit_loop, if_pos hcur]
    simp only [htag, hw, Run.eval, if_true,
      emit_water_short mf tx lines wm s na cur counter out j l hj hl hshort hbefore,
      Run.andThen]
  · intro hw l hl hshort
    apply process_gro_emit_error mf tx lines wm s na c nw nwa title _ _ hsize hn5 hna hn hcnt ht
    rw [hreach, emit_loop, if_pos hcur]
    simp only [htag, hw, hl, update_line_short l counter hshort, Run.eval, Run.put,
      Bool.false_eq_true, if_false]
  · intro o1 st fuel cur counter out l hel hreach hcur hatom hl hshort
    apply process_gro_rest_error mf tx lines wm s na c nw nwa title o1 _ st _ hsize hn5 hna hn
      hcnt ht hel
    rw [hreach, copy_rest, if_pos hcur]
    simp only [if_pos hatom, hl, update_line_short l counter hshort, Run.eval, Run.put]

theorem fmt_5ld_length (c : Nat) : (fmt_5ld c).length = 5 := by
  unfold fmt_5ld pad_left
  rw [List.length_take, List.length_append, List.length_replicate]
  omega

theorem fmt_5ld_small (c : Nat) (h : c ≤ 99999) :
    fmt_5ld c = pad_left 5 (to_string c) := by
  have hlen : (Nat.toDigits 10 c).length ≤ 5 :=
    Nat.toDigitsCore_length 10 (by norm_num) (c + 1) c 5 (by omega) (by norm_num)
  have hmod : c % 2 ^ 64 = c := Nat.mod_eq_of_lt (by omega)
  have htext : ld_text c = Nat.toDigits 10 c := by
    unfold ld_text
    rw [hmod, if_pos (by omega)]
  unfold fmt_5ld to_string pad_left
  rw [htext]
  rw [List.take_of_length_le]
  rw [List.length_append, List.length_replicate]
  omega

/-- The water test on an OW line is negative when the tags it reads are readable and the
next two lines are not both tagged HW. -/
theorem is_water_lone (lines : List Str) (i : Nat)
    (hnext : (∃ t1, tag lines (i + 1) = .ok t1 ∧ t1 ≠ "HW".toList) ∨
      (tag lines (i + 1) = .ok "HW".toList ∧
        ∃ t2, tag lines (i + 2) = .ok t2 ∧ t2 ≠ "HW".toList)) :
    is_water lines i "OW".toList = .ok false := by
  unfold is_water
  rw [if_pos rfl]
  rcases hnext with ⟨t1, h1, hne⟩ | ⟨h1, t2, h2, hne⟩
  · simp only [h1, if_neg hne]
  · simp only [h1, h2, if_true, decide_eq_false hne]

/-- C10 (amended): when the scan cursor stands on an OW-tagged line of at least 44
characters whose next two lines are not both HW-tagged, the tags being readable as far
as the water test reads them (line `cur+1` has a tag other than HW, or it is tagged HW
and line `cur+2` has a tag other than HW), the loop writes exactly one record for it and
goes on with the next line and the counter advanced by 1.  The record is 44 characters
long: columns 1-15 (residue and atom name) and 21-44 (coordinates) are those of the
input line, anything after column 44 is dropped, and columns 16-20 hold the counter as
`%5ld` prints it in five characters (right-justified decimal for counters up to 99999).
No extra-site record is written. -/
theorem lone_OW_renumbered (mf : MathFns F) (tx : TextFns F) (lines : List Str) (wm : model F)
    (model_size na fuel cur counter : Nat) (out : List Str) (l : Str)
    (hcur : cur < na) (htag : tag lines cur = .ok "OW".toList)
    (hnext : (∃ t1, tag lines (cur + 1) = .ok t1 ∧ t1 ≠ "HW".toList) ∨
      (tag lines (cur + 1) = .ok "HW".toList ∧
        ∃ t2, tag lines (cur + 2) = .ok t2 ∧ t2 ≠ "HW".toList))
    (hl : line_at lines cur = .ok l) (h44 : 44 ≤ l.length) :
    ∃ r : Str,
      emit_loop mf tx lines wm model_size na (fuel + 1) cur counter out
        = emit_loop mf tx lines wm model_size na fuel (cur + 1) (counter + 1) (out ++ [r]) ∧
      r.length = 44 ∧ r.take 15 = l.take 15 ∧ (r.drop 15).take 5 = fmt_5ld counter ∧
      r.drop 20 = (l.drop 20).take 24 ∧
      (counter ≤ 99999 → (r.drop 15).take 5 = pad_left 5 (to_string counter)) := by
  have hnot := is_water_lone lines cur hnext
  have h5 := fmt_5ld_length counter
  have h15 : (List.take 15 l).length = 15 := by rw [List.length_take]; omega
  refine ⟨substr l 0 15 ++ fmt_5ld counter ++ substr l 20 24,
    emit_loop_ordinary mf tx lines wm model_size na fuel cur counter out _ l _ hcur htag hnot hl
      (update_line_ok l counter h44), ?_, ?_, ?_, ?_, ?_⟩
  · simp only [substr, List.length_append, List.length_take, List.length_drop, h5]
    omega
  · simp only [substr, List.drop_zero, List.append_assoc]
    rw [List.take_append_of_le_length (by omega), List.take_take]
    simp
  · simp only [substr, List.drop_zero, List.append_assoc]
    rw [List.drop_append_of_le_length (by omega), List.drop_of_length_le (by omega),
      List.nil_append, List.take_append_of_le_length (by omega), List.take_of_length_le (by omega)]
  · simp only [substr, List.drop_zero]
    have : (List.take 15 l ++ fmt_5ld counter).length = 20 := by
      rw [List.length_append, h15, h5]
    rw [← this, List.drop_left]
  · intro hc
    simp only [substr, List.drop_zero, List.append_assoc]
    rw [List.drop_append_of_le_length (by omega), List.drop_of_length_le (by omega),
      List.nil_append, List.take_append_of_le_length (by omega), List.take_of_length_le (by omega),
      fmt_5ld_small counter hc]

/-! ## The fuel of the loops is never exhausted -/

theorem Run.eval_no_fuel {α β : Type} (out : List Str) (r : Except Err β) (k : β → Run α)
    (hr : r ≠ .error .fuel) (hk : ∀ b, r = .ok b → (k b).res ≠ .error .fuel) :
    (Run.eval out r k).res ≠ .error .fuel := by
  cases r with
  | error e =>
    intro hh
    simp only [Run.eval, Except.error.injEq] at hh
    exact hr (by rw [hh])
  | ok b => exact hk b rfl

theorem Run.put_no_fuel {α : Type} (out : List Str) (r : Except Err Str) (k : List Str → Run α)
    (hr : r ≠ .error .fuel) (hk : ∀ o, (k o).res ≠ .error .fuel) :
    (Run.put out r k).res ≠ .error .fuel := by
  cases r with
  | error e =>
    intro hh
    simp only [Run.put, Except.error.injEq] at hh
    exact hr (by rw [hh])
  | ok l => exact hk _

theorem Run.andThen_no_fuel {α β : Type} (r : Run α) (k : List Str → α → Run β)
    (hr : r.res ≠ .error .fuel) (hk : ∀ o a, r = ⟨o, .ok a⟩ → (k o a).res ≠ .error .fuel) :
    (Run.andThen r k).res ≠ .error .fuel := by
  obtain ⟨ro, rr⟩ := r
  cases rr with
  | error e =>
    intro hh
    simp only [Run.andThen, Except.error.injEq] at hh
    exact hr (by rw [hh])
  | ok a => exact hk _ _ rfl

theorem line_at_no_fuel (lines : List Str) (i : Nat) : line_at lines i ≠ .error .fuel := by
  unfold line_at; split <;> simp

theorem atom_name_no_fuel (l : Str) : atom_name l ≠ .error .fuel := by
  unfold atom_name; split <;> simp

theorem tag_no_fuel (lines : List Str) (i : Nat) : tag lines i ≠ .error .fuel := by
  unfold tag
  split
  · next e h => intro hh; simp only [Except.error.injEq] at hh; subst hh
                exact line_at_no_fuel lines i h
  · split
    · next e h => intro hh; simp only [Except.error.injEq] at hh; subst hh
                  exact atom_name_no_fuel _ h
    · simp

theorem is_water_no_fuel (lines : List Str) (i : Nat) (an : Str) :
    is_water lines i an ≠ .error .fuel := by
  unfold is_water
  split
  · split
    · next e h => intro hh; simp only [Except.error.injEq] at hh; subst hh
                  exact tag_no_fuel lines _ h
    · split
      · split
        · next e h => intro hh; simp only [Except.error.injEq] at hh; subst hh
                      exact tag_no_fuel lines _ h
        · simp
      · simp
  · simp

theorem update_line_no_fuel (l : Str) (c : Nat) : update_line l c ≠ .error .fuel := by
  unfold update_line; split <;> simp

theorem extras_at_no_fuel (extras : List F) (i : Nat) : extras_at extras i ≠ .error .fuel := by
  unfold extras_at; split <;> simp

theorem update_line_xyz_no_fuel (tx : TextFns F) (l : Str) (c : Nat) (x y z : F) :
    update_line_xyz tx l c x y z ≠ .error .fuel := by
  unfold update_line_xyz
  split
  · next e h => intro hh; simp only [Except.error.injEq] at hh; subst hh
                exact update_line_no_fuel _ _ h
  · simp

theorem update_line_name_no_fuel (tx : TextFns F) (l nm : Str) (c : Nat) (x y z : F) :
    update_line_name tx l nm c x y z ≠ .error .fuel := by
  unfold update_line_name
  split
  · next e h => intro hh; simp only [Except.error.injEq] at hh; subst hh
                exact update_line_xyz_no_fuel _ _ _ _ _ _ h
  · simp

theorem coordinate_no_fuel (tx : TextFns F) (l : Str) (pos : Nat) :
    coordinate tx l pos ≠ .error .fuel := by
  unfold coordinate; split <;> simp

theorem coordinates_no_fuel (tx : TextFns F) (l : Str) : coordinates tx l ≠ .error .fuel := by
  unfold coordinates
  split
  · simp
  · split
    · next e h => intro hh; simp only [Except.error.injEq] at hh; subst hh
                  exact coordinate_no_fuel _ _ _ h
    · split
      · next e h => intro hh; simp only [Except.error.injEq] at hh; subst hh
                    exact coordinate_no_fuel _ _ _ h
      · split
        · next e h => intro hh; simp only [Except.error.injEq] at hh; subst hh
                      exact coordinate_no_fuel _ _ _ h
        · simp

theorem transform_no_fuel (mf : MathFns F) (wm : model F) (c : Coords F) :
    (wm.transform mf c).2 ≠ .error .fuel := by
  cases hi : wm.is_initialised with
  | false => rw [transform_uninit mf wm c hi]; simp
  | true =>
    by_cases hs : short_bond mf c
    · rw [transform_short mf wm c hi hs]; simp
    · by_cases hc : collinear mf c
      · rw [transform_collinear mf wm c hi hs hc]; simp
      · rw [(transform_good mf wm c hi hs hc).2]; simp

/-- The skip loop has fuel for every line up to `na + 2`. -/
theorem emit_skip_no_fuel (lines : List Str) (na : Nat) :
    ∀ (fuel cur : Nat) (an : Str), na + 2 ≤ fuel + cur →
      emit_skip lines na fuel cur an ≠ .error .fuel := by
  intro fuel
  induction fuel with
  | zero =>
    intro cur an h
    unfold emit_skip
    split
    · next hc => omega
    · simp
  | succ k ih =>
    intro cur an h
    rw [emit_skip]
    split
    · split
      · next e ht => intro hh; simp only [Except.error.injEq] at hh; subst hh
                     exact tag_no_fuel _ _ ht
      · exact ih _ _ (by omega)
    · simp

theorem count_skip_no_fuel (lines : List Str) (na fuel cur : Nat) (an : Str) (nwa : Nat)
    (h : na + 2 ≤ fuel + cur) : count_skip lines na fuel cur an nwa ≠ .error .fuel := by
  rw [count_skip_eq]
  split
  · next e he => intro hh; simp only [Except.error.injEq] at hh; subst hh
                 exact emit_skip_no_fuel lines na fuel cur an h he
  · simp

/-- The counting pass has fuel for every cursor position below `na`. -/
theorem count_loop_no_fuel (lines : List Str) (na : Nat) :
    ∀ (fuel cur nw nwa : Nat), na ≤ fuel + cur →
      count_loop lines na fuel cur nw nwa ≠ .error .fuel := by
  intro fuel
  induction fuel with
  | zero =>
    intro cur nw nwa h
    unfold count_loop
    split
    · omega
    · simp
  | succ k ih =>
    intro cur nw nwa h
    rw [count_loop]
    split
    · split
      · next e ht => intro hh; simp only [Except.error.injEq] at hh; subst hh
                     exact tag_no_fuel _ _ ht
      · split
        · next e hw => intro hh; simp only [Except.error.injEq] at hh; subst hh
                       exact is_water_no_fuel _ _ _ hw
        · split
          · next e hs => intro hh; simp only [Except.error.injEq] at hh; subst hh
                         exact count_skip_no_fuel lines na _ _ _ _ (by omega) hs
          · next c1 nwa1 hs =>
            rw [count_skip_eq] at hs
            split at hs
            · simp at hs
            · next c2 hes =>
              simp only [Except.ok.injEq, Prod.mk.injEq] at hs
              have := emit_skip_ge _ _ _ _ _ _ hes
              exact ih _ _ _ (by omega)
        · exact ih _ _ _ (by omega)
    · simp

theorem emit_M_no_fuel (tx : TextFns F) (l2 : Str) (model_size counter : Nat) (extras : List F)
    (out : List Str) : (emit_M tx l2 model_size counter extras out).res ≠ .error .fuel := by
  unfold emit_M
  split
  · refine Run.eval_no_fuel _ _ _ (extras_at_no_fuel _ _) fun _ _ =>
      Run.eval_no_fuel _ _ _ (extras_at_no_fuel _ _) fun _ _ =>
      Run.eval_no_fuel _ _ _ (extras_at_no_fuel _ _) fun _ _ =>
      Run.put_no_fuel _ _ _ (update_line_name_no_fuel _ _ _ _ _ _ _) fun _ => by simp
  · simp

theorem emit_LP_no_fuel (tx : TextFns F) (l2 : Str) (model_size counter : Nat) (extras : List F)
    (out : List Str) : (emit_LP tx l2 model_size counter extras out).res ≠ .error .fuel := by
  unfold emit_LP
  split
  · refine Run.eval_no_fuel _ _ _ (extras_at_no_fuel _ _) fun _ _ =>
      Run.eval_no_fuel _ _ _ (extras_at_no_fuel _ _) fun _ _ =>
      Run.eval_no_fuel _ _ _ (extras_at_no_fuel _ _) fun _ _ =>
      Run.put_no_fuel _ _ _ (update_line_name_no_fuel _ _ _ _ _ _ _) fun _ =>
      Run.eval_no_fuel _ _ _ (extras_at_no_fuel _ _) fun _ _ =>
      Run.eval_no_fuel _ _ _ (extras_at_no_fuel _ _) fun _ _ =>
      Run.eval_no_fuel _ _ _ (extras_at_no_fuel _ _) fun _ _ =>
      Run.put_no_fuel _ _ _ (update_line_name_no_fuel _ _ _ _ _ _ _) fun _ => by simp
  · simp

theorem emit_water_no_fuel (mf : MathFns F) (tx : TextFns F) (lines : List Str) (wm : model F)
    (model_size na cur counter : Nat) (out : List Str) :
    (emit_water mf tx lines wm model_size na cur counter out).res ≠ .error .fuel := by
  unfold emit_water
  refine Run.eval_no_fuel _ _ _ (line_at_no_fuel _ _) fun _ _ =>
    Run.eval_no_fuel _ _ _ (coordinates_no_fuel _ _) fun _ _ =>
    Run.eval_no_fuel _ _ _ (line_at_no_fuel _ _) fun _ _ =>
    Run.eval_no_fuel _ _ _ (coordinates_no_fuel _ _) fun _ _ =>
    Run.eval_no_fuel _ _ _ (line_at_no_fuel _ _) fun _ _ =>
    Run.eval_no_fuel _ _ _ (coordinates_no_fuel _ _) fun _ _ =>
    Run.eval_no_fuel _ _ _ (transform_no_fuel _ _ _) fun _ _ =>
    Run.put_no_fuel _ _ _ (update_line_xyz_no_fuel _ _ _ _ _ _) fun _ =>
    Run.put_no_fuel _ _ _ (update_line_xyz_no_fuel _ _ _ _ _ _) fun _ =>
    Run.put_no_fuel _ _ _ (update_line_xyz_no_fuel _ _ _ _ _ _) fun _ =>
    Run.andThen_no_fuel _ _ (emit_M_no_fuel _ _ _ _ _ _) fun _ _ _ =>
    Run.andThen_no_fuel _ _ (emit_LP_no_fuel _ _ _ _ _ _) fun _ _ _ =>
    Run.eval_no_fuel _ _ _ (emit_skip_no_fuel _ _ _ _ _ (by omega)) fun _ _ => by simp

/-- The emission loop has fuel for every cursor position below `na`. -/
theorem emit_loop_no_fuel (mf : MathFns F) (tx : TextFns F) (lines : List Str) (wm : model F)
    (model_size na : Nat) :
    ∀ (fuel cur counter : Nat) (out : List Str), na ≤ fuel + cur →
      (emit_loop mf tx lines wm model_size na fuel cur counter out).res ≠ .error .fuel := by
  intro fuel
  induction fuel with
  | zero =>
    intro cur counter out h
    unfold emit_loop
    split
    · omega
    · simp
  | succ k ih =>
    intro cur counter out h
    rw [emit_loop]
    split
    · next hcur =>
      refine Run.eval_no_fuel _ _ _ (tag_no_fuel _ _) fun an _ =>
        Run.eval_no_fuel _ _ _ (is_water_no_fuel _ _ _) fun w _ => ?_
      split
      · refine Run.andThen_no_fuel _ _ (emit_water_no_fuel _ _ _ _ _ _ _ _ _) ?_
        intro o st hst
        obtain ⟨hsk, -, -⟩ := emit_water_ok mf tx lines wm model_size na cur counter out o
          st.1 st.2 hst
        have := emit_skip_ge _ _ _ _ _ _ hsk
        exact ih _ _ _ (by omega)
      · exact Run.eval_no_fuel _ _ _ (line_at_no_fuel _ _) fun _ _ =>
          Run.put_no_fuel _ _ _ (update_line_no_fuel _ _) fun _ => ih _ _ _ (by omega)
    · simp

/-- The final loop has fuel for every remaining line. -/
theorem copy_rest_no_fuel (lines : List Str) (na : Nat) :
    ∀ (fuel cur counter : Nat) (out : List Str), lines.length ≤ fuel + cur →
      (copy_rest lines na fuel cur counter out).res ≠ .error .fuel := by
  intro fuel
  induction fuel with
  | zero =>
    intro cur counter out h
    unfold copy_rest
    split
    · omega
    · simp
  | succ k ih =>
    intro cur counter out h
    rw [copy_rest]
    split
    · split
      · exact Run.eval_no_fuel _ _ _ (line_at_no_fuel _ _) fun _ _ =>
          Run.put_no_fuel _ _ _ (update_line_no_fuel _ _) fun _ => ih _ _ _ (by omega)
      · exact Run.put_no_fuel _ _ _ (line_at_no_fuel _ _) fun _ => ih _ _ _ (by omega)
    · simp

theorem size_no_fuel (mf : MathFns F) (wm : model F) : wm.size mf ≠ .error .fuel := by
  unfold model.size model.check
  cases wm.is_initialised <;> simp

theorem read_na_no_fuel (lines : List Str) : read_na lines ≠ .error .fuel := by
  cases h1 : line_at lines 1 with
  | error e =>
    unfold read_na
    rw [h1]
    intro hh
    simp only [Except.error.injEq] at hh
    subst hh
    exact line_at_no_fuel _ _ h1
  | ok l1 =>
    rw [read_na_eq lines l1 h1]
    split
    · simp
    · simp
    · split <;> simp

/-- Totality of `process_gro`: the fuel given to its loops always suffices, so every call
ends with a result or with one of the exceptions of the program. -/
theorem process_gro_no_fuel (mf : MathFns F) (tx : TextFns F) (lines : List Str)
    (wm : model F) : (process_gro mf tx lines wm).res ≠ .error .fuel := by
  unfold process_gro
  refine Run.eval_no_fuel _ _ _ (size_no_fuel _ _) fun s _ => ?_
  simp only
  split
  · simp
  · refine Run.eval_no_fuel _ _ _ (read_na_no_fuel _) fun na _ => ?_
    split
    · exact Run.eval_no_fuel _ _ _ (line_at_no_fuel _ _) fun _ _ => by simp
    · next hn =>
      refine Run.eval_no_fuel _ _ _ (count_loop_no_fuel _ _ _ _ _ _ (by omega)) fun cnt _ => ?_
      refine Run.put_no_fuel _ _ _ (line_at_no_fuel _ _) fun _ =>
        Run.put_no_fuel _ _ _ (by simp) fun _ =>
        Run.andThen_no_fuel _ _ (emit_loop_no_fuel _ _ _ _ _ _ _ _ _ _ (by omega)) fun o st _ =>
        Run.andThen_no_fuel _ _ (copy_rest_no_fuel _ _ _ _ _ _ (by omega)) fun _ _ _ => by simp

/-! ## The number of extra-site coordinates -/

/-- The size of the model and the number of coordinates a successful `transform`
returns. -/
theorem sites_length (mf : MathFns F) (wm : model F) (c : Coords F) (sites : List F)
    (hok : (wm.transform mf c).2 = .ok sites) :
    ∃ s, wm.size mf = .ok s ∧ sites.length = 3 * (s - 3) ∧ 3 ≤ s ∧ s ≤ 6 ∧
      (s = 4 ↔ (mf.fabs wm.parameters.rOM > 1.0e-4 ∧ ¬ mf.fabs wm.parameters.rOL > 1.0e-4)) ∧
      (s = 5 ↔ (¬ mf.fabs wm.parameters.rOM > 1.0e-4 ∧ mf.fabs wm.parameters.rOL > 1.0e-4)) := by
  obtain ⟨hinit, hs, hc⟩ := transform_ok_cases _ _ _ _ hok
  have hs' := (transform_good mf wm c hinit hs hc).2
  rw [hs'] at hok
  have hsites := (Except.ok.inj hok).symm
  unfold model.size model.check
  simp only [hinit, Bool.not_true, Bool.false_eq_true, if_false]
  rw [hsites]
  unfold sites_M sites_LP
  by_cases hM : mf.fabs wm.parameters.rOM > 1.0e-4 <;>
    by_cases hL : mf.fabs wm.parameters.rOL > 1.0e-4 <;>
    simp only [hM, hL, if_true, if_false] <;>
    exact ⟨_, rfl, by simp, by omega, by omega, by simp, by simp⟩

theorem extras_at_lt (extras : List F) (i : Nat) (h : i < extras.length) :
    ∃ v, extras_at extras i = .ok v := by
  unfold extras_at
  rw [List.get?_eq_getElem?, List.getElem?_eq_getElem h]
  exact ⟨_, rfl⟩

theorem update_line_xyz_error (tx : TextFns F) (l : Str) (c : Nat) (x y z : F) (e : Err)
    (h : update_line_xyz tx l c x y z = .error e) :
    e = .gro_error "file format error (atom)".toList l := by
  unfold update_line_xyz update_line at h
  split at h
  · next e' he =>
    split at he
    · simp only [Except.error.injEq] at he h
      rw [← h, ← he]
    · simp at he
  · simp at h

theorem update_line_name_error (tx : TextFns F) (l nm : Str) (c : Nat) (x y z : F) (e : Err)
    (h : update_line_name tx l nm c x y z = .error e) :
    e = .gro_error "file format error (atom)".toList l := by
  unfold update_line_name at h
  split at h
  · next e' he =>
    simp only [Except.error.injEq] at h
    rw [← h]
    exact update_line_xyz_error tx l c x y z e' he
  · simp at h

/-- With at least three coordinates the M-site block reads no element out of bounds. -/
theorem emit_M_in_bounds (tx : TextFns F) (l2 : Str) (model_size counter : Nat)
    (extras : List F) (out : List Str) (h : model_size = 4 → 3 ≤ extras.length) (i : Nat) :
    (emit_M tx l2 model_size counter extras out).res ≠ .error (.bad_index i) := by
  unfold emit_M
  split
  · next hm =>
    have hl := h hm
    obtain ⟨e0, h0⟩ := extras_at_lt extras 0 (by omega)
    obtain ⟨e1, h1⟩ := extras_at_lt extras 1 (by omega)
    obtain ⟨e2, h2⟩ := extras_at_lt extras 2 (by omega)
    simp only [h0, h1, h2, Run.eval]
    cases hu : update_line_name tx l2 "MW".toList (counter + 3) (e0 / 10.0) (e1 / 10.0)
        (e2 / 10.0) with
    | error e =>
      rw [update_line_name_error tx _ _ _ _ _ _ e hu]
      simp [Run.put]
    | ok r => simp [Run.put]
  · simp

/-- With at least six coordinates the lone-pair block reads no element out of bounds. -/
theorem emit_LP_in_bounds (tx : TextFns F) (l2 : Str) (model_size counter : Nat)
    (extras : List F) (out : List Str) (h : model_size = 5 → 6 ≤ extras.length) (i : Nat) :
    (emit_LP tx l2 model_size counter extras out).res ≠ .error (.bad_index i) := by
  unfold emit_LP
  split
  · next hm =>
    have hl := h hm
    obtain ⟨e0, h0⟩ := extras_at_lt extras 0 (by omega)
    obtain ⟨e1, h1⟩ := extras_at_lt extras 1 (by omega)
    obtain ⟨e2, h2⟩ := extras_at_lt extras 2 (by omega)
    obtain ⟨e3, h3⟩ := extras_at_lt extras 3 (by omega)
    obtain ⟨e4, h4⟩ := extras_at_lt extras 4 (by omega)
    obtain ⟨e5, h5⟩ := extras_at_lt extras 5 (by omega)
    simp only [h0, h1, h2, h3, h4, h5, Run.eval]
    cases hu : update_line_name tx l2 "LP1".toList (counter + 3) (e0 / 10.0) (e1 / 10.0)
        (e2 / 10.0) with
    | error e =>
      rw [update_line_name_error tx _ _ _ _ _ _ e hu]
      simp [Run.put]
    | ok r =>
      cases hu2 : update_line_name tx l2 "LP2".toList (counter + 4) (e3 / 10.0) (e4 / 10.0)
          (e5 / 10.0) with
      | error e =>
        rw [update_line_name_error tx _ _ _ _ _ _ e hu2]
        simp [Run.put, hu2, update_line_name_error tx _ _ _ _ _ _ e hu2]
      | ok r2 => simp [Run.put, hu2]
  · simp

/-! ## The classifier step -/

/-- The run of extra-site lines counted from `j` stays inside the atom range, consists of
extra-site lines, and is maximal. -/
theorem extra_sites_after_spec (lines : List Str) (na : Nat) (hn : na + 2 ≤ lines.length) :
    ∀ (d j : Nat), j + d = na + 2 →
      j + extra_sites_after lines na j ≤ na + 2 ∧
      (∀ j', j ≤ j' → j' < j + extra_sites_after lines na j →
        ∃ l, line_at lines j' = .ok l ∧ is_extra_line l = true) ∧
      (j + extra_sites_after lines na j < na + 2 →
        ∃ l, line_at lines (j + extra_sites_after lines na j) = .ok l
          ∧ is_extra_line l = false) := by
  intro d
  induction d with
  | zero =>
    intro j hj
    rw [extra_sites_after_zero lines na j (by omega)]
    refine ⟨by omega, fun j' h1 h2 => by omega, fun h => by omega⟩
  | succ k ih =>
    intro j hj
    have hjn : j < na + 2 := by omega
    have hjl : j < lines.length := by omega
    have hstep := extra_sites_after_step lines na j hjn hjl
    by_cases hx : is_extra_line lines[j] = true
    · rw [if_pos hx] at hstep
      obtain ⟨h1, h2, h3⟩ := ih (j + 1) (by omega)
      have e : j + extra_sites_after lines na j = j + 1 + extra_sites_after lines na (j + 1) := by
        omega
      refine ⟨by omega, ?_, ?_⟩
      · intro j' hj1 hj2
        by_cases hjj : j' = j
        · subst hjj; exact ⟨_, line_at_lt hjl, hx⟩
        · exact h2 j' (by omega) (by omega)
      · intro hlt
        rw [e]
        exact h3 (by omega)
    · rw [if_neg hx] at hstep
      refine ⟨by omega, fun j' h1 h2 => by omega, fun _ => ?_⟩
      rw [hstep, Nat.add_zero]
      exact ⟨_, line_at_lt hjl, by simpa using hx⟩

/-- A readable tag is the standardised name of a line that exists. -/
theorem tag_line {lines : List Str} {i : Nat} {an : Str} (h : tag lines i = .ok an) :
    ∃ l, line_at lines i = .ok l ∧ is_extra_line l = is_extra an := by
  obtain ⟨hi, hx⟩ := is_extra_line_of_tag h
  exact ⟨_, line_at_lt hi, hx⟩

/-- The skip loop of the counting pass completes when every tag it reads is readable. -/
theorem count_skip_total (lines : List Str) (na : Nat) :
    ∀ (fuel j : Nat) (an : Str) (nwa : Nat),
      tag lines j = .ok an → j ≤ na + 2 → na + 2 ≤ fuel + j →
      (∀ j', j < j' → j' ≤ j + extra_sites_after lines na j → ∃ t, tag lines j' = .ok t) →
      count_skip lines na fuel j an nwa
        = .ok (j + extra_sites_after lines na j, nwa + extra_sites_after lines na j) := by
  intro fuel
  induction fuel with
  | zero =>
    intro j an nwa ht hj hf hread
    have hz := extra_sites_after_zero lines na j (by omega)
    unfold count_skip
    rw [if_neg (by omega), hz]
    rfl
  | succ k ih =>
    intro j an nwa ht hj hf hread
    obtain ⟨hjl, hx⟩ := is_extra_line_of_tag ht
    unfold count_skip
    split
    · next hc =>
      have hstep := extra_sites_after_step lines na j hc.1 hjl
      rw [hx, if_pos hc.2] at hstep
      obtain ⟨t, ht1⟩ := hread (j + 1) (by omega) (by omega)
      simp only [ht1]
      rw [ih (j + 1) t (nwa + 1) ht1 (by omega) (by omega)
        (fun j' h1 h2 => hread j' (by omega) (by omega))]
      rw [hstep]
      simp only [Except.ok.injEq, Prod.mk.injEq]
      omega
    · next hc =>
      have hz : extra_sites_after lines na j = 0 := by
        by_cases hjn : j < na + 2
        · have hstep := extra_sites_after_step lines na j hjn hjl
          rw [hx] at hstep
          rw [hstep, if_neg (fun h => hc ⟨hjn, h⟩)]
        · exact extra_sites_after_zero lines na j (by omega)
      rw [hz]
      rfl

/-- The water test completes when the two tags after the cursor are readable. -/
theorem is_water_total (lines : List Str) (i : Nat) (an t1 t2 : Str)
    (h1 : tag lines (i + 1) = .ok t1) (h2 : tag lines (i + 2) = .ok t2) :
    ∃ b, is_water lines i an = .ok b := by
  unfold is_water
  simp only [h1, h2]
  split
  · split
    · exact ⟨_, rfl⟩
    · exact ⟨_, rfl⟩
  · exact ⟨_, rfl⟩

/-- One turn of the counting pass at a water molecule whose following tags are readable. -/
theorem count_loop_water (lines : List Str) (na fuel i nw nwa : Nat)
    (hi : i < na) (hw : starts_water lines i)
    (hread : ∀ j, i + 3 ≤ j → j ≤ i + 3 + extra_sites_after lines na (i + 3) →
      ∃ t, tag lines j = .ok t) :
    count_loop lines na (fuel + 1) i nw nwa
      = count_loop lines na fuel (i + 3 + extra_sites_after lines na (i + 3)) (nw + 1)
          (nwa + 3 + extra_sites_after lines na (i + 3)) := by
  obtain ⟨b, hb⟩ := is_water_total lines i "OW".toList _ _ hw.2.1 hw.2.2
  have hbt : b = true := (is_water_spec lines i _ b hw.1 hb).mpr hw
  subst hbt
  obtain ⟨t3, ht3⟩ := hread (i + 3) (by omega) (by omega)
  have hskip : count_skip lines na (na + 2) (i + 2) "MW".toList (nwa + 2)
      = .ok (i + 3 + extra_sites_after lines na (i + 3),
          nwa + 3 + extra_sites_after lines na (i + 3)) := by
    rw [count_skip, if_pos ⟨by omega, by decide⟩]
    have e : i + 2 + 1 = i + 3 := rfl
    have e2 : nwa + 2 + 1 = nwa + 3 := rfl
    rw [e, e2]
    simp only [ht3]
    exact count_skip_total lines na (na + 1) (i + 3) t3 (nwa + 3) ht3 (by omega) (by omega)
      (fun j' h1 h2 => hread j' (by omega) h2)
  rw [count_loop, if_pos hi]
  simp only [hw.1, hb, hskip]

/-- One turn of the counting pass at an atom that does not start a water molecule. -/
theorem count_loop_ordinary (lines : List Str) (na fuel i nw nwa : Nat)
    (hi : i < na) (hw : ¬ starts_water lines i)
    (h3 : ∀ j, i ≤ j → j ≤ i + 2 → ∃ t, tag lines j = .ok t) :
    count_loop lines na (fuel + 1) i nw nwa = count_loop lines na fuel (i + 1) nw nwa := by
  obtain ⟨an, han⟩ := h3 i (by omega) (by omega)
  obtain ⟨t1, ht1⟩ := h3 (i + 1) (by omega) (by omega)
  obtain ⟨t2, ht2⟩ := h3 (i + 2) (by omega) (by omega)
  obtain ⟨b, hb⟩ := is_water_total lines i an _ _ ht1 ht2
  have hbf : b = false := by
    cases b with
    | false => rfl
    | true => exact absurd ((is_water_spec lines i an true han hb).mp rfl) hw
  subst hbf
  rw [count_loop, if_pos hi]
  simp only [han, hb]

/-- The cursor after a water step of the emission pass that completes. -/
theorem emit_water_cursor (mf : MathFns F) (tx : TextFns F) (lines : List Str) (wm : model F)
    (model_size na cur counter : Nat) (out o : List Str) (st : Nat × Nat) (hi : cur < na)
    (h : emit_water mf tx lines wm model_size na cur counter out = ⟨o, .ok st⟩) :
    st.1 = cur + 3 + extra_sites_after lines na (cur + 3) := by
  obtain ⟨hskip, -, -⟩ := emit_water_ok mf tx lines wm model_size na cur counter out o st.1 st.2 h
  have hc := count_skip_eq lines na (na + 2) (cur + 2) "MW".toList 2
  rw [hskip] at hc
  exact (count_skip_first lines na cur 0 _ _ hi hc).1

/-- A line counted as an extra site has a readable tag in MW, LP, EP. -/
theorem tag_of_extra_line {lines : List Str} {j : Nat} {l : Str}
    (hl : line_at lines j = .ok l) (hx : is_extra_line l = true) :
    ∃ t, tag lines j = .ok t ∧ is_extra t = true := by
  unfold is_extra_line at hx
  unfold tag
  cases hnm : atom_name l with
  | error e => rw [hnm] at hx; simp at hx
  | ok nm =>
    rw [hnm] at hx
    refine ⟨standardise nm, ?_, hx⟩
    simp only [hl, hnm]

/-- The water test is negative when the tags it reads are readable and the three-tag
condition fails. -/
theorem is_water_not (lines : List Str) (i : Nat) (an : Str) (htag : tag lines i = .ok an)
    (hw : ¬ starts_water lines i)
    (hread : an = "OW".toList → ∃ t1, tag lines (i + 1) = .ok t1 ∧
      (t1 = "HW".toList → ∃ t2, tag lines (i + 2) = .ok t2)) :
    is_water lines i an = .ok false := by
  unfold is_water
  by_cases ha : an = "OW".toList
  · obtain ⟨t1, h1, h2⟩ := hread ha
    rw [if_pos ha]
    simp only [h1]
    by_cases ht1 : t1 = "HW".toList
    · obtain ⟨t2, h2'⟩ := h2 ht1
      rw [if_pos ht1]
      simp only [h2']
      have hne : t2 ≠ "HW".toList := by
        intro h
        apply hw
        refine ⟨?_, ?_, ?_⟩
        · rw [htag, ha]
        · rw [h1, ht1]
        · rw [h2', h]
      rw [decide_eq_false hne]
    · rw [if_neg ht1]
  · rw [if_neg ha]

/-- C18 (amended): the classifier step rule at a cursor `i` with `2 <= i < na`, in a
file of at least `na + 2` lines.  Write `k` for the number of consecutive lines tagged
MW, LP or EP from `i+3` on inside the atom range and `J = i + 3 + k`.

If the tags of lines `i`, `i+1`, `i+2` are OW, HW, HW: `J` is the least `j >= i+3` such
that `j = na+2` or line `j` has no tag in MW, LP, EP; `i < J <= na+2`; the lines
`i+3 .. J-1` lie in the atom range `2..na+1` and are tagged MW, LP or EP; a step of the
counting pass that completes (its skip loop returns) goes on from cursor `J` with one
more water and `3 + k` more atoms counted, and a water step of the emission pass that
completes goes on from the same `J`; the step of the counting pass does complete when
`J` lies inside the atom range (`J <= na+1`) and line `J` has a readable tag.

Otherwise, when the tags the water test reads are readable (the tag `an` of line `i`;
the tag of line `i+1` if `an` is OW; the tag of line `i+2` if moreover line `i+1` is
tagged HW), both passes go on from `i + 1`, the emission pass with the record of line
`i` written. -/
theorem classifier_step_rule (mf : MathFns F) (tx : TextFns F) (lines : List Str)
    (wm : model F) (s na fuel i nw nwa counter : Nat) (out : List Str)
    (h2 : 2 ≤ i) (hi : i < na) (hn : na + 2 ≤ lines.length) :
    (starts_water lines i →
      i < i + 3 + extra_sites_after lines na (i + 3) ∧
      i + 3 + extra_sites_after lines na (i + 3) ≤ na + 2 ∧
      (∀ j, i + 3 ≤ j → j < i + 3 + extra_sites_after lines na (i + 3) →
        2 ≤ j ∧ j ≤ na + 1 ∧ ∃ t, tag lines j = .ok t ∧ is_extra t = true) ∧
      (i + 3 + extra_sites_after lines na (i + 3) = na + 2 ∨
        ¬ ∃ t, tag lines (i + 3 + extra_sites_after lines na (i + 3)) = .ok t
          ∧ is_extra t = true) ∧
      (∀ (c nwa1 : Nat),
        count_skip lines na (na + 2) (i + 2) "MW".toList (nwa + 2) = .ok (c, nwa1) →
        c = i + 3 + extra_sites_after lines na (i + 3) ∧
        nwa1 = nwa + 3 + extra_sites_after lines na (i + 3) ∧
        count_loop lines na (fuel + 1) i nw nwa
          = count_loop lines na fuel (i + 3 + extra_sites_after lines na (i + 3)) (nw + 1)
              (nwa + 3 + extra_sites_after lines na (i + 3))) ∧
      (∀ (o : List Str) (st : Nat × Nat),
        emit_water mf tx lines wm s na i counter out = ⟨o, .ok st⟩ →
        st.1 = i + 3 + extra_sites_after lines na (i + 3) ∧
        emit_loop mf tx lines wm s na (fuel + 1) i counter out
          = emit_loop mf tx lines wm s na fuel
              (i + 3 + extra_sites_after lines na (i + 3)) st.2 o) ∧
      (i + 3 + extra_sites_after lines na (i + 3) < na + 2 →
        (∃ t, tag lines (i + 3 + extra_sites_after lines na (i + 3)) = .ok t) →
        count_loop lines na (fuel + 1) i nw nwa
          = count_loop lines na fuel (i + 3 + extra_sites_after lines na (i + 3)) (nw + 1)
              (nwa + 3 + extra_sites_after lines na (i + 3)))) ∧
    (¬ starts_water lines i →
      ∀ an, tag lines i = .ok an →
      (an = "OW".toList → ∃ t1, tag lines (i + 1) = .ok t1 ∧
        (t1 = "HW".toList → ∃ t2, tag lines (i + 2) = .ok t2)) →
      count_loop lines na (fuel + 1) i nw nwa = count_loop lines na fuel (i + 1) nw nwa ∧
      (∀ (l r : Str), line_at lines i = .ok l → update_line l counter = .ok r →
        emit_loop mf tx lines wm s na (fuel + 1) i counter out
          = emit_loop mf tx lines wm s na fuel (i + 1) (counter + 1) (out ++ [r])) ∧
      i + 1 ≤ na + 2) := by
  constructor
  · intro hw
    obtain ⟨hle, hin, hend⟩ :=
      extra_sites_after_spec lines na hn (na + 2 - (i + 3)) (i + 3) (by omega)
    obtain ⟨b, hb⟩ := is_water_total lines i "OW".toList _ _ hw.2.1 hw.2.2
    have hbt : b = true := (is_water_spec lines i _ b hw.1 hb).mpr hw
    subst hbt
    have hextra : ∀ j, i + 3 ≤ j → j < i + 3 + extra_sites_after lines na (i + 3) →
        ∃ t, tag lines j = .ok t ∧ is_extra t = true := by
      intro j hj1 hj2
      obtain ⟨l, hl, hx⟩ := hin j hj1 hj2
      exact tag_of_extra_line hl hx
    refine ⟨by omega, hle, ?_, ?_, ?_, ?_, ?_⟩
    · intro j hj1 hj2
      exact ⟨by omega, by omega, hextra j hj1 hj2⟩
    · by_cases hlt : i + 3 + extra_sites_after lines na (i + 3) < na + 2
      · right
        rintro ⟨t, ht, hxt⟩
        obtain ⟨l, hl, hx⟩ := hend hlt
        obtain ⟨l', hl', hx'⟩ := tag_line ht
        rw [hl] at hl'
        have : l = l' := Except.ok.inj hl'
        subst this
        rw [hx, hxt] at hx'
        exact Bool.false_ne_true hx'
      · left; omega
    · intro c nwa1 hskip
      obtain ⟨hc, hnwa⟩ := count_skip_first lines na i nwa c nwa1 hi hskip
      refine ⟨hc, hnwa, ?_⟩
      rw [count_loop, if_pos hi]
      simp only [hw.1, hb, hskip, hc, hnwa]
    · intro o st he
      have hc := emit_water_cursor mf tx lines wm s na i counter out o st hi he
      refine ⟨hc, ?_⟩
      rw [emit_loop_water mf tx lines wm s na fuel i counter out o "OW".toList st hi hw.1 hb he,
        hc]
    · intro hlt hJ
      apply count_loop_water lines na fuel i nw nwa hi hw
      intro j hj1 hj2
      by_cases hjJ : j = i + 3 + extra_sites_after lines na (i + 3)
      · rw [hjJ]; exact hJ
      · obtain ⟨t, ht, -⟩ := hextra j hj1 (by omega)
        exact ⟨t, ht⟩
  · intro hw an han hread
    have hnot := is_water_not lines i an han hw hread
    refine ⟨?_, ?_, by omega⟩
    · rw [count_loop, if_pos hi]
      simp only [han, hnot]
    · intro l r hl hr
      exact emit_loop_ordinary mf tx lines wm s na fuel i counter out an l r hi han hnot hl hr

/-! ## The atom records of the output -/

theorem fmt_5s_length (nm : Str) : (fmt_5s nm).length = 5 := by
  unfold fmt_5s pad_left
  rw [List.length_take, List.length_append, List.length_replicate]
  omega

/-- The fields of a record made by `update_line(l, c)`. -/
theorem update_line_fields (l r : Str) (c : Nat) (h : update_line l c = .ok r) :
    44 ≤ l.length ∧ r.length = 44 ∧ r.take 15 = l.take 15 ∧ has_index r c ∧
      r.take 20 = l.take 15 ++ fmt_5ld c := by
  have h44 : 44 ≤ l.length := by
    by_contra hlt
    rw [update_line_short l c (by omega)] at h
    simp at h
  rw [update_line_ok l c h44] at h
  have hr := (Except.ok.inj h).symm
  have h5 := fmt_5ld_length c
  have h15 : (List.take 15 l).length = 15 := by rw [List.length_take]; omega
  subst hr
  refine ⟨h44, ?_, ?_, ?_, ?_⟩
  · simp only [substr, List.length_append, List.length_take, List.length_drop, h5]
    omega
  · simp only [substr, List.drop_zero, List.append_assoc]
    rw [List.take_append_of_le_length (by omega), List.take_take]
    simp
  · unfold has_index
    simp only [substr, List.drop_zero, List.append_assoc]
    rw [List.drop_append_of_le_length (by omega), List.drop_of_length_le (by omega),
      List.nil_append, List.take_append_of_le_length (by omega),
      List.take_of_length_le (by omega)]
  · simp only [substr, List.drop_zero]
    have : (List.take 15 l ++ fmt_5ld c).length = 20 := by
      rw [List.length_append, h15, h5]
    rw [List.take_append_of_le_length (by omega), List.take_of_length_le (by omega)]

/-- The fields of a record made by `update_line(l, c, x, y, z)`. -/
theorem update_line_xyz_fields (tx : TextFns F) (l r : Str) (c : Nat) (x y z : F)
    (h : update_line_xyz tx l c x y z = .ok r) :
    r.take 15 = l.take 15 ∧ has_index r c ∧ 20 ≤ r.length ∧
      r.take 20 = l.take 15 ++ fmt_5ld c := by
  unfold update_line_xyz at h
  split at h
  · simp at h
  · next t ht =>
    obtain ⟨h44, hlen, h15, hidx, h20⟩ := update_line_fields l t c ht
    have hr := (Except.ok.inj h).symm
    subst hr
    have hl15 : (List.take 15 l).length = 15 := by rw [List.length_take]; omega
    have h5 := fmt_5ld_length c
    have ht20 : (List.take 20 t).length = 20 := by rw [List.length_take]; omega
    simp only [substr, List.drop_zero]
    refine ⟨?_, ?_, ?_, ?_⟩
    · rw [List.take_append_of_le_length (by omega), List.take_take, ← h15]
      simp
    · unfold has_index at hidx ⊢
      rw [h20, List.drop_append_of_le_length (by rw [List.length_append]; omega),
        List.drop_append_of_le_length (by omega), List.drop_of_length_le (by omega),
        List.nil_append, List.take_append_of_le_length (by omega),
        List.take_of_length_le (by omega)]
    · rw [List.length_append]; omega
    · rw [List.take_append_of_le_length (by omega), List.take_of_length_le (by omega), h20]

/-- The index field of a record made by `update_line(l, atnam, c, x, y, z)`. -/
theorem update_line_name_fields (tx : TextFns F) (l nm r : Str) (c : Nat) (x y z : F)
    (h : update_line_name tx l nm c x y z = .ok r) : has_index r c := by
  unfold update_line_name at h
  split at h
  · simp at h
  · next t ht =>
    obtain ⟨-, hidx, hlen, -⟩ := update_line_xyz_fields tx l t c x y z ht
    have hr := (Except.ok.inj h).symm
    subst hr
    have h10 : (List.take 10 t).length = 10 := by rw [List.length_take]; omega
    have h5 := fmt_5s_length nm
    unfold has_index at hidx ⊢
    have : (List.take 10 t ++ fmt_5s nm).length = 15 := by
      rw [List.length_append, h10, h5]
    rw [← this, List.drop_left, this]
    exact hidx

theorem numbered_from_append (a b : List Str) :
    ∀ c, numbered_from c (a ++ b) ↔ numbered_from c a ∧ numbered_from (c + a.length) b := by
  induction a with
  | nil => intro c; simp [numbered_from]
  | cons r rs ih =>
    intro c
    have e : c + 1 + rs.length = c + (rs.length + 1) := by omega
    show has_index r c ∧ numbered_from (c + 1) (rs ++ b) ↔ _
    rw [ih (c + 1), e]
    simp only [numbered_from, List.length_cons, and_assoc]

/-- The record at position `k` of a numbered list carries the index `c + k`. -/
theorem numbered_from_get (recs : List Str) :
    ∀ (c k : Nat) (hk : k < recs.length), numbered_from c recs → has_index recs[k] (c + k) := by
  induction recs with
  | nil => intro c k hk; simp at hk
  | cons r rs ih =>
    intro c k hk h
    cases k with
    | zero => exact h.1
    | succ k =>
      have := ih (c + 1) k (by simpa using hk) h.2
      have e : c + 1 + k = c + (k + 1) := by omega
      rw [e] at this
      simpa using this

/-- The record written by the M-site block carries the index `counter + 3`. -/
theorem emit_M_records (tx : TextFns F) (l2 : Str) (model_size counter : Nat) (extras : List F)
    (out o : List Str) (h : emit_M tx l2 model_size counter extras out = ⟨o, .ok ()⟩) :
    ∃ recs, o = out ++ recs ∧ recs.length = (if model_size = 4 then 1 else 0) ∧
      numbered_from (counter + 3) recs := by
  unfold emit_M at h
  split at h
  · next hm =>
    obtain ⟨e0, -, h⟩ := Run.eval_ok h
    obtain ⟨e1, -, h⟩ := Run.eval_ok h
    obtain ⟨e2, -, h⟩ := Run.eval_ok h
    obtain ⟨r, hr, h⟩ := Run.put_ok h
    simp only [Run.mk.injEq, and_true] at h
    exact ⟨[r], h.symm, by simp [hm],
      ⟨update_line_name_fields tx _ _ _ _ _ _ _ hr, trivial⟩⟩
  · next hm =>
    simp only [Run.mk.injEq, and_true] at h
    exact ⟨[], by simp [h], by simp [hm], trivial⟩

/-- The records written by the lone-pair block carry the indices `counter + 3` and
`counter + 4`. -/
theorem emit_LP_records (tx : TextFns F) (l2 : Str) (model_size counter : Nat) (extras : List F)
    (out o : List Str) (h : emit_LP tx l2 model_size counter extras out = ⟨o, .ok ()⟩) :
    ∃ recs, o = out ++ recs ∧ recs.length = (if model_size = 5 then 2 else 0) ∧
      numbered_from (counter + 3) recs := by
  unfold emit_LP at h
  split at h
  · next hm =>
    obtain ⟨e0, -, h⟩ := Run.eval_ok h
    obtain ⟨e1, -, h⟩ := Run.eval_ok h
    obtain ⟨e2, -, h⟩ := Run.eval_ok h
    obtain ⟨r1, hr1, h⟩ := Run.put_ok h
    obtain ⟨e3, -, h⟩ := Run.eval_ok h
    obtain ⟨e4, -, h⟩ := Run.eval_ok h
    obtain ⟨e5, -, h⟩ := Run.eval_ok h
    obtain ⟨r2, hr2, h⟩ := Run.put_ok h
    simp only [Run.mk.injEq, and_true] at h
    refine ⟨[r1, r2], by rw [← h]; simp, by simp [hm], ?_⟩
    exact ⟨update_line_name_fields tx _ _ _ _ _ _ _ hr1,
      update_line_name_fields tx _ _ _ _ _ _ _ hr2, trivial⟩
  · next hm =>
    simp only [Run.mk.injEq, and_true] at h
    exact ⟨[], by simp [h], by simp [hm], trivial⟩

theorem forall2_fresh (lines : List Str) (recs : List Str) :
    List.Forall₂ (record_from lines) recs (List.replicate recs.length none) := by
  induction recs with
  | nil => exact List.Forall₂.nil
  | cons r rs ih =>
    exact List.Forall₂.cons (fun j hj => by simp at hj) ih

/-- The records of a water step that completes: the three atoms of the molecule, made
from the three input lines, then the fresh sites; numbered from the counter. -/
theorem emit_water_records (mf : MathFns F) (tx : TextFns F) (lines : List Str) (wm : model F)
    (s na cur counter : Nat) (out o : List Str) (st : Nat × Nat)
    (hs : s = 3 ∨ s = 4 ∨ s = 5)
    (h : emit_water mf tx lines wm s na cur counter out = ⟨o, .ok st⟩) :
    st.2 = counter + s ∧
    ∃ recs, o = out ++ recs ∧ recs.length = s ∧ numbered_from counter recs ∧
      List.Forall₂ (record_from lines) recs
        ([some cur, some (cur + 1), some (cur + 2)] ++ List.replicate (s - 3) none) := by
  unfold emit_water at h
  obtain ⟨l0, hl0, h⟩ := Run.eval_ok h
  obtain ⟨p0, -, h⟩ := Run.eval_ok h
  obtain ⟨l1, hl1, h⟩ := Run.eval_ok h
  obtain ⟨p1, -, h⟩ := Run.eval_ok h
  obtain ⟨l2, hl2, h⟩ := Run.eval_ok h
  obtain ⟨p2, -, h⟩ := Run.eval_ok h
  simp only at h
  obtain ⟨extras, -, h⟩ := Run.eval_ok h
  obtain ⟨r0, hr0, h⟩ := Run.put_ok h
  obtain ⟨r1, hr1, h⟩ := Run.put_ok h
  obtain ⟨r2, hr2, h⟩ := Run.put_ok h
  obtain ⟨u, hM, h⟩ := Run.andThen_ok h
  obtain ⟨v, hL, h⟩ := Run.andThen_ok h
  obtain ⟨c, hsk, h⟩ := Run.eval_ok h
  simp only [Run.mk.injEq, Except.ok.injEq] at h
  obtain ⟨ho, hst⟩ := h
  obtain ⟨rM, hMo, hMl, hMn⟩ := emit_M_records _ _ _ _ _ _ _ hM
  obtain ⟨rL, hLo, hLl, hLn⟩ := emit_LP_records _ _ _ _ _ _ _ hL
  obtain ⟨f0, i0, -, -⟩ := update_line_xyz_fields tx _ _ _ _ _ _ hr0
  obtain ⟨f1, i1, -, -⟩ := update_line_xyz_fields tx _ _ _ _ _ _ hr1
  obtain ⟨f2, i2, -, -⟩ := update_line_xyz_fields tx _ _ _ _ _ _ hr2
  have hlen : (rM ++ rL).length = s - 3 := by
    rw [List.length_append, hMl, hLl]
    rcases hs with h | h | h <;> subst h <;> rfl
  have hnum : numbered_from (counter + 3) (rM ++ rL) := by
    rcases hs with h | h | h <;> subst h
    · have e1 : rM = [] := List.eq_nil_of_length_eq_zero (by simpa using hMl)
      have e2 : rL = [] := List.eq_nil_of_length_eq_zero (by simpa using hLl)
      rw [e1, e2]; trivial
    · have e2 : rL = [] := List.eq_nil_of_length_eq_zero (by simpa using hLl)
      rw [e2, List.append_nil]; exact hMn
    · have e1 : rM = [] := List.eq_nil_of_length_eq_zero (by simpa using hMl)
      rw [e1, List.nil_append]; exact hLn
  refine ⟨by rw [← hst], [r0, r1, r2] ++ (rM ++ rL), ?_, ?_, ?_, ?_⟩
  · rw [← ho, hLo, hMo]; simp
  · rw [List.length_append, hlen]
    rcases hs with h | h | h <;> subst h <;> rfl
  · exact ⟨i0, i1, i2, hnum⟩
  · refine List.Forall₂.cons ?_ (List.Forall₂.cons ?_ (List.Forall₂.cons ?_ ?_))
    · intro j hj
      simp only [Option.some.injEq] at hj
      subst hj
      exact ⟨l0, hl0, f0⟩
    · intro j hj
      simp only [Option.some.injEq] at hj
      subst hj
      exact ⟨l1, hl1, f1⟩
    · intro j hj
      simp only [Option.some.injEq] at hj
      subst hj
      exact ⟨l2, hl2, f2⟩
    · rw [← hlen]
      exact forall2_fresh lines (rM ++ rL)

/-- The cursor of the emission loop ends between `na` and `na + 2`. -/
theorem emit_loop_cursor (mf : MathFns F) (tx : TextFns F) (lines : List Str) (wm : model F)
    (s na : Nat) :
    ∀ (fuel i counter : Nat) (out o : List Str) (c counter1 : Nat),
      emit_loop mf tx lines wm s na fuel i counter out = ⟨o, .ok (c, counter1)⟩ →
      i ≤ na + 2 →
      na ≤ c ∧ c ≤ na + 2 ∧ i ≤ c ∧ ∃ recs, o = out ++ recs := by
  intro fuel
  induction fuel with
  | zero =>
    intro i counter out o c counter1 he hi
    unfold emit_loop at he
    split at he
    · simp at he
    · next hlt =>
      simp only [Run.mk.injEq, Except.ok.injEq, Prod.mk.injEq] at he
      obtain ⟨rfl, rfl, rfl⟩ := he
      exact ⟨by omega, hi, le_refl _, [], by simp⟩
  | succ k ih =>
    intro i counter out o c counter1 he hi
    unfold emit_loop at he
    split at he
    · next hlt =>
      simp only at he
      obtain ⟨an, htag, he⟩ := Run.eval_ok he
      obtain ⟨w, hw, he⟩ := Run.eval_ok he
      cases w with
      | true =>
        simp only [if_true] at he
        obtain ⟨st, hws, he⟩ := Run.andThen_ok he
        obtain ⟨hskip, -, recs, ho, -⟩ :=
          emit_water_ok mf tx lines wm s na i counter out _ st.1 st.2 hws
        have hge := emit_skip_ge _ _ _ _ _ _ hskip
        have hle := emit_skip_le _ _ _ _ _ _ hskip (by omega)
        obtain ⟨h1, h2, h3, recs2, ho2⟩ := ih _ _ _ _ _ _ he hle
        exact ⟨h1, h2, by omega, recs ++ recs2, by rw [ho2, ho]; simp⟩
      | false =>
        simp only [Bool.false_eq_true, if_false] at he
        obtain ⟨l, -, he⟩ := Run.eval_ok he
        obtain ⟨r, -, he⟩ := Run.put_ok he
        obtain ⟨h1, h2, h3, recs2, ho2⟩ := ih _ _ _ _ _ _ he (by omega)
        exact ⟨h1, h2, by omega, r :: recs2, by rw [ho2]; simp⟩
    · next hlt =>
      simp only [Run.mk.injEq, Except.ok.injEq, Prod.mk.injEq] at he
      obtain ⟨rfl, rfl, rfl⟩ := he
      exact ⟨by omega, hi, le_refl _, [], by simp⟩

/-- The records of the emission loop: the cursor follows the scan of the specification,
every record is numbered by the running counter, and the records that are not fresh
sites keep columns 1-15 of the input line they are made from. -/
theorem emit_loop_records (mf : MathFns F) (tx : TextFns F) (lines : List Str) (wm : model F)
    (s na : Nat) (hs : s = 3 ∨ s = 4 ∨ s = 5) :
    ∀ (fuel i counter : Nat) (out o : List Str) (c counter1 : Nat),
      emit_loop mf tx lines wm s na fuel i counter out = ⟨o, .ok (c, counter1)⟩ →
      c = scan_end lines na fuel i ∧
      ∃ recs, o = out ++ recs ∧ counter1 = counter + recs.length ∧
        numbered_from counter recs ∧
        List.Forall₂ (record_from lines) recs (scan_layout lines na s fuel i) := by
  intro fuel
  induction fuel with
  | zero =>
    intro i counter out o c counter1 he
    unfold emit_loop at he
    split at he
    · simp at he
    · next hlt =>
      simp only [Run.mk.injEq, Except.ok.injEq, Prod.mk.injEq] at he
      obtain ⟨rfl, rfl, rfl⟩ := he
      exact ⟨rfl, [], by simp, rfl, trivial, List.Forall₂.nil⟩
  | succ k ih =>
    intro i counter out o c counter1 he
    unfold emit_loop at he
    split at he
    · next hlt =>
      simp only at he
      obtain ⟨an, htag, he⟩ := Run.eval_ok he
      obtain ⟨w, hw, he⟩ := Run.eval_ok he
      have hspec := is_water_spec lines i an w htag hw
      cases w with
      | true =>
        simp only [if_true] at he
        have hsw : starts_water lines i := hspec.mp rfl
        obtain ⟨st, hws, he⟩ := Run.andThen_ok he
        have hcur := emit_water_cursor mf tx lines wm s na i counter out _ st hlt hws
        obtain ⟨hcnt, recs, ho, hl, hnum, hfa⟩ :=
          emit_water_records mf tx lines wm s na i counter out _ st hs hws
        rw [hcur, hcnt, ho] at he
        obtain ⟨h1, recs2, ho2, hc2, hnum2, hfa2⟩ := ih _ _ _ _ _ _ he
        refine ⟨?_, recs ++ recs2, ?_, ?_, ?_, ?_⟩
        · rw [h1]
          conv_rhs => unfold scan_end
          rw [if_pos hlt, if_pos hsw]
        · rw [ho2]; simp
        · rw [hc2, List.length_append, hl]; omega
        · rw [numbered_from_append, hl]
          exact ⟨hnum, hnum2⟩
        · conv in scan_layout lines na s (k + 1) i => unfold scan_layout
          rw [if_pos hlt, if_pos hsw]
          exact List.rel_append hfa hfa2
      | false =>
        simp only [Bool.false_eq_true, if_false] at he
        have hsw : ¬ starts_water lines i := fun h => by
          have := hspec.mpr h
          simp at this
        obtain ⟨l, hl, he⟩ := Run.eval_ok he
        obtain ⟨r, hr, he⟩ := Run.put_ok he
        obtain ⟨-, -, h15, hidx, -⟩ := update_line_fields l r counter hr
        obtain ⟨h1, recs2, ho2, hc2, hnum2, hfa2⟩ := ih _ _ _ _ _ _ he
        refine ⟨?_, r :: recs2, ?_, ?_, ⟨hidx, hnum2⟩, ?_⟩
        · rw [h1]
          conv_rhs => unfold scan_end
          rw [if_pos hlt, if_neg hsw]
        · rw [ho2]; simp
        · rw [hc2, List.length_cons]; omega
        · conv in scan_layout lines na s (k + 1) i => unfold scan_layout
          rw [if_pos hlt, if_neg hsw]
          refine List.Forall₂.cons ?_ hfa2
          intro j hj
          simp only [Option.some.injEq] at hj
          subst hj
          exact ⟨l, hl, h15⟩
    · next hlt =>
      simp only [Run.mk.injEq, Except.ok.injEq, Prod.mk.injEq] at he
      obtain ⟨rfl, rfl, rfl⟩ := he
      refine ⟨?_, [], by simp, rfl, trivial, ?_⟩
      · unfold scan_end; rw [if_neg hlt]
      · unfold scan_layout; rw [if_neg hlt]; exact List.Forall₂.nil

/-- The final loop: the atom lines left below `na + 2` give one `update_line` record
each, numbered by the running counter; the lines from `na + 2` on are copied. -/
theorem copy_rest_records (lines : List Str) (na : Nat) (hn : na + 2 ≤ lines.length) :
    ∀ (fuel cur counter : Nat) (out o : List Str) (st : Nat × Nat),
      copy_rest lines na fuel cur counter out = ⟨o, .ok st⟩ →
      cur ≤ lines.length →
      ∃ recs, recs.length = na + 2 - cur ∧
        o = out ++ recs ++ lines.drop (max cur (na + 2)) ∧
        atom_records lines cur counter recs := by
  intro fuel
  induction fuel with
  | zero =>
    intro cur counter out o st h hcur
    unfold copy_rest at h
    split at h
    · simp at h
    · next hlt =>
      simp only [Run.mk.injEq, Except.ok.injEq] at h
      obtain ⟨rfl, -⟩ := h
      refine ⟨[], by simp; omega, ?_, trivial⟩
      rw [List.drop_eq_nil_of_le (by omega)]; simp
  | succ k ih =>
    intro cur counter out o st h hcur
    unfold copy_rest at h
    split at h
    · next hlt =>
      simp only at h
      split at h
      · next hna =>
        obtain ⟨l, hl, h⟩ := Run.eval_ok h
        obtain ⟨r, hr, h⟩ := Run.put_ok h
        obtain ⟨recs, hlen, ho, hrec⟩ := ih _ _ _ _ _ h (by omega)
        refine ⟨r :: recs, by simp; omega, ?_, ⟨⟨l, hl, hr⟩, hrec⟩⟩
        rw [ho]
        have : max (cur + 1) (na + 2) = max cur (na + 2) := by omega
        rw [this]; simp
      · next hna =>
        obtain ⟨l, hl, h⟩ := Run.put_ok h
        obtain ⟨recs, hlen, ho, -⟩ := ih _ _ _ _ _ h (by omega)
        have hr : recs = [] := by
          apply List.eq_nil_of_length_eq_zero; omega
        subst hr
        refine ⟨[], by simp; omega, ?_, trivial⟩
        rw [ho]
        have e1 : max (cur + 1) (na + 2) = cur + 1 := by omega
        have e2 : max cur (na + 2) = cur := by omega
        rw [e1, e2]
        obtain ⟨hi, hli⟩ := line_at_ok hl
        rw [List.drop_eq_getElem_cons hlt, hli]
        simp
    · next hlt =>
      simp only [Run.mk.injEq, Except.ok.injEq] at h
      obtain ⟨rfl, -⟩ := h
      refine ⟨[], by simp; omega, ?_, trivial⟩
      rw [List.drop_eq_nil_of_le (by omega)]; simp

/-- Records made by `update_line` from consecutive lines are numbered, and each keeps
columns 1-15 of its line. -/
theorem atom_records_facts (lines : List Str) (recs : List Str) :
    ∀ (j c : Nat), atom_records lines j c recs →
      numbered_from c recs ∧
      List.Forall₂ (record_from lines) recs ((List.range' j recs.length).map some) ∧
      ∀ r ∈ recs, r.length = 44 := by
  induction recs with
  | nil => intro j c _; exact ⟨trivial, List.Forall₂.nil, by simp⟩
  | cons r rs ih =>
    intro j c h
    obtain ⟨⟨l, hl, hr⟩, hrest⟩ := h
    obtain ⟨-, h44, h15, hidx, -⟩ := update_line_fields l r c hr
    obtain ⟨h1, h2, h3⟩ := ih (j + 1) (c + 1) hrest
    refine ⟨⟨hidx, h1⟩, ?_, ?_⟩
    · rw [List.length_cons, List.range'_succ, List.map_cons]
      refine List.Forall₂.cons ?_ h2
      intro j' hj
      simp only [Option.some.injEq] at hj
      subst hj
      exact ⟨l, hl, h15⟩
    · intro r' hr'
      rcases List.mem_cons.mp hr' with h | h
      · rw [h]; exact h44
      · exact h3 r' h

/-- Columns 1-15 of the records that are not fresh, in order, are columns 1-15 of the
input lines their provenance names. -/
theorem forall2_kept (lines : List Str) (recs : List Str) (lay : List (Option Nat))
    (h : List.Forall₂ (record_from lines) recs lay) :
    ((recs.zip lay).filter (fun p => p.2.isSome)).map (fun p => p.1.take 15)
      = (lay.filterMap id).map (fun j => (lines.getD j []).take 15) ∧
    recs.length = lay.length := by
  induction h with
  | nil => exact ⟨rfl, rfl⟩
  | cons hr htl ih =>
    rename_i r o rs os
    cases o with
    | none =>
      refine ⟨?_, by simp [ih.2]⟩
      simpa using ih.1
    | some j =>
      obtain ⟨l, hl, h15⟩ := hr j rfl
      obtain ⟨hi, hli⟩ := line_at_ok hl
      refine ⟨?_, by simp [ih.2]⟩
      have hg : lines.getD j [] = l := by
        rw [List.getD_eq_getElem?_getD, List.getElem?_eq_getElem hi, hli]
        rfl
      simp only [List.zip_cons_cons, List.filter_cons, Option.isSome_some, if_true,
        List.map_cons, List.filterMap_cons, id_eq, hg, h15]
      rw [ih.1]

/-- The parts of a successful call of `process_gro`. -/
theorem process_gro_ok_parts (mf : MathFns F) (tx : TextFns F) (lines : List Str)
    (wm : model F) (m : Nat) (hrun : (process_gro mf tx lines wm).res = .ok m) :
    ∃ (s na : Nat) (title cnt : Str) (o1 : List Str) (cur counter0 : Nat) (st2 : Nat × Nat),
      wm.size mf = .ok s ∧ line_at lines 0 = .ok title ∧ read_na lines = .ok na ∧
      na + 2 ≤ lines.length ∧
      emit_loop mf tx lines wm s na lines.length 2 1 [title, cnt] = ⟨o1, .ok (cur, counter0)⟩ ∧
      copy_rest lines na lines.length cur counter0 o1
        = ⟨(process_gro mf tx lines wm).out, .ok st2⟩ := by
  obtain ⟨s, na, c, nwa, title, hsize, hn5, hna, hn, hcnt, ht⟩ :=
    process_gro_ok_header mf tx lines wm m hrun
  have hbody := process_gro_body mf tx lines wm s na c m nwa title hsize hn5 hna hn hcnt ht
  have hrun2 : process_gro mf tx lines wm = ⟨(process_gro mf tx lines wm).out, .ok m⟩ := by
    rw [← hrun]
  generalize (process_gro mf tx lines wm).out = out at hrun2 ⊢
  rw [hbody] at hrun2
  obtain ⟨s1, hel, hrun2⟩ := Run.andThen_ok hrun2
  generalize (emit_loop mf tx lines wm s na lines.length 2 1
    [title, to_string (na - nwa + m * s)]).out = out1 at hel hrun2
  obtain ⟨s2, hcr, hrun2⟩ := Run.andThen_ok hrun2
  generalize (copy_rest lines na lines.length s1.1 s1.2 out1).out = out2 at hcr hrun2
  simp only [Run.mk.injEq, Except.ok.injEq] at hrun2
  obtain ⟨hout, -⟩ := hrun2
  subst hout
  exact ⟨s, na, title, _, out1, s1.1, s1.2, s2, hsize, ht, hna, hn, hel, hcr⟩

theorem water_runs_start (lines : List Str) (na : Nat) :
    ∀ (fuel i : Nat) (r : Nat × Nat), r ∈ water_runs lines na fuel i → i ≤ r.1 := by
  intro fuel
  induction fuel with
  | zero => intro i r h; simp [water_runs] at h
  | succ k ih =>
    intro i r h
    unfold water_runs at h
    split at h
    · split at h
      · rcases List.mem_cons.mp h with h | h
        · rw [h]
        · have := ih _ r h; omega
      · have := ih _ r h; omega
    · simp at h

theorem is_discarded_before (runs : List (Nat × Nat)) (j : Nat)
    (h : ∀ r ∈ runs, j < r.1 + 3) : is_discarded runs j = false := by
  unfold is_discarded
  rw [List.any_eq_false]
  intro r hr
  have := h r hr
  simp only [Bool.and_eq_true, decide_eq_true_eq, not_and, not_lt]
  intro h1; omega

theorem is_discarded_cons (r : Nat × Nat) (runs : List (Nat × Nat)) (j : Nat) :
    is_discarded (r :: runs) j
      = ((decide (r.1 + 3 ≤ j) && decide (j < r.1 + 3 + r.2)) || is_discarded runs j) := by
  unfold is_discarded
  rw [List.any_cons]

theorem extra_sites_after_le (lines : List Str) (na j : Nat) (h : j ≤ na + 2) :
    j + extra_sites_after lines na j ≤ na + 2 := by
  unfold extra_sites_after
  have h1 := (List.takeWhile_prefix is_extra_line (l := (lines.take (na + 2)).drop j)).length_le
  rw [List.length_drop, List.length_take] at h1
  omega

theorem filterMap_replicate_none (n : Nat) :
    (List.replicate n (none : Option Nat)).filterMap id = [] := by
  induction n with
  | zero => rfl
  | succ k ih => rw [List.replicate_succ, List.filterMap_cons_none rfl, ih]

theorem range_split (i k n : Nat) :
    List.range' i (3 + k + n) = [i, i + 1, i + 2] ++ List.range' (i + 3) k
      ++ List.range' (i + 3 + k) n := by
  have h1 : List.range' i (3 + k + n) = List.range' i (3 + k) ++ List.range' (i + (3 + k)) n := by
    rw [List.range'_append_1, Nat.add_comm n]
  have h2 : List.range' i (3 + k) = List.range' i 3 ++ List.range' (i + 3) k := by
    rw [List.range'_append_1, Nat.add_comm k]
  rw [h1, h2]
  have e : i + (3 + k) = i + 3 + k := by omega
  rw [e]
  rfl

/-- The input lines named by the provenance of the records, in order, are the atom
lines that the classifier of the specification does not discard. -/
theorem layout_kept (lines : List Str) (na s : Nat) :
    ∀ (fuel i : Nat), i ≤ na + 2 → na ≤ fuel + i →
      (scan_layout lines na s fuel i).filterMap id
          ++ List.range' (scan_end lines na fuel i) (na + 2 - scan_end lines na fuel i)
        = (List.range' i (na + 2 - i)).filter
            (fun j => !is_discarded (water_runs lines na fuel i) j) := by
  intro fuel
  induction fuel with
  | zero =>
    intro i hi hf
    have : water_runs lines na 0 i = [] := rfl
    rw [this]
    simp [scan_layout, scan_end, is_discarded]
  | succ k ih =>
    intro i hi hf
    by_cases hlt : i < na
    · by_cases hsw : starts_water lines i
      · have hsw' : tag lines i = .ok "OW".toList ∧ tag lines (i + 1) = .ok "HW".toList
            ∧ tag lines (i + 2) = .ok "HW".toList := hsw
        have hle := extra_sites_after_le lines na (i + 3) (by omega)
        rw [scan_layout, scan_end, water_runs, if_pos hlt, if_pos hlt, if_pos hlt, if_pos hsw,
          if_pos hsw, if_pos hsw']
        generalize hk : extra_sites_after lines na (i + 3) = e at *
        have hIH := ih (i + 3 + e) hle (by omega)
        have hsplit : na + 2 - i = 3 + e + (na + 2 - (i + 3 + e)) := by omega
        rw [hsplit, range_split, List.filter_append, List.filter_append]
        have hstart := water_runs_start lines na k (i + 3 + e)
        have f1 : List.filter (fun j => !is_discarded
            ((i, e) :: water_runs lines na k (i + 3 + e)) j) [i, i + 1, i + 2]
              = [i, i + 1, i + 2] := by
          rw [List.filter_eq_self]
          intro j hj
          rw [is_discarded_before]
          · rfl
          · intro r hr
            simp only [List.mem_cons, List.mem_singleton, List.not_mem_nil, or_false] at hj
            rcases List.mem_cons.mp hr with h | h
            · rw [h]; simp only; omega
            · have := hstart r h; omega
        have f2 : List.filter (fun j => !is_discarded
            ((i, e) :: water_runs lines na k (i + 3 + e)) j) (List.range' (i + 3) e) = [] := by
          rw [List.filter_eq_nil_iff]
          intro j hj
          rw [List.mem_range'_1] at hj
          rw [is_discarded_cons]
          simp only [Bool.not_eq_true', Bool.not_eq_false, Bool.or_eq_true, Bool.and_eq_true,
            decide_eq_true_eq]
          left; omega
        have f3 : List.filter (fun j => !is_discarded
            ((i, e) :: water_runs lines na k (i + 3 + e)) j)
              (List.range' (i + 3 + e) (na + 2 - (i + 3 + e)))
            = List.filter (fun j => !is_discarded (water_runs lines na k (i + 3 + e)) j)
              (List.range' (i + 3 + e) (na + 2 - (i + 3 + e))) := by
          apply List.filter_congr
          intro j hj
          rw [List.mem_range'_1] at hj
          rw [is_discarded_cons]
          have : (decide (i + 3 ≤ j) && decide (j < i + 3 + e)) = false := by
            simp only [Bool.and_eq_false_imp, decide_eq_true_eq, decide_eq_false_iff_not, not_lt]
            intro _; omega
          simp only [this, Bool.false_or]
        rw [f1, f2, f3, ← hIH]
        simp only [List.filterMap_append, filterMap_replicate_none, List.append_nil,
          List.append_assoc]
        rfl
      · have hsw' : ¬ (tag lines i = .ok "OW".toList ∧ tag lines (i + 1) = .ok "HW".toList
            ∧ tag lines (i + 2) = .ok "HW".toList) := hsw
        rw [scan_layout, scan_end, water_runs, if_pos hlt, if_pos hlt, if_pos hlt, if_neg hsw,
          if_neg hsw, if_neg hsw']
        have hIH := ih (i + 1) (by omega) (by omega)
        have hsplit : na + 2 - i = (na + 2 - (i + 1)) + 1 := by omega
        rw [hsplit, List.range'_succ, List.filter_cons]
        have hstart := water_runs_start lines na k (i + 1)
        have : is_discarded (water_runs lines na k (i + 1)) i = false := by
          apply is_discarded_before
          intro r hr
          have := hstart r hr; omega
        rw [this]
        simp only [Bool.not_false, if_true]
        rw [← hIH]
        rfl
    · have : water_runs lines na (k + 1) i = [] := by
        rw [water_runs, if_neg hlt]
      rw [this, scan_layout, scan_end, if_neg hlt, if_neg hlt]
      simp [is_discarded]

/-- The provenance of the atom records names the kept input lines, in order. -/
theorem record_layout_kept (lines : List Str) (na s : Nat) (hn : na + 2 ≤ lines.length) :
    (record_layout lines na s).filterMap id = kept_indices lines na := by
  have h := layout_kept lines na s lines.length 2 (by omega) (by omega)
  unfold record_layout kept_indices
  rw [List.filterMap_append]
  have e : List.filterMap id (List.map some (List.range' (scan_end lines na lines.length 2)
      (na + 2 - scan_end lines na lines.length 2)))
      = List.range' (scan_end lines na lines.length 2)
          (na + 2 - scan_end lines na lines.length 2) := by
    rw [List.filterMap_map]
    simp
  rw [e, h]
  rfl

/-- C11: order preservation.  In every successful run with a model of size 3, 4 or 5
the output is the title, the count, the atom records and the lines from index `na + 2`
on; the atom records are laid out as `record_layout` says (three records for the atoms
of each water run followed by `size - 3` fresh site records, one record for every other
atom), and the sequence of columns 1-15 of the records that are not fresh equals the
sequence of columns 1-15 of the input atom lines `2 .. na + 1` that are not discarded
extra-site lines, in the same order. -/
theorem order_preserved (mf : MathFns F) (tx : TextFns F) (lines : List Str) (wm : model F)
    (s m : Nat) (hsize : wm.size mf = .ok s) (hs : s = 3 ∨ s = 4 ∨ s = 5)
    (hrun : (process_gro mf tx lines wm).res = .ok m) :
    ∃ (title cnt : Str) (na : Nat) (records : List Str),
      read_na lines = .ok na ∧
      (process_gro mf tx lines wm).out = title :: cnt :: (records ++ lines.drop (na + 2)) ∧
      records.length = (record_layout lines na s).length ∧
      (record_layout lines na s).filterMap id = kept_indices lines na ∧
      ((records.zip (record_layout lines na s)).filter (fun p => p.2.isSome)).map
          (fun p => p.1.take 15)
        = (kept_indices lines na).map (fun j => (lines.getD j []).take 15) := by
  obtain ⟨s', na, title, cnt, o1, cur, counter0, st2, hsize', ht, hna, hn, hel, hcr⟩ :=
    process_gro_ok_parts mf tx lines wm m hrun
  rw [hsize] at hsize'
  have hss : s = s' := Except.ok.inj hsize'
  subst hss
  obtain ⟨hcur, body, ho1, -, -, hfa⟩ :=
    emit_loop_records mf tx lines wm s na hs _ _ _ _ _ _ _ hel
  obtain ⟨hna1, hna2, -, -⟩ := emit_loop_cursor mf tx lines wm s na _ _ _ _ _ _ _ hel (by omega)
  obtain ⟨trailing, hlen, ho, hrec⟩ :=
    copy_rest_records lines na hn _ _ _ _ _ _ hcr (by omega)
  obtain ⟨-, hfa2, -⟩ := atom_records_facts lines trailing _ _ hrec
  have hmax : max cur (na + 2) = na + 2 := by omega
  rw [hmax, ho1] at ho
  have hlay : List.Forall₂ (record_from lines) (body ++ trailing) (record_layout lines na s) := by
    unfold record_layout
    rw [← hcur, ← hlen]
    exact List.rel_append hfa hfa2
  obtain ⟨hk, hl⟩ := forall2_kept lines _ _ hlay
  have hkept := record_layout_kept lines na s hn
  refine ⟨title, cnt, na, body ++ trailing, hna, ?_, hl, hkept, ?_⟩
  · rw [ho]; simp
  · rw [hk, hkept]

/-- C12: in every successful run output line 1 is input line 1, the output ends with
the input lines from index `na + 2` on, in order and unchanged, and the atom lines the
scan loop leaves (from its final cursor `cur`, `na <= cur <= na + 2`, up to index
`na + 1`) are each emitted through `update_line` with the running counter, like
ordinary atoms: 44 characters with the index field rewritten, not a copy of the line. -/
theorem process_gro_frame (mf : MathFns F) (tx : TextFns F) (lines : List Str) (wm : model F)
    (m : Nat) (hrun : (process_gro mf tx lines wm).res = .ok m) :
    ∃ (s na : Nat) (title cnt : Str) (body trailing : List Str) (cur counter : Nat),
      wm.size mf = .ok s ∧ line_at lines 0 = .ok title ∧ read_na lines = .ok na ∧
      na + 2 ≤ lines.length ∧
      (process_gro mf tx lines wm).out
        = title :: cnt :: (body ++ trailing ++ lines.drop (na + 2)) ∧
      (process_gro mf tx lines wm).out.head? = lines.head? ∧
      lines.drop (na + 2) <:+ (process_gro mf tx lines wm).out ∧
      emit_loop mf tx lines wm s na lines.length 2 1 [title, cnt]
        = ⟨[title, cnt] ++ body, .ok (cur, counter)⟩ ∧
      na ≤ cur ∧ cur ≤ na + 2 ∧ trailing.length = na + 2 - cur ∧
      atom_records lines cur counter trailing ∧
      numbered_from counter trailing ∧ (∀ r ∈ trailing, r.length = 44) := by
  obtain ⟨s, na, title, cnt, o1, cur, counter0, st2, hsize, ht, hna, hn, hel, hcr⟩ :=
    process_gro_ok_parts mf tx lines wm m hrun
  obtain ⟨hna1, hna2, -, body, ho1⟩ :=
    emit_loop_cursor mf tx lines wm s na _ _ _ _ _ _ _ hel (by omega)
  obtain ⟨trailing, hlen, ho, hrec⟩ :=
    copy_rest_records lines na hn _ _ _ _ _ _ hcr (by omega)
  obtain ⟨hnum, -, h44⟩ := atom_records_facts lines trailing _ _ hrec
  have hmax : max cur (na + 2) = na + 2 := by omega
  rw [hmax, ho1] at ho
  rw [ho1] at hel
  have hout : (process_gro mf tx lines wm).out
      = title :: cnt :: (body ++ trailing ++ lines.drop (na + 2)) := by
    rw [ho]; simp
  obtain ⟨h0, hl0⟩ := line_at_ok ht
  refine ⟨s, na, title, cnt, body, trailing, cur, counter0, hsize, ht, hna, hn, hout, ?_, ?_,
    hel, hna1, hna2, hlen, hrec, hnum, h44⟩
  · rw [hout, List.head?_cons, ← hl0]
    cases lines with
    | nil => simp at h0
    | cons a t => rfl
  · rw [hout]
    exact ⟨title :: cnt :: (body ++ trailing), by simp⟩

/-- C13: sequential renumbering from 1.  In every successful run with a model of size
3, 4 or 5, the atom records of the output (everything between the count line and the
lines copied from index `na + 2` on: ordinary atoms, water atoms, fresh sites and
trailing atoms alike) carry the consecutive counters 1, 2, 3, ... in columns 16-20 as
`%5ld` prints them; for `k <= 99999` the field of the `k`-th record is `k`
right-justified in five characters. -/
theorem records_numbered_from_one (mf : MathFns F) (tx : TextFns F) (lines : List Str)
    (wm : model F) (s m : Nat) (hsize : wm.size mf = .ok s) (hs : s = 3 ∨ s = 4 ∨ s = 5)
    (hrun : (process_gro mf tx lines wm).res = .ok m) :
    ∃ (title cnt : Str) (na : Nat) (records : List Str),
      read_na lines = .ok na ∧
      (process_gro mf tx lines wm).out = title :: cnt :: (records ++ lines.drop (na + 2)) ∧
      records.length = (record_layout lines na s).length ∧
      numbered_from 1 records ∧
      ∀ (k : Nat) (hk : k < records.length), k + 1 ≤ 99999 →
        ((records.get ⟨k, hk⟩).drop 15).take 5 = pad_left 5 (to_string (k + 1)) := by
  obtain ⟨s', na, title, cnt, o1, cur, counter0, st2, hsize', ht, hna, hn, hel, hcr⟩ :=
    process_gro_ok_parts mf tx lines wm m hrun
  rw [hsize] at hsize'
  have hss : s = s' := Except.ok.inj hsize'
  subst hss
  obtain ⟨hcur, body, ho1, hc0, hnum, hfa⟩ :=
    emit_loop_records mf tx lines wm s na hs _ _ _ _ _ _ _ hel
  obtain ⟨hna1, hna2, -, -⟩ := emit_loop_cursor mf tx lines wm s na _ _ _ _ _ _ _ hel (by omega)
  obtain ⟨trailing, hlen, ho, hrec⟩ :=
    copy_rest_records lines na hn _ _ _ _ _ _ hcr (by omega)
  obtain ⟨hnum2, hfa2, -⟩ := atom_records_facts lines trailing _ _ hrec
  have hmax : max cur (na + 2) = na + 2 := by omega
  rw [hmax, ho1] at ho
  have hlay : List.Forall₂ (record_from lines) (body ++ trailing) (record_layout lines na s) := by
    unfold record_layout
    rw [← hcur, ← hlen]
    exact List.rel_append hfa hfa2
  have hall : numbered_from 1 (body ++ trailing) := by
    rw [numbered_from_append]
    rw [hc0] at hnum2
    exact ⟨hnum, hnum2⟩
  refine ⟨title, cnt, na, body ++ trailing, hna, ?_, (forall2_kept lines _ _ hlay).2, hall, ?_⟩
  · rw [ho]; simp
  · intro k hk hk5
    have h := numbered_from_get (body ++ trailing) 1 k hk hall
    unfold has_index at h
    rw [List.get_eq_getElem, h, Nat.add_comm 1 k]
    exact fmt_5ld_small (k + 1) hk5

/-! ## Processing the output again -/

/-- The tag of line `i` is the tag of the line itself. -/
theorem tag_single {L : List Str} {i : Nat} {r : Str} (h : line_at L i = .ok r) :
    tag L i = tag [r] 0 := by
  unfold tag
  rw [h]
  rfl

/-- A line of at least 15 characters has a tag, which depends on columns 11-15 only. -/
theorem tag_of_field (r : Str) (h : 15 ≤ r.length) :
    tag [r] 0 = .ok (standardise
      (((substr r 10 5).dropWhile (fun c => c == ' ')).reverse.dropWhile
        (fun c => c == ' ')).reverse) := by
  unfold tag atom_name
  simp only [line_at, List.get?_cons_zero]
  rw [if_neg (by omega)]

theorem substr_take15 (r : Str) : substr r 10 5 = (r.take 15).drop 10 := by
  unfold substr
  rw [List.drop_take]

/-- Two lines with the same columns 1-15 have the same tag. -/
theorem tag_take15 (r l : Str) (h : r.take 15 = l.take 15) (hr : 15 ≤ r.length) :
    tag [r] 0 = tag [l] 0 ∧ ∃ t, tag [l] 0 = .ok t := by
  have hl : 15 ≤ l.length := by
    have := congrArg List.length h
    rw [List.length_take, List.length_take] at this
    omega
  rw [tag_of_field r hr, tag_of_field l hl, substr_take15 r, substr_take15 l, h]
  exact ⟨rfl, _, rfl⟩

/-- The record keeps the tag of the input line it is made from. -/
theorem record_tagged_of_take (lines : List Str) (j : Nat) (l r : Str)
    (hl : line_at lines j = .ok l) (h : r.take 15 = l.take 15) (hr : 15 ≤ r.length) :
    record_tagged lines r (some j) := by
  obtain ⟨h1, t, ht⟩ := tag_take15 r l h hr
  exact ⟨t, by rw [tag_single hl, ht], by rw [h1, ht]⟩

/-- The name field of a record made by `update_line(l, atnam, c, x, y, z)`. -/
theorem update_line_name_field (tx : TextFns F) (l nm r : Str) (c : Nat) (x y z : F)
    (h : update_line_name tx l nm c x y z = .ok r) :
    substr r 10 5 = fmt_5s nm ∧ 15 ≤ r.length := by
  unfold update_line_name at h
  split at h
  · simp at h
  · next t ht =>
    obtain ⟨-, -, hlen, -⟩ := update_line_xyz_fields tx l t c x y z ht
    have hr := (Except.ok.inj h).symm
    subst hr
    have h10 : (List.take 10 t).length = 10 := by rw [List.length_take]; omega
    have h5 := fmt_5s_length nm
    constructor
    · unfold substr
      rw [List.append_assoc, List.drop_append_of_le_length (by omega),
        List.drop_of_length_le (by omega), List.nil_append,
        List.take_append_of_le_length (by omega), List.take_of_length_le (by omega)]
    · simp only [List.length_append, h10, h5]
      omega

/-- The fresh records are tagged MW or LP. -/
theorem fresh_tagged (tx : TextFns F) (lines : List Str) (l nm r : Str) (c : Nat) (x y z : F)
    (h : update_line_name tx l nm c x y z = .ok r)
    (hnm : nm = "MW".toList ∨ nm = "LP1".toList ∨ nm = "LP2".toList) :
    record_tagged lines r none := by
  obtain ⟨hf, hlen⟩ := update_line_name_field tx l nm r c x y z h
  unfold record_tagged
  simp only
  rw [tag_of_field r hlen, hf]
  rcases hnm with h | h | h <;> subst h <;> exact ⟨_, rfl, by decide⟩

theorem emit_M_tagged (tx : TextFns F) (lines : List Str) (l2 : Str)
    (model_size counter : Nat) (extras : List F)
    (out o : List Str) (h : emit_M tx l2 model_size counter extras out = ⟨o, .ok ()⟩) :
    ∃ recs, o = out ++ recs ∧ recs.length = (if model_size = 4 then 1 else 0) ∧
      ∀ r ∈ recs, record_tagged lines r none := by
  unfold emit_M at h
  split at h
  · next hm =>
    obtain ⟨e0, -, h⟩ := Run.eval_ok h
    obtain ⟨e1, -, h⟩ := Run.eval_ok h
    obtain ⟨e2, -, h⟩ := Run.eval_ok h
    obtain ⟨r, hr, h⟩ := Run.put_ok h
    simp only [Run.mk.injEq, and_true] at h
    refine ⟨[r], h.symm, by simp [hm], ?_⟩
    intro r' hr'
    rw [List.mem_singleton] at hr'
    subst hr'
    exact fresh_tagged tx lines _ _ _ _ _ _ _ hr (Or.inl rfl)
  · next hm =>
    simp only [Run.mk.injEq, and_true] at h
    exact ⟨[], by simp [h], by simp [hm], by simp⟩

theorem emit_LP_tagged (tx : TextFns F) (lines : List Str) (l2 : Str)
    (model_size counter : Nat) (extras : List F)
    (out o : List Str) (h : emit_LP tx l2 model_size counter extras out = ⟨o, .ok ()⟩) :
    ∃ recs, o = out ++ recs ∧ recs.length = (if model_size = 5 then 2 else 0) ∧
      ∀ r ∈ recs, record_tagged lines r none := by
  unfold emit_LP at h
  split at h
  · next hm =>
    obtain ⟨e0, -, h⟩ := Run.eval_ok h
    obtain ⟨e1, -, h⟩ := Run.eval_ok h
    obtain ⟨e2, -, h⟩ := Run.eval_ok h
    obtain ⟨r1, hr1, h⟩ := Run.put_ok h
    obtain ⟨e3, -, h⟩ := Run.eval_ok h
    obtain ⟨e4, -, h⟩ := Run.eval_ok h
    obtain ⟨e5, -, h⟩ := Run.eval_ok h
    obtain ⟨r2, hr2, h⟩ := Run.put_ok h
    simp only [Run.mk.injEq, and_true] at h
    refine ⟨[r1, r2], by rw [← h]; simp, by simp [hm], ?_⟩
    intro r' hr'
    simp only [List.mem_cons, List.mem_singleton, List.not_mem_nil, or_false] at hr'
    rcases hr' with h' | h' <;> subst h'
    · exact fresh_tagged tx lines _ _ _ _ _ _ _ hr1 (Or.inr (Or.inl rfl))
    · exact fresh_tagged tx lines _ _ _ _ _ _ _ hr2 (Or.inr (Or.inr rfl))
  · next hm =>
    simp only [Run.mk.injEq, and_true] at h
    exact ⟨[], by simp [h], by simp [hm], by simp⟩

theorem forall2_fresh_tagged (lines : List Str) (recs : List Str)
    (h : ∀ r ∈ recs, record_tagged lines r none) :
    List.Forall₂ (record_tagged lines) recs (List.replicate recs.length none) := by
  induction recs with
  | nil => exact List.Forall₂.nil
  | cons r rs ih =>
    exact List.Forall₂.cons (h r (List.mem_cons_self _ _))
      (ih fun r' hr' => h r' (List.mem_cons_of_mem _ hr'))

/-- The tags of the records of a water step that completes. -/
theorem emit_water_tagged (mf : MathFns F) (tx : TextFns F) (lines : List Str) (wm : model F)
    (s na cur counter : Nat) (out o : List Str) (st : Nat × Nat)
    (hs : s = 3 ∨ s = 4 ∨ s = 5)
    (h : emit_water mf tx lines wm s na cur counter out = ⟨o, .ok st⟩) :
    ∃ recs, o = out ++ recs ∧
      List.Forall₂ (record_tagged lines) recs
        ([some cur, some (cur + 1), some (cur + 2)] ++ List.replicate (s - 3) none) := by
  unfold emit_water at h
  obtain ⟨l0, hl0, h⟩ := Run.eval_ok h
  obtain ⟨p0, -, h⟩ := Run.eval_ok h
  obtain ⟨l1, hl1, h⟩ := Run.eval_ok h
  obtain ⟨p1, -, h⟩ := Run.eval_ok h
  obtain ⟨l2, hl2, h⟩ := Run.eval_ok h
  obtain ⟨p2, -, h⟩ := Run.eval_ok h
  simp only at h
  obtain ⟨extras, -, h⟩ := Run.eval_ok h
  obtain ⟨r0, hr0, h⟩ := Run.put_ok h
  obtain ⟨r1, hr1, h⟩ := Run.put_ok h
  obtain ⟨r2, hr2, h⟩ := Run.put_ok h
  obtain ⟨u, hM, h⟩ := Run.andThen_ok h
  obtain ⟨v, hL, h⟩ := Run.andThen_ok h
  obtain ⟨c, hsk, h⟩ := Run.eval_ok h
  simp only [Run.mk.injEq, Except.ok.injEq] at h
  obtain ⟨ho, hst⟩ := h
  obtain ⟨rM, hMo, hMl, hMt⟩ := emit_M_tagged tx lines _ _ _ _ _ _ hM
  obtain ⟨rL, hLo, hLl, hLt⟩ := emit_LP_tagged tx lines _ _ _ _ _ _ hL
  obtain ⟨f0, -, g0, -⟩ := update_line_xyz_fields tx _ _ _ _ _ _ hr0
  obtain ⟨f1, -, g1, -⟩ := update_line_xyz_fields tx _ _ _ _ _ _ hr1
  obtain ⟨f2, -, g2, -⟩ := update_line_xyz_fields tx _ _ _ _ _ _ hr2
  have hlen : (rM ++ rL).length = s - 3 := by
    rw [List.length_append, hMl, hLl]
    rcases hs with h | h | h <;> subst h <;> rfl
  refine ⟨[r0, r1, r2] ++ (rM ++ rL), ?_, ?_⟩
  · rw [← ho, hLo, hMo]; simp
  · refine List.Forall₂.cons (record_tagged_of_take lines _ l0 r0 hl0 f0 (by omega))
      (List.Forall₂.cons (record_tagged_of_take lines _ l1 r1 hl1 f1 (by omega))
        (List.Forall₂.cons (record_tagged_of_take lines _ l2 r2 hl2 f2 (by omega)) ?_))
    show List.Forall₂ (record_tagged lines) (rM ++ rL) (List.replicate (s - 3) none)
    rw [← hlen]
    apply forall2_fresh_tagged
    intro r hr
    rcases List.mem_append.mp hr with h | h
    · exact hMt r h
    · exact hLt r h

/-- The tags of the records of the emission loop follow the layout of the scan. -/
theorem emit_loop_tagged (mf : MathFns F) (tx : TextFns F) (lines : List Str) (wm : model F)
    (s na : Nat) (hs : s = 3 ∨ s = 4 ∨ s = 5) :
    ∀ (fuel i counter : Nat) (out o : List Str) (c counter1 : Nat),
      emit_loop mf tx lines wm s na fuel i counter out = ⟨o, .ok (c, counter1)⟩ →
      ∃ recs, o = out ++ recs ∧
        List.Forall₂ (record_tagged lines) recs (scan_layout lines na s fuel i) := by
  intro fuel
  induction fuel with
  | zero =>
    intro i counter out o c counter1 he
    unfold emit_loop at he
    split at he
    · simp at he
    · next hlt =>
      simp only [Run.mk.injEq, Except.ok.injEq, Prod.mk.injEq] at he
      obtain ⟨rfl, -, -⟩ := he
      exact ⟨[], by simp, List.Forall₂.nil⟩
  | succ k ih =>
    intro i counter out o c counter1 he
    unfold emit_loop at he
    split at he
    · next hlt =>
      simp only at he
      obtain ⟨an, htag, he⟩ := Run.eval_ok he
      obtain ⟨w, hw, he⟩ := Run.eval_ok he
      have hspec := is_water_spec lines i an w htag hw
      cases w with
      | true =>
        simp only [if_true] at he
        have hsw : starts_water lines i := hspec.mp rfl
        obtain ⟨st, hws, he⟩ := Run.andThen_ok he
        have hcur := emit_water_cursor mf tx lines wm s na i counter out _ st hlt hws
        obtain ⟨recs, ho, hfa⟩ := emit_water_tagged mf tx lines wm s na i counter out _ st hs hws
        rw [hcur, ho] at he
        obtain ⟨recs2, ho2, hfa2⟩ := ih _ _ _ _ _ _ he
        refine ⟨recs ++ recs2, by rw [ho2]; simp, ?_⟩
        conv in scan_layout lines na s (k + 1) i => unfold scan_layout
        rw [if_pos hlt, if_pos hsw]
        exact List.rel_append hfa hfa2
      | false =>
        simp only [Bool.false_eq_true, if_false] at he
        have hsw : ¬ starts_water lines i := fun h => by
          have := hspec.mpr h
          simp at this
        obtain ⟨l, hl, he⟩ := Run.eval_ok he
        obtain ⟨r, hr, he⟩ := Run.put_ok he
        obtain ⟨-, h44, h15, -, -⟩ := update_line_fields l r counter hr
        obtain ⟨recs2, ho2, hfa2⟩ := ih _ _ _ _ _ _ he
        refine ⟨r :: recs2, by rw [ho2]; simp, ?_⟩
        conv in scan_layout lines na s (k + 1) i => unfold scan_layout
        rw [if_pos hlt, if_neg hsw]
        exact List.Forall₂.cons (record_tagged_of_take lines i l r hl h15 (by omega)) hfa2
    · next hlt =>
      simp only [Run.mk.injEq, Except.ok.injEq, Prod.mk.injEq] at he
      obtain ⟨rfl, -, -⟩ := he
      refine ⟨[], by simp, ?_⟩
      unfold scan_layout; rw [if_neg hlt]; exact List.Forall₂.nil

/-- The tags of the records of the trailing atoms. -/
theorem atom_records_tagged (lines : List Str) (recs : List Str) :
    ∀ (j c : Nat), atom_records lines j c recs →
      List.Forall₂ (record_tagged lines) recs ((List.range' j recs.length).map some) := by
  induction recs with
  | nil => intro j c _; exact List.Forall₂.nil
  | cons r rs ih =>
    intro j c h
    obtain ⟨⟨l, hl, hr⟩, hrest⟩ := h
    obtain ⟨-, h44, h15, -, -⟩ := update_line_fields l r c hr
    rw [List.length_cons, List.range'_succ, List.map_cons]
    exact List.Forall₂.cons (record_tagged_of_take lines j l r hl h15 (by omega))
      (ih (j + 1) (c + 1) hrest)


theorem layout_from_exit (lines : List Str) (na s fuel i : Nat) (h : ¬ i < na) :
    layout_from lines na s fuel i = (List.range' i (na + 2 - i)).map some := by
  unfold layout_from
  cases fuel with
  | zero => rfl
  | succ k =>
    unfold scan_layout scan_end
    rw [if_neg h, if_neg h]
    rfl

theorem layout_from_ordinary (lines : List Str) (na s k i : Nat) (h : i < na)
    (hw : ¬ starts_water lines i) :
    layout_from lines na s (k + 1) i = some i :: layout_from lines na s k (i + 1) := by
  unfold layout_from
  rw [scan_layout, scan_end, if_pos h, if_pos h, if_neg hw, if_neg hw]
  rfl

theorem layout_from_water (lines : List Str) (na s k i : Nat) (h : i < na)
    (hw : starts_water lines i) :
    layout_from lines na s (k + 1) i
      = [some i, some (i + 1), some (i + 2)] ++ List.replicate (s - 3) none
          ++ layout_from lines na s k (i + 3 + extra_sites_after lines na (i + 3)) := by
  unfold layout_from
  rw [scan_layout, scan_end, if_pos h, if_pos h, if_pos hw, if_pos hw]
  simp only [List.append_assoc]

/-- The layout from a cursor starts with the lines at the cursor, as far as they are atom
lines. -/
theorem layout_head (lines : List Str) (na s : Nat) :
    ∀ (fuel i : Nat), na ≤ fuel + i → ∀ d, d ≤ 2 → i + d < na + 2 →
      (layout_from lines na s fuel i)[d]? = some (some (i + d)) := by
  intro fuel
  induction fuel with
  | zero =>
    intro i hf d hd hlt
    rw [layout_from_exit lines na s 0 i (by omega), List.getElem?_map,
      List.getElem?_range' _ _ (by omega)]
    simp
  | succ k ih =>
    intro i hf d hd hlt
    by_cases hi : i < na
    · by_cases hw : starts_water lines i
      · rw [layout_from_water lines na s k i hi hw]
        have hd' : d = 0 ∨ d = 1 ∨ d = 2 := by omega
        rcases hd' with rfl | rfl | rfl <;>
          simp only [List.cons_append, List.nil_append, List.append_assoc,
            List.getElem?_cons_succ, List.getElem?_cons_zero, Nat.add_zero]
      · rw [layout_from_ordinary lines na s k i hi hw]
        cases d with
        | zero => simp only [List.getElem?_cons_zero, Nat.add_zero]
        | succ d' =>
          rw [List.getElem?_cons_succ, ih (i + 1) (by omega) d' (by omega) (by omega)]
          congr 2
          omega
    · rw [layout_from_exit lines na s (k + 1) i hi, List.getElem?_map,
        List.getElem?_range' _ _ (by omega)]
      simp

theorem forall2_get {α β : Type} (R : α → β → Prop) (xs : List α) (ys : List β)
    (h : List.Forall₂ R xs ys) :
    ∀ (q : Nat) (y : β), ys[q]? = some y → ∃ x, xs[q]? = some x ∧ R x y := by
  induction h with
  | nil => intro q y hy; simp at hy
  | cons hr _ ih =>
    intro q y hy
    cases q with
    | zero =>
      simp only [List.getElem?_cons_zero, Option.some.injEq] at hy
      subst hy
      exact ⟨_, List.getElem?_cons_zero, hr⟩
    | succ q' =>
      rw [List.getElem?_cons_succ] at hy
      obtain ⟨x, hx, hR⟩ := ih q' y hy
      exact ⟨x, by rw [List.getElem?_cons_succ]; exact hx, hR⟩

theorem line_at_of_get {L : List Str} {i : Nat} {r : Str} (h : L[i]? = some r) :
    line_at L i = .ok r := by
  unfold line_at
  rw [List.get?_eq_getElem?, h]

/-- The tags of the records, read in the output, follow the layout. -/
theorem tags_follow_of_forall2 (lines pre recs post : List Str) (lay : List (Option Nat))
    (h : List.Forall₂ (record_tagged lines) recs lay) :
    tags_follow lines (pre ++ recs ++ post) pre.length lay := by
  intro q
  have key : ∀ o, lay[q]? = some o → ∃ r, tag (pre ++ recs ++ post) (pre.length + q) = tag [r] 0
      ∧ record_tagged lines r o := by
    intro o ho
    obtain ⟨r, hr, hR⟩ := forall2_get _ _ _ h q o ho
    refine ⟨r, ?_, hR⟩
    apply tag_single
    apply line_at_of_get
    have hq : q < recs.length := by
      by_contra hlt
      rw [List.getElem?_eq_none (by omega)] at hr
      simp at hr
    rw [List.append_assoc, List.getElem?_append_right (by omega)]
    simp only [Nat.add_sub_cancel_left]
    rw [List.getElem?_append_left hq]
    exact hr
  constructor
  · intro j hj
    obtain ⟨r, hr, t, ht1, ht2⟩ := key _ hj
    exact ⟨t, ht1, by rw [hr, ht2]⟩
  · intro hn
    obtain ⟨r, hr, t, ht1, ht2⟩ := key _ hn
    exact ⟨t, by rw [hr, ht1], ht2⟩

theorem tags_follow_drop (lines out : List Str) (p : Nat) (a lay : List (Option Nat))
    (h : tags_follow lines out p (a ++ lay)) :
    tags_follow lines out (p + a.length) lay := by
  intro q
  have e : p + a.length + q = p + (a.length + q) := by omega
  have hg : (a ++ lay)[a.length + q]? = lay[q]? := by
    rw [List.getElem?_append_right (by omega)]
    simp
  obtain ⟨h1, h2⟩ := h (a.length + q)
  rw [hg] at h1 h2
  rw [e]
  exact ⟨h1, h2⟩

/-- The number of extra-site lines after `j` is `m` when `m` lines tagged MW, LP or EP
follow and the next line is past the atom range or tagged otherwise. -/
theorem extra_sites_after_eq (L : List Str) (na : Nat) :
    ∀ (m j : Nat), j + m ≤ na + 2 →
      (∀ q, q < m → ∃ t, tag L (j + q) = .ok t ∧ is_extra t = true) →
      (j + m < na + 2 → ∃ t, tag L (j + m) = .ok t ∧ is_extra t = false) →
      extra_sites_after L na j = m := by
  intro m
  induction m with
  | zero =>
    intro j hj _ hstop
    simp only [Nat.add_zero] at hstop
    by_cases hlt : j < na + 2
    · obtain ⟨t, ht, hx⟩ := hstop hlt
      obtain ⟨hi, hxl⟩ := is_extra_line_of_tag ht
      rw [extra_sites_after_step L na j hlt hi, hxl, hx]
      rfl
    · exact extra_sites_after_zero L na j (by omega)
  | succ k ih =>
    intro j hj hblock hstop
    have h0 := hblock 0 (by omega)
    simp only [Nat.add_zero] at h0
    obtain ⟨t, ht, hx⟩ := h0
    obtain ⟨hi, hxl⟩ := is_extra_line_of_tag ht
    rw [extra_sites_after_step L na j (by omega) hi, hxl, hx, if_pos rfl]
    rw [ih (j + 1) (by omega)
      (fun q hq => by
        have := hblock (q + 1) (by omega)
        have e : j + (q + 1) = j + 1 + q := by omega
        rw [e] at this; exact this)
      (fun h => by
        have e : j + 1 + k = j + (k + 1) := by omega
        rw [e]; exact hstop (by omega))]
    omega

/-- When the skip loop of the counting pass completes, the tag of the line it lands on
has been read; inside the atom range it is not MW, LP or EP. -/
theorem count_skip_landing (lines : List Str) (na : Nat) :
    ∀ (fuel j : Nat) (an : Str) (nwa c nwa1 : Nat),
      count_skip lines na fuel j an nwa = .ok (c, nwa1) → tag lines j = .ok an →
      ∃ t, tag lines c = .ok t ∧ (c < na + 2 → is_extra t = false) := by
  intro fuel
  induction fuel with
  | zero =>
    intro j an nwa c nwa1 h ht
    unfold count_skip at h
    split at h
    · simp at h
    · next hc =>
      simp only [Except.ok.injEq, Prod.mk.injEq] at h
      obtain ⟨rfl, -⟩ := h
      refine ⟨an, ht, fun hlt => ?_⟩
      cases hx : is_extra an with
      | false => rfl
      | true => exact absurd ⟨hlt, hx⟩ hc
  | succ k ih =>
    intro j an nwa c nwa1 h ht
    unfold count_skip at h
    split at h
    · next hc =>
      simp only at h
      split at h
      · simp at h
      · next an1 ht1 => exact ih _ _ _ _ _ h ht1
    · next hc =>
      simp only [Except.ok.injEq, Prod.mk.injEq] at h
      obtain ⟨rfl, -⟩ := h
      refine ⟨an, ht, fun hlt => ?_⟩
      cases hx : is_extra an with
      | false => rfl
      | true => exact absurd ⟨hlt, hx⟩ hc

/-- One turn of the counting pass that completes: the classification of the cursor
position, and what the rest of the pass returns. -/
theorem count_loop_step (lines : List Str) (na k i nw nwa c nw1 nwa1 : Nat) (hi : i < na)
    (h : count_loop lines na (k + 1) i nw nwa = .ok (c, nw1, nwa1)) :
    (starts_water lines i ∧
      count_loop lines na k (i + 3 + extra_sites_after lines na (i + 3)) (nw + 1)
        (nwa + 3 + extra_sites_after lines na (i + 3)) = .ok (c, nw1, nwa1) ∧
      ∃ t, tag lines (i + 3 + extra_sites_after lines na (i + 3)) = .ok t ∧
        (i + 3 + extra_sites_after lines na (i + 3) < na + 2 → is_extra t = false)) ∨
    (¬ starts_water lines i ∧ count_loop lines na k (i + 1) nw nwa = .ok (c, nw1, nwa1)) := by
  rw [count_loop, if_pos hi] at h
  split at h
  · simp at h
  · next an htag =>
    split at h
    · simp at h
    · next hw =>
      have hsw : starts_water lines i := (is_water_spec lines i an true htag hw).mp rfl
      left
      split at h
      · simp at h
      · next cur1 nwa2 hskip =>
        obtain ⟨h1, h2⟩ := count_skip_first lines na i nwa cur1 nwa2 hi hskip
        subst h1 h2
        refine ⟨hsw, h, ?_⟩
        rw [count_skip, if_pos ⟨by omega, by decide⟩] at hskip
        split at hskip
        · simp at hskip
        · next an1 ht1 =>
          exact count_skip_landing lines na _ _ _ _ _ _ hskip ht1
    · next hw =>
      right
      refine ⟨fun hsw => ?_, h⟩
      have := (is_water_spec lines i an false htag hw).mpr hsw
      simp at this

/-- The tags of the three lines at the cursor are the same in the output. -/
theorem head_tags (lines out : List Str) (na s fuel i p : Nat) (hf : na ≤ fuel + i)
    (hi : i < na) (ht : tags_follow lines out p (layout_from lines na s fuel i)) :
    ∀ d, d ≤ 2 → ∃ t, tag lines (i + d) = .ok t ∧ tag out (p + d) = .ok t := by
  intro d hd
  exact (ht d).1 (i + d) (layout_head lines na s fuel i hf d hd (by omega))

theorem starts_water_transfer (lines out : List Str) (i p : Nat)
    (h : ∀ d, d ≤ 2 → ∃ t, tag lines (i + d) = .ok t ∧ tag out (p + d) = .ok t) :
    starts_water out p ↔ starts_water lines i := by
  obtain ⟨t0, a0, b0⟩ := h 0 (by omega)
  obtain ⟨t1, a1, b1⟩ := h 1 (by omega)
  obtain ⟨t2, a2, b2⟩ := h 2 (by omega)
  simp only [Nat.add_zero] at a0 b0
  unfold starts_water
  rw [a0, a1, a2, b0, b1, b2]

/-- The output at an input cursor that does not start a water molecule. -/
theorem output_ordinary_step (lines out : List Str) (na s N k i p : Nat)
    (hf : na ≤ k + 1 + i) (hi : i < na) (hw : ¬ starts_water lines i)
    (hlen : p + (layout_from lines na s (k + 1) i).length = N + 2)
    (ht : tags_follow lines out p (layout_from lines na s (k + 1) i)) :
    p < N ∧ ¬ starts_water out p ∧ (∀ j, p ≤ j → j ≤ p + 2 → ∃ t, tag out j = .ok t) ∧
    p + 1 + (layout_from lines na s k (i + 1)).length = N + 2 ∧
    tags_follow lines out (p + 1) (layout_from lines na s k (i + 1)) := by
  have hh := head_tags lines out na s (k + 1) i p hf hi ht
  have h2 := layout_head lines na s (k + 1) i hf 2 (le_refl _) (by omega)
  have hl3 : 2 < (layout_from lines na s (k + 1) i).length := by
    by_contra hc
    rw [List.getElem?_eq_none (by omega)] at h2
    simp at h2
  have hlay := layout_from_ordinary lines na s k i hi hw
  refine ⟨by omega, ?_, ?_, ?_, ?_⟩
  · rw [starts_water_transfer lines out i p hh]; exact hw
  · intro j hj1 hj2
    obtain ⟨t, -, ht'⟩ := hh (j - p) (by omega)
    have e : p + (j - p) = j := by omega
    rw [e] at ht'
    exact ⟨t, ht'⟩
  · rw [hlay, List.length_cons] at hlen
    omega
  · rw [hlay] at ht
    exact tags_follow_drop lines out p [some i] _ ht

/-- The output at an input cursor that starts a water molecule. -/
theorem output_water_step (lines out : List Str) (na s N k i p : Nat)
    (hf : na ≤ k + 1 + i) (hi : i < na) (hw : starts_water lines i)
    (hland : ∃ t, tag lines (i + 3 + extra_sites_after lines na (i + 3)) = .ok t ∧
      (i + 3 + extra_sites_after lines na (i + 3) < na + 2 → is_extra t = false))
    (hbox : ∀ t, tag lines (na + 2) = .ok t → ∃ t', tag out (N + 2) = .ok t')
    (hlen : p + (layout_from lines na s (k + 1) i).length = N + 2)
    (ht : tags_follow lines out p (layout_from lines na s (k + 1) i)) :
    p < N ∧ starts_water out p ∧ extra_sites_after out N (p + 3) = s - 3 ∧
    (∀ j, p + 3 ≤ j → j ≤ p + 3 + (s - 3) → ∃ t, tag out j = .ok t) ∧
    p + 3 + (s - 3)
      + (layout_from lines na s k (i + 3 + extra_sites_after lines na (i + 3))).length
      = N + 2 ∧
    tags_follow lines out (p + 3 + (s - 3))
      (layout_from lines na s k (i + 3 + extra_sites_after lines na (i + 3))) := by
  have hh := head_tags lines out na s (k + 1) i p hf hi ht
  have hlay := layout_from_water lines na s k i hi hw
  have hJle := extra_sites_after_le lines na (i + 3) (by omega)
  generalize hJ : i + 3 + extra_sites_after lines na (i + 3) = J at *
  have hA : ([some i, some (i + 1), some (i + 2)] ++ List.replicate (s - 3) none
      : List (Option Nat)).length = 3 + (s - 3) := by
    simp only [List.length_append, List.length_cons, List.length_nil, List.length_replicate]
  have hlen2 : p + 3 + (s - 3) + (layout_from lines na s k J).length = N + 2 := by
    rw [hlay, List.length_append, hA] at hlen
    omega
  have ht2 : tags_follow lines out (p + 3 + (s - 3)) (layout_from lines na s k J) := by
    rw [hlay] at ht
    have := tags_follow_drop lines out p _ _ ht
    rw [hA] at this
    have e : p + (3 + (s - 3)) = p + 3 + (s - 3) := by omega
    rw [e] at this
    exact this
  have hblock : ∀ q, q < s - 3 → ∃ t, tag out (p + 3 + q) = .ok t ∧ is_extra t = true := by
    intro q hq
    have hg : (layout_from lines na s (k + 1) i)[3 + q]? = some none := by
      rw [hlay, List.append_assoc, List.getElem?_append_right (by simp)]
      simp only [List.length_cons, List.length_nil, Nat.zero_add]
      have e : 3 + q - 3 = q := by omega
      rw [e, List.getElem?_append_left (by simp; omega), List.getElem?_replicate]
      simp [hq]
    have := (ht (3 + q)).2 hg
    have e : p + (3 + q) = p + 3 + q := by omega
    rw [e] at this
    exact this
  have hstop : p + 3 + (s - 3) < N + 2 → ∃ t, tag out (p + 3 + (s - 3)) = .ok t
      ∧ is_extra t = false := by
    intro hlt
    have hJlt : J < na + 2 := by
      by_contra hc
      rw [layout_from_exit lines na s k J (by omega)] at hlen2
      simp only [List.length_map, List.length_range'] at hlen2
      omega
    obtain ⟨t, htJ, hx⟩ := hland
    have h0 := layout_head lines na s k J (by omega) 0 (by omega) (by omega)
    obtain ⟨t', a, b⟩ := (ht2 0).1 _ h0
    simp only [Nat.add_zero] at a b
    rw [htJ] at a
    have : t = t' := Except.ok.inj a
    subst this
    exact ⟨t, b, hx hJlt⟩
  refine ⟨by omega, (starts_water_transfer lines out i p hh).mpr hw, ?_, ?_, hlen2, ht2⟩
  · exact extra_sites_after_eq out N (s - 3) (p + 3) (by omega) hblock hstop
  · intro j hj1 hj2
    by_cases hjb : j < p + 3 + (s - 3)
    · obtain ⟨t, ht', -⟩ := hblock (j - (p + 3)) (by omega)
      have e : p + 3 + (j - (p + 3)) = j := by omega
      rw [e] at ht'
      exact ⟨t, ht'⟩
    · have hje : j = p + 3 + (s - 3) := by omega
      subst hje
      by_cases hlt : p + 3 + (s - 3) < N + 2
      · obtain ⟨t, ht', -⟩ := hstop hlt
        exact ⟨t, ht'⟩
      · have hN : p + 3 + (s - 3) = N + 2 := by omega
        have hJe : J = na + 2 := by
          by_contra hc
          have h0 := layout_head lines na s k J (by omega) 0 (by omega) (by omega)
          have : 0 < (layout_from lines na s k J).length := by
            by_contra hc2
            rw [List.getElem?_eq_none (by omega)] at h0
            simp at h0
          omega
        obtain ⟨t, htJ, -⟩ := hland
        rw [hJe] at htJ
        rw [hN]
        exact hbox t htJ

/-- The counting pass on the output: it detects as many water molecules as the counting
pass on the input, with `s - 3` extra sites after each. -/
theorem rescan (lines out : List Str) (na s N : Nat) (hs : 3 ≤ s)
    (hbox : ∀ t, tag lines (na + 2) = .ok t → ∃ t', tag out (N + 2) = .ok t') :
    ∀ (fuel i p fo nw nwa c nw1 nwa1 nw' nwa' : Nat),
      count_loop lines na fuel i nw nwa = .ok (c, nw1, nwa1) →
      na ≤ fuel + i →
      p + (layout_from lines na s fuel i).length = N + 2 →
      N ≤ fo + p →
      tags_follow lines out p (layout_from lines na s fuel i) →
      nw ≤ nw1 ∧ ∃ c', count_loop out N fo p nw' nwa'
        = .ok (c', nw' + (nw1 - nw), nwa' + s * (nw1 - nw)) := by
  intro fuel
  induction fuel with
  | zero =>
    intro i p fo nw nwa c nw1 nwa1 nw' nwa' hc hf hlen hfo ht
    rw [layout_from_exit lines na s 0 i (by omega)] at hlen
    simp only [List.length_map, List.length_range'] at hlen
    unfold count_loop at hc
    rw [if_neg (by omega)] at hc
    simp only [Except.ok.injEq, Prod.mk.injEq] at hc
    obtain ⟨-, rfl, -⟩ := hc
    refine ⟨le_refl _, p, ?_⟩
    unfold count_loop
    rw [if_neg (by omega)]
    simp
  | succ k ih =>
    intro i p fo nw nwa c nw1 nwa1 nw' nwa' hc hf hlen hfo ht
    by_cases hi : i < na
    · rcases count_loop_step lines na k i nw nwa c nw1 nwa1 hi hc with
        ⟨hw, hc', hland⟩ | ⟨hw, hc'⟩
      · obtain ⟨hp, hwo, hesa, hread, hlen2, ht2⟩ :=
          output_water_step lines out na s N k i p hf hi hw hland hbox hlen ht
        obtain ⟨fo', rfl⟩ : ∃ fo', fo = fo' + 1 := ⟨fo - 1, by omega⟩
        rw [← hesa] at hread
        have hstep := count_loop_water out N fo' p nw' nwa' hp hwo hread
        rw [hesa] at hstep
        obtain ⟨hle, c', hc2⟩ := ih _ (p + 3 + (s - 3)) fo' _ _ _ _ _ (nw' + 1)
          (nwa' + 3 + (s - 3)) hc' (by omega) hlen2 (by omega) ht2
        refine ⟨by omega, c', ?_⟩
        rw [hstep, hc2]
        have e : nw1 - nw = (nw1 - (nw + 1)) + 1 := by omega
        rw [e, Nat.mul_add, Nat.mul_one]
        simp only [Except.ok.injEq, Prod.mk.injEq, true_and]
        omega
      · obtain ⟨hp, hwo, hread, hlen2, ht2⟩ :=
          output_ordinary_step lines out na s N k i p hf hi hw hlen ht
        obtain ⟨fo', rfl⟩ : ∃ fo', fo = fo' + 1 := ⟨fo - 1, by omega⟩
        have hstep := count_loop_ordinary out N fo' p nw' nwa' hp hwo hread
        obtain ⟨hle, c', hc2⟩ := ih _ (p + 1) fo' _ _ _ _ _ nw' nwa' hc' (by omega) hlen2
          (by omega) ht2
        exact ⟨hle, c', by rw [hstep, hc2]⟩
    · rw [layout_from_exit lines na s (k + 1) i hi] at hlen
      simp only [List.length_map, List.length_range'] at hlen
      unfold count_loop at hc
      rw [if_neg hi] at hc
      simp only [Except.ok.injEq, Prod.mk.injEq] at hc
      obtain ⟨-, rfl, -⟩ := hc
      refine ⟨le_refl _, p, ?_⟩
      unfold count_loop
      rw [if_neg (by omega)]
      simp

theorem water_runs_exit (L : List Str) (na fuel i : Nat) (h : ¬ i < na) :
    water_runs L na fuel i = [] := by
  cases fuel with
  | zero => rfl
  | succ k => rw [water_runs, if_neg h]

theorem map_some_ne_none (l : List Nat) (q : Nat) : (l.map some)[q]? ≠ some none := by
  rw [List.getElem?_map]
  cases l[q]? <;> simp

/-- The lines the classifier discards in the output are exactly the fresh records. -/
theorem rescan_discarded (lines out : List Str) (na s N : Nat)
    (hbox : ∀ t, tag lines (na + 2) = .ok t → ∃ t', tag out (N + 2) = .ok t') :
    ∀ (fuel i p fo nw nwa c nw1 nwa1 : Nat),
      count_loop lines na fuel i nw nwa = .ok (c, nw1, nwa1) →
      na ≤ fuel + i →
      p + (layout_from lines na s fuel i).length = N + 2 →
      N ≤ fo + p →
      tags_follow lines out p (layout_from lines na s fuel i) →
      ∀ q, is_discarded (water_runs out N fo p) (p + q) = true
        ↔ (layout_from lines na s fuel i)[q]? = some none := by
  intro fuel
  induction fuel with
  | zero =>
    intro i p fo nw nwa c nw1 nwa1 hc hf hlen hfo ht q
    rw [layout_from_exit lines na s 0 i (by omega)] at hlen ⊢
    simp only [List.length_map, List.length_range'] at hlen
    rw [water_runs_exit out N fo p (by omega)]
    constructor
    · intro h; simp [is_discarded] at h
    · intro h; exact absurd h (map_some_ne_none _ _)
  | succ k ih =>
    intro i p fo nw nwa c nw1 nwa1 hc hf hlen hfo ht q
    by_cases hi : i < na
    · rcases count_loop_step lines na k i nw nwa c nw1 nwa1 hi hc with
        ⟨hw, hc', hland⟩ | ⟨hw, hc'⟩
      · obtain ⟨hp, hwo, hesa, hread, hlen2, ht2⟩ :=
          output_water_step lines out na s N k i p hf hi hw hland hbox hlen ht
        obtain ⟨fo', rfl⟩ : ∃ fo', fo = fo' + 1 := ⟨fo - 1, by omega⟩
        have hwo' : tag out p = .ok "OW".toList ∧ tag out (p + 1) = .ok "HW".toList
            ∧ tag out (p + 2) = .ok "HW".toList := hwo
        rw [water_runs, if_pos hp, if_pos hwo', hesa, is_discarded_cons]
        have hlay := layout_from_water lines na s k i hi hw
        have hIH := ih _ (p + 3 + (s - 3)) fo' _ _ _ _ _ hc' (by omega) hlen2 (by omega) ht2
        have hstart := water_runs_start out N fo' (p + 3 + (s - 3))
        by_cases hq3 : q < 3
        · have h1 : (decide (p + 3 ≤ p + q) && decide (p + q < p + 3 + (s - 3))) = false := by
            simp only [Bool.and_eq_false_imp, decide_eq_true_eq, decide_eq_false_iff_not]
            intro h; omega
          have h2 : is_discarded (water_runs out N fo' (p + 3 + (s - 3))) (p + q) = false := by
            apply is_discarded_before
            intro r hr
            have := hstart r hr
            omega
          have h3 := layout_head lines na s (k + 1) i hf q (by omega) (by omega)
          simp only [h1, h2, Bool.or_false, Bool.false_eq_true, false_iff]
          rw [h3]
          simp
        · by_cases hqs : q < 3 + (s - 3)
          · have h1 : (decide (p + 3 ≤ p + q) && decide (p + q < p + 3 + (s - 3))) = true := by
              simp only [Bool.and_eq_true, decide_eq_true_eq]
              omega
            have hg : (layout_from lines na s (k + 1) i)[q]? = some none := by
              rw [hlay, List.append_assoc, List.getElem?_append_right (by simp; omega)]
              simp only [List.length_cons, List.length_nil, Nat.zero_add]
              rw [List.getElem?_append_left (by simp; omega), List.getElem?_replicate]
              simp
              omega
            simp only [h1, Bool.true_or, true_iff]
            exact hg
          · have h1 : (decide (p + 3 ≤ p + q) && decide (p + q < p + 3 + (s - 3))) = false := by
              simp only [Bool.and_eq_false_imp, decide_eq_true_eq, decide_eq_false_iff_not]
              intro h; omega
            have hg : (layout_from lines na s (k + 1) i)[q]?
                = (layout_from lines na s k
                    (i + 3 + extra_sites_after lines na (i + 3)))[q - (3 + (s - 3))]? := by
              rw [hlay, List.getElem?_append_right (by simp; omega)]
              congr 1
              simp
              omega
            have hq := hIH (q - (3 + (s - 3)))
            have e : p + 3 + (s - 3) + (q - (3 + (s - 3))) = p + q := by omega
            rw [e] at hq
            simp only [h1, Bool.false_or]
            rw [hq, hg]
      · obtain ⟨hp, hwo, hread, hlen2, ht2⟩ :=
          output_ordinary_step lines out na s N k i p hf hi hw hlen ht
        obtain ⟨fo', rfl⟩ : ∃ fo', fo = fo' + 1 := ⟨fo - 1, by omega⟩
        have hwo' : ¬ (tag out p = .ok "OW".toList ∧ tag out (p + 1) = .ok "HW".toList
            ∧ tag out (p + 2) = .ok "HW".toList) := hwo
        rw [water_runs, if_pos hp, if_neg hwo']
        have hlay := layout_from_ordinary lines na s k i hi hw
        have hIH := ih _ (p + 1) fo' _ _ _ _ _ hc' (by omega) hlen2 (by omega) ht2
        have hstart := water_runs_start out N fo' (p + 1)
        cases q with
        | zero =>
          have h2 : is_discarded (water_runs out N fo' (p + 1)) (p + 0) = false := by
            apply is_discarded_before
            intro r hr
            have := hstart r hr
            omega
          rw [h2, hlay]
          simp
        | succ q' =>
          have e : p + (q' + 1) = p + 1 + q' := by omega
          rw [e, hIH q', hlay, List.getElem?_cons_succ]
    · rw [layout_from_exit lines na s (k + 1) i hi] at hlen ⊢
      simp only [List.length_map, List.length_range'] at hlen
      rw [water_runs_exit out N fo p (by omega)]
      constructor
      · intro h; simp [is_discarded] at h
      · intro h; exact absurd h (map_some_ne_none _ _)

theorem digits_value_append (xs : Str) (c : Char) :
    digits_value (xs ++ [c]) = 10 * digits_value xs + (c.toNat - '0'.toNat) := by
  unfold digits_value
  rw [List.foldl_append]
  rfl

theorem digitChar_digit (m : Nat) (h : m < 10) :
    (Nat.digitChar m).isDigit = true ∧ (Nat.digitChar m).toNat - '0'.toNat = m := by
  interval_cases m <;> exact ⟨rfl, rfl⟩

/-- The decimal digits `std::to_string` writes: not empty, digits only, with the value
of the number. -/
theorem toDigitsCore_value :
    ∀ (fuel n : Nat) (ds : List Char), n < fuel →
      ∃ xs, Nat.toDigitsCore 10 fuel n ds = xs ++ ds ∧ xs ≠ [] ∧
        (∀ c ∈ xs, c.isDigit = true) ∧ digits_value xs = n := by
  intro fuel
  induction fuel with
  | zero => intro n ds h; omega
  | succ k ih =>
    intro n ds h
    obtain ⟨hd1, hd2⟩ := digitChar_digit (n % 10) (Nat.mod_lt _ (by norm_num))
    simp only [Nat.toDigitsCore]
    split
    · next h0 =>
      refine ⟨[Nat.digitChar (n % 10)], rfl, by simp, ?_, ?_⟩
      · intro c hc
        rw [List.mem_singleton] at hc
        rw [hc]; exact hd1
      · have := digits_value_append [] (Nat.digitChar (n % 10))
        rw [List.nil_append] at this
        rw [this, hd2]
        have : digits_value [] = 0 := rfl
        rw [this]
        omega
    · next h0 =>
      obtain ⟨xs, hx, -, hall, hv⟩ := ih (n / 10) (Nat.digitChar (n % 10) :: ds) (by omega)
      refine ⟨xs ++ [Nat.digitChar (n % 10)], ?_, by simp, ?_, ?_⟩
      · rw [hx]; simp
      · intro c hc
        rcases List.mem_append.mp hc with h | h
        · exact hall c h
        · rw [List.mem_singleton] at h
          rw [h]; exact hd1
      · rw [digits_value_append, hv, hd2]
        omega

theorem to_string_digits (n : Nat) :
    to_string n ≠ [] ∧ (∀ c ∈ to_string n, c.isDigit = true) ∧ digits_value (to_string n) = n := by
  obtain ⟨xs, hx, hne, hall, hv⟩ := toDigitsCore_value (n + 1) n [] (by omega)
  unfold to_string Nat.toDigits
  rw [hx, List.append_nil]
  exact ⟨hne, hall, hv⟩

theorem isDigit_not_space (c : Char) (h : c.isDigit = true) :
    isspace c = false ∧ c ≠ '-' ∧ c ≠ '+' := by
  have hc : 48 ≤ c.toNat ∧ c.toNat ≤ 57 := by
    simp only [Char.isDigit, Bool.and_eq_true, decide_eq_true_eq] at h
    exact ⟨h.1, h.2⟩
  refine ⟨?_, ?_, ?_⟩
  · unfold isspace
    have h1 : (c == ' ') = false := by
      rw [beq_eq_false_iff_ne]
      intro he
      rw [he] at hc
      exact absurd hc.1 (by decide)
    rw [h1]
    simp only [Bool.false_or, Bool.and_eq_false_imp, decide_eq_true_eq, decide_eq_false_iff_not]
    intro _; omega
  · intro he
    rw [he] at hc
    exact absurd hc.1 (by decide)
  · intro he
    rw [he] at hc
    exact absurd hc.1 (by decide)

/-- The function `std::stol` on a string of digits. -/
theorem stol_digits (xs : Str) (hne : xs ≠ []) (hall : ∀ c ∈ xs, c.isDigit = true)
    (hv : (digits_value xs : Int) ≤ LONG_MAX) :
    stol xs = .value (digits_value xs : Int) := by
  obtain ⟨c, t, rfl⟩ := List.exists_cons_of_ne_nil hne
  obtain ⟨hsp, hm, hp⟩ := isDigit_not_space c (hall c (List.mem_cons_self _ _))
  have htw : List.takeWhile Char.isDigit (c :: t) = c :: t := by
    rw [List.takeWhile_eq_self_iff]
    exact hall
  unfold stol
  have hdw : List.dropWhile isspace (c :: t) = c :: t := by
    rw [List.dropWhile_cons_of_neg (by rw [hsp]; simp)]
  simp only [hdw, List.head?_cons]
  have e1 : (some c == some '-') = false := by
    rw [beq_eq_false_iff_ne]
    intro h; exact hm (Option.some.inj h)
  have e2 : (some c == some '+') = false := by
    rw [beq_eq_false_iff_ne]
    intro h; exact hp (Option.some.inj h)
  simp only [e1, e2, Bool.or_self, Bool.false_eq_true, if_false, htw]
  rw [if_neg (by simp)]
  rw [if_neg]
  intro h
  have h0 : (0 : Int) ≤ (digits_value (c :: t) : Int) := Int.natCast_nonneg _
  unfold LONG_MAX at h hv
  omega

/-- The count that `process_gro` writes is read back by `std::stol`. -/
theorem stol_to_string (n : Nat) (h : (n : Int) ≤ LONG_MAX) :
    stol (to_string n) = .value (n : Int) := by
  obtain ⟨hne, hall, hv⟩ := to_string_digits n
  have := stol_digits (to_string n) hne hall (by rw [hv]; exact h)
  rw [hv] at this
  exact this

/-- The header of the output of a run: the second line is read back as the count. -/
theorem read_na_to_string (L : List Str) (n : Nat) (h1 : line_at L 1 = .ok (to_string n))
    (h : (n : Int) ≤ LONG_MAX) : read_na L = .ok n := by
  rw [read_na_eq L _ h1, stol_to_string n h]
  simp


/-- C22: the output can be processed again.  When `process_gro` succeeds with a model of
size `s` (3, 4 or 5) and returns `m` water molecules, its output is the title, the
count `N`, `N` atom records and the trailing lines; the tag of every record made from an
input line is the tag of that line, and every fresh record is tagged MW or LP.  The
counting pass of the code, run on the output with atom count `N`, completes and finds
`m` water molecules and `s * m` atoms in them; the classifier of the specification
finds `m` runs in the output and discards `m * (s - 3)` lines, which are exactly the
fresh records; the count a 3-site conversion of the output computes,
`N - s * m + 3 * m`, is `na - k` with `k` the number of lines discarded from the input.
When `N` fits a `long`, the count line of the output is read back as `N`, and a second
call with any model of size 3 writes the title and the count `na - k`. -/
theorem output_reprocessable (mf : MathFns F) (tx : TextFns F) (lines : List Str)
    (wm : model F) (s m : Nat) (hsize : wm.size mf = .ok s) (hs : s = 3 ∨ s = 4 ∨ s = 5)
    (hrun : (process_gro mf tx lines wm).res = .ok m) :
    ∃ (out : List Str) (title : Str) (na N : Nat) (records : List Str),
      out = (process_gro mf tx lines wm).out ∧
      read_na lines = .ok na ∧
      out = title :: to_string N :: (records ++ lines.drop (na + 2)) ∧
      records.length = N ∧
      m = water_count lines na ∧
      List.Forall₂ (record_tagged lines) records (record_layout lines na s) ∧
      (∃ c, count_loop out N out.length 2 0 0 = .ok (c, m, s * m)) ∧
      water_count out N = m ∧ discarded_count out N = m * (s - 3) ∧
      (∀ q, is_discarded (water_runs out N out.length 2) (2 + q) = true
        ↔ (record_layout lines na s)[q]? = some none) ∧
      N - s * m + m * 3 = na - discarded_count lines na ∧
      ((N : Int) ≤ LONG_MAX →
        read_na out = .ok N ∧
        ∀ wm3 : model F, wm3.size mf = .ok 3 →
          [title, to_string (na - discarded_count lines na)]
            <+: (process_gro mf tx out wm3).out) := by
  obtain ⟨s1, na, c, nwa, title, hsize1, hn5, hna, hn, hcnt, ht⟩ :=
    process_gro_ok_header mf tx lines wm m hrun
  rw [hsize] at hsize1
  have hss : s = s1 := Except.ok.inj hsize1
  subst hss
  have hhead := process_gro_header_out mf tx lines wm s na c m nwa title hsize hn5 hna hn hcnt ht
  obtain ⟨s2, na2, title2, cnt, o1, cur, counter0, st2, hsize2, ht2, hna2, -, hel, hcr⟩ :=
    process_gro_ok_parts mf tx lines wm m hrun
  rw [hsize] at hsize2
  have hss : s = s2 := Except.ok.inj hsize2
  subst hss
  rw [hna] at hna2
  have hnn : na = na2 := Except.ok.inj hna2
  subst hnn
  rw [ht] at ht2
  have htt : title = title2 := Except.ok.inj ht2
  subst htt
  obtain ⟨hcur, body, ho1, hc0, -, -⟩ :=
    emit_loop_records mf tx lines wm s na hs _ _ _ _ _ _ _ hel
  obtain ⟨body2, ho1b, htag⟩ := emit_loop_tagged mf tx lines wm s na hs _ _ _ _ _ _ _ hel
  have hbb : body = body2 := by
    rw [ho1] at ho1b
    exact List.append_cancel_left ho1b
  subst hbb
  obtain ⟨hna1, hna2, -, -⟩ := emit_loop_cursor mf tx lines wm s na _ _ _ _ _ _ _ hel (by omega)
  obtain ⟨hc12, -, -, -, hinv, hinv2, -, -, -, -⟩ :=
    count_emit_agree mf tx lines wm s na hs _ _ _ _ _ _ _ _ _ _ _ _ hcnt hel (by omega)
  obtain ⟨trailing, hlen, ho, hrec⟩ :=
    copy_rest_records lines na hn _ _ _ _ _ _ hcr (by omega)
  have htag2 := atom_records_tagged lines trailing _ _ hrec
  have hmax : max cur (na + 2) = na + 2 := by omega
  rw [hmax, ho1] at ho
  generalize (process_gro mf tx lines wm).out = out at ho hhead ⊢
  have hlay : List.Forall₂ (record_tagged lines) (body ++ trailing) (record_layout lines na s) := by
    unfold record_layout
    rw [← hcur, ← hlen]
    exact List.rel_append htag htag2
  have hNlen : (body ++ trailing).length = (record_layout lines na s).length :=
    List.Forall₂.length_eq hlay
  -- the number of records
  obtain ⟨hm, hnwa⟩ := count_loop_spec lines na _ _ _ _ _ _ _ hcnt
  simp only [Nat.zero_add] at hm hnwa
  have hN : (body ++ trailing).length = na - nwa + m * s := by
    rw [List.length_append, hlen]
    simp only [Nat.zero_mul, Nat.add_zero] at hinv
    omega
  have hout : out = [title, cnt] ++ (body ++ trailing) ++ lines.drop (na + 2) := by
    rw [ho]; simp
  have hcnt_eq : cnt = to_string (na - nwa + m * s) := by
    obtain ⟨rest, hrest⟩ := hhead
    rw [hout] at hrest
    simp only [List.cons_append, List.nil_append, List.cons.injEq, true_and] at hrest
    exact hrest.1.symm
  generalize hrecs : body ++ trailing = records at *
  generalize hNdef : records.length = N at *
  rw [← hN] at hcnt_eq
  subst hcnt_eq
  -- the tags of the output
  have hfollow : tags_follow lines out 2 (layout_from lines na s lines.length 2) := by
    rw [hout]
    exact tags_follow_of_forall2 lines [title, to_string N] records _ _ hlay
  have hbox : ∀ t, tag lines (na + 2) = .ok t → ∃ t', tag out (N + 2) = .ok t' := by
    intro t htb
    obtain ⟨hi, -⟩ := tag_ok htb
    have hl : line_at out (N + 2) = .ok lines[na + 2] := by
      apply line_at_of_get
      rw [hout, List.getElem?_append_right (by simp; omega)]
      simp only [List.length_append, List.length_cons, List.length_nil, hNdef]
      have e : N + 2 - (0 + 1 + 1 + N) = 0 := by omega
      rw [e, List.getElem?_drop]
      simp only [Nat.add_zero]
      exact List.getElem?_eq_getElem hi
    refine ⟨t, ?_⟩
    rw [tag_single hl, ← tag_single (line_at_lt hi), htb]
  have hlaylen : 2 + (layout_from lines na s lines.length 2).length = N + 2 := by
    have : (layout_from lines na s lines.length 2).length = N := hNlen.symm
    omega
  have hs3 : 3 ≤ s := by omega
  have hlen_out : out.length = 2 + N + (lines.length - (na + 2)) := by
    rw [hout]
    simp only [List.length_append, List.length_cons, List.length_nil, List.length_drop, hNdef]
  obtain ⟨-, c2, hc2⟩ := rescan lines out na s N hs3 hbox lines.length 2 2 out.length 0 0 c m nwa
    0 0 hcnt (by omega) hlaylen (by omega) hfollow
  simp only [Nat.zero_add, Nat.sub_zero] at hc2
  obtain ⟨hm2, hnwa2⟩ := count_loop_spec out N _ _ _ _ _ _ _ hc2
  simp only [Nat.zero_add] at hm2 hnwa2
  have hdisc := rescan_discarded lines out na s N hbox lines.length 2 2 out.length 0 0 c m nwa
    hcnt (by omega) hlaylen (by omega) hfollow
  have hk : nwa = 3 * m + discarded_count lines na := by
    rw [hnwa, hm]; rfl
  have hwc : water_count out N = m := hm2.symm
  have hdc : discarded_count out N = m * (s - 3) := by
    have h1 : s * m = 3 * m + discarded_count out N := by
      rw [hnwa2, hm2]; rfl
    rcases hs with h | h | h <;> subst h <;> omega
  have harith : N - s * m + m * 3 = na - discarded_count lines na := by
    rw [Nat.mul_comm s m]
    omega
  refine ⟨out, title, na, N, records, rfl, hna, ?_, hNdef, hm, hlay, ⟨c2, hc2⟩, hwc, hdc, hdisc,
    harith, ?_⟩
  · rw [hout]; simp
  · intro hfit
    have hl1 : line_at out 1 = .ok (to_string N) := by
      rw [hout]; rfl
    have hl0 : line_at out 0 = .ok title := by
      rw [hout]; rfl
    have hread := read_na_to_string out N hl1 hfit
    refine ⟨hread, ?_⟩
    intro wm3 hsize3
    have hms : m = 0 ∨ 3 ≤ m * s := by
      rcases Nat.eq_zero_or_pos m with h | h
      · left; exact h
      · right
        calc 3 = 1 * 3 := rfl
          _ ≤ m * s := Nat.mul_le_mul h hs3
    have hk0 : m = 0 → discarded_count lines na = 0 := by
      intro h0
      rw [hm] at h0
      unfold discarded_count
      rw [List.eq_nil_of_length_eq_zero h0]
      rfl
    have h5 : 5 ≤ out.length := by
      rw [hlen_out]
      rcases hms with h | h
      · have := hk0 h
        subst h
        omega
      · omega
    have := process_gro_header_out mf tx out wm3 3 N c2 m (s * m) title hsize3 h5 hread
      (by rw [hlen_out]; omega) hc2 hl0
    rw [harith] at this
    exact this

end GenericTheorems

/-! ## The idealiser over the real numbers -/

theorem dist_point (x y z x' y' z' : ℝ) :
    dist (point x y z) (point x' y' z') = Real.sqrt ((x-x')^2 + (y-y')^2 + (z-z')^2) := by
  simp [point, EuclideanSpace.dist_eq, Fin.sum_univ_three, Real.dist_eq, sq_abs]

theorem norm_point (x y z : ℝ) :
    ‖point x y z‖ = Real.sqrt (x^2 + y^2 + z^2) := by
  simp [point, EuclideanSpace.norm_eq, Fin.sum_univ_three, sq_abs]

theorem inner_point (x y z x' y' z' : ℝ) :
    inner (point x y z) (point x' y' z') = x*x' + y*y' + z*z' := by
  simp [point, PiLp.inner_apply, Fin.sum_univ_three]

theorem point_sub (x y z x' y' z' : ℝ) :
    point x y z - point x' y' z' = point (x-x') (y-y') (z-z') := by
  ext i; fin_cases i <;> simp [point]

theorem angle_point (a b c d e f g h i : ℝ) :
    EuclideanGeometry.angle (point a b c) (point d e f) (point g h i) =
      Real.arccos (((a-d)*(g-d) + (b-e)*(h-e) + (c-f)*(i-f)) /
        (Real.sqrt ((a-d)^2+(b-e)^2+(c-f)^2) * Real.sqrt ((g-d)^2+(h-e)^2+(i-f)^2))) := by
  unfold EuclideanGeometry.angle InnerProductGeometry.angle
  simp only [vsub_eq_sub, point_sub, inner_point, norm_point]

/-- Dividing a vector by its (positive) length gives a unit vector. -/
theorem unit_of_div (x y z : ℝ) (h : 0 < Real.sqrt (x*x + y*y + z*z)) :
    (x / Real.sqrt (x*x + y*y + z*z)) * (x / Real.sqrt (x*x + y*y + z*z))
      + (y / Real.sqrt (x*x + y*y + z*z)) * (y / Real.sqrt (x*x + y*y + z*z))
      + (z / Real.sqrt (x*x + y*y + z*z)) * (z / Real.sqrt (x*x + y*y + z*z)) = 1 := by
  have hpos : 0 < x*x + y*y + z*z := Real.sqrt_pos.mp h
  have hn : Real.sqrt (x*x + y*y + z*z) * Real.sqrt (x*x + y*y + z*z) = x*x + y*y + z*z :=
    Real.mul_self_sqrt hpos.le
  field_simp

/-- Squared length of `a p + b q` for orthonormal `a`, `b`. -/
theorem norm_sq_comb (ax ay az bx b_y bz p q : ℝ)
    (ha : ax*ax + ay*ay + az*az = 1) (hb : bx*bx + b_y*b_y + bz*bz = 1)
    (hab : ax*bx + ay*b_y + az*bz = 0) :
    (ax*p + bx*q)^2 + (ay*p + b_y*q)^2 + (az*p + bz*q)^2 = p^2 + q^2 := by
  linear_combination p^2 * ha + q^2 * hb + 2*p*q * hab

/-- Orthonormality of the normalised sum and difference of two unit vectors whose
sum has a length in `(0, 1.9999]`. -/
theorem frame_abstract (ux uy uz wx wy wz la lb : ℝ)
    (hu : ux*ux + uy*uy + uz*uz = 1) (hw : wx*wx + wy*wy + wz*wz = 1)
    (hla : la = Real.sqrt ((ux+wx)*(ux+wx) + (uy+wy)*(uy+wy) + (uz+wz)*(uz+wz)))
    (hlb : lb = Real.sqrt ((ux-wx)*(ux-wx) + (uy-wy)*(uy-wy) + (uz-wz)*(uz-wz)))
    (hpos : 0 < la) (hle : la ≤ 1.9999) :
    0 < lb ∧ lb^2 = 4 - la^2 ∧
    ((ux+wx)/la)*((ux+wx)/la) + ((uy+wy)/la)*((uy+wy)/la) + ((uz+wz)/la)*((uz+wz)/la) = 1 ∧
    ((ux-wx)/lb)*((ux-wx)/lb) + ((uy-wy)/lb)*((uy-wy)/lb) + ((uz-wz)/lb)*((uz-wz)/lb) = 1 ∧
    ((ux+wx)/la)*((ux-wx)/lb) + ((uy+wy)/la)*((uy-wy)/lb) + ((uz+wz)/la)*((uz-wz)/lb) = 0 ∧
    la^2 = 2 + 2 * (ux*wx + uy*wy + uz*wz) := by
  have hS : la^2 = (ux+wx)*(ux+wx) + (uy+wy)*(uy+wy) + (uz+wz)*(uz+wz) := by
    rw [hla, Real.sq_sqrt]
    exact add_nonneg (add_nonneg (mul_self_nonneg _) (mul_self_nonneg _)) (mul_self_nonneg _)
  have hD : lb^2 = (ux-wx)*(ux-wx) + (uy-wy)*(uy-wy) + (uz-wz)*(uz-wz) := by
    rw [hlb, Real.sq_sqrt]
    exact add_nonneg (add_nonneg (mul_self_nonneg _) (mul_self_nonneg _)) (mul_self_nonneg _)
  have hsum : lb^2 = 4 - la^2 := by rw [hS, hD]; linear_combination 2 * hu + 2 * hw
  have hlb0 : 0 ≤ lb := by rw [hlb]; exact Real.sqrt_nonneg _
  have hla2 : la^2 ≤ 1.9999^2 := by
    exact pow_le_pow_left₀ hpos.le hle 2
  have hlb2 : 0 < lb^2 := by rw [hsum]; norm_num at hla2 ⊢; linarith
  have hlbpos : 0 < lb := by
    rcases hlb0.lt_or_eq with h | h
    · exact h
    · rw [← h] at hlb2; norm_num at hlb2
  have hla' : la ≠ 0 := hpos.ne'
  have hlb' : lb ≠ 0 := hlbpos.ne'
  refine ⟨hlbpos, hsum, ?_, ?_, ?_, ?_⟩
  · field_simp; linear_combination - hS
  · field_simp; linear_combination - hD
  · field_simp; linear_combination hu - hw
  · rw [hS]; linear_combination hu + hw

/-- The facts about `a` and `b` that hold once both degeneracy tests have passed. -/
theorem frame_of_good (c : Coords ℝ) (h : ¬ short_bond realMath c)
    (h2 : ¬ collinear realMath c) :
    0 < len_OH1 realMath c ∧ 0 < len_OH2 realMath c ∧
    0 < len_a realMath c ∧ 0 < len_b realMath c ∧
    len_b realMath c ^ 2 = 4 - len_a realMath c ^ 2 ∧
    (unit_OH1 realMath c).1 * (unit_OH1 realMath c).1
      + (unit_OH1 realMath c).2.1 * (unit_OH1 realMath c).2.1
      + (unit_OH1 realMath c).2.2 * (unit_OH1 realMath c).2.2 = 1 ∧
    (unit_OH2 realMath c).1 * (unit_OH2 realMath c).1
      + (unit_OH2 realMath c).2.1 * (unit_OH2 realMath c).2.1
      + (unit_OH2 realMath c).2.2 * (unit_OH2 realMath c).2.2 = 1 ∧
    (vec_a realMath c).1 * (vec_a realMath c).1 + (vec_a realMath c).2.1 * (vec_a realMath c).2.1
      + (vec_a realMath c).2.2 * (vec_a realMath c).2.2 = 1 ∧
    (vec_b realMath c).1 * (vec_b realMath c).1 + (vec_b realMath c).2.1 * (vec_b realMath c).2.1
      + (vec_b realMath c).2.2 * (vec_b realMath c).2.2 = 1 ∧
    (vec_a realMath c).1 * (vec_b realMath c).1 + (vec_a realMath c).2.1 * (vec_b realMath c).2.1
      + (vec_a realMath c).2.2 * (vec_b realMath c).2.2 = 0 ∧
    len_a realMath c ^ 2 = 2 + 2 * ((unit_OH1 realMath c).1 * (unit_OH2 realMath c).1
      + (unit_OH1 realMath c).2.1 * (unit_OH2 realMath c).2.1
      + (unit_OH1 realMath c).2.2 * (unit_OH2 realMath c).2.2) ∧
    len_a realMath c ≤ 1.9999 := by
  have e4 : (1.0e-4 : ℝ) = 1/10000 := by norm_num
  have hl1 : 0 < len_OH1 realMath c := by
    have : ¬ len_OH1 realMath c < 1.0e-4 := fun hh => h (Or.inl hh)
    rw [e4] at this
    linarith [not_lt.mp this]
  have hl2 : 0 < len_OH2 realMath c := by
    have : ¬ len_OH2 realMath c < 1.0e-4 := fun hh => h (Or.inr hh)
    rw [e4] at this
    linarith [not_lt.mp this]
  have hla : 0 < len_a realMath c := by
    have : ¬ len_a realMath c < 1.0e-4 := fun hh => h2 (Or.inl hh)
    rw [e4] at this
    linarith [not_lt.mp this]
  have hla2 : len_a realMath c ≤ 1.9999 := by
    have : ¬ len_a realMath c > 1.9999 := fun hh => h2 (Or.inr hh)
    exact not_lt.mp this
  have hu1 := unit_of_div (c.x1 - c.xO) (c.y1 - c.yO) (c.z1 - c.zO) hl1
  have hu2 := unit_of_div (c.x2 - c.xO) (c.y2 - c.yO) (c.z2 - c.zO) hl2
  have hu1' : (unit_OH1 realMath c).1 * (unit_OH1 realMath c).1
      + (unit_OH1 realMath c).2.1 * (unit_OH1 realMath c).2.1
      + (unit_OH1 realMath c).2.2 * (unit_OH1 realMath c).2.2 = 1 := hu1
  have hu2' : (unit_OH2 realMath c).1 * (unit_OH2 realMath c).1
      + (unit_OH2 realMath c).2.1 * (unit_OH2 realMath c).2.1
      + (unit_OH2 realMath c).2.2 * (unit_OH2 realMath c).2.2 = 1 := hu2
  have hf := frame_abstract _ _ _ _ _ _ (len_a realMath c) (len_b realMath c) hu1' hu2' rfl rfl
    hla hla2
  exact ⟨hl1, hl2, hla, hf.1, hf.2.1, hu1', hu2', hf.2.2.1, hf.2.2.2.1, hf.2.2.2.2.1,
    hf.2.2.2.2.2, hla2⟩

/-- Inner product of `a p + b q` and `a p - b q` for orthonormal `a`, `b`. -/
theorem dot_comb (ax ay az bx b_y bz p q : ℝ)
    (ha : ax*ax + ay*ay + az*az = 1) (hb : bx*bx + b_y*b_y + bz*bz = 1) :
    (ax*p + bx*q)*(ax*p - bx*q) + (ay*p + b_y*q)*(ay*p - b_y*q) + (az*p + bz*q)*(az*p - bz*q)
      = p^2 - q^2 := by
  linear_combination p^2 * ha - q^2 * hb

theorem degree_real : (degree : ℝ) = 0.017453292519943295769139 := rfl

/-- The product `180 * degree` is below `π`, by less than `3e-20`. -/
theorem degree_lt_pi : (180 : ℝ) * degree < Real.pi ∧ Real.pi < 180 * degree + 3e-20 := by
  rw [degree_real]
  constructor
  · have := Real.pi_gt_d20
    norm_num at this ⊢
    linarith
  · have := Real.pi_lt_d20
    norm_num at this ⊢
    linarith

/-- Every registry model has a positive bond length and an angle between 0 and 180. -/
theorem registry_bounds :
    ∀ p ∈ (models : List (model_param ℝ)), 0 < p.rOH ∧ 0 ≤ p.angle ∧ p.angle ≤ 180 := by
  intro p hp
  simp only [models, List.mem_cons, List.mem_singleton, List.not_mem_nil, or_false] at hp
  rcases hp with h | h | h | h | h | h | h | h | h | h | h | h <;> subst h <;>
    refine ⟨?_, ?_, ?_⟩ <;> norm_num

/-- Bond lengths and angle over the reals: in every successful call of `model::transform` over the reals, with `rOH > 0` and
`0 <= angle <= 180`, the new H1 and H2 are at distance `rOH` from O and the H1-O-H2
angle is `angle * degree` radians, which is within `1e-6` of `angle` degrees; the
parameters of every registry model satisfy these bounds. -/
theorem transform_bond_length_and_angle_real (wm : model ℝ) (c : Coords ℝ) (sites : List ℝ)
    (hok : (wm.transform realMath c).2 = .ok sites)
    (hr : 0 < wm.parameters.rOH)
    (h0 : 0 ≤ wm.parameters.angle) (h180 : wm.parameters.angle ≤ 180) :
    dist (wm.transform realMath c).1.H1 (wm.transform realMath c).1.O = wm.parameters.rOH ∧
    dist (wm.transform realMath c).1.H2 (wm.transform realMath c).1.O = wm.parameters.rOH ∧
    EuclideanGeometry.angle (wm.transform realMath c).1.H1 (wm.transform realMath c).1.O
      (wm.transform realMath c).1.H2 = wm.parameters.angle * degree ∧
    |EuclideanGeometry.angle (wm.transform realMath c).1.H1 (wm.transform realMath c).1.O
      (wm.transform realMath c).1.H2 * (180 / Real.pi) - wm.parameters.angle| < 1e-6 ∧
    ∀ p ∈ (models : List (model_param ℝ)), 0 < p.rOH ∧ 0 ≤ p.angle ∧ p.angle ≤ 180 := by
  refine and_assoc.mp (and_assoc.mp (and_assoc.mp ⟨?_, registry_bounds⟩))
  simp only [and_assoc]
  obtain ⟨hinit, hs, hc⟩ := transform_ok_cases _ _ _ _ hok
  obtain ⟨hc', -⟩ := transform_good realMath wm c hinit hs hc
  obtain ⟨-, -, -, -, -, -, -, ha, hb, hab, -, -⟩ := frame_of_good c hs hc
  rw [hc']
  simp only [Coords.H1, Coords.H2, Coords.O, dist_point, angle_point]
  generalize (vec_a realMath c).1 = ax at *
  generalize (vec_a realMath c).2.1 = ay at *
  generalize (vec_a realMath c).2.2 = az at *
  generalize (vec_b realMath c).1 = bx at *
  generalize (vec_b realMath c).2.1 = b_y at *
  generalize (vec_b realMath c).2.2 = bz at *
  have hθ : wm.parameters.angle * degree / 2.0 = wm.parameters.angle * degree / 2 := by norm_num
  rw [hθ]
  set θ := wm.parameters.angle * degree with hθdef
  set r := wm.parameters.rOH
  have hcos : realMath.cos (θ / 2) = Real.cos (θ / 2) := rfl
  have hsin : realMath.sin (θ / 2) = Real.sin (θ / 2) := rfl
  rw [hcos, hsin]
  set p := Real.cos (θ / 2) * r
  set q := Real.sin (θ / 2) * r
  have hpq : p^2 + q^2 = r^2 := by
    have := Real.cos_sq_add_sin_sq (θ / 2)
    simp only [p, q]
    linear_combination r^2 * this
  have hpq2 : p^2 - q^2 = r^2 * Real.cos θ := by
    have := Real.cos_two_mul' (θ / 2)
    have e : 2 * (θ / 2) = θ := by ring
    rw [e] at this
    simp only [p, q]
    rw [this]; ring
  have e1 : (c.xO + ax * p + bx * q - c.xO)^2 + (c.yO + ay * p + b_y * q - c.yO)^2
      + (c.zO + az * p + bz * q - c.zO)^2 = r^2 := by
    rw [← hpq, ← norm_sq_comb ax ay az bx b_y bz p q ha hb hab]; ring
  have e2 : (c.xO + ax * p - bx * q - c.xO)^2 + (c.yO + ay * p - b_y * q - c.yO)^2
      + (c.zO + az * p - bz * q - c.zO)^2 = r^2 := by
    have := norm_sq_comb ax ay az bx b_y bz p (-q) ha hb hab
    rw [← hpq]; linear_combination this
  have e3 : (c.xO + ax * p + bx * q - c.xO) * (c.xO + ax * p - bx * q - c.xO)
      + (c.yO + ay * p + b_y * q - c.yO) * (c.yO + ay * p - b_y * q - c.yO)
      + (c.zO + az * p + bz * q - c.zO) * (c.zO + az * p - bz * q - c.zO) = r^2 * Real.cos θ := by
    rw [← hpq2, ← dot_comb ax ay az bx b_y bz p q ha hb]; ring
  rw [e1, e2, e3, Real.sqrt_sq hr.le]
  have hθ0 : 0 ≤ θ := by
    have : (0:ℝ) ≤ degree := by rw [degree_real]; norm_num
    positivity
  have hθπ : θ ≤ Real.pi := by
    have h1 := degree_lt_pi.1
    have : (0:ℝ) ≤ degree := by rw [degree_real]; norm_num
    calc θ = wm.parameters.angle * degree := rfl
      _ ≤ 180 * degree := by gcongr
      _ ≤ Real.pi := h1.le
  have hratio : r^2 * Real.cos θ / (r * r) = Real.cos θ := by
    field_simp; ring
  rw [hratio, Real.arccos_cos hθ0 hθπ]
  refine ⟨rfl, rfl, rfl, ?_⟩
  obtain ⟨hd1, hd2⟩ := degree_lt_pi
  have hπ : (3:ℝ) < Real.pi := Real.pi_gt_three
  have key : θ * (180 / Real.pi) - wm.parameters.angle
      = - (wm.parameters.angle * ((Real.pi - 180 * degree) / Real.pi)) := by
    rw [hθdef]; field_simp; ring
  rw [key, abs_neg, abs_of_nonneg (mul_nonneg h0 (div_nonneg (by linarith) (by linarith)))]
  have hδ : (Real.pi - 180 * degree) / Real.pi ≤ 3e-20 := by
    rw [div_le_iff₀ (by linarith)]
    have h3 : (3e-20 : ℝ) ≤ 3e-20 * Real.pi := le_mul_of_one_le_right (by norm_num) (by linarith)
    linarith
  calc wm.parameters.angle * ((Real.pi - 180 * degree) / Real.pi)
      ≤ 180 * 3e-20 := mul_le_mul h180 hδ (div_nonneg (by linarith) (by linarith)) (by norm_num)
    _ < 1e-6 := by norm_num

theorem point_add (x y z x' y' z' : ℝ) :
    point x y z + point x' y' z' = point (x+x') (y+y') (z+z') := by
  ext i; fin_cases i <;> simp [point]

theorem smul_point (t x y z : ℝ) : t • point x y z = point (t*x) (t*y) (t*z) := by
  ext i; fin_cases i <;> simp [point]

theorem point_eq_iff (x y z x' y' z' : ℝ) :
    point x y z = point x' y' z' ↔ x = x' ∧ y = y' ∧ z = z' := by
  constructor
  · intro h
    have h0 := congrFun h 0
    have h1 := congrFun h 1
    have h2 := congrFun h 2
    simp [point] at h0 h1 h2
    exact ⟨h0, h1, h2⟩
  · rintro ⟨rfl, rfl, rfl⟩; rfl

theorem norm_OH1 (c : Coords ℝ) : ‖c.H1 - c.O‖ = len_OH1 realMath c := by
  simp only [Coords.H1, Coords.O, point_sub, norm_point, len_OH1, vec_length, realMath]
  ring_nf

theorem norm_OH2 (c : Coords ℝ) : ‖c.H2 - c.O‖ = len_OH2 realMath c := by
  simp only [Coords.H2, Coords.O, point_sub, norm_point, len_OH2, vec_length, realMath]
  ring_nf

theorem plane_comb (o d1 d2 L1 L2 la lb p q : ℝ) (h1 : L1 ≠ 0) (h2 : L2 ≠ 0) (h3 : la ≠ 0)
    (h4 : lb ≠ 0) :
    o + (d1 / L1 + d2 / L2) / la * p + (d1 / L1 - d2 / L2) / lb * q - o
      = (p / la + q / lb) / L1 * d1 + (p / la - q / lb) / L2 * d2 := by
  field_simp; ring

theorem plane_comb_neg (o d1 d2 L1 L2 la lb p q : ℝ) (h1 : L1 ≠ 0) (h2 : L2 ≠ 0) (h3 : la ≠ 0)
    (h4 : lb ≠ 0) :
    o + (d1 / L1 + d2 / L2) / la * p - (d1 / L1 - d2 / L2) / lb * q - o
      = (p / la - q / lb) / L1 * d1 + (p / la + q / lb) / L2 * d2 := by
  field_simp; ring

theorem bisector_comb (o d1 d2 L1 L2 la B p q : ℝ) (h1 : L1 ≠ 0) (h2 : L2 ≠ 0) (h3 : la ≠ 0) :
    o + (d1 / L1 + d2 / L2) / la * p + B * q - o
        + (o + (d1 / L1 + d2 / L2) / la * p - B * q - o)
      = 2 * p / la * (L1⁻¹ * d1 + L2⁻¹ * d2) := by
  field_simp; ring

theorem side_term (o A d1 d2 L1 L2 lb p q : ℝ) (h1 : L1 ≠ 0) (h2 : L2 ≠ 0) (h4 : lb ≠ 0) :
    (o + A * p + (d1 / L1 - d2 / L2) / lb * q - o) * (L1⁻¹ * d1 - L2⁻¹ * d2)
      = lb * (p * (A * ((d1 / L1 - d2 / L2) / lb))
          + q * ((d1 / L1 - d2 / L2) / lb * ((d1 / L1 - d2 / L2) / lb))) := by
  field_simp; ring

theorem side_term_old (d1 d2 L1 L2 : ℝ) (h1 : L1 ≠ 0) (h2 : L2 ≠ 0) :
    d1 * (L1⁻¹ * d1 - L2⁻¹ * d2) = L1 * (d1 / L1 * (d1 / L1) - d1 / L1 * (d2 / L2)) := by
  field_simp; ring

/-- Placement over the reals: a successful `model::transform` over the reals with `rOH > 0` and `0 < angle < 180`
leaves O unchanged, puts the new H1 and H2 in the plane through O spanned by the original
O-H1 and O-H2 vectors, makes the new bisector `(H1'-O)+(H2'-O)` a positive multiple of the
original bisector `normalize(H1-O)+normalize(H2-O)`, and keeps H1' on the side of the
bisector where H1 was (positive component along `normalize(H1-O)-normalize(H2-O)`). -/
theorem transform_preserves_placement_real (wm : model ℝ) (c : Coords ℝ) (sites : List ℝ)
    (hok : (wm.transform realMath c).2 = .ok sites)
    (hr : 0 < wm.parameters.rOH)
    (h0 : 0 < wm.parameters.angle) (h180 : wm.parameters.angle < 180) :
    (wm.transform realMath c).1.xO = c.xO ∧ (wm.transform realMath c).1.yO = c.yO ∧
    (wm.transform realMath c).1.zO = c.zO ∧
    (∃ α β : ℝ, (wm.transform realMath c).1.H1 - (wm.transform realMath c).1.O
        = α • (c.H1 - c.O) + β • (c.H2 - c.O)) ∧
    (∃ α β : ℝ, (wm.transform realMath c).1.H2 - (wm.transform realMath c).1.O
        = α • (c.H1 - c.O) + β • (c.H2 - c.O)) ∧
    (∃ t : ℝ, 0 < t ∧
      ((wm.transform realMath c).1.H1 - (wm.transform realMath c).1.O)
        + ((wm.transform realMath c).1.H2 - (wm.transform realMath c).1.O)
        = t • (‖c.H1 - c.O‖⁻¹ • (c.H1 - c.O) + ‖c.H2 - c.O‖⁻¹ • (c.H2 - c.O))) ∧
    (0 : ℝ) < inner ((wm.transform realMath c).1.H1 - (wm.transform realMath c).1.O)
        (‖c.H1 - c.O‖⁻¹ • (c.H1 - c.O) - ‖c.H2 - c.O‖⁻¹ • (c.H2 - c.O)) ∧
    (0 : ℝ) < inner (c.H1 - c.O)
        (‖c.H1 - c.O‖⁻¹ • (c.H1 - c.O) - ‖c.H2 - c.O‖⁻¹ • (c.H2 - c.O)) := by
  obtain ⟨hinit, hs, hc⟩ := transform_ok_cases _ _ _ _ hok
  obtain ⟨hc', -⟩ := transform_good realMath wm c hinit hs hc
  obtain ⟨hL1, hL2, hla, hlb, hlab, hu1, hu2, ha, hb, hab, hla_sq, hla2⟩ :=
    frame_of_good c hs hc
  rw [hc', norm_OH1, norm_OH2]
  have hθ : wm.parameters.angle * degree / 2.0 = wm.parameters.angle * degree / 2 := by norm_num
  rw [hθ]
  have hdeg : (0:ℝ) < degree := by rw [degree_real]; norm_num
  have hθ0 : 0 < wm.parameters.angle * degree / 2 := by positivity
  have hθπ : wm.parameters.angle * degree / 2 < Real.pi / 2 := by
    have h1 := degree_lt_pi.1
    have : wm.parameters.angle * degree < 180 * degree := by gcongr
    linarith
  have hcos : realMath.cos (wm.parameters.angle * degree / 2)
      = Real.cos (wm.parameters.angle * degree / 2) := rfl
  have hsin : realMath.sin (wm.parameters.angle * degree / 2)
      = Real.sin (wm.parameters.angle * degree / 2) := rfl
  rw [hcos, hsin]
  have hp : 0 < Real.cos (wm.parameters.angle * degree / 2) * wm.parameters.rOH :=
    mul_pos (Real.cos_pos_of_mem_Ioo ⟨by linarith, hθπ⟩) hr
  have hq : 0 < Real.sin (wm.parameters.angle * degree / 2) * wm.parameters.rOH :=
    mul_pos (Real.sin_pos_of_pos_of_lt_pi hθ0 (by linarith [Real.pi_pos])) hr
  generalize Real.cos (wm.parameters.angle * degree / 2) * wm.parameters.rOH = p at *
  generalize Real.sin (wm.parameters.angle * degree / 2) * wm.parameters.rOH = q at *
  simp only [vec_a, vec_b, unit_OH1, unit_OH2] at ha hb hab hu1 hu2 hla_sq ⊢
  simp only [Coords.H1, Coords.H2, Coords.O, point_sub, smul_point, point_add, point_eq_iff,
    inner_point]
  generalize len_OH1 realMath c = L1 at *
  generalize len_OH2 realMath c = L2 at *
  generalize len_a realMath c = la at *
  generalize len_b realMath c = lb at *
  have hL1' := hL1.ne'
  have hL2' := hL2.ne'
  have hla' := hla.ne'
  have hlb' := hlb.ne'
  clear hok hc' hs hc hinit hθ hcos hsin hθ0 hθπ
  generalize c.x1 - c.xO = d1x at *
  generalize c.y1 - c.yO = d1y at *
  generalize c.z1 - c.zO = d1z at *
  generalize c.x2 - c.xO = d2x at *
  generalize c.y2 - c.yO = d2y at *
  generalize c.z2 - c.zO = d2z at *
  refine ⟨trivial, trivial, trivial,
    ⟨(p / la + q / lb) / L1, (p / la - q / lb) / L2, plane_comb _ _ _ _ _ _ _ _ _ hL1' hL2' hla' hlb',
      plane_comb _ _ _ _ _ _ _ _ _ hL1' hL2' hla' hlb',
      plane_comb _ _ _ _ _ _ _ _ _ hL1' hL2' hla' hlb'⟩,
    ⟨(p / la - q / lb) / L1, (p / la + q / lb) / L2,
      plane_comb_neg _ _ _ _ _ _ _ _ _ hL1' hL2' hla' hlb',
      plane_comb_neg _ _ _ _ _ _ _ _ _ hL1' hL2' hla' hlb',
      plane_comb_neg _ _ _ _ _ _ _ _ _ hL1' hL2' hla' hlb'⟩,
    ⟨2 * p / la, by positivity, bisector_comb _ _ _ _ _ _ _ _ _ hL1' hL2' hla',
      bisector_comb _ _ _ _ _ _ _ _ _ hL1' hL2' hla',
      bisector_comb _ _ _ _ _ _ _ _ _ hL1' hL2' hla'⟩, ?_, ?_⟩
  · rw [side_term _ _ d1x d2x _ _ lb _ _ hL1' hL2' hlb', side_term _ _ d1y d2y _ _ lb _ _ hL1' hL2' hlb',
      side_term _ _ d1z d2z _ _ lb _ _ hL1' hL2' hlb']
    have : lb * (p * ((d1x / L1 + d2x / L2) / la * ((d1x / L1 - d2x / L2) / lb))
          + q * ((d1x / L1 - d2x / L2) / lb * ((d1x / L1 - d2x / L2) / lb)))
        + lb * (p * ((d1y / L1 + d2y / L2) / la * ((d1y / L1 - d2y / L2) / lb))
          + q * ((d1y / L1 - d2y / L2) / lb * ((d1y / L1 - d2y / L2) / lb)))
        + lb * (p * ((d1z / L1 + d2z / L2) / la * ((d1z / L1 - d2z / L2) / lb))
          + q * ((d1z / L1 - d2z / L2) / lb * ((d1z / L1 - d2z / L2) / lb))) = lb * q := by
      linear_combination lb * p * hab + lb * q * hb
    rw [this]; positivity
  · rw [side_term_old d1x d2x _ _ hL1' hL2', side_term_old d1y d2y _ _ hL1' hL2',
      side_term_old d1z d2z _ _ hL1' hL2']
    have : L1 * (d1x / L1 * (d1x / L1) - d1x / L1 * (d2x / L2))
        + L1 * (d1y / L1 * (d1y / L1) - d1y / L1 * (d2y / L2))
        + L1 * (d1z / L1 * (d1z / L1) - d1z / L1 * (d2z / L2)) = L1 * (lb ^ 2 / 2) := by
      linear_combination L1 * hu1 + (L1 / 2) * hla_sq - (L1 / 2) * hlab
    rw [this]; positivity

/-! ## The sample run over the real numbers -/

theorem demo_model_eq : demo_model =
    ⟨⟨"tip4p".toList, 0.9572, 104.52, 0.15, 0.0, 0.0⟩, true⟩ := rfl

theorem demo_model_size : demo_model.size realMath = .ok 4 := by
  rw [demo_model_eq]
  simp only [model.size, model.check, realMath]
  norm_num [abs_of_pos]

theorem demo_not_short : ¬ short_bond realMath demo_coords := by
  simp only [short_bond, len_OH1, len_OH2, vec_length, realMath, demo_coords]
  norm_num

theorem demo_len_a : len_a realMath demo_coords = Real.sqrt 2 := by
  simp only [len_a, unit_OH1, unit_OH2, len_OH1, len_OH2, vec_length, realMath, demo_coords]
  norm_num

theorem demo_not_collinear : ¬ collinear realMath demo_coords := by
  simp only [collinear, demo_len_a, not_or, not_lt, gt_iff_lt]
  constructor
  · rw [Real.le_sqrt (by norm_num)] <;> norm_num
  · rw [Real.sqrt_le_left (by norm_num)]; norm_num

theorem demo_transform :
    (demo_model.transform realMath demo_coords).2 =
      .ok (sites_M realMath demo_model.parameters demo_coords
        ++ sites_LP realMath demo_model.parameters demo_coords) :=
  (transform_good realMath demo_model demo_coords rfl demo_not_short demo_not_collinear).2

theorem demo_sites_length :
    (sites_M realMath demo_model.parameters demo_coords
        ++ sites_LP realMath demo_model.parameters demo_coords).length = 3 := by
  rw [demo_model_eq]
  simp only [sites_M, sites_LP, realMath]
  norm_num [abs_of_pos]

/-- Evaluation of `coordinates` over the reals on a line whose three fields read as decimals. -/
theorem coordinates_real (l : Str) (mx my mz : Int) (dx dy dz : Nat) (h : 44 ≤ l.length)
    (hx : stod_dec (substr l 20 8) = some (mx, dx))
    (hy : stod_dec (substr l 28 8) = some (my, dy))
    (hz : stod_dec (substr l 36 8) = some (mz, dz)) :
    coordinates realText l
      = .ok ((mx : ℝ) / 10 ^ dx * 10.0, (my : ℝ) / 10 ^ dy * 10.0, (mz : ℝ) / 10 ^ dz * 10.0) := by
  unfold coordinates
  rw [if_neg (by omega)]
  simp only [coordinate, realText, hx, hy, hz]

theorem demo_run_water (counter : Nat) (out : List Str) :
    ∃ o, emit_water realMath realText demo_lines demo_model 4 6 3 counter out
      = ⟨o, .ok (7, counter + 4)⟩ := by
  have hc0 := coordinates_real "    2SOL     OW    2   0.000   0.000   0.000".toList
    0 0 0 3 3 3 (by decide) (by decide) (by decide) (by decide)
  have hc1 := coordinates_real "    2SOL    HW1    3   0.100   0.000   0.000".toList
    100 0 0 3 3 3 (by decide) (by decide) (by decide) (by decide)
  have hc2 := coordinates_real "    2SOL    HW2    4   0.000   0.100   0.000".toList
    0 100 0 3 3 3 (by decide) (by decide) (by decide) (by decide)
  have hco : (⟨((0 : Int) : ℝ) / 10 ^ 3 * 10.0, ((0 : Int) : ℝ) / 10 ^ 3 * 10.0,
      ((0 : Int) : ℝ) / 10 ^ 3 * 10.0, ((100 : Int) : ℝ) / 10 ^ 3 * 10.0,
      ((0 : Int) : ℝ) / 10 ^ 3 * 10.0, ((0 : Int) : ℝ) / 10 ^ 3 * 10.0,
      ((0 : Int) : ℝ) / 10 ^ 3 * 10.0, ((100 : Int) : ℝ) / 10 ^ 3 * 10.0,
      ((0 : Int) : ℝ) / 10 ^ 3 * 10.0⟩ : Coords ℝ) = demo_coords := by
    simp only [demo_coords, Coords.mk.injEq]
    norm_num
  refine emit_water_run realMath realText demo_lines demo_model 4 6 3 counter 7 out _ _ _ _ _ _
    (sites_M realMath demo_model.parameters demo_coords
        ++ sites_LP realMath demo_model.parameters demo_coords)
    (by decide) (by decide) (by decide) (by decide) (by decide) (by decide) hc0 hc1 hc2 ?_ ?_ ?_
    (by decide)
  · rw [hco]; exact demo_transform
  · intro _; rw [demo_sites_length]
  · intro h; omega

/-- The sample file is converted without error; one water molecule is changed. -/
theorem demo_run : (process_gro realMath realText demo_lines demo_model).res = .ok 1 := by
  rw [process_gro_body realMath realText demo_lines demo_model 4 6 7 1 4 "sample".toList
    demo_model_size (by decide) (by decide) (by decide) (by decide) (by decide)]
  rw [show demo_lines.length = 8 + 1 from rfl]
  rw [emit_loop_ordinary realMath realText demo_lines demo_model 4 6 8 2 1 _ "NA".toList
    "    1NA      NA    1   0.500   0.500   0.500".toList _ (by decide) (by decide) (by decide)
    (by decide) (update_line_ok _ _ (by decide))]
  obtain ⟨o, ho⟩ := demo_run_water 2 ([_,_] ++ [_])
  rw [emit_loop_water realMath realText demo_lines demo_model 4 6 7 3 2 _ o "OW".toList (7, 6)
    (by decide) (by decide) (by decide) ho]
  rw [emit_loop_exit _ _ _ _ _ _ _ _ _ _ (by decide)]
  simp only [Run.andThen]
  rw [copy_rest_atom demo_lines 6 8 7 6 o _ (by decide) (by decide)
    (show line_at demo_lines 7 = .ok "    3CL      CL    6   0.700   0.700   0.700".toList from rfl)
    (by decide)]
  rw [copy_rest_copy demo_lines 6 7 8 7 _ _ (by decide) (by decide)
    (show line_at demo_lines 8 = .ok "   1.00000   1.00000   1.00000".toList from rfl)]
  rw [copy_rest_exit _ _ _ _ _ _ (by decide)]

/-! ## The claims on the sample inputs -/

/-- Witness of C1 on the sample file: title, count, records, box line. -/
theorem process_gro_count_matches_records_witness :
    ∃ (records : List Str) (counter : Nat),
      (process_gro realMath realText demo_lines demo_model).out
        = "sample".toList :: to_string (counter - 1)
            :: (records ++ ["   1.00000   1.00000   1.00000".toList]) ∧
      records.length = counter - 1 := by
  obtain ⟨title, na, records, cur, counter0, cur1, counter, out1, ht, hna, -, -, hout, hlen⟩ :=
    process_gro_count_matches_records realMath realText demo_lines demo_model 4 1
      demo_model_size (Or.inr (Or.inl rfl)) demo_run
  have ht' : title = "sample".toList := by
    have : line_at demo_lines 0 = .ok "sample".toList := rfl
    rw [this] at ht; exact (Except.ok.inj ht).symm
  have hna' : na = 6 := by
    have : read_na demo_lines = .ok 6 := by decide
    rw [this] at hna; exact (Except.ok.inj hna).symm
  subst ht' hna'
  exact ⟨records, counter, hout, hlen⟩

/-- Counterexample to C2 as stated: the sample file has `na = 6`, one water run
(`W = 1`) with one discarded extra site (`k = 1`), and is converted to the 4-site
model; line 2 of the output is `6`, not `na - k + W * 4 = 9`. -/
theorem count_formula_as_claimed_fails :
    (process_gro realMath realText demo_lines demo_model).res = .ok 1 ∧
    read_na demo_lines = .ok 6 ∧ demo_model.size realMath = .ok 4 ∧
    water_count demo_lines 6 = 1 ∧ discarded_count demo_lines 6 = 1 ∧
    (process_gro realMath realText demo_lines demo_model).out.get? 1 = some (to_string 6) ∧
    to_string (6 - 1 + 1 * 4) ≠ to_string 6 := by
  refine ⟨demo_run, by decide, demo_model_size, by decide, by decide, ?_, by decide⟩
  exact prefix_get_one _ _ _ (process_gro_header_out realMath realText demo_lines demo_model
    4 6 7 1 4 "sample".toList demo_model_size (by decide) (by decide) (by decide) (by decide)
    (by decide))

/-- Witness of the amended C2 on the sample file: `6 - 1 - 3 + 4 = 6`. -/
theorem process_gro_count_formula_witness :
    ∃ na, read_na demo_lines = .ok na ∧
      3 * water_count demo_lines na + discarded_count demo_lines na ≤ na ∧
      1 = water_count demo_lines na ∧
      (process_gro realMath realText demo_lines demo_model).out.get? 1 = some (to_string
        (na - discarded_count demo_lines na - 3 * water_count demo_lines na
          + water_count demo_lines na * 4)) :=
  process_gro_count_formula realMath realText demo_lines demo_model 4 1 demo_model_size demo_run

/-- Bond lengths and angle of the sample molecule under tip4p, over the reals. -/
theorem transform_bond_length_and_angle_real_sample :
    dist (demo_model.transform realMath demo_coords).1.H1
        (demo_model.transform realMath demo_coords).1.O = 0.9572 ∧
    dist (demo_model.transform realMath demo_coords).1.H2
        (demo_model.transform realMath demo_coords).1.O = 0.9572 ∧
    EuclideanGeometry.angle (demo_model.transform realMath demo_coords).1.H1
      (demo_model.transform realMath demo_coords).1.O
      (demo_model.transform realMath demo_coords).1.H2 = 104.52 * degree := by
  have h := transform_bond_length_and_angle_real demo_model demo_coords _ demo_transform
    (by rw [demo_model_eq]; norm_num) (by rw [demo_model_eq]; norm_num)
    (by rw [demo_model_eq]; norm_num)
  exact ⟨h.1, h.2.1, h.2.2.1⟩

/-- Over the reals the sample molecule under tip4p keeps its oxygen. -/
theorem transform_preserves_placement_real_sample :
    (demo_model.transform realMath demo_coords).1.xO = 0 ∧
    (demo_model.transform realMath demo_coords).1.yO = 0 ∧
    (demo_model.transform realMath demo_coords).1.zO = 0 ∧
    ∃ t : ℝ, 0 < t ∧
      ((demo_model.transform realMath demo_coords).1.H1
          - (demo_model.transform realMath demo_coords).1.O)
        + ((demo_model.transform realMath demo_coords).1.H2
          - (demo_model.transform realMath demo_coords).1.O)
        = t • (‖demo_coords.H1 - demo_coords.O‖⁻¹ • (demo_coords.H1 - demo_coords.O)
            + ‖demo_coords.H2 - demo_coords.O‖⁻¹ • (demo_coords.H2 - demo_coords.O)) := by
  have h := transform_preserves_placement_real demo_model demo_coords _ demo_transform
    (by rw [demo_model_eq]; norm_num) (by rw [demo_model_eq]; norm_num)
    (by rw [demo_model_eq]; norm_num)
  exact ⟨h.1, h.2.1, h.2.2.1, h.2.2.2.2.2.1⟩

/-- Witness of C5: three atoms at the same place are rejected, and left as they are. -/
theorem transform_error_iff_witness :
    (demo_model.transform realMath ⟨0, 0, 0, 0, 0, 0, 0, 0, 0⟩).2
      = .error (.runtime_error "bad input water structure".toList) ∧
    (demo_model.transform realMath ⟨0, 0, 0, 0, 0, 0, 0, 0, 0⟩).1
      = ⟨0, 0, 0, 0, 0, 0, 0, 0, 0⟩ := by
  have h := transform_error_iff realMath demo_model ⟨0, 0, 0, 0, 0, 0, 0, 0, 0⟩ rfl
  have hbad := h.1.mpr (Or.inl (by
    simp only [len_OH1, vec_length, realMath]
    norm_num))
  exact ⟨hbad, (h.2 _ hbad).2⟩

/-- C6, the code at the failing input: on the 5-line file (title, `3`, OW, HW, HW, no box
line) the skip loop of the counting pass reads `lines[5]`, one past the end of the
vector, instead of throwing a format error. -/
theorem truncated_file_reads_past_end :
    truncated_lines.length = 5 ∧
    process_gro realMath realText truncated_lines demo_model
      = ⟨[], .error (.bad_index 5)⟩ :=
  ⟨rfl, process_gro_count_error realMath realText truncated_lines demo_model 4 3 _
    demo_model_size (by decide) (by decide) (by decide) (by decide)⟩

theorem short_MW_run_water (counter : Nat) (out : List Str) :
    ∃ o, emit_water realMath realText short_MW_lines demo_model 4 6 3 counter out
      = ⟨o, .ok (7, counter + 4)⟩ := by
  have hc0 := coordinates_real "    2SOL     OW    2   0.000   0.000   0.000".toList
    0 0 0 3 3 3 (by decide) (by decide) (by decide) (by decide)
  have hc1 := coordinates_real "    2SOL    HW1    3   0.100   0.000   0.000".toList
    100 0 0 3 3 3 (by decide) (by decide) (by decide) (by decide)
  have hc2 := coordinates_real "    2SOL    HW2    4   0.000   0.100   0.000".toList
    0 100 0 3 3 3 (by decide) (by decide) (by decide) (by decide)
  have hco : (⟨((0 : Int) : ℝ) / 10 ^ 3 * 10.0, ((0 : Int) : ℝ) / 10 ^ 3 * 10.0,
      ((0 : Int) : ℝ) / 10 ^ 3 * 10.0, ((100 : Int) : ℝ) / 10 ^ 3 * 10.0,
      ((0 : Int) : ℝ) / 10 ^ 3 * 10.0, ((0 : Int) : ℝ) / 10 ^ 3 * 10.0,
      ((0 : Int) : ℝ) / 10 ^ 3 * 10.0, ((100 : Int) : ℝ) / 10 ^ 3 * 10.0,
      ((0 : Int) : ℝ) / 10 ^ 3 * 10.0⟩ : Coords ℝ) = demo_coords := by
    simp only [demo_coords, Coords.mk.injEq]
    norm_num
  refine emit_water_run realMath realText short_MW_lines demo_model 4 6 3 counter 7 out
    _ _ _ _ _ _
    (sites_M realMath demo_model.parameters demo_coords
        ++ sites_LP realMath demo_model.parameters demo_coords)
    (by decide) (by decide) (by decide) (by decide) (by decide) (by decide) hc0 hc1 hc2 ?_ ?_ ?_
    (by decide)
  · rw [hco]; exact demo_transform
  · intro _; rw [demo_sites_length]
  · intro h; omega

/-- The file with the 20-character MW line is converted without error. -/
theorem short_MW_run :
    (process_gro realMath realText short_MW_lines demo_model).res = .ok 1 := by
  rw [process_gro_body realMath realText short_MW_lines demo_model 4 6 7 1 4 "sample".toList
    demo_model_size (by decide) (by decide) (by decide) (by decide) (by decide)]
  rw [show short_MW_lines.length = 8 + 1 from rfl]
  rw [emit_loop_ordinary realMath realText short_MW_lines demo_model 4 6 8 2 1 _ "NA".toList
    "    1NA      NA    1   0.500   0.500   0.500".toList _ (by decide) (by decide) (by decide)
    (by decide) (update_line_ok _ _ (by decide))]
  obtain ⟨o, ho⟩ := short_MW_run_water 2 ([_,_] ++ [_])
  rw [emit_loop_water realMath realText short_MW_lines demo_model 4 6 7 3 2 _ o "OW".toList (7, 6)
    (by decide) (by decide) (by decide) ho]
  rw [emit_loop_exit _ _ _ _ _ _ _ _ _ _ (by decide)]
  simp only [Run.andThen]
  rw [copy_rest_atom short_MW_lines 6 8 7 6 o _ (by decide) (by decide)
    (show line_at short_MW_lines 7
      = .ok "    3CL      CL    6   0.700   0.700   0.700".toList from rfl)
    (by decide)]
  rw [copy_rest_copy short_MW_lines 6 7 8 7 _ _ (by decide) (by decide)
    (show line_at short_MW_lines 8 = .ok "   1.00000   1.00000   1.00000".toList from rfl)]
  rw [copy_rest_exit _ _ _ _ _ _ (by decide)]

/-- Counterexample to C7 as stated, on two files.  In the first an ordinary atom line of
20 characters makes the call fail with "file format error (atom)", a message without
"coordinates".  In the second the MW line discarded after the water molecule has 20
characters: it is read only for its atom name, and the call succeeds. -/
theorem short_ordinary_line_message :
    (process_gro realMath realText short_atom_lines demo_model
        = ⟨["sample".toList, "3".toList],
            .error (.gro_error "file format error (atom)".toList
              "    1NA      NA    1".toList)⟩ ∧
      ¬ ("coordinates".toList
          <:+: gro_what "file format error (atom)".toList "    1NA      NA    1".toList)) ∧
    (read_na short_MW_lines = .ok 6 ∧
      line_at short_MW_lines 6 = .ok "    2SOL     MW    5".toList ∧
      "    2SOL     MW    5".toList.length = 20 ∧
      (process_gro realMath realText short_MW_lines demo_model).res = .ok 1) := by
  refine ⟨⟨?_, by decide⟩, by decide, rfl, rfl, short_MW_run⟩
  apply process_gro_emit_error realMath realText short_atom_lines demo_model 4 3 3 0 0
    "sample".toList _ _ demo_model_size (by decide) (by decide) (by decide) (by decide)
    (by decide)
  rw [show short_atom_lines.length = 5 + 1 from rfl, emit_loop, if_pos (by decide)]
  rfl

/-- Witness of the amended C7: the second hydrogen of a water run is 20 characters
long; the call stops with "coordinates" and the output holds the header and the
record of the atom before the molecule. -/
theorem short_line_stops_emission_witness :
    process_gro realMath realText short_water_lines demo_model
      = ⟨["sample".toList, "5".toList,
          "    1NA      NA    1   0.500   0.500   0.500".toList],
          .error (.gro_error "file format error (coordinates)".toList
            "    2SOL    HW2    4".toList)⟩ := by
  have hc0 := coordinates_real "    2SOL     OW    2   0.000   0.000   0.000".toList
    0 0 0 3 3 3 (by decide) (by decide) (by decide) (by decide)
  have hc1 := coordinates_real "    2SOL    HW1    3   0.100   0.000   0.000".toList
    100 0 0 3 3 3 (by decide) (by decide) (by decide) (by decide)
  have h := ((short_line_stops_emission realMath realText short_water_lines demo_model
    4 4 6 1 3 "sample".toList demo_model_size (by decide) (by decide) (by decide) (by decide)
    (by decide)).1 5 3 2
    ["sample".toList, "5".toList, "    1NA      NA    1   0.500   0.500   0.500".toList]
    "OW".toList
    (emit_loop_ordinary realMath realText short_water_lines demo_model 4 4 6 2 1 _ "NA".toList
      "    1NA      NA    1   0.500   0.500   0.500".toList _ (by decide) (by decide)
      (by decide) (by decide) (update_line_ok _ _ (by decide)))
    (by decide) (by decide)).1 (by decide) 2 "    2SOL    HW2    4".toList (by decide)
    (by decide) (by decide) (by
      intro i hi
      have hi' : i = 0 ∨ i = 1 := by omega
      rcases hi' with rfl | rfl
      · exact ⟨_, _, rfl, hc0⟩
      · exact ⟨_, _, rfl, hc1⟩)
  exact h.1

/-- The count-line check on a sample: the second line is `abc`. -/
theorem bad_atom_count_rejected_witness :
    process_gro realMath realText bad_count_lines demo_model
      = ⟨[], .error (.gro_error "file format error (atom count)".toList "abc".toList)⟩ ∧
    "atom count".toList <:+: gro_what "file format error (atom count)".toList "abc".toList :=
  bad_atom_count_rejected realMath realText bad_count_lines demo_model "abc".toList rfl
    (by decide) (by decide) (Or.inl (by decide))

/-- The line-number check on a sample: 7 atoms declared in a file of 6 lines. -/
theorem atom_count_checked_witness :
    ∃ msg line, process_gro realMath realText too_few_lines demo_model
      = ⟨[], .error (.gro_error msg line)⟩ :=
  (atom_count_checked realMath realText too_few_lines demo_model rfl).1 "7".toList 7
    (by decide) (by decide) (by decide) (by decide)

/-- Counterexample to C10 as stated, on two files.  In both the cursor stands on an
OW-tagged line at index 2 that is not followed by two HW-tagged lines.  In the first
the OW line has 20 characters: no record is written for it, the call fails with
"file format error (atom)".  In the second the OW line has 44 characters and the next
line, `junk`, is too short to hold an atom name: the counting pass throws
"file format error (atom name)" and nothing at all is written. -/
theorem short_lone_OW_not_emitted :
    (tag short_OW_lines 2 = .ok "OW".toList ∧
      tag short_OW_lines 3 = .ok "NA".toList ∧
      process_gro realMath realText short_OW_lines demo_model
        = ⟨["sample".toList, "3".toList],
            .error (.gro_error "file format error (atom)".toList
              "    1SOL     OW    1".toList)⟩) ∧
    (tag OW_then_junk_lines 2 = .ok "OW".toList ∧
      line_at OW_then_junk_lines 2
        = .ok "    1SOL     OW    1   0.100   0.200   0.300".toList ∧
      "    1SOL     OW    1   0.100   0.200   0.300".toList.length = 44 ∧
      line_at OW_then_junk_lines 3 = .ok "junk".toList ∧
      tag OW_then_junk_lines 3
        = .error (.gro_error "file format error (atom name)".toList "junk".toList) ∧
      process_gro realMath realText OW_then_junk_lines demo_model
        = ⟨[], .error (.gro_error "file format error (atom name)".toList "junk".toList)⟩) := by
  refine ⟨⟨by decide, by decide, ?_⟩, by decide, rfl, rfl, rfl, by decide, ?_⟩
  · apply process_gro_emit_error realMath realText short_OW_lines demo_model 4 3 3 0 0
      "sample".toList _ _ demo_model_size (by decide) (by decide) (by decide) (by decide)
      (by decide)
    rw [show short_OW_lines.length = 5 + 1 from rfl, emit_loop, if_pos (by decide)]
    rfl
  · exact process_gro_count_error realMath realText OW_then_junk_lines demo_model 4 3 _
      demo_model_size (by decide) (by decide) (by decide) (by decide)

/-- Witness of the amended C10: a lone OW line with velocities, first atom of the file. -/
theorem lone_OW_renumbered_witness :
    ∃ r : Str,
      emit_loop realMath realText lone_OW_lines demo_model 4 3 (5 + 1) 2 1
          ["sample".toList, "3".toList]
        = emit_loop realMath realText lone_OW_lines demo_model 4 3 5 (2 + 1) (1 + 1)
            (["sample".toList, "3".toList] ++ [r]) ∧
      r.length = 44 ∧ r.take 15 = "    1SOL     OW".toList ∧
      (r.drop 15).take 5 = "    1".toList ∧
      r.drop 20 = "   0.100   0.200   0.300".toList := by
  obtain ⟨r, h1, h2, h3, h4, h5, -⟩ :=
    lone_OW_renumbered realMath realText lone_OW_lines demo_model 4 3 5 2 1
      ["sample".toList, "3".toList]
      "    1SOL     OW    1   0.100   0.200   0.300  0.1000  0.2000  0.3000".toList
      (by decide) (by decide) (Or.inl ⟨"NA".toList, by decide, by decide⟩) rfl (by decide)
  exact ⟨r, h1, h2, h3, h4, h5⟩

/-! ## The line codec -/

theorem standardise_eq (x : Str) : standardise x = (x.map upper).take 2 := by
  unfold standardise substr
  simp only [List.drop_zero]
  split
  · next h => rw [List.take_of_length_le (by omega)]
  · rfl

theorem upper_not_lower (c : Char) :
    ¬ ('a'.toNat ≤ (upper c).toNat ∧ (upper c).toNat ≤ 'z'.toNat) := by
  unfold upper
  split
  · next h =>
    have ha : 'a'.toNat = 97 := rfl
    have hz : 'z'.toNat = 122 := rfl
    rw [ha, hz] at h ⊢
    obtain ⟨h1, h2⟩ := h
    generalize c.toNat = n at *
    have hn : n - 32 < 100 := by omega
    have : (Char.ofNat (n - 32)).toNat = n - 32 := by
      interval_cases n <;> rfl
    rw [this]
    omega
  · next h => exact h

theorem upper_idem (c : Char) : upper (upper c) = upper c := by
  have h := upper_not_lower c
  generalize upper c = d at h ⊢
  unfold upper
  rw [if_neg h]

/-- C16: `standardise` is idempotent, its result has at most 2 characters, and no
character of the result is an ASCII lowercase letter. -/
theorem standardise_idempotent (x : Str) :
    standardise (standardise x) = standardise x ∧
    (standardise x).length ≤ 2 ∧
    ∀ c ∈ standardise x, ¬ ('a'.toNat ≤ c.toNat ∧ c.toNat ≤ 'z'.toNat) := by
  refine ⟨?_, ?_, ?_⟩
  · rw [standardise_eq (standardise x), standardise_eq x, List.map_take, List.take_take,
      List.map_map]
    have : upper ∘ upper = upper := funext upper_idem
    rw [this]
    simp
  · rw [standardise_eq, List.length_take]
    omega
  · intro c hc
    rw [standardise_eq] at hc
    have hc' := List.mem_of_mem_take hc
    obtain ⟨d, -, rfl⟩ := List.mem_map.mp hc'
    exact upper_not_lower d

theorem toDigitsCore_length_acc (b : Nat) :
    ∀ (f n : Nat) (acc : List Char), acc.length ≤ (Nat.toDigitsCore b f n acc).length := by
  intro f
  induction f with
  | zero => intro n acc; simp [Nat.toDigitsCore]
  | succ k ih =>
    intro n acc
    simp only [Nat.toDigitsCore]
    split
    · simp
    · exact le_trans (by simp) (ih _ _)

/-- A number of at least `10 ^ e` prints with more than `e` digits. -/
theorem toDigitsCore_length_ge :
    ∀ (e f n : Nat) (acc : List Char), 10 ^ e ≤ n → e < f →
      acc.length + e + 1 ≤ (Nat.toDigitsCore 10 f n acc).length := by
  intro e
  induction e with
  | zero =>
    intro f n acc hn hf
    obtain ⟨k, rfl⟩ : ∃ k, f = k + 1 := ⟨f - 1, by omega⟩
    simp only [Nat.toDigitsCore]
    split
    · simp
    · exact le_trans (by simp) (toDigitsCore_length_acc 10 _ _ _)
  | succ e ih =>
    intro f n acc hn hf
    obtain ⟨k, rfl⟩ : ∃ k, f = k + 1 := ⟨f - 1, by omega⟩
    simp only [Nat.toDigitsCore]
    have h10 : 10 ^ e ≤ n / 10 := by
      rw [Nat.le_div_iff_mul_le (by norm_num)]
      calc 10 ^ e * 10 = 10 ^ (e + 1) := by ring
        _ ≤ n := hn
    have hne : n / 10 ≠ 0 := by
      have : 0 < 10 ^ e := by positivity
      omega
    rw [if_neg hne]
    have := ih k (n / 10) (Nat.digitChar (n % 10) :: acc) h10 (by omega)
    simp only [List.length_cons] at this
    omega

theorem ld_text_small (c : Nat) (h : c < 2 ^ 63) : ld_text c = to_string c := by
  have hmod : c % 2 ^ 64 = c := Nat.mod_eq_of_lt (by omega)
  unfold ld_text to_string
  rw [hmod, if_pos h]

theorem fmt_5ld_large (c : Nat) (h : 99999 < c) (h63 : c < 2 ^ 63) :
    fmt_5ld c = (to_string c).take 5 := by
  have hlen : 5 ≤ (Nat.toDigits 10 c).length := by
    have := toDigitsCore_length_ge 4 (c + 1) c [] (by norm_num; omega) (by omega)
    simpa [Nat.toDigits] using this
  unfold fmt_5ld pad_left
  rw [ld_text_small c h63]
  unfold to_string
  have : 5 - (Nat.toDigits 10 c).length = 0 := by omega
  rw [this]
  rfl

/-- C14: `update_line(l, c)` throws "file format error (atom)" exactly when `l` has fewer
than 44 characters, and throws nothing else.  Otherwise the result has exactly 44
characters; columns 1-15 and 21-44 are those of `l` (what follows column 44 is dropped);
columns 16-20 are the five characters `snprintf` keeps of `%5ld`: `c` right-justified
when `c <= 99999`, and the first five digits of `c` beyond that, so the field is never
widened. -/
theorem update_line_spec (l : Str) (c : Nat) :
    (update_line l c = .error (.gro_error "file format error (atom)".toList l)
      ↔ l.length < 44) ∧
    (∀ e, update_line l c = .error e → e = .gro_error "file format error (atom)".toList l) ∧
    (44 ≤ l.length → ∃ r, update_line l c = .ok r ∧ r.length = 44 ∧
      r.take 15 = l.take 15 ∧ r.drop 20 = (l.drop 20).take 24 ∧
      (r.drop 15).take 5 = fmt_5ld c ∧ (fmt_5ld c).length = 5 ∧
      (c ≤ 99999 → fmt_5ld c = pad_left 5 (to_string c)) ∧
      (99999 < c → c < 2 ^ 63 → fmt_5ld c = (to_string c).take 5)) := by
  refine ⟨⟨fun h => ?_, fun h => update_line_short l c h⟩, fun e he => ?_, fun h44 => ?_⟩
  · by_contra hlt
    rw [update_line_ok l c (by omega)] at h
    simp at h
  · by_cases hlt : l.length < 44
    · rw [update_line_short l c hlt] at he
      simp only [Except.error.injEq] at he
      exact he.symm
    · rw [update_line_ok l c (by omega)] at he
      simp at he
  · have h5 := fmt_5ld_length c
    have h15 : (List.take 15 l).length = 15 := by rw [List.length_take]; omega
    refine ⟨_, update_line_ok l c h44, ?_, ?_, ?_, ?_, h5, fmt_5ld_small c, fmt_5ld_large c⟩
    · simp only [substr, List.length_append, List.length_take, List.length_drop, h5]
      omega
    · simp only [substr, List.drop_zero, List.append_assoc]
      rw [List.take_append_of_le_length (by omega), List.take_take]
      simp
    · simp only [substr, List.drop_zero]
      have : (List.take 15 l ++ fmt_5ld c).length = 20 := by
        rw [List.length_append, h15, h5]
      rw [← this, List.drop_left]
    · simp only [substr, List.drop_zero, List.append_assoc]
      rw [List.drop_append_of_le_length (by omega), List.drop_of_length_le (by omega),
        List.nil_append, List.take_append_of_le_length (by omega),
        List.take_of_length_le (by omega)]

/-! ## The frame and the extra sites in Euclidean space -/


theorem point_apply (x y z : ℝ) : (point x y z) 0 = x ∧ (point x y z) 1 = y ∧ (point x y z) 2 = z := by
  simp [point]

theorem u1_eq (c : Coords ℝ) :
    c.u1 = point (unit_OH1 realMath c).1 (unit_OH1 realMath c).2.1 (unit_OH1 realMath c).2.2 := by
  unfold Coords.u1
  rw [norm_OH1]
  simp only [Coords.H1, Coords.O, point_sub, smul_point, unit_OH1, point_eq_iff, div_eq_inv_mul]

theorem u2_eq (c : Coords ℝ) :
    c.u2 = point (unit_OH2 realMath c).1 (unit_OH2 realMath c).2.1 (unit_OH2 realMath c).2.2 := by
  unfold Coords.u2
  rw [norm_OH2]
  simp only [Coords.H2, Coords.O, point_sub, smul_point, unit_OH2, point_eq_iff, div_eq_inv_mul]

theorem norm_bisector (c : Coords ℝ) : ‖c.bisector‖ = len_a realMath c := by
  unfold Coords.bisector
  rw [u1_eq, u2_eq, point_add, norm_point]
  simp only [len_a, vec_length, realMath, sq]

theorem norm_u1_sub_u2 (c : Coords ℝ) : ‖c.u1 - c.u2‖ = len_b realMath c := by
  rw [u1_eq, u2_eq, point_sub, norm_point]
  simp only [len_b, vec_length, realMath, sq]

theorem unit_a_eq (c : Coords ℝ) :
    c.unit_a = point (vec_a realMath c).1 (vec_a realMath c).2.1 (vec_a realMath c).2.2 := by
  unfold Coords.unit_a
  rw [norm_bisector]
  unfold Coords.bisector
  rw [u1_eq, u2_eq, point_add, smul_point]
  simp only [vec_a, point_eq_iff, div_eq_inv_mul]

theorem unit_b_eq (c : Coords ℝ) :
    c.unit_b = point (vec_b realMath c).1 (vec_b realMath c).2.1 (vec_b realMath c).2.2 := by
  unfold Coords.unit_b
  rw [norm_u1_sub_u2]
  rw [u1_eq, u2_eq, point_sub, smul_point]
  simp only [vec_b, point_eq_iff, div_eq_inv_mul]

theorem unit_c_eq (c : Coords ℝ) :
    c.unit_c = point (vec_c realMath c).1 (vec_c realMath c).2.1 (vec_c realMath c).2.2 := by
  unfold Coords.unit_c cross
  rw [unit_a_eq, unit_b_eq]
  simp only [point_apply, vec_c]

/-- The two degeneracy tests in the form of bounds. -/
theorem good_iff_bounds (c : Coords ℝ) :
    (¬ short_bond realMath c ∧ ¬ collinear realMath c) ↔
      ((1.0e-4 : ℝ) ≤ len_OH1 realMath c ∧ (1.0e-4 : ℝ) ≤ len_OH2 realMath c ∧
        (1.0e-4 : ℝ) ≤ len_a realMath c ∧ len_a realMath c ≤ 1.9999) := by
  unfold short_bond collinear
  simp only [not_or, not_lt, gt_iff_lt]
  tauto

/-- The frame over the reals: in `model::transform` over the reals, whenever both raw bond lengths are at least
`1e-4` and `1e-4 <= |v1+v2| <= 1.9999` for the unit vectors `v1`, `v2` (that is, both
degeneracy tests pass), the length `lb = |v1-v2|` is strictly positive, with
`lb^2 = 4 - |v1+v2|^2`, so the division by `lb` is not a division by zero; `a` and `b`
are orthogonal unit vectors, also as the normalised sum and difference of the unit
bond vectors in Euclidean space; and these are the tests `transform` makes: it succeeds
on an initialised model exactly under these bounds. -/
theorem transform_frame_orthonormal_real (c : Coords ℝ)
    (h1 : (1.0e-4 : ℝ) ≤ len_OH1 realMath c) (h2 : (1.0e-4 : ℝ) ≤ len_OH2 realMath c)
    (h3 : (1.0e-4 : ℝ) ≤ len_a realMath c) (h4 : len_a realMath c ≤ 1.9999) :
    0 < len_b realMath c ∧
    len_b realMath c ^ 2 = 4 - len_a realMath c ^ 2 ∧
    len_b realMath c = ‖c.u1 - c.u2‖ ∧ len_a realMath c = ‖c.u1 + c.u2‖ ∧
    (vec_a realMath c).1 * (vec_a realMath c).1 + (vec_a realMath c).2.1 * (vec_a realMath c).2.1
      + (vec_a realMath c).2.2 * (vec_a realMath c).2.2 = 1 ∧
    (vec_b realMath c).1 * (vec_b realMath c).1 + (vec_b realMath c).2.1 * (vec_b realMath c).2.1
      + (vec_b realMath c).2.2 * (vec_b realMath c).2.2 = 1 ∧
    (vec_a realMath c).1 * (vec_b realMath c).1 + (vec_a realMath c).2.1 * (vec_b realMath c).2.1
      + (vec_a realMath c).2.2 * (vec_b realMath c).2.2 = 0 ∧
    ‖c.unit_a‖ = 1 ∧ ‖c.unit_b‖ = 1 ∧ (inner c.unit_a c.unit_b : ℝ) = 0 ∧
    (∀ wm : model ℝ, wm.is_initialised = true →
      (wm.transform realMath c).2
        = .ok (sites_M realMath wm.parameters c ++ sites_LP realMath wm.parameters c)) := by
  obtain ⟨hs, hc⟩ := (good_iff_bounds c).mpr ⟨h1, h2, h3, h4⟩
  obtain ⟨-, -, -, hlb, hlab, -, -, ha, hb, hab, -, -⟩ := frame_of_good c hs hc
  refine ⟨hlb, hlab, (norm_u1_sub_u2 c).symm, (norm_bisector c).symm, ha, hb, hab, ?_, ?_, ?_, ?_⟩
  · rw [unit_a_eq, norm_point, Real.sqrt_eq_one]; linear_combination ha
  · rw [unit_b_eq, norm_point, Real.sqrt_eq_one]; linear_combination hb
  · rw [unit_a_eq, unit_b_eq, inner_point]; exact hab
  · intro wm hi
    exact (transform_good realMath wm c hi hs hc).2

/-- Over the reals the sample molecule passes the tests, and its `b` has a positive
length. -/
theorem transform_frame_orthonormal_real_sample :
    0 < len_b realMath demo_coords ∧
      len_b realMath demo_coords ^ 2 = 4 - len_a realMath demo_coords ^ 2 :=
  have h := transform_frame_orthonormal_real demo_coords
    ((good_iff_bounds demo_coords).mp ⟨demo_not_short, demo_not_collinear⟩).1
    ((good_iff_bounds demo_coords).mp ⟨demo_not_short, demo_not_collinear⟩).2.1
    ((good_iff_bounds demo_coords).mp ⟨demo_not_short, demo_not_collinear⟩).2.2.1
    ((good_iff_bounds demo_coords).mp ⟨demo_not_short, demo_not_collinear⟩).2.2.2
  ⟨h.1, h.2.1⟩

/-- The cross product of two orthonormal vectors is a unit vector orthogonal to both. -/
theorem cross_frame (ax ay az bx b_y bz : ℝ)
    (ha : ax*ax + ay*ay + az*az = 1) (hb : bx*bx + b_y*b_y + bz*bz = 1)
    (hab : ax*bx + ay*b_y + az*bz = 0) :
    (ay*bz - az*b_y)*(ay*bz - az*b_y) + (az*bx - ax*bz)*(az*bx - ax*bz)
      + (ax*b_y - ay*bx)*(ax*b_y - ay*bx) = 1 ∧
    ax*(ay*bz - az*b_y) + ay*(az*bx - ax*bz) + az*(ax*b_y - ay*bx) = 0 ∧
    bx*(ay*bz - az*b_y) + b_y*(az*bx - ax*bz) + bz*(ax*b_y - ay*bx) = 0 := by
  refine ⟨?_, by ring, by ring⟩
  linear_combination (bx*bx + b_y*b_y + bz*bz) * ha + hb - (ax*bx + ay*b_y + az*bz) * hab

/-- The new atoms of a successful `transform`, as vectors. -/
theorem transform_vectors (wm : model ℝ) (c : Coords ℝ) (sites : List ℝ)
    (hok : (wm.transform realMath c).2 = .ok sites) :
    (wm.transform realMath c).1.O = c.O ∧
    (wm.transform realMath c).1.H1 = c.O
      + (Real.cos (wm.parameters.angle * degree / 2) * wm.parameters.rOH) • c.unit_a
      + (Real.sin (wm.parameters.angle * degree / 2) * wm.parameters.rOH) • c.unit_b ∧
    (wm.transform realMath c).1.H2 = c.O
      + (Real.cos (wm.parameters.angle * degree / 2) * wm.parameters.rOH) • c.unit_a
      - (Real.sin (wm.parameters.angle * degree / 2) * wm.parameters.rOH) • c.unit_b ∧
    sites = sites_M realMath wm.parameters c ++ sites_LP realMath wm.parameters c := by
  obtain ⟨hinit, hs, hc⟩ := transform_ok_cases _ _ _ _ hok
  obtain ⟨hc', hs'⟩ := transform_good realMath wm c hinit hs hc
  rw [hs'] at hok
  have hθ : wm.parameters.angle * degree / 2.0 = wm.parameters.angle * degree / 2 := by norm_num
  rw [hθ] at hc'
  refine ⟨?_, ?_, ?_, (Except.ok.inj hok).symm⟩
  · rw [hc']; rfl
  · rw [hc', unit_a_eq, unit_b_eq]
    simp only [Coords.H1, Coords.O, smul_point, point_add, point_eq_iff, realMath]
    refine ⟨?_, ?_, ?_⟩ <;> ring
  · rw [hc', unit_a_eq, unit_b_eq]
    simp only [Coords.H2, Coords.O, smul_point, point_add, point_sub, point_eq_iff, realMath]
    refine ⟨?_, ?_, ?_⟩ <;> ring

/-- The M site over the reals: for every model with `|rOM| > 1e-4` and every successful `model::transform` over
the reals, the first three returned coordinates are the point `M = O + rOM * a`, where
`a` is the unit bisector of the input molecule (the normalised sum of the unit vectors
along O-H1 and O-H2); `M` is at distance `|rOM|` from O, on the hydrogen side when
`rOM > 0` (positive component along the bisector), and equidistant from the new H1 and
H2. -/
theorem M_site_on_bisector_real (wm : model ℝ) (c : Coords ℝ) (sites : List ℝ)
    (hok : (wm.transform realMath c).2 = .ok sites)
    (hM : |wm.parameters.rOM| > 1.0e-4) :
    ∃ mx my mz rest, sites = mx :: my :: mz :: rest ∧
      point mx my mz = c.O + wm.parameters.rOM • c.unit_a ∧
      ‖c.unit_a‖ = 1 ∧ 0 < ‖c.bisector‖ ∧ c.unit_a = ‖c.bisector‖⁻¹ • c.bisector ∧
      dist (point mx my mz) c.O = |wm.parameters.rOM| ∧
      (0 < wm.parameters.rOM → (0 : ℝ) < inner (point mx my mz - c.O) c.bisector) ∧
      dist (point mx my mz) (wm.transform realMath c).1.H1
        = dist (point mx my mz) (wm.transform realMath c).1.H2 := by
  obtain ⟨hinit, hs, hc⟩ := transform_ok_cases _ _ _ _ hok
  obtain ⟨-, hH1, hH2, hsites⟩ := transform_vectors wm c sites hok
  obtain ⟨-, -, hla, -, -, -, -, ha, hb, hab, -, -⟩ := frame_of_good c hs hc
  have hsM : sites_M realMath wm.parameters c
      = [c.xO + (vec_a realMath c).1 * wm.parameters.rOM,
         c.yO + (vec_a realMath c).2.1 * wm.parameters.rOM,
         c.zO + (vec_a realMath c).2.2 * wm.parameters.rOM] := by
    unfold sites_M
    exact if_pos hM
  rw [hsM] at hsites
  refine ⟨_, _, _, sites_LP realMath wm.parameters c, hsites, ?_⟩
  have hpt : point (c.xO + (vec_a realMath c).1 * wm.parameters.rOM)
      (c.yO + (vec_a realMath c).2.1 * wm.parameters.rOM)
      (c.zO + (vec_a realMath c).2.2 * wm.parameters.rOM)
      = c.O + wm.parameters.rOM • c.unit_a := by
    rw [unit_a_eq]
    simp only [Coords.O, smul_point, point_add, point_eq_iff]
    refine ⟨?_, ?_, ?_⟩ <;> ring
  have hna : ‖c.unit_a‖ = 1 := by
    rw [unit_a_eq, norm_point, Real.sqrt_eq_one]; linear_combination ha
  have hnb : 0 < ‖c.bisector‖ := by rw [norm_bisector]; exact hla
  rw [hpt, hH1, hH2]
  refine ⟨rfl, hna, hnb, rfl, ?_, ?_, ?_⟩
  · rw [dist_eq_norm, add_sub_cancel_left, norm_smul, hna, mul_one, Real.norm_eq_abs]
  · intro hr
    rw [add_sub_cancel_left]
    unfold Coords.unit_a
    rw [inner_smul_left, inner_smul_left, real_inner_self_eq_norm_sq]
    simp only [conj_trivial]
    positivity
  · rw [dist_eq_norm, dist_eq_norm]
    rw [unit_a_eq, unit_b_eq]
    simp only [Coords.O, smul_point, point_add, point_sub, norm_point]
    congr 1
    linear_combination (-4 * (wm.parameters.rOM
        - Real.cos (wm.parameters.angle * degree / 2) * wm.parameters.rOH)
      * (Real.sin (wm.parameters.angle * degree / 2) * wm.parameters.rOH)) * hab

theorem scenario_len1 : len_OH1 realMath scenario_coords = 0.957 := by
  simp only [len_OH1, vec_length, realMath, scenario_coords]
  have : ((0.957:ℝ) - 0) * (0.957 - 0) + (0 - 0) * (0 - 0) + (0 - 0) * (0 - 0) = 0.957 ^ 2 := by
    norm_num
  rw [this, Real.sqrt_sq (by norm_num)]

theorem scenario_len2 : len_OH2 realMath scenario_coords = Real.sqrt 0.916929 := by
  simp only [len_OH2, vec_length, realMath, scenario_coords]
  norm_num

theorem scenario_len2_bounds : (0.9 : ℝ) ≤ Real.sqrt 0.916929 ∧ Real.sqrt 0.916929 ≤ 1 := by
  constructor
  · rw [Real.le_sqrt (by norm_num)] <;> norm_num
  · rw [Real.sqrt_le_left (by norm_num)]; norm_num

theorem scenario_not_short : ¬ short_bond realMath scenario_coords := by
  unfold short_bond
  rw [scenario_len1, scenario_len2]
  have := scenario_len2_bounds.1
  rintro (h | h)
  · norm_num at h
  · norm_num at h this; linarith

theorem scenario_not_collinear : ¬ collinear realMath scenario_coords := by
  unfold collinear len_a unit_OH1 unit_OH2
  rw [scenario_len1, scenario_len2]
  simp only [vec_length, realMath, scenario_coords]
  obtain ⟨hlo, hhi⟩ := scenario_len2_bounds
  generalize Real.sqrt 0.916929 = L at *
  have hL : 0 < L := by linarith
  have ht1 : (-0.240 - 0) / L ≤ 0 := by
    apply div_nonpos_of_nonpos_of_nonneg <;> norm_num; linarith
  have ht2 : -0.27 ≤ (-0.240 - 0) / L := by
    rw [le_div_iff₀ hL]; norm_num; linarith
  have hw1 : 0 ≤ (0.927 - 0) / L := by
    apply div_nonneg <;> norm_num; linarith
  have hw2 : (0.927 - 0) / L ≤ 1.03 := by
    rw [div_le_iff₀ hL]; norm_num; linarith
  have e1 : ((0.957:ℝ) - 0) / 0.957 = 1 := by norm_num
  have e0 : ((0:ℝ) - 0) / 0.957 = 0 := by norm_num
  have e00 : ((0:ℝ) - 0) / L = 0 := by norm_num
  rw [e1, e0, e00]
  generalize (-0.240 - 0) / L = t at *
  generalize (0.927 - 0) / L = w at *
  simp only [not_or, not_lt, gt_iff_lt]
  constructor
  · rw [Real.le_sqrt (by norm_num)] <;>
      nlinarith [mul_self_nonneg (1 + t), mul_self_nonneg (0 + w)]
  · rw [Real.sqrt_le_left (by norm_num)]
    nlinarith

theorem scenario_transform :
    (demo_model.transform realMath scenario_coords).2 =
      .ok (sites_M realMath demo_model.parameters scenario_coords
        ++ sites_LP realMath demo_model.parameters scenario_coords) :=
  (transform_good realMath demo_model scenario_coords rfl scenario_not_short
    scenario_not_collinear).2

theorem demo_no_LP (c : Coords ℝ) : sites_LP realMath demo_model.parameters c = [] := by
  rw [demo_model_eq]
  simp only [sites_LP, realMath]
  norm_num

/-- The M site over the reals on the scenario of the specification (O at the origin, H1 at
(0.957, 0, 0), H2 at (-0.240, 0.927, 0)) tip4p yields exactly one site, at
`O + 0.15 * a`. -/
theorem M_site_on_bisector_real_sample :
    ∃ mx my mz, (demo_model.transform realMath scenario_coords).2 = .ok [mx, my, mz] ∧
      point mx my mz = scenario_coords.O + (0.15 : ℝ) • scenario_coords.unit_a ∧
      dist (point mx my mz) scenario_coords.O = 0.15 := by
  obtain ⟨mx, my, mz, rest, hs, hpt, -, -, -, hd, -, -⟩ :=
    M_site_on_bisector_real demo_model scenario_coords _ scenario_transform
      (by rw [demo_model_eq]; norm_num [abs_of_pos])
  refine ⟨mx, my, mz, ?_, ?_, ?_⟩
  · rw [scenario_transform, hs]
    have hl := congrArg List.length hs
    rw [demo_no_LP] at hl
    have h3 : (sites_M realMath demo_model.parameters scenario_coords).length ≤ 3 := by
      unfold sites_M; split <;> simp
    simp only [List.append_nil, List.length_cons] at hl
    have : rest = [] := List.eq_nil_of_length_eq_zero (by omega)
    rw [this]
  · exact hpt
  · rw [hd, demo_model_eq]; norm_num [abs_of_pos]

/-- The triple product with a repeated factor vanishes: `c` is normal to the plane of the
two bonds. -/
theorem normal_comb (d1x d1y d1z d2x d2y d2z L1 L2 la lb : ℝ) :
    d1x * (((d1y / L1 + d2y / L2) / la) * ((d1z / L1 - d2z / L2) / lb)
        - ((d1z / L1 + d2z / L2) / la) * ((d1y / L1 - d2y / L2) / lb))
      + d1y * (((d1z / L1 + d2z / L2) / la) * ((d1x / L1 - d2x / L2) / lb)
        - ((d1x / L1 + d2x / L2) / la) * ((d1z / L1 - d2z / L2) / lb))
      + d1z * (((d1x / L1 + d2x / L2) / la) * ((d1y / L1 - d2y / L2) / lb)
        - ((d1y / L1 + d2y / L2) / la) * ((d1x / L1 - d2x / L2) / lb)) = 0 ∧
    d2x * (((d1y / L1 + d2y / L2) / la) * ((d1z / L1 - d2z / L2) / lb)
        - ((d1z / L1 + d2z / L2) / la) * ((d1y / L1 - d2y / L2) / lb))
      + d2y * (((d1z / L1 + d2z / L2) / la) * ((d1x / L1 - d2x / L2) / lb)
        - ((d1x / L1 + d2x / L2) / la) * ((d1z / L1 - d2z / L2) / lb))
      + d2z * (((d1x / L1 + d2x / L2) / la) * ((d1y / L1 - d2y / L2) / lb)
        - ((d1y / L1 + d2y / L2) / la) * ((d1x / L1 - d2x / L2) / lb)) = 0 := by
  constructor <;> ring

/-- The lone-pair parameters of the registry: where there are lone pairs, `rOL` is
positive and `lpangle` lies between 0 and 180. -/
theorem registry_LP_bounds :
    ∀ p ∈ (models : List (model_param ℝ)), |p.rOL| > 1.0e-4 →
      0 < p.rOL ∧ 0 ≤ p.lpangle ∧ p.lpangle < 180 := by
  intro p hp
  simp only [models, List.mem_cons, List.mem_singleton, List.not_mem_nil, or_false] at hp
  rcases hp with h | h | h | h | h | h | h | h | h | h | h | h <;> subst h <;> intro _ <;>
    refine ⟨?_, ?_, ?_⟩ <;> norm_num at *

/-- Length and inner products of `s c - t a` and `- s c - t a` in an orthonormal frame. -/
theorem lp_comb (ax ay az cx cy cz s t : ℝ)
    (ha : ax*ax + ay*ay + az*az = 1) (hc : cx*cx + cy*cy + cz*cz = 1)
    (hac : ax*cx + ay*cy + az*cz = 0) :
    (cx*s - ax*t)^2 + (cy*s - ay*t)^2 + (cz*s - az*t)^2 = s^2 + t^2 ∧
    (-(cx*s) - ax*t)^2 + (-(cy*s) - ay*t)^2 + (-(cz*s) - az*t)^2 = s^2 + t^2 ∧
    (cx*s - ax*t)*(-(cx*s) - ax*t) + (cy*s - ay*t)*(-(cy*s) - ay*t)
      + (cz*s - az*t)*(-(cz*s) - az*t) = t^2 - s^2 := by
  refine ⟨?_, ?_, ?_⟩
  · linear_combination s^2 * hc + t^2 * ha - 2*s*t * hac
  · linear_combination s^2 * hc + t^2 * ha + 2*s*t * hac
  · linear_combination t^2 * ha - s^2 * hc

/-- The lone-pair sites over the reals: for every model with `|rOL| > 1e-4` and every successful `model::transform` over
the reals, the last six returned coordinates are the two lone-pair sites
`Lp1 = O + s c - t a` and `Lp2 = O - s c - t a`, with `s = sin(lpangle/2) rOL`,
`t = cos(lpangle/2) rOL`, `a` the unit bisector, `b` the in-plane unit vector and
`c = a x b` the unit normal of the H-O-H plane (orthogonal to `a`, `b` and to both
bonds).  Both sites are at distance `|rOL|` from O; their components along `a` are
equal, those along `b` are zero and those along `c` are opposite (mirror images in the
H-O-H plane); for `0 <= lpangle <= 180` the angle Lp1-O-Lp2 is `lpangle` degrees (in
radians, `lpangle * degree`); for `rOL > 0` and `0 <= lpangle < 180` the component along
`a` is negative (the side opposite the hydrogens).  The registry models with lone pairs
have `rOL > 0` and `0 <= lpangle < 180`. -/
theorem LP_sites_mirror_real (wm : model ℝ) (c : Coords ℝ) (sites : List ℝ)
    (hok : (wm.transform realMath c).2 = .ok sites)
    (hL : |wm.parameters.rOL| > 1.0e-4) :
    ∃ x1 y1 z1 x2 y2 z2,
      sites = sites_M realMath wm.parameters c ++ [x1, y1, z1, x2, y2, z2] ∧
      point x1 y1 z1 = c.O
        + (Real.sin (wm.parameters.lpangle * degree / 2) * wm.parameters.rOL) • c.unit_c
        - (Real.cos (wm.parameters.lpangle * degree / 2) * wm.parameters.rOL) • c.unit_a ∧
      point x2 y2 z2 = c.O
        - (Real.sin (wm.parameters.lpangle * degree / 2) * wm.parameters.rOL) • c.unit_c
        - (Real.cos (wm.parameters.lpangle * degree / 2) * wm.parameters.rOL) • c.unit_a ∧
      ‖c.unit_c‖ = 1 ∧ (inner c.unit_a c.unit_c : ℝ) = 0 ∧ (inner c.unit_b c.unit_c : ℝ) = 0 ∧
      (inner (c.H1 - c.O) c.unit_c : ℝ) = 0 ∧ (inner (c.H2 - c.O) c.unit_c : ℝ) = 0 ∧
      dist (point x1 y1 z1) c.O = |wm.parameters.rOL| ∧
      dist (point x2 y2 z2) c.O = |wm.parameters.rOL| ∧
      (inner (point x1 y1 z1 - c.O) c.unit_a : ℝ) = inner (point x2 y2 z2 - c.O) c.unit_a ∧
      (inner (point x1 y1 z1 - c.O) c.unit_b : ℝ) = 0 ∧
      (inner (point x2 y2 z2 - c.O) c.unit_b : ℝ) = 0 ∧
      (inner (point x1 y1 z1 - c.O) c.unit_c : ℝ) = - inner (point x2 y2 z2 - c.O) c.unit_c ∧
      (0 ≤ wm.parameters.lpangle → wm.parameters.lpangle ≤ 180 →
        EuclideanGeometry.angle (point x1 y1 z1) c.O (point x2 y2 z2)
          = wm.parameters.lpangle * degree) ∧
      (0 < wm.parameters.rOL → 0 ≤ wm.parameters.lpangle → wm.parameters.lpangle < 180 →
        (inner (point x1 y1 z1 - c.O) c.unit_a : ℝ) < 0 ∧
        (inner (point x2 y2 z2 - c.O) c.unit_a : ℝ) < 0) ∧
      (∀ p ∈ (models : List (model_param ℝ)), |p.rOL| > 1.0e-4 →
        0 < p.rOL ∧ 0 ≤ p.lpangle ∧ p.lpangle < 180) := by
  obtain ⟨hinit, hs, hc⟩ := transform_ok_cases _ _ _ _ hok
  obtain ⟨-, -, -, hsites⟩ := transform_vectors wm c sites hok
  obtain ⟨hL1, hL2, hla, hlb, -, -, -, ha, hb, hab, -, -⟩ := frame_of_good c hs hc
  obtain ⟨hcc, hac, hbc⟩ := cross_frame _ _ _ _ _ _ ha hb hab
  have hθ : wm.parameters.lpangle * degree / 2.0 = wm.parameters.lpangle * degree / 2 := by
    norm_num
  have hsL : sites_LP realMath wm.parameters c
      = [c.xO + (vec_c realMath c).1 * (Real.sin (wm.parameters.lpangle * degree / 2) * wm.parameters.rOL)
            - (vec_a realMath c).1 * (Real.cos (wm.parameters.lpangle * degree / 2) * wm.parameters.rOL),
         c.yO + (vec_c realMath c).2.1 * (Real.sin (wm.parameters.lpangle * degree / 2) * wm.parameters.rOL)
            - (vec_a realMath c).2.1 * (Real.cos (wm.parameters.lpangle * degree / 2) * wm.parameters.rOL),
         c.zO + (vec_c realMath c).2.2 * (Real.sin (wm.parameters.lpangle * degree / 2) * wm.parameters.rOL)
            - (vec_a realMath c).2.2 * (Real.cos (wm.parameters.lpangle * degree / 2) * wm.parameters.rOL),
         c.xO - (vec_c realMath c).1 * (Real.sin (wm.parameters.lpangle * degree / 2) * wm.parameters.rOL)
            - (vec_a realMath c).1 * (Real.cos (wm.parameters.lpangle * degree / 2) * wm.parameters.rOL),
         c.yO - (vec_c realMath c).2.1 * (Real.sin (wm.parameters.lpangle * degree / 2) * wm.parameters.rOL)
            - (vec_a realMath c).2.1 * (Real.cos (wm.parameters.lpangle * degree / 2) * wm.parameters.rOL),
         c.zO - (vec_c realMath c).2.2 * (Real.sin (wm.parameters.lpangle * degree / 2) * wm.parameters.rOL)
            - (vec_a realMath c).2.2 * (Real.cos (wm.parameters.lpangle * degree / 2) * wm.parameters.rOL)] := by
    unfold sites_LP
    rw [hθ]
    exact if_pos hL
  rw [hsL] at hsites
  refine ⟨_, _, _, _, _, _, hsites, ?_⟩
  have hnormal := normal_comb (c.x1 - c.xO) (c.y1 - c.yO) (c.z1 - c.zO) (c.x2 - c.xO)
    (c.y2 - c.yO) (c.z2 - c.zO) (len_OH1 realMath c) (len_OH2 realMath c) (len_a realMath c)
    (len_b realMath c)
  have hn1 : (c.x1 - c.xO) * (vec_c realMath c).1 + (c.y1 - c.yO) * (vec_c realMath c).2.1
      + (c.z1 - c.zO) * (vec_c realMath c).2.2 = 0 := hnormal.1
  have hn2 : (c.x2 - c.xO) * (vec_c realMath c).1 + (c.y2 - c.yO) * (vec_c realMath c).2.1
      + (c.z2 - c.zO) * (vec_c realMath c).2.2 = 0 := hnormal.2
  clear hnormal
  rw [unit_a_eq, unit_b_eq, unit_c_eq]
  simp only [vec_c] at hcc hac hbc hn1 hn2 ⊢
  generalize (vec_a realMath c).1 = ax at *
  generalize (vec_a realMath c).2.1 = ay at *
  generalize (vec_a realMath c).2.2 = az at *
  generalize (vec_b realMath c).1 = bx at *
  generalize (vec_b realMath c).2.1 = b_y at *
  generalize (vec_b realMath c).2.2 = bz at *
  generalize ay * bz - az * b_y = cx at *
  generalize az * bx - ax * bz = cy at *
  generalize ax * b_y - ay * bx = cz at *
  set φ := wm.parameters.lpangle * degree with hφdef
  set r := wm.parameters.rOL
  have hst : (Real.sin (φ / 2) * r)^2 + (Real.cos (φ / 2) * r)^2 = r^2 := by
    have := Real.cos_sq_add_sin_sq (φ / 2)
    linear_combination r^2 * this
  have hts : (Real.cos (φ / 2) * r)^2 - (Real.sin (φ / 2) * r)^2 = r^2 * Real.cos φ := by
    have := Real.cos_two_mul' (φ / 2)
    have e : 2 * (φ / 2) = φ := by ring
    rw [e] at this
    rw [this]; ring
  generalize Real.sin (φ / 2) * r = s at *
  generalize hteq : Real.cos (φ / 2) * r = t at *
  obtain ⟨k1, k2, k3⟩ := lp_comb ax ay az cx cy cz s t ha (by linear_combination hcc)
    (by linear_combination hac)
  have hr0 : r ≠ 0 := by
    intro h0
    rw [h0, abs_zero] at hL
    norm_num at hL
  simp only [Coords.O, Coords.H1, Coords.H2, smul_point, point_add, point_sub, inner_point,
    dist_point, angle_point, point_eq_iff, norm_point]
  have d1 : (c.xO + cx * s - ax * t - c.xO)^2 + (c.yO + cy * s - ay * t - c.yO)^2
      + (c.zO + cz * s - az * t - c.zO)^2 = r^2 := by
    rw [← hst]; linear_combination k1
  have d2 : (c.xO - cx * s - ax * t - c.xO)^2 + (c.yO - cy * s - ay * t - c.yO)^2
      + (c.zO - cz * s - az * t - c.zO)^2 = r^2 := by
    rw [← hst]; linear_combination k2
  have d3 : (c.xO + cx * s - ax * t - c.xO) * (c.xO - cx * s - ax * t - c.xO)
      + (c.yO + cy * s - ay * t - c.yO) * (c.yO - cy * s - ay * t - c.yO)
      + (c.zO + cz * s - az * t - c.zO) * (c.zO - cz * s - az * t - c.zO) = r^2 * Real.cos φ := by
    rw [← hts]; linear_combination k3
  rw [d1, d2, d3, Real.sqrt_sq_eq_abs]
  refine ⟨⟨by ring, by ring, by ring⟩, ⟨by ring, by ring, by ring⟩, ?_, ?_, ?_, hn1, hn2, rfl, rfl,
    ?_, ?_, ?_, ?_, ?_, ?_, registry_LP_bounds⟩
  · rw [Real.sqrt_eq_one]; linear_combination hcc
  · exact hac
  · exact hbc
  · linear_combination 2 * s * hac
  · linear_combination s * hbc - t * hab
  · linear_combination - s * hbc - t * hab
  · linear_combination -2 * t * hac
  · intro h0 h180
    have hdeg : (0:ℝ) ≤ degree := by rw [degree_real]; norm_num
    have hφ0 : 0 ≤ φ := mul_nonneg h0 hdeg
    have hφπ : φ ≤ Real.pi := by
      have h1 := degree_lt_pi.1
      calc φ = wm.parameters.lpangle * degree := rfl
        _ ≤ 180 * degree := by gcongr
        _ ≤ Real.pi := h1.le
    have hratio : r^2 * Real.cos φ / (|r| * |r|) = Real.cos φ := by
      rw [abs_mul_abs_self]; field_simp; ring
    rw [hratio, Real.arccos_cos hφ0 hφπ]
  · intro hr h0 h180
    have hdeg : (0:ℝ) < degree := by rw [degree_real]; norm_num
    have hφ0 : 0 ≤ φ := mul_nonneg h0 hdeg.le
    have hφπ : φ / 2 < Real.pi / 2 := by
      have h1 := degree_lt_pi.1
      have : φ < 180 * degree := by rw [hφdef]; gcongr
      linarith
    have ht : 0 < t := by
      rw [← hteq]
      exact mul_pos (Real.cos_pos_of_mem_Ioo ⟨by linarith, hφπ⟩) hr
    constructor
    · have e : (c.xO + cx * s - ax * t - c.xO) * ax + (c.yO + cy * s - ay * t - c.yO) * ay
          + (c.zO + cz * s - az * t - c.zO) * az = - t := by
        linear_combination s * hac - t * ha
      rw [e]; linarith
    · have e : (c.xO - cx * s - ax * t - c.xO) * ax + (c.yO - cy * s - ay * t - c.yO) * ay
          + (c.zO - cz * s - az * t - c.zO) * az = - t := by
        linear_combination - s * hac - t * ha
      rw [e]; linarith

theorem tip5p_model_eq : tip5p_model =
    ⟨⟨"tip5p".toList, 0.9572, 104.52, 0.00, 0.7, 109.47⟩, true⟩ := rfl

theorem tip5p_transform :
    (tip5p_model.transform realMath demo_coords).2 =
      .ok (sites_M realMath tip5p_model.parameters demo_coords
        ++ sites_LP realMath tip5p_model.parameters demo_coords) :=
  (transform_good realMath tip5p_model demo_coords rfl demo_not_short demo_not_collinear).2

theorem tip5p_no_M (c : Coords ℝ) : sites_M realMath tip5p_model.parameters c = [] := by
  rw [tip5p_model_eq]
  simp only [sites_M, realMath]
  norm_num

/-- Over the reals the sample molecule under tip5p gets two lone-pair sites at 0.7 from O
that make an angle of 109.47 degrees. -/
theorem LP_sites_mirror_real_sample :
    ∃ x1 y1 z1 x2 y2 z2,
      (tip5p_model.transform realMath demo_coords).2 = .ok [x1, y1, z1, x2, y2, z2] ∧
      dist (point x1 y1 z1) demo_coords.O = 0.7 ∧ dist (point x2 y2 z2) demo_coords.O = 0.7 ∧
      EuclideanGeometry.angle (point x1 y1 z1) demo_coords.O (point x2 y2 z2)
        = 109.47 * degree := by
  obtain ⟨x1, y1, z1, x2, y2, z2, hs, -, -, -, -, -, -, -, hd1, hd2, -, -, -, -, hang, -, -⟩ :=
    LP_sites_mirror_real tip5p_model demo_coords _ tip5p_transform
      (by rw [tip5p_model_eq]; norm_num [abs_of_pos])
  refine ⟨x1, y1, z1, x2, y2, z2, ?_, ?_, ?_, ?_⟩
  · rw [tip5p_transform, hs, tip5p_no_M]; rfl
  · rw [hd1, tip5p_model_eq]; norm_num [abs_of_pos]
  · rw [hd2, tip5p_model_eq]; norm_num [abs_of_pos]
  · exact hang (by rw [tip5p_model_eq]; norm_num) (by rw [tip5p_model_eq]; norm_num)

/-! ## Model sizes and extra-site counts -/

/-- A valid index initialises the model with an entry of the registry. -/
theorem initialise_registry (m : model ℝ) (id : Int) (h0 : 0 ≤ id) (h12 : id < 12) :
    ∃ p ∈ (models : List (model_param ℝ)), m.initialise id = ⟨p, true⟩ := by
  have hlen : (models : List (model_param ℝ)).length = 12 := rfl
  have hlt : id.toNat < (models : List (model_param ℝ)).length := by rw [hlen]; omega
  refine ⟨(models : List (model_param ℝ))[id.toNat], List.getElem_mem hlt, ?_⟩
  unfold model.initialise n_models
  rw [if_neg (by push_cast; omega), List.get?_eq_getElem?, List.getElem?_eq_getElem hlt]

/-- Every registry entry has 3, 4 or 5 sites. -/
theorem registry_entry_sizes :
    ∀ p ∈ (models : List (model_param ℝ)),
      model.size realMath ⟨p, true⟩ = .ok 3 ∨ model.size realMath ⟨p, true⟩ = .ok 4 ∨
      model.size realMath ⟨p, true⟩ = .ok 5 := by
  intro p hp
  simp only [models, List.mem_cons, List.mem_singleton, List.not_mem_nil, or_false] at hp
  rcases hp with h | h | h | h | h | h | h | h | h | h | h | h <;> subst h <;>
    simp only [model.size, model.check, realMath] <;> norm_num [abs_of_pos]

/-- The sizes of the twelve registry models over the reals. -/
theorem registry_sizes (id : Int) (h0 : 0 ≤ id) (h12 : id < 12) :
    ((model.new : model ℝ).initialise id).size realMath = .ok 3 ∨
    ((model.new : model ℝ).initialise id).size realMath = .ok 4 ∨
    ((model.new : model ℝ).initialise id).size realMath = .ok 5 := by
  obtain ⟨p, hp, he⟩ := initialise_registry model.new id h0 h12
  rw [he]
  exact registry_entry_sizes p hp

/-- C20: a successful `model::transform` returns exactly `3 * (size() - 3)` coordinates,
for every parameter set and every arithmetic: 3 when `size()` is 4 and 6 when it is 5;
so the reads `extras[0..2]` of the M-site block and `extras[0..5]` of the lone-pair block
of `process_gro` are in bounds, and with a size of 3, 4 or 5 a water run that completes
has written exactly `size()` records and advanced the counter by `size()`.  Each of the
12 registry models (over the reals) has size 3, 4 or 5. -/
theorem sites_count_matches_size {F : Type} [Add F] [Sub F] [Mul F] [Div F] [LT F]
    [DecidableRel (fun (a b : F) => a < b)] [OfScientific F]
    (mf : MathFns F) (tx : TextFns F) (wm : model F) (c : Coords F) (sites : List F)
    (hok : (wm.transform mf c).2 = .ok sites) :
    ∃ s, wm.size mf = .ok s ∧ sites.length = 3 * (s - 3) ∧
      (s = 4 → sites.length = 3) ∧ (s = 5 → sites.length = 6) ∧
      (∀ (l2 : Str) (counter : Nat) (out : List Str) (i : Nat),
        (emit_M tx l2 s counter sites out).res ≠ .error (.bad_index i) ∧
        (emit_LP tx l2 s counter sites out).res ≠ .error (.bad_index i)) ∧
      (∀ (lines : List Str) (na cur counter : Nat) (out o : List Str) (st : Nat × Nat),
        s = 3 ∨ s = 4 ∨ s = 5 →
        emit_water mf tx lines wm s na cur counter out = ⟨o, .ok st⟩ →
        ∃ recs, o = out ++ recs ∧ recs.length = s ∧ st.2 = counter + s) ∧
      (∀ id : Int, 0 ≤ id → id < 12 →
        ((model.new : model ℝ).initialise id).size realMath = .ok 3 ∨
        ((model.new : model ℝ).initialise id).size realMath = .ok 4 ∨
        ((model.new : model ℝ).initialise id).size realMath = .ok 5) := by
  obtain ⟨s, hsize, hlen, -, -, -, -⟩ := sites_length mf wm c sites hok
  refine ⟨s, hsize, hlen, fun h => by rw [hlen, h], fun h => by rw [hlen, h], ?_, ?_,
    registry_sizes⟩
  · intro l2 counter out i
    exact ⟨emit_M_in_bounds tx l2 s counter sites out (fun h => by rw [hlen, h]) i,
      emit_LP_in_bounds tx l2 s counter sites out (fun h => by rw [hlen, h]) i⟩
  · intro lines na cur counter out o st hs he
    obtain ⟨-, hc, recs, ho, hl⟩ :=
      emit_water_ok mf tx lines wm s na cur counter out o st.1 st.2 he
    refine ⟨recs, ho, ?_, hc⟩
    rw [hl]
    rcases hs with h | h | h <;> subst h <;> rfl

/-- Witness of C20: tip4p has size 4 and returns three coordinates for the sample
molecule. -/
theorem sites_count_matches_size_witness :
    ∃ s, demo_model.size realMath = .ok s ∧
      (sites_M realMath demo_model.parameters demo_coords
        ++ sites_LP realMath demo_model.parameters demo_coords).length = 3 * (s - 3) := by
  obtain ⟨s, h1, h2, -⟩ :=
    sites_count_matches_size realMath realText demo_model demo_coords _ demo_transform
  exact ⟨s, h1, h2⟩

/-! ## The classifier step on sample files -/

/-- Witness of the amended C18 on the sample file: the water at line 3 is followed by one
MW line, so the counting pass goes on from cursor 7 with one water and four atoms
counted; at line 2, an ordinary atom, it goes on from cursor 3. -/
theorem classifier_step_rule_witness :
    extra_sites_after demo_lines 6 (3 + 3) = 1 ∧
    count_loop demo_lines 6 (0 + 1) 3 0 0
      = count_loop demo_lines 6 0 (3 + 3 + extra_sites_after demo_lines 6 (3 + 3)) (0 + 1)
          (0 + 3 + extra_sites_after demo_lines 6 (3 + 3)) ∧
    count_loop demo_lines 6 (0 + 1) 2 0 0 = count_loop demo_lines 6 0 (2 + 1) 0 0 :=
  ⟨by decide,
    ((classifier_step_rule realMath realText demo_lines demo_model 4 6 0 3 0 0 1 []
      (by decide) (by decide) (by decide)).1 (by decide)).2.2.2.2.2.2
      (by decide) ⟨"CL".toList, by decide⟩,
    ((classifier_step_rule realMath realText demo_lines demo_model 4 6 0 2 0 0 1 []
      (by decide) (by decide) (by decide)).2 (by decide) "NA".toList (by decide)
      (fun h => absurd h (by decide))).1⟩

/-- C18, the claim as stated fails, on three files.  In the first, lines 2, 3, 4 are
tagged OW, HW, HW and line 5 (inside the atom range, `na = 5`) is `junk`, which has no
tag in MW, LP, EP, so the rule puts the cursor at 5; the counting pass instead throws
the format error of `atom_name` when it reads the tag of line 5.  In the second, line 2
is tagged OW and line 3 is `junk`, so the three tags are not OW, HW, HW and the rule
advances the cursor by 1; the water test throws when it reads the tag of line 3.  In
the third, line 2 itself is `junk`.  In all three `process_gro` writes nothing. -/
theorem junk_line_stops_classifier :
    (read_na junk_after_water_lines = .ok 5 ∧
      starts_water junk_after_water_lines 2 ∧
      extra_sites_after junk_after_water_lines 5 (2 + 3) = 0 ∧
      count_loop junk_after_water_lines 5 junk_after_water_lines.length 2 0 0
        = .error (.gro_error "file format error (atom name)".toList "junk".toList) ∧
      process_gro realMath realText junk_after_water_lines demo_model
        = ⟨[], .error (.gro_error "file format error (atom name)".toList "junk".toList)⟩) ∧
    (read_na OW_then_junk_lines = .ok 3 ∧
      tag OW_then_junk_lines 2 = .ok "OW".toList ∧
      ¬ starts_water OW_then_junk_lines 2 ∧
      count_loop OW_then_junk_lines 3 OW_then_junk_lines.length 2 0 0
        = .error (.gro_error "file format error (atom name)".toList "junk".toList) ∧
      process_gro realMath realText OW_then_junk_lines demo_model
        = ⟨[], .error (.gro_error "file format error (atom name)".toList "junk".toList)⟩) ∧
    (read_na junk_atom_lines = .ok 3 ∧
      ¬ starts_water junk_atom_lines 2 ∧
      count_loop junk_atom_lines 3 junk_atom_lines.length 2 0 0
        = .error (.gro_error "file format error (atom name)".toList "junk".toList) ∧
      process_gro realMath realText junk_atom_lines demo_model
        = ⟨[], .error (.gro_error "file format error (atom name)".toList "junk".toList)⟩) := by
  refine ⟨⟨by decide, by decide, by decide, by decide, ?_⟩,
    ⟨by decide, by decide, by decide, by decide, ?_⟩,
    ⟨by decide, by decide, by decide, ?_⟩⟩
  · exact process_gro_count_error realMath realText junk_after_water_lines demo_model 4 5 _
      demo_model_size (by decide) (by decide) (by decide) (by decide)
  · exact process_gro_count_error realMath realText OW_then_junk_lines demo_model 4 3 _
      demo_model_size (by decide) (by decide) (by decide) (by decide)
  · exact process_gro_count_error realMath realText junk_atom_lines demo_model 4 3 _
      demo_model_size (by decide) (by decide) (by decide) (by decide)

/-! ## The atom records of the sample run -/

/-- Witness of C11: the sample run keeps the columns 1-15 of its five kept atom lines. -/
theorem order_preserved_witness :
    ∃ (title cnt : Str) (na : Nat) (records : List Str),
      read_na demo_lines = .ok na ∧
      (process_gro realMath realText demo_lines demo_model).out
        = title :: cnt :: (records ++ demo_lines.drop (na + 2)) ∧
      records.length = (record_layout demo_lines na 4).length ∧
      (record_layout demo_lines na 4).filterMap id = kept_indices demo_lines na ∧
      ((records.zip (record_layout demo_lines na 4)).filter (fun p => p.2.isSome)).map
          (fun p => p.1.take 15)
        = (kept_indices demo_lines na).map (fun j => (demo_lines.getD j []).take 15) :=
  order_preserved realMath realText demo_lines demo_model 4 1 demo_model_size
    (Or.inr (Or.inl rfl)) demo_run

/-- Witness of C12: the sample run starts with the title of the sample file. -/
theorem process_gro_frame_witness :
    (process_gro realMath realText demo_lines demo_model).out.head? = demo_lines.head? ∧
    ∃ na, read_na demo_lines = .ok na ∧
      demo_lines.drop (na + 2) <:+ (process_gro realMath realText demo_lines demo_model).out := by
  obtain ⟨s, na, title, cnt, body, trailing, cur, counter, -, -, hna, -, -, hh, hsuf, -⟩ :=
    process_gro_frame realMath realText demo_lines demo_model 1 demo_run
  exact ⟨hh, na, hna, hsuf⟩

/-- Witness of C13: the records of the sample run are numbered from 1. -/
theorem records_numbered_from_one_witness :
    ∃ (title cnt : Str) (na : Nat) (records : List Str),
      (process_gro realMath realText demo_lines demo_model).out
        = title :: cnt :: (records ++ demo_lines.drop (na + 2)) ∧
      numbered_from 1 records := by
  obtain ⟨title, cnt, na, records, -, hout, -, hnum, -⟩ :=
    records_numbered_from_one realMath realText demo_lines demo_model 4 1 demo_model_size
      (Or.inr (Or.inl rfl)) demo_run
  exact ⟨title, cnt, na, records, hout, hnum⟩

/-! ## The box line and the skip loop -/

/-- The water step of the emission pass on the file with the long box line. -/
theorem boxed_run_water (counter : Nat) (out : List Str) :
    ∃ o, emit_water realMath realText boxed_water_lines demo_model 4 3 2 counter out
      = ⟨o, .ok (5, counter + 4)⟩ := by
  have hc0 := coordinates_real "    2SOL     OW    2   0.000   0.000   0.000".toList
    0 0 0 3 3 3 (by decide) (by decide) (by decide) (by decide)
  have hc1 := coordinates_real "    2SOL    HW1    3   0.100   0.000   0.000".toList
    100 0 0 3 3 3 (by decide) (by decide) (by decide) (by decide)
  have hc2 := coordinates_real "    2SOL    HW2    4   0.000   0.100   0.000".toList
    0 100 0 3 3 3 (by decide) (by decide) (by decide) (by decide)
  have hco : (⟨((0 : Int) : ℝ) / 10 ^ 3 * 10.0, ((0 : Int) : ℝ) / 10 ^ 3 * 10.0,
      ((0 : Int) : ℝ) / 10 ^ 3 * 10.0, ((100 : Int) : ℝ) / 10 ^ 3 * 10.0,
      ((0 : Int) : ℝ) / 10 ^ 3 * 10.0, ((0 : Int) : ℝ) / 10 ^ 3 * 10.0,
      ((0 : Int) : ℝ) / 10 ^ 3 * 10.0, ((100 : Int) : ℝ) / 10 ^ 3 * 10.0,
      ((0 : Int) : ℝ) / 10 ^ 3 * 10.0⟩ : Coords ℝ) = demo_coords := by
    simp only [demo_coords, Coords.mk.injEq]
    norm_num
  refine emit_water_run realMath realText boxed_water_lines demo_model 4 3 2 counter 5 out
    _ _ _ _ _ _
    (sites_M realMath demo_model.parameters demo_coords
        ++ sites_LP realMath demo_model.parameters demo_coords)
    (by decide) (by decide) (by decide) (by decide) (by decide) (by decide) hc0 hc1 hc2 ?_ ?_ ?_
    (by decide)
  · rw [hco]; exact demo_transform
  · intro _; rw [demo_sites_length]
  · intro h; omega

/-- The file with the long box line is converted without error. -/
theorem boxed_run :
    (process_gro realMath realText boxed_water_lines demo_model).res = .ok 1 := by
  rw [process_gro_body realMath realText boxed_water_lines demo_model 4 3 5 1 3 "sample".toList
    demo_model_size (by decide) (by decide) (by decide) (by decide) (by decide)]
  rw [show boxed_water_lines.length = 5 + 1 from rfl]
  obtain ⟨o, ho⟩ := boxed_run_water 1 [_, _]
  rw [emit_loop_water realMath realText boxed_water_lines demo_model 4 3 5 2 1 _ o "OW".toList
    (5, 5) (by decide) (by decide) (by decide) ho]
  rw [emit_loop_exit _ _ _ _ _ _ _ _ _ _ (by decide)]
  simp only [Run.andThen]
  rw [copy_rest_copy boxed_water_lines 3 5 5 5 _ _ (by decide) (by decide)
    (show line_at boxed_water_lines 5 = .ok "   1.00000   1.00000   1.00000".toList from rfl)]
  rw [copy_rest_exit _ _ _ _ _ _ (by decide)]

/-- C21, the code on a pair of inputs that differ only in the box line: both files have
the title `sample`, the count 3, the same three atom lines and 6 lines in all, and
differ only in line 5 (index `na + 2`).  With a box line of 30 characters the call
succeeds; with the box vectors in free format (11 characters) the skip loop of the
counting pass reads the atom name of the box line and the call fails with the format
error of `atom_name`, before anything is written. -/
theorem box_line_decides_outcome :
    boxed_water_lines.length = 6 ∧ free_box_water_lines.length = 6 ∧
    read_na boxed_water_lines = .ok 3 ∧ read_na free_box_water_lines = .ok 3 ∧
    boxed_water_lines.take (3 + 2) = free_box_water_lines.take (3 + 2) ∧
    (process_gro realMath realText boxed_water_lines demo_model).res = .ok 1 ∧
    process_gro realMath realText free_box_water_lines demo_model
      = ⟨[], .error (.gro_error "file format error (atom name)".toList
          "1.0 1.0 1.0".toList)⟩ :=
  ⟨rfl, rfl, by decide, by decide, by decide, boxed_run,
    process_gro_count_error realMath realText free_box_water_lines demo_model 4 3 _
      demo_model_size (by decide) (by decide) (by decide) (by decide)⟩

/-! ## The output of the sample run, processed again -/

/-- Witness of C22: the output of the sample run (tip4p, one water molecule) holds one
water molecule and one extra-site line again. -/
theorem output_reprocessable_witness :
    ∃ (out : List Str) (N : Nat),
      out = (process_gro realMath realText demo_lines demo_model).out ∧
      water_count out N = 1 ∧ discarded_count out N = 1 * (4 - 3) ∧
      (∃ c, count_loop out N out.length 2 0 0 = .ok (c, 1, 4 * 1)) := by
  obtain ⟨out, title, na, N, records, ho, -, -, -, -, -, hc, hw, hd, -⟩ :=
    output_reprocessable realMath realText demo_lines demo_model 4 1 demo_model_size
      (Or.inr (Or.inl rfl)) demo_run
  exact ⟨out, N, ho, hw, hd, hc⟩

/-- C8, the code at the failing input: the file has 5 lines and its second line,
`-99999999999999999999`, is a negative integer; `std::stol` throws `std::out_of_range`,
which `process_gro` does not catch, so the call ends with that exception, not with the
format error "file format error (atom count)" (nothing is written). -/
theorem huge_negative_count_uncaught :
    huge_negative_count_lines.length = 5 ∧
    line_at huge_negative_count_lines 1 = .ok "-99999999999999999999".toList ∧
    stol "-99999999999999999999".toList = .out_of_range ∧
    process_gro realMath realText huge_negative_count_lines demo_model
      = ⟨[], .error (.out_of_range "stol".toList)⟩ ∧
    ∀ msg line, process_gro realMath realText huge_negative_count_lines demo_model
      ≠ ⟨[], .error (.gro_error msg line)⟩ := by
  have h := process_gro_bad_na realMath realText huge_negative_count_lines demo_model 4
    (.out_of_range "stol".toList) demo_model_size (by decide) (by decide)
  refine ⟨rfl, rfl, by decide, h, fun msg line hh => ?_⟩
  rw [h] at hh
  simp at hh

/-- C9, the code at the failing input: the file has 6 lines and declares
99999999999999999999 atoms, far more than it holds; `std::stol` throws
`std::out_of_range`, which `process_gro` does not catch, so the call ends with that
exception and not with a format error (nothing is written). -/
theorem huge_count_uncaught :
    huge_count_lines.length = 6 ∧
    line_at huge_count_lines 1 = .ok "99999999999999999999".toList ∧
    digits_value "99999999999999999999".toList = 99999999999999999999 ∧
    huge_count_lines.length < 99999999999999999999 + 2 ∧
    process_gro realMath realText huge_count_lines demo_model
      = ⟨[], .error (.out_of_range "stol".toList)⟩ ∧
    ∀ msg line, process_gro realMath realText huge_count_lines demo_model
      ≠ ⟨[], .error (.gro_error msg line)⟩ := by
  have h := process_gro_bad_na realMath realText huge_count_lines demo_model 4
    (.out_of_range "stol".toList) demo_model_size (by decide) (by decide)
  refine ⟨rfl, rfl, by decide, by decide, h, fun msg line hh => ?_⟩
  rw [h] at hh
  simp at hh

/-! ## The idealiser in the arithmetic with overflow -/

theorem Dbl.ofReal_fin (x : ℝ) (h : |x| ≤ 4) : Dbl.ofReal x = .fin x := by
  obtain ⟨h1, h2⟩ := abs_le.mp h
  unfold Dbl.ofReal DBL_MAX
  rw [if_neg (by norm_num; linarith), if_neg (by norm_num; linarith)]

theorem Dbl.fin_add (a b : ℝ) : (Dbl.fin a + Dbl.fin b : Dbl) = Dbl.ofReal (a + b) := rfl

theorem Dbl.fin_sub (a b : ℝ) : (Dbl.fin a - Dbl.fin b : Dbl) = Dbl.ofReal (a - b) := by
  show Dbl.add (Dbl.fin a) (Dbl.neg (Dbl.fin b)) = _
  rw [Dbl.neg, Dbl.add, sub_eq_add_neg]

theorem Dbl.fin_mul (a b : ℝ) : (Dbl.fin a * Dbl.fin b : Dbl) = Dbl.ofReal (a * b) := rfl

theorem Dbl.fin_div (a b : ℝ) (h : b ≠ 0) :
    (Dbl.fin a / Dbl.fin b : Dbl) = Dbl.ofReal (a / b) := by
  show Dbl.div _ _ = _
  rw [Dbl.div, if_neg h]

theorem Dbl.fin_div_pinf (a : ℝ) : (Dbl.fin a / Dbl.pinf : Dbl) = Dbl.fin 0 := rfl

theorem Dbl.pinf_add_fin (a : ℝ) : (Dbl.pinf + Dbl.fin a : Dbl) = Dbl.pinf := rfl

theorem Dbl.lit (m : ℕ) (s : Bool) (e : ℕ) :
    (OfScientific.ofScientific m s e : Dbl)
      = Dbl.ofReal (OfScientific.ofScientific m s e : ℝ) := rfl

theorem far_len_OH1 : len_OH1 dblMath far_coords = .pinf := by
  simp only [len_OH1, vec_length, far_coords, dblMath, Dbl.fin_sub, Dbl.fin_mul]
  norm_num [Dbl.ofReal, DBL_MAX, Dbl.fin_mul, Dbl.pinf_add_fin]
theorem far_len_OH2 : len_OH2 dblMath far_coords = .fin 1 := by
  simp only [len_OH2, vec_length, far_coords, dblMath, Dbl.fin_sub, Dbl.fin_mul]
  norm_num [Dbl.ofReal, DBL_MAX, Dbl.fin_mul, Dbl.fin_add]

theorem far_unit_OH1 : unit_OH1 dblMath far_coords = (.fin 0, .fin 0, .fin 0) := by
  simp only [unit_OH1, far_len_OH1]
  simp only [far_coords, Dbl.fin_sub]
  norm_num [Dbl.ofReal, DBL_MAX, Dbl.fin_div_pinf]

theorem far_unit_OH2 : unit_OH2 dblMath far_coords = (.fin 0, .fin 1, .fin 0) := by
  simp only [unit_OH2, far_len_OH2]
  simp only [far_coords, Dbl.fin_sub]
  norm_num [Dbl.ofReal, DBL_MAX, Dbl.fin_div]

theorem far_len_a : len_a dblMath far_coords = .fin 1 := by
  simp only [len_a, far_unit_OH1, far_unit_OH2]
  simp only [vec_length, dblMath, Dbl.fin_add, Dbl.fin_mul]
  norm_num [Dbl.ofReal, DBL_MAX, Dbl.fin_mul, Dbl.fin_add]

theorem far_len_b : len_b dblMath far_coords = .fin 1 := by
  simp only [len_b, far_unit_OH1, far_unit_OH2]
  simp only [vec_length, dblMath, Dbl.fin_sub, Dbl.fin_mul]
  norm_num [Dbl.ofReal, DBL_MAX, Dbl.fin_mul, Dbl.fin_add]

theorem far_vec_a : vec_a dblMath far_coords = (.fin 0, .fin 1, .fin 0) := by
  simp only [vec_a, far_len_a, far_unit_OH1, far_unit_OH2, Dbl.fin_add]
  norm_num [Dbl.ofReal, DBL_MAX, Dbl.fin_div]

theorem far_vec_b : vec_b dblMath far_coords = (.fin 0, .fin (-1), .fin 0) := by
  simp only [vec_b, far_len_b, far_unit_OH1, far_unit_OH2, Dbl.fin_sub]
  norm_num [Dbl.ofReal, DBL_MAX, Dbl.fin_div]

theorem far_not_short : ¬ short_bond dblMath far_coords := by
  simp only [short_bond, far_len_OH1, far_len_OH2, Dbl.lit]
  norm_num [Dbl.ofReal, DBL_MAX]
  constructor
  · intro h; exact h
  · show ¬ Dbl.lt _ _
    simp only [Dbl.lt]
    norm_num

theorem far_not_collinear : ¬ collinear dblMath far_coords := by
  simp only [collinear, far_len_a, Dbl.lit, gt_iff_lt]
  norm_num [Dbl.ofReal, DBL_MAX]
  constructor
  · show ¬ Dbl.lt _ _
    simp only [Dbl.lt]
    norm_num
  · show ¬ Dbl.lt _ _
    simp only [Dbl.lt]
    norm_num
theorem far_tip4p_eq : far_tip4p =
    ⟨⟨"tip4p".toList, 0.9572, 104.52, 0.15, 0.0, 0.0⟩, true⟩ := rfl

theorem far_tip5p_eq : far_tip5p =
    ⟨⟨"tip5p".toList, 0.9572, 104.52, 0.00, 0.7, 109.47⟩, true⟩ := rfl

/-- Half the H-O-H angle of `tip4p` and `tip5p`, in radians: about 0.912. -/
theorem half_angle_bounds :
    (0.9121 : ℝ) < 104.52 * 0.017453292519943295769139 / 2 ∧
    (104.52 : ℝ) * 0.017453292519943295769139 / 2 < 0.9122 := by
  constructor <;> norm_num

/-- Bounds on the cosine and sine of a number between 0.9121 and 0.9122. -/
theorem trig_bounds (x : ℝ) (h1 : 0.9121 < x) (h2 : x < 0.9122) :
    0.54 < Real.cos x ∧ Real.cos x < 0.63 ∧ 0.74 < Real.sin x ∧ Real.sin x < 0.83 := by
  have hx : |x| ≤ 1 := by rw [abs_le]; constructor <;> linarith
  have hc := abs_le.mp (Real.cos_bound hx)
  have hs := abs_le.mp (Real.sin_bound hx)
  have hx0 : 0 ≤ x := by linarith
  rw [abs_of_nonneg hx0] at hc hs
  have hx2l : 0.9121 ^ 2 ≤ x ^ 2 := by gcongr
  have hx2u : x ^ 2 ≤ 0.9122 ^ 2 := by gcongr
  have hx3l : 0.9121 ^ 3 ≤ x ^ 3 := by gcongr
  have hx3u : x ^ 3 ≤ 0.9122 ^ 3 := by gcongr
  have hx4u : x ^ 4 ≤ 0.9122 ^ 4 := by gcongr
  have hx4l : 0 ≤ x ^ 4 := by positivity
  norm_num at hx2l hx2u hx3l hx3u hx4u
  refine ⟨?_, ?_, ?_, ?_⟩ <;> linarith [hc.1, hc.2, hs.1, hs.2]

/-- The new hydrogens when the first bond overflows: both on the y axis. -/
theorem far_transform_coords (wm : model Dbl) (hinit : wm.is_initialised = true) (C S : ℝ)
    (hC : |C| ≤ 1) (hS : |S| ≤ 1)
    (hcos : dblMath.cos (wm.parameters.angle * degree / 2.0) * wm.parameters.rOH = .fin C)
    (hsin : dblMath.sin (wm.parameters.angle * degree / 2.0) * wm.parameters.rOH = .fin S) :
    (wm.transform dblMath far_coords).1
      = ⟨.fin 0, .fin 0, .fin 0, .fin 0, .fin (C - S), .fin 0, .fin 0, .fin (C + S), .fin 0⟩ := by
  obtain ⟨hC1, hC2⟩ := abs_le.mp hC
  obtain ⟨hS1, hS2⟩ := abs_le.mp hS
  rw [(transform_good dblMath wm far_coords hinit far_not_short far_not_collinear).1]
  simp only [far_vec_a, far_vec_b, hcos, hsin]
  simp only [far_coords, Dbl.fin_mul, zero_mul, one_mul, neg_one_mul]
  rw [Dbl.ofReal_fin 0 (by norm_num), Dbl.ofReal_fin C (by rw [abs_le]; constructor <;> linarith),
    Dbl.ofReal_fin (-S) (by rw [abs_le]; constructor <;> linarith)]
  simp only [Dbl.fin_add, Dbl.fin_sub, zero_add, add_zero, sub_zero]
  rw [Dbl.ofReal_fin 0 (by norm_num), Dbl.ofReal_fin C (by rw [abs_le]; constructor <;> linarith)]
  simp only [Dbl.fin_add, Dbl.fin_sub, zero_add, add_zero, sub_zero]
  rw [Dbl.ofReal_fin 0 (by norm_num),
    Dbl.ofReal_fin (C + -S) (by rw [abs_le]; constructor <;> linarith),
    Dbl.ofReal_fin (C - -S) (by rw [abs_le]; constructor <;> linarith)]
  simp only [sub_neg_eq_add, ← sub_eq_add_neg]

/-- The products `cos(angle/2) rOH` and `sin(angle/2) rOH` of `tip4p` and `tip5p`. -/
theorem far_trig (wm : model Dbl) (hr : wm.parameters.rOH = 0.9572)
    (ha : wm.parameters.angle = 104.52) :
    dblMath.cos (wm.parameters.angle * degree / 2.0) * wm.parameters.rOH
      = .fin (Real.cos (104.52 * 0.017453292519943295769139 / 2) * 0.9572) ∧
    dblMath.sin (wm.parameters.angle * degree / 2.0) * wm.parameters.rOH
      = .fin (Real.sin (104.52 * 0.017453292519943295769139 / 2) * 0.9572) := by
  have hang : (wm.parameters.angle * degree / 2.0 : Dbl)
      = .fin (104.52 * 0.017453292519943295769139 / 2) := by
    rw [ha]
    norm_num [degree, Dbl.lit, Dbl.ofReal, DBL_MAX, Dbl.fin_mul, Dbl.fin_div]
  have hrr : (0.9572 : Dbl) = .fin 0.9572 := by
    norm_num [Dbl.lit, Dbl.ofReal, DBL_MAX]
  obtain ⟨h1, h2, h3, h4⟩ := trig_bounds _ half_angle_bounds.1 half_angle_bounds.2
  rw [hang, hr, hrr]
  constructor
  · show Dbl.fin (Real.cos _) * _ = _
    rw [Dbl.fin_mul, Dbl.ofReal_fin _ (by rw [abs_le]; constructor <;> linarith)]
  · show Dbl.fin (Real.sin _) * _ = _
    rw [Dbl.fin_mul, Dbl.ofReal_fin _ (by rw [abs_le]; constructor <;> linarith)]
theorem far_tip4p_trig :
    ∃ C S : ℝ, 0.5 < C ∧ C < 0.61 ∧ 0.7 < S ∧ S < 0.8 ∧
      (far_tip4p.transform dblMath far_coords).1
        = ⟨.fin 0, .fin 0, .fin 0, .fin 0, .fin (C - S), .fin 0, .fin 0, .fin (C + S), .fin 0⟩ := by
  obtain ⟨h1, h2, h3, h4⟩ := trig_bounds _ half_angle_bounds.1 half_angle_bounds.2
  obtain ⟨hc, hs⟩ := far_trig far_tip4p rfl rfl
  refine ⟨_, _, ?_, ?_, ?_, ?_, far_transform_coords far_tip4p rfl _ _ ?_ ?_ hc hs⟩
  · linarith
  · linarith
  · linarith
  · linarith
  · rw [abs_le]; constructor <;> linarith
  · rw [abs_le]; constructor <;> linarith

theorem Dbl.fin_lt (a b : ℝ) : (Dbl.fin a < Dbl.fin b) ↔ a < b := Iff.rfl

theorem far_tip4p_sites :
    (far_tip4p.transform dblMath far_coords).2 = .ok [.fin 0, .fin 0.15, .fin 0] := by
  rw [(transform_good dblMath far_tip4p far_coords rfl far_not_short far_not_collinear).2]
  have hM : sites_M dblMath far_tip4p.parameters far_coords = [.fin 0, .fin 0.15, .fin 0] := by
    simp only [sites_M, far_vec_a]
    simp only [far_tip4p_eq, far_coords]
    norm_num [dblMath, Dbl.lit, Dbl.ofReal, DBL_MAX, Dbl.fin_mul, Dbl.fin_add, Dbl.fin_lt,
      abs_of_pos]
  have hL : sites_LP dblMath far_tip4p.parameters far_coords = [] := by
    simp only [sites_LP, far_tip4p_eq]
    norm_num [dblMath, Dbl.lit, Dbl.ofReal, DBL_MAX, Dbl.fin_lt]
  rw [hM, hL]
  rfl
theorem far_coords_val :
    far_coords.val = ⟨0, 0, 0, 1e200, 0, 0, 0, 1, 0⟩ := rfl

/-- The bisector of the far molecule over the reals: (1, 1, 0). -/
theorem far_bisector : far_coords.val.bisector = point 1 1 0 := by
  unfold Coords.bisector Coords.u1 Coords.u2
  rw [far_coords_val]
  simp only [Coords.H1, Coords.H2, Coords.O, point_sub, sub_zero, norm_point]
  have e1 : Real.sqrt ((1e200 : ℝ) ^ 2 + 0 ^ 2 + 0 ^ 2) = 1e200 := by
    rw [show ((1e200 : ℝ) ^ 2 + 0 ^ 2 + 0 ^ 2) = (1e200 : ℝ) ^ 2 by ring]
    exact Real.sqrt_sq (by norm_num)
  have e2 : Real.sqrt ((0 : ℝ) ^ 2 + 1 ^ 2 + 0 ^ 2) = 1 := by norm_num
  rw [e1, e2]
  simp only [smul_point, point_add, point_eq_iff]
  norm_num

/-! ## The arithmetic with overflow on moderate numbers -/

theorem Dbl.ofReal_big (x : ℝ) (h : |x| ≤ 1e307) : Dbl.ofReal x = .fin x := by
  obtain ⟨h1, h2⟩ := abs_le.mp h
  unfold Dbl.ofReal DBL_MAX
  rw [if_neg (by norm_num at h2 ⊢; linarith), if_neg (by norm_num at h1 ⊢; linarith)]

theorem bnd_add (a b A B : ℝ) (ha : |a| ≤ A) (hb : |b| ≤ B) : |a + b| ≤ A + B :=
  (abs_add a b).trans (add_le_add ha hb)

theorem bnd_sub (a b A B : ℝ) (ha : |a| ≤ A) (hb : |b| ≤ B) : |a - b| ≤ A + B :=
  (abs_sub a b).trans (add_le_add ha hb)

theorem bnd_mul (a b A B : ℝ) (ha : |a| ≤ A) (hb : |b| ≤ B) : |a * b| ≤ A * B := by
  rw [abs_mul]
  exact mul_le_mul ha hb (abs_nonneg b) ((abs_nonneg a).trans ha)

theorem Dbl.add_of (a b A B : ℝ) (ha : |a| ≤ A) (hb : |b| ≤ B) (h : A + B ≤ 1e307) :
    (Dbl.fin a + Dbl.fin b : Dbl) = .fin (a + b) := by
  rw [Dbl.fin_add, Dbl.ofReal_big _ ((bnd_add a b A B ha hb).trans h)]

theorem Dbl.sub_of (a b A B : ℝ) (ha : |a| ≤ A) (hb : |b| ≤ B) (h : A + B ≤ 1e307) :
    (Dbl.fin a - Dbl.fin b : Dbl) = .fin (a - b) := by
  rw [Dbl.fin_sub, Dbl.ofReal_big _ ((bnd_sub a b A B ha hb).trans h)]

theorem Dbl.mul_of (a b A B : ℝ) (ha : |a| ≤ A) (hb : |b| ≤ B) (h : A * B ≤ 1e307) :
    (Dbl.fin a * Dbl.fin b : Dbl) = .fin (a * b) := by
  rw [Dbl.fin_mul, Dbl.ofReal_big _ ((bnd_mul a b A B ha hb).trans h)]

/-- A component divided by a length that dominates it. -/
theorem Dbl.div_of (d L : ℝ) (hL : 0 < L) (h : |d| ≤ L) :
    (Dbl.fin d / Dbl.fin L : Dbl) = .fin (d / L) ∧ |d / L| ≤ 1 := by
  have h1 : |d / L| ≤ 1 := by
    rw [abs_div, abs_of_pos hL]
    exact (div_le_one hL).mpr h
  refine ⟨?_, h1⟩
  rw [Dbl.fin_div _ _ hL.ne.symm, Dbl.ofReal_big _ (h1.trans (by norm_num))]

theorem Dbl.lit_fin (m : ℕ) (s : Bool) (e : ℕ)
    (h : |(OfScientific.ofScientific m s e : ℝ)| ≤ 1e307) :
    (OfScientific.ofScientific m s e : Dbl) = .fin (OfScientific.ofScientific m s e : ℝ) := by
  rw [Dbl.lit, Dbl.ofReal_big _ h]

theorem abs_le_vec_length (x y z : ℝ) :
    |x| ≤ vec_length realMath x y z ∧ |y| ≤ vec_length realMath x y z
      ∧ |z| ≤ vec_length realMath x y z := by
  unfold vec_length realMath
  refine ⟨?_, ?_, ?_⟩ <;> apply Real.abs_le_sqrt <;> nlinarith [sq_nonneg x, sq_nonneg y, sq_nonneg z]

theorem vec_length_fin (x y z B : ℝ) (hx : |x| ≤ B) (hy : |y| ≤ B) (hz : |z| ≤ B)
    (hB : B ≤ 1e153) :
    vec_length dblMath (.fin x) (.fin y) (.fin z) = .fin (vec_length realMath x y z) := by
  have hB0 : 0 ≤ B := (abs_nonneg x).trans hx
  have hBB : B * B ≤ 1e306 := by
    have := mul_le_mul hB hB hB0 (by norm_num : (0:ℝ) ≤ 1e153)
    norm_num at this ⊢
    linarith
  have hxx := bnd_mul x x B B hx hx
  have hyy := bnd_mul y y B B hy hy
  have hzz := bnd_mul z z B B hz hz
  unfold vec_length
  rw [Dbl.mul_of x x B B hx hx (by linarith), Dbl.mul_of y y B B hy hy (by linarith),
    Dbl.mul_of z z B B hz hz (by linarith),
    Dbl.add_of (x * x) (y * y) (B * B) (B * B) hxx hyy (by norm_num at hBB ⊢; linarith),
    Dbl.add_of (x * x + y * y) (z * z) (B * B + B * B) (B * B)
      (bnd_add _ _ _ _ hxx hyy) hzz (by norm_num at hBB ⊢; linarith)]
  show (if x * x + y * y + z * z < 0 then Dbl.nan else Dbl.fin (Real.sqrt (x * x + y * y + z * z)))
    = _
  rw [if_neg (by nlinarith [mul_self_nonneg x, mul_self_nonneg y, mul_self_nonneg z])]
  rfl

/-! ## The idealiser on moderate inputs: overflow-aware and real arithmetic agree -/

theorem lit_small : (1.0e-4 : Dbl) = .fin (1.0e-4 : ℝ) :=
  Dbl.lit_fin _ _ _ (by rw [abs_le]; constructor <;> norm_num)

theorem lit_big : (1.9999 : Dbl) = .fin (1.9999 : ℝ) :=
  Dbl.lit_fin _ _ _ (by rw [abs_le]; constructor <;> norm_num)

theorem lit_two : (2.0 : Dbl) = .fin (2.0 : ℝ) :=
  Dbl.lit_fin _ _ _ (by rw [abs_le]; constructor <;> norm_num)

theorem lit_degree : (degree : Dbl) = .fin (degree : ℝ) :=
  Dbl.lit_fin _ _ _ (by rw [abs_le]; constructor <;> norm_num)

theorem len_OH1_toDbl (c : Coords ℝ) (hc : c.bounded) :
    len_OH1 dblMath c.toDbl = .fin (len_OH1 realMath c) := by
  obtain ⟨hxO, hyO, hzO, hx1, hy1, hz1, -, -, -⟩ := hc
  unfold len_OH1 Coords.toDbl
  simp only []
  rw [Dbl.sub_of _ _ _ _ hx1 hxO (by norm_num), Dbl.sub_of _ _ _ _ hy1 hyO (by norm_num),
    Dbl.sub_of _ _ _ _ hz1 hzO (by norm_num)]
  exact vec_length_fin _ _ _ _ (bnd_sub _ _ _ _ hx1 hxO) (bnd_sub _ _ _ _ hy1 hyO)
    (bnd_sub _ _ _ _ hz1 hzO) (by norm_num)

theorem len_OH2_toDbl (c : Coords ℝ) (hc : c.bounded) :
    len_OH2 dblMath c.toDbl = .fin (len_OH2 realMath c) := by
  obtain ⟨hxO, hyO, hzO, -, -, -, hx2, hy2, hz2⟩ := hc
  unfold len_OH2 Coords.toDbl
  simp only []
  rw [Dbl.sub_of _ _ _ _ hx2 hxO (by norm_num), Dbl.sub_of _ _ _ _ hy2 hyO (by norm_num),
    Dbl.sub_of _ _ _ _ hz2 hzO (by norm_num)]
  exact vec_length_fin _ _ _ _ (bnd_sub _ _ _ _ hx2 hxO) (bnd_sub _ _ _ _ hy2 hyO)
    (bnd_sub _ _ _ _ hz2 hzO) (by norm_num)

theorem short_bond_toDbl (c : Coords ℝ) (hc : c.bounded) :
    short_bond dblMath c.toDbl ↔ short_bond realMath c := by
  unfold short_bond
  rw [len_OH1_toDbl c hc, len_OH2_toDbl c hc, lit_small, Dbl.fin_lt, Dbl.fin_lt]

/-- The unit bond vectors have components of magnitude at most 1. -/
theorem unit_OH1_le (c : Coords ℝ) (hs : ¬ short_bond realMath c) :
    |(unit_OH1 realMath c).1| ≤ 1 ∧ |(unit_OH1 realMath c).2.1| ≤ 1
      ∧ |(unit_OH1 realMath c).2.2| ≤ 1 := by
  have hL : (0 : ℝ) < len_OH1 realMath c := by
    unfold short_bond at hs
    have : ¬ len_OH1 realMath c < 1.0e-4 := fun h => hs (Or.inl h)
    norm_num at this
    linarith
  obtain ⟨h1, h2, h3⟩ := abs_le_vec_length (c.x1 - c.xO) (c.y1 - c.yO) (c.z1 - c.zO)
  unfold unit_OH1
  refine ⟨?_, ?_, ?_⟩ <;> simp only [] <;> rw [abs_div, abs_of_pos hL] <;>
    apply (div_le_one hL).mpr
  · exact h1
  · exact h2
  · exact h3

theorem unit_OH2_le (c : Coords ℝ) (hs : ¬ short_bond realMath c) :
    |(unit_OH2 realMath c).1| ≤ 1 ∧ |(unit_OH2 realMath c).2.1| ≤ 1
      ∧ |(unit_OH2 realMath c).2.2| ≤ 1 := by
  have hL : (0 : ℝ) < len_OH2 realMath c := by
    unfold short_bond at hs
    have : ¬ len_OH2 realMath c < 1.0e-4 := fun h => hs (Or.inr h)
    norm_num at this
    linarith
  obtain ⟨h1, h2, h3⟩ := abs_le_vec_length (c.x2 - c.xO) (c.y2 - c.yO) (c.z2 - c.zO)
  unfold unit_OH2
  refine ⟨?_, ?_, ?_⟩ <;> simp only [] <;> rw [abs_div, abs_of_pos hL] <;>
    apply (div_le_one hL).mpr
  · exact h1
  · exact h2
  · exact h3

theorem unit_OH1_toDbl (c : Coords ℝ) (hc : c.bounded) (hs : ¬ short_bond realMath c) :
    unit_OH1 dblMath c.toDbl
      = (.fin (unit_OH1 realMath c).1, .fin (unit_OH1 realMath c).2.1,
          .fin (unit_OH1 realMath c).2.2) := by
  have hL : (0 : ℝ) < len_OH1 realMath c := by
    unfold short_bond at hs
    have : ¬ len_OH1 realMath c < 1.0e-4 := fun h => hs (Or.inl h)
    norm_num at this
    linarith
  obtain ⟨h1, h2, h3⟩ := abs_le_vec_length (c.x1 - c.xO) (c.y1 - c.yO) (c.z1 - c.zO)
  have hlen := len_OH1_toDbl c hc
  obtain ⟨hxO, hyO, hzO, hx1, hy1, hz1, -, -, -⟩ := hc
  unfold unit_OH1
  rw [hlen]
  unfold Coords.toDbl
  simp only []
  rw [Dbl.sub_of _ _ _ _ hx1 hxO (by norm_num), Dbl.sub_of _ _ _ _ hy1 hyO (by norm_num),
    Dbl.sub_of _ _ _ _ hz1 hzO (by norm_num),
    (Dbl.div_of _ _ hL h1).1, (Dbl.div_of _ _ hL h2).1, (Dbl.div_of _ _ hL h3).1]

theorem unit_OH2_toDbl (c : Coords ℝ) (hc : c.bounded) (hs : ¬ short_bond realMath c) :
    unit_OH2 dblMath c.toDbl
      = (.fin (unit_OH2 realMath c).1, .fin (unit_OH2 realMath c).2.1,
          .fin (unit_OH2 realMath c).2.2) := by
  have hL : (0 : ℝ) < len_OH2 realMath c := by
    unfold short_bond at hs
    have : ¬ len_OH2 realMath c < 1.0e-4 := fun h => hs (Or.inr h)
    norm_num at this
    linarith
  obtain ⟨h1, h2, h3⟩ := abs_le_vec_length (c.x2 - c.xO) (c.y2 - c.yO) (c.z2 - c.zO)
  have hlen := len_OH2_toDbl c hc
  obtain ⟨hxO, hyO, hzO, -, -, -, hx2, hy2, hz2⟩ := hc
  unfold unit_OH2
  rw [hlen]
  unfold Coords.toDbl
  simp only []
  rw [Dbl.sub_of _ _ _ _ hx2 hxO (by norm_num), Dbl.sub_of _ _ _ _ hy2 hyO (by norm_num),
    Dbl.sub_of _ _ _ _ hz2 hzO (by norm_num),
    (Dbl.div_of _ _ hL h1).1, (Dbl.div_of _ _ hL h2).1, (Dbl.div_of _ _ hL h3).1]

theorem len_a_toDbl (c : Coords ℝ) (hc : c.bounded) (hs : ¬ short_bond realMath c) :
    len_a dblMath c.toDbl = .fin (len_a realMath c) := by
  obtain ⟨h1, h2, h3⟩ := unit_OH1_le c hs
  obtain ⟨k1, k2, k3⟩ := unit_OH2_le c hs
  unfold len_a
  rw [unit_OH1_toDbl c hc hs, unit_OH2_toDbl c hc hs]
  simp only []
  rw [Dbl.add_of _ _ _ _ h1 k1 (by norm_num), Dbl.add_of _ _ _ _ h2 k2 (by norm_num),
    Dbl.add_of _ _ _ _ h3 k3 (by norm_num)]
  exact vec_length_fin _ _ _ _ (bnd_add _ _ _ _ h1 k1) (bnd_add _ _ _ _ h2 k2)
    (bnd_add _ _ _ _ h3 k3) (by norm_num)

theorem collinear_toDbl (c : Coords ℝ) (hc : c.bounded) (hs : ¬ short_bond realMath c) :
    collinear dblMath c.toDbl ↔ collinear realMath c := by
  unfold collinear
  rw [len_a_toDbl c hc hs, lit_small, lit_big]
  exact Iff.rfl

theorem len_b_toDbl (c : Coords ℝ) (hc : c.bounded) (hs : ¬ short_bond realMath c) :
    len_b dblMath c.toDbl = .fin (len_b realMath c) := by
  obtain ⟨h1, h2, h3⟩ := unit_OH1_le c hs
  obtain ⟨k1, k2, k3⟩ := unit_OH2_le c hs
  unfold len_b
  rw [unit_OH1_toDbl c hc hs, unit_OH2_toDbl c hc hs]
  simp only []
  rw [Dbl.sub_of _ _ _ _ h1 k1 (by norm_num), Dbl.sub_of _ _ _ _ h2 k2 (by norm_num),
    Dbl.sub_of _ _ _ _ h3 k3 (by norm_num)]
  exact vec_length_fin _ _ _ _ (bnd_sub _ _ _ _ h1 k1) (bnd_sub _ _ _ _ h2 k2)
    (bnd_sub _ _ _ _ h3 k3) (by norm_num)

/-- The vector `a` has components of magnitude at most 1, and so has `b`. -/
theorem vec_a_le (c : Coords ℝ) (hs : ¬ short_bond realMath c) (hcl : ¬ collinear realMath c) :
    (|(vec_a realMath c).1| ≤ 1 ∧ |(vec_a realMath c).2.1| ≤ 1 ∧ |(vec_a realMath c).2.2| ≤ 1) ∧
    (|(vec_b realMath c).1| ≤ 1 ∧ |(vec_b realMath c).2.1| ≤ 1 ∧ |(vec_b realMath c).2.2| ≤ 1) := by
  obtain ⟨-, -, hla, hlb, -, -, -, -, -, -, -, -⟩ := frame_of_good c hs hcl
  obtain ⟨h1, h2, h3⟩ := abs_le_vec_length ((unit_OH1 realMath c).1 + (unit_OH2 realMath c).1)
    ((unit_OH1 realMath c).2.1 + (unit_OH2 realMath c).2.1)
    ((unit_OH1 realMath c).2.2 + (unit_OH2 realMath c).2.2)
  obtain ⟨k1, k2, k3⟩ := abs_le_vec_length ((unit_OH1 realMath c).1 - (unit_OH2 realMath c).1)
    ((unit_OH1 realMath c).2.1 - (unit_OH2 realMath c).2.1)
    ((unit_OH1 realMath c).2.2 - (unit_OH2 realMath c).2.2)
  refine ⟨⟨?_, ?_, ?_⟩, ⟨?_, ?_, ?_⟩⟩
  · exact (Dbl.div_of _ _ hla h1).2
  · exact (Dbl.div_of _ _ hla h2).2
  · exact (Dbl.div_of _ _ hla h3).2
  · exact (Dbl.div_of _ _ hlb k1).2
  · exact (Dbl.div_of _ _ hlb k2).2
  · exact (Dbl.div_of _ _ hlb k3).2

theorem vec_a_toDbl (c : Coords ℝ) (hc : c.bounded) (hs : ¬ short_bond realMath c)
    (hcl : ¬ collinear realMath c) :
    vec_a dblMath c.toDbl
      = (.fin (vec_a realMath c).1, .fin (vec_a realMath c).2.1, .fin (vec_a realMath c).2.2) := by
  obtain ⟨-, -, hla, -, -, -, -, -, -, -, -, -⟩ := frame_of_good c hs hcl
  obtain ⟨h1, h2, h3⟩ := unit_OH1_le c hs
  obtain ⟨k1, k2, k3⟩ := unit_OH2_le c hs
  obtain ⟨l1, l2, l3⟩ := abs_le_vec_length ((unit_OH1 realMath c).1 + (unit_OH2 realMath c).1)
    ((unit_OH1 realMath c).2.1 + (unit_OH2 realMath c).2.1)
    ((unit_OH1 realMath c).2.2 + (unit_OH2 realMath c).2.2)
  unfold vec_a
  rw [len_a_toDbl c hc hs, unit_OH1_toDbl c hc hs, unit_OH2_toDbl c hc hs]
  simp only []
  rw [Dbl.add_of _ _ _ _ h1 k1 (by norm_num), Dbl.add_of _ _ _ _ h2 k2 (by norm_num),
    Dbl.add_of _ _ _ _ h3 k3 (by norm_num),
    (Dbl.div_of _ _ hla l1).1, (Dbl.div_of _ _ hla l2).1, (Dbl.div_of _ _ hla l3).1]

theorem vec_b_toDbl (c : Coords ℝ) (hc : c.bounded) (hs : ¬ short_bond realMath c)
    (hcl : ¬ collinear realMath c) :
    vec_b dblMath c.toDbl
      = (.fin (vec_b realMath c).1, .fin (vec_b realMath c).2.1, .fin (vec_b realMath c).2.2) := by
  obtain ⟨-, -, -, hlb, -, -, -, -, -, -, -, -⟩ := frame_of_good c hs hcl
  obtain ⟨h1, h2, h3⟩ := unit_OH1_le c hs
  obtain ⟨k1, k2, k3⟩ := unit_OH2_le c hs
  obtain ⟨l1, l2, l3⟩ := abs_le_vec_length ((unit_OH1 realMath c).1 - (unit_OH2 realMath c).1)
    ((unit_OH1 realMath c).2.1 - (unit_OH2 realMath c).2.1)
    ((unit_OH1 realMath c).2.2 - (unit_OH2 realMath c).2.2)
  unfold vec_b
  rw [len_b_toDbl c hc hs, unit_OH1_toDbl c hc hs, unit_OH2_toDbl c hc hs]
  simp only []
  rw [Dbl.sub_of _ _ _ _ h1 k1 (by norm_num), Dbl.sub_of _ _ _ _ h2 k2 (by norm_num),
    Dbl.sub_of _ _ _ _ h3 k3 (by norm_num),
    (Dbl.div_of _ _ hlb l1).1, (Dbl.div_of _ _ hlb l2).1, (Dbl.div_of _ _ hlb l3).1]

/-- The products `cos(angle/2) r` and `sin(angle/2) r` of the idealiser. -/
theorem trig_toDbl (ang r : ℝ) (ha : |ang| ≤ 1e150) (hr : |r| ≤ 1e150) :
    (dblMath.cos (Dbl.fin ang * degree / 2.0) * Dbl.fin r
        = .fin (realMath.cos (ang * degree / 2.0) * r) ∧
      |realMath.cos (ang * degree / 2.0) * r| ≤ 1e150) ∧
    (dblMath.sin (Dbl.fin ang * degree / 2.0) * Dbl.fin r
        = .fin (realMath.sin (ang * degree / 2.0) * r) ∧
      |realMath.sin (ang * degree / 2.0) * r| ≤ 1e150) := by
  have hd : |(degree : ℝ)| ≤ 1 := by
    rw [degree_real, abs_le]; constructor <;> norm_num
  have h1 := bnd_mul ang degree _ _ ha hd
  have h2 : (Dbl.fin ang * degree / 2.0 : Dbl) = .fin (ang * degree / 2.0) := by
    rw [lit_degree, Dbl.mul_of _ _ _ _ ha hd (by norm_num), lit_two,
      Dbl.fin_div _ _ (by norm_num), Dbl.ofReal_big]
    rw [abs_div]
    have : |ang * (degree : ℝ)| / |(2.0 : ℝ)| ≤ 1e150 * 1 := by
      rw [show |(2.0 : ℝ)| = 2 by norm_num [abs_of_pos]]
      linarith [abs_nonneg (ang * (degree : ℝ))]
    exact this.trans (by norm_num)
  have hc : |Real.cos (ang * degree / 2.0)| ≤ 1 := Real.abs_cos_le_one _
  have hs : |Real.sin (ang * degree / 2.0)| ≤ 1 := Real.abs_sin_le_one _
  have bc := bnd_mul _ _ _ _ hc hr
  have bs := bnd_mul _ _ _ _ hs hr
  rw [h2]
  refine ⟨⟨?_, by simpa [realMath] using bc⟩, ⟨?_, by simpa [realMath] using bs⟩⟩
  · show Dbl.fin (Real.cos (ang * degree / 2.0)) * Dbl.fin r = _
    rw [Dbl.mul_of _ _ _ _ hc hr (by norm_num)]
    rfl
  · show Dbl.fin (Real.sin (ang * degree / 2.0)) * Dbl.fin r = _
    rw [Dbl.mul_of _ _ _ _ hs hr (by norm_num)]
    rfl

/-- One coordinate of the new hydrogens: `o + a C + b S` and `o + a C - b S`. -/
theorem comb_toDbl (o a b C S : ℝ) (ho : |o| ≤ 1e150) (ha : |a| ≤ 1) (hb : |b| ≤ 1)
    (hC : |C| ≤ 1e150) (hS : |S| ≤ 1e150) :
    (Dbl.fin o + Dbl.fin a * Dbl.fin C + Dbl.fin b * Dbl.fin S : Dbl)
      = .fin (o + a * C + b * S) ∧
    (Dbl.fin o + Dbl.fin a * Dbl.fin C - Dbl.fin b * Dbl.fin S : Dbl)
      = .fin (o + a * C - b * S) := by
  have h1 := bnd_mul _ _ _ _ ha hC
  have h2 := bnd_mul _ _ _ _ hb hS
  have h3 := bnd_add _ _ _ _ ho h1
  rw [Dbl.mul_of _ _ _ _ ha hC (by norm_num), Dbl.mul_of _ _ _ _ hb hS (by norm_num),
    Dbl.add_of _ _ _ _ ho h1 (by norm_num), Dbl.add_of _ _ _ _ h3 h2 (by norm_num),
    Dbl.sub_of _ _ _ _ h3 h2 (by norm_num)]
  exact ⟨rfl, rfl⟩

/-- One coordinate of the M site: `o + a r`. -/
theorem site_toDbl (o a r : ℝ) (ho : |o| ≤ 1e150) (ha : |a| ≤ 1) (hr : |r| ≤ 1e150) :
    (Dbl.fin o + Dbl.fin a * Dbl.fin r : Dbl) = .fin (o + a * r) := by
  have h1 := bnd_mul _ _ _ _ ha hr
  rw [Dbl.mul_of _ _ _ _ ha hr (by norm_num), Dbl.add_of _ _ _ _ ho h1 (by norm_num)]

/-- One component of the cross product of `a` and `b`. -/
theorem cross_toDbl (p q r s : ℝ) (hp : |p| ≤ 1) (hq : |q| ≤ 1) (hr : |r| ≤ 1) (hs : |s| ≤ 1) :
    (Dbl.fin p * Dbl.fin q - Dbl.fin r * Dbl.fin s : Dbl) = .fin (p * q - r * s) ∧
    |p * q - r * s| ≤ 2 := by
  have h1 := bnd_mul _ _ _ _ hp hq
  have h2 := bnd_mul _ _ _ _ hr hs
  refine ⟨?_, (bnd_sub _ _ _ _ h1 h2).trans (by norm_num)⟩
  rw [Dbl.mul_of _ _ _ _ hp hq (by norm_num), Dbl.mul_of _ _ _ _ hr hs (by norm_num),
    Dbl.sub_of _ _ _ _ h1 h2 (by norm_num)]

/-- One coordinate of the lone-pair sites: `o + c S - a C` and `o - c S - a C`. -/
theorem lp_toDbl (o cc a C S : ℝ) (ho : |o| ≤ 1e150) (hcc : |cc| ≤ 2) (ha : |a| ≤ 1)
    (hC : |C| ≤ 1e150) (hS : |S| ≤ 1e150) :
    (Dbl.fin o + Dbl.fin cc * Dbl.fin S - Dbl.fin a * Dbl.fin C : Dbl)
      = .fin (o + cc * S - a * C) ∧
    (Dbl.fin o - Dbl.fin cc * Dbl.fin S - Dbl.fin a * Dbl.fin C : Dbl)
      = .fin (o - cc * S - a * C) := by
  have h1 := bnd_mul _ _ _ _ hcc hS
  have h2 := bnd_mul _ _ _ _ ha hC
  have h3 := bnd_add _ _ _ _ ho h1
  have h4 := bnd_sub _ _ _ _ ho h1
  rw [Dbl.mul_of _ _ _ _ hcc hS (by norm_num), Dbl.mul_of _ _ _ _ ha hC (by norm_num),
    Dbl.add_of _ _ _ _ ho h1 (by norm_num), Dbl.sub_of _ _ _ _ ho h1 (by norm_num),
    Dbl.sub_of _ _ _ _ h3 h2 (by norm_num), Dbl.sub_of _ _ _ _ h4 h2 (by norm_num)]
  exact ⟨rfl, rfl⟩

theorem fabs_gt_toDbl (r : ℝ) :
    (dblMath.fabs (Dbl.fin r) > (1.0e-4 : Dbl)) ↔ (realMath.fabs r > (1.0e-4 : ℝ)) := by
  rw [gt_iff_lt, gt_iff_lt, lit_small]
  exact Iff.rfl

theorem sites_M_toDbl (p : model_param ℝ) (c : Coords ℝ) (hc : c.bounded) (hp : p.bounded)
    (hs : ¬ short_bond realMath c) (hcl : ¬ collinear realMath c) :
    sites_M dblMath p.toDbl c.toDbl = (sites_M realMath p c).map Dbl.fin := by
  obtain ⟨⟨a1, a2, a3⟩, -⟩ := vec_a_le c hs hcl
  have hva := vec_a_toDbl c hc hs hcl
  obtain ⟨hxO, hyO, hzO, -, -, -, -, -, -⟩ := hc
  obtain ⟨-, -, hrM, -, -⟩ := hp
  unfold sites_M
  by_cases h : realMath.fabs p.rOM > (1.0e-4 : ℝ)
  · have h' : dblMath.fabs p.toDbl.rOM > (1.0e-4 : Dbl) := (fabs_gt_toDbl p.rOM).mpr h
    rw [if_pos h, if_pos h', hva]
    simp only [Coords.toDbl, model_param.toDbl, List.map]
    rw [site_toDbl _ _ _ hxO a1 hrM, site_toDbl _ _ _ hyO a2 hrM, site_toDbl _ _ _ hzO a3 hrM]
  · have h' : ¬ dblMath.fabs p.toDbl.rOM > (1.0e-4 : Dbl) :=
      fun hh => h ((fabs_gt_toDbl p.rOM).mp hh)
    rw [if_neg h, if_neg h']
    rfl

theorem vec_c_toDbl (c : Coords ℝ) (hc : c.bounded) (hs : ¬ short_bond realMath c)
    (hcl : ¬ collinear realMath c) :
    vec_c dblMath c.toDbl
        = (.fin (vec_c realMath c).1, .fin (vec_c realMath c).2.1, .fin (vec_c realMath c).2.2) ∧
    |(vec_c realMath c).1| ≤ 2 ∧ |(vec_c realMath c).2.1| ≤ 2 ∧ |(vec_c realMath c).2.2| ≤ 2 := by
  obtain ⟨⟨a1, a2, a3⟩, ⟨b1, b2, b3⟩⟩ := vec_a_le c hs hcl
  have e1 := cross_toDbl _ _ _ _ a2 b3 a3 b2
  have e2 := cross_toDbl _ _ _ _ a3 b1 a1 b3
  have e3 := cross_toDbl _ _ _ _ a1 b2 a2 b1
  refine ⟨?_, e1.2, e2.2, e3.2⟩
  unfold vec_c
  rw [vec_a_toDbl c hc hs hcl, vec_b_toDbl c hc hs hcl]
  simp only []
  rw [e1.1, e2.1, e3.1]

theorem sites_LP_toDbl (p : model_param ℝ) (c : Coords ℝ) (hc : c.bounded) (hp : p.bounded)
    (hs : ¬ short_bond realMath c) (hcl : ¬ collinear realMath c) :
    sites_LP dblMath p.toDbl c.toDbl = (sites_LP realMath p c).map Dbl.fin := by
  obtain ⟨⟨a1, a2, a3⟩, -⟩ := vec_a_le c hs hcl
  have hva := vec_a_toDbl c hc hs hcl
  obtain ⟨hvc, c1, c2, c3⟩ := vec_c_toDbl c hc hs hcl
  obtain ⟨hxO, hyO, hzO, -, -, -, -, -, -⟩ := hc
  obtain ⟨-, -, -, hrL, hlp⟩ := hp
  obtain ⟨⟨hcos, bcos⟩, ⟨hsin, bsin⟩⟩ := trig_toDbl p.lpangle p.rOL hlp hrL
  unfold sites_LP
  by_cases h : realMath.fabs p.rOL > (1.0e-4 : ℝ)
  · have h' : dblMath.fabs p.toDbl.rOL > (1.0e-4 : Dbl) := (fabs_gt_toDbl p.rOL).mpr h
    rw [if_pos h, if_pos h', hva, hvc]
    simp only [Coords.toDbl, model_param.toDbl, List.map]
    rw [hcos, hsin,
      (lp_toDbl _ _ _ _ _ hxO c1 a1 bcos bsin).1, (lp_toDbl _ _ _ _ _ hxO c1 a1 bcos bsin).2,
      (lp_toDbl _ _ _ _ _ hyO c2 a2 bcos bsin).1, (lp_toDbl _ _ _ _ _ hyO c2 a2 bcos bsin).2,
      (lp_toDbl _ _ _ _ _ hzO c3 a3 bcos bsin).1, (lp_toDbl _ _ _ _ _ hzO c3 a3 bcos bsin).2]
  · have h' : ¬ dblMath.fabs p.toDbl.rOL > (1.0e-4 : Dbl) :=
      fun hh => h ((fabs_gt_toDbl p.rOL).mp hh)
    rw [if_neg h, if_neg h']
    rfl

/-- On moderate inputs `model::transform` computes the same in the arithmetic with
overflow as over the reals: nothing overflows. -/
theorem transform_toDbl (wm : model ℝ) (c : Coords ℝ) (hc : c.bounded)
    (hp : wm.parameters.bounded) :
    (wm.toDbl.transform dblMath c.toDbl).1 = ((wm.transform realMath c).1).toDbl ∧
    (wm.toDbl.transform dblMath c.toDbl).2
      = ((wm.transform realMath c).2).map (List.map Dbl.fin) := by
  cases hinit : wm.is_initialised with
  | false =>
    rw [transform_uninit dblMath wm.toDbl c.toDbl hinit, transform_uninit realMath wm c hinit]
    exact ⟨rfl, rfl⟩
  | true =>
    have hinit' : wm.toDbl.is_initialised = true := hinit
    by_cases hs : short_bond realMath c
    · rw [transform_short dblMath wm.toDbl c.toDbl hinit' ((short_bond_toDbl c hc).mpr hs),
        transform_short realMath wm c hinit hs]
      exact ⟨rfl, rfl⟩
    · have hs' : ¬ short_bond dblMath c.toDbl := fun h => hs ((short_bond_toDbl c hc).mp h)
      by_cases hcl : collinear realMath c
      · rw [transform_collinear dblMath wm.toDbl c.toDbl hinit' hs'
            ((collinear_toDbl c hc hs).mpr hcl),
          transform_collinear realMath wm c hinit hs hcl]
        exact ⟨rfl, rfl⟩
      · have hcl' : ¬ collinear dblMath c.toDbl :=
          fun h => hcl ((collinear_toDbl c hc hs).mp h)
        obtain ⟨g1, g2⟩ := transform_good dblMath wm.toDbl c.toDbl hinit' hs' hcl'
        obtain ⟨r1, r2⟩ := transform_good realMath wm c hinit hs hcl
        obtain ⟨⟨a1, a2, a3⟩, ⟨b1, b2, b3⟩⟩ := vec_a_le c hs hcl
        have hva := vec_a_toDbl c hc hs hcl
        have hvb := vec_b_toDbl c hc hs hcl
        have hM := sites_M_toDbl wm.parameters c hc hp hs hcl
        have hL := sites_LP_toDbl wm.parameters c hc hp hs hcl
        obtain ⟨hxO, hyO, hzO, -, -, -, -, -, -⟩ := hc
        obtain ⟨hrOH, hang, -, -, -⟩ := hp
        obtain ⟨⟨hcos, bcos⟩, ⟨hsin, bsin⟩⟩ :=
          trig_toDbl wm.parameters.angle wm.parameters.rOH hang hrOH
        constructor
        · rw [g1, r1, hva, hvb]
          simp only [Coords.toDbl, model.toDbl, model_param.toDbl]
          rw [hcos, hsin,
            (comb_toDbl _ _ _ _ _ hxO a1 b1 bcos bsin).1,
            (comb_toDbl _ _ _ _ _ hxO a1 b1 bcos bsin).2,
            (comb_toDbl _ _ _ _ _ hyO a2 b2 bcos bsin).1,
            (comb_toDbl _ _ _ _ _ hyO a2 b2 bcos bsin).2,
            (comb_toDbl _ _ _ _ _ hzO a3 b3 bcos bsin).1,
            (comb_toDbl _ _ _ _ _ hzO a3 b3 bcos bsin).2]
        · rw [g2, r2]
          show Except.ok _ = Except.ok _
          rw [show wm.toDbl.parameters = wm.parameters.toDbl from rfl, hM, hL, List.map_append]

/-- The registry in the arithmetic with overflow holds the same finite numbers. -/
theorem models_toDbl :
    (models : List (model_param Dbl)) = (models : List (model_param ℝ)).map model_param.toDbl := by
  simp only [models, List.map, model_param.toDbl]
  simp (disch := (rw [abs_le]; constructor <;> norm_num)) only [Dbl.lit_fin]

theorem registry_bounded : ∀ p ∈ (models : List (model_param ℝ)), p.bounded := by
  intro p hp
  simp only [models, List.mem_cons, List.mem_singleton, List.not_mem_nil, or_false] at hp
  rcases hp with h | h | h | h | h | h | h | h | h | h | h | h <;> subst h <;>
    refine ⟨?_, ?_, ?_, ?_, ?_⟩ <;> rw [abs_le] <;> constructor <;> norm_num

theorem new_toDbl : (model.new : model Dbl) = (model.new : model ℝ).toDbl := by
  simp only [model.new, model.toDbl, model_param.toDbl]
  simp (disch := (rw [abs_le]; constructor <;> norm_num)) only [Dbl.lit_fin]

/-- A model set up from the registry holds the same finite parameters in both
arithmetics. -/
theorem initialise_toDbl (id : Int) :
    (model.new.initialise id : model Dbl) = (model.new.initialise id : model ℝ).toDbl := by
  unfold model.initialise
  by_cases h : id ≥ (n_models : Int) ∨ id < 0
  · rw [if_pos h, if_pos h, new_toDbl]
    rfl
  · rw [if_neg h, if_neg h, models_toDbl]
    simp only [List.get?_eq_getElem?, List.getElem?_map]
    cases (models : List (model_param ℝ))[id.toNat]? with
    | none => simp only [Option.map]; rw [new_toDbl]; rfl
    | some p => rfl

/-- A successful call on moderate inputs in the arithmetic with overflow is a successful
call over the reals, with the same finite results. -/
theorem transform_ok_toDbl (wm : model ℝ) (c : Coords ℝ) (sites : List Dbl)
    (hc : c.bounded) (hp : wm.parameters.bounded)
    (hok : (wm.toDbl.transform dblMath c.toDbl).2 = .ok sites) :
    ∃ rs : List ℝ, (wm.transform realMath c).2 = .ok rs ∧ sites = rs.map Dbl.fin ∧
      (wm.toDbl.transform dblMath c.toDbl).1 = ((wm.transform realMath c).1).toDbl := by
  obtain ⟨h1, h2⟩ := transform_toDbl wm c hc hp
  rw [h2] at hok
  cases hr : (wm.transform realMath c).2 with
  | error e => rw [hr] at hok; simp [Except.map] at hok
  | ok rs =>
    rw [hr] at hok
    simp only [Except.map, Except.ok.injEq] at hok
    exact ⟨rs, rfl, hok.symm, h1⟩

theorem demo_bounded : demo_coords.bounded := by
  simp only [Coords.bounded, demo_coords]
  refine ⟨?_, ?_, ?_, ?_, ?_, ?_, ?_, ?_, ?_⟩ <;> rw [abs_le] <;> constructor <;> norm_num

theorem scenario_bounded : scenario_coords.bounded := by
  simp only [Coords.bounded, scenario_coords]
  refine ⟨?_, ?_, ?_, ?_, ?_, ?_, ?_, ?_, ?_⟩ <;> rw [abs_le] <;> constructor <;> norm_num

theorem demo_model_bounded : demo_model.parameters.bounded := by
  rw [demo_model_eq]
  simp only [model_param.bounded]
  refine ⟨?_, ?_, ?_, ?_, ?_⟩ <;> rw [abs_le] <;> constructor <;> norm_num

theorem tip5p_model_bounded : tip5p_model.parameters.bounded := by
  rw [tip5p_model_eq]
  simp only [model_param.bounded]
  refine ⟨?_, ?_, ?_, ?_, ?_⟩ <;> rw [abs_le] <;> constructor <;> norm_num

/-- The sample models in the arithmetic with overflow are those of the registry. -/
theorem demo_model_toDbl :
    demo_model.toDbl = (model.new.initialise 7 : model Dbl) ∧
    tip5p_model.toDbl = (model.new.initialise 10 : model Dbl) :=
  ⟨(initialise_toDbl 7).symm, (initialise_toDbl 10).symm⟩

theorem demo_transform_dbl :
    (demo_model.toDbl.transform dblMath demo_coords.toDbl).2 =
      .ok ((sites_M realMath demo_model.parameters demo_coords
        ++ sites_LP realMath demo_model.parameters demo_coords).map Dbl.fin) := by
  rw [(transform_toDbl demo_model demo_coords demo_bounded demo_model_bounded).2, demo_transform]
  rfl

theorem scenario_transform_dbl :
    (demo_model.toDbl.transform dblMath scenario_coords.toDbl).2 =
      .ok ((sites_M realMath demo_model.parameters scenario_coords
        ++ sites_LP realMath demo_model.parameters scenario_coords).map Dbl.fin) := by
  rw [(transform_toDbl demo_model scenario_coords scenario_bounded demo_model_bounded).2,
    scenario_transform]
  rfl

theorem tip5p_transform_dbl :
    (tip5p_model.toDbl.transform dblMath demo_coords.toDbl).2 =
      .ok ((sites_M realMath tip5p_model.parameters demo_coords
        ++ sites_LP realMath tip5p_model.parameters demo_coords).map Dbl.fin) := by
  rw [(transform_toDbl tip5p_model demo_coords demo_bounded tip5p_model_bounded).2,
    tip5p_transform]
  rfl

theorem demo_fabs_rOM : dblMath.fabs demo_model.toDbl.parameters.rOM > (1.0e-4 : Dbl) := by
  apply (fabs_gt_toDbl demo_model.parameters.rOM).mpr
  rw [demo_model_eq]
  simp only [realMath]
  norm_num [abs_of_pos]

theorem tip5p_fabs_rOL : dblMath.fabs tip5p_model.toDbl.parameters.rOL > (1.0e-4 : Dbl) := by
  apply (fabs_gt_toDbl tip5p_model.parameters.rOL).mpr
  rw [tip5p_model_eq]
  simp only [realMath]
  norm_num [abs_of_pos]

/-- The far molecule is given by finite numbers, one of them beyond `1e150`, and the
models of the counterexamples are the sample models. -/
theorem far_input :
    far_coords = far_coords.val.toDbl ∧ ¬ far_coords.val.bounded ∧
    far_tip4p = demo_model.toDbl ∧ far_tip5p = tip5p_model.toDbl := by
  refine ⟨rfl, ?_, ?_, ?_⟩
  · rw [far_coords_val]
    intro h
    have h1 := h.2.2.2.1
    simp only [] at h1
    rw [abs_of_pos (by norm_num)] at h1
    norm_num at h1
  · exact demo_model_toDbl.1.symm
  · exact demo_model_toDbl.2.symm

/-- Half the lone-pair angle of `tip5p`, in radians: about 0.955. -/
theorem half_lpangle_bounds :
    (0.9553 : ℝ) < 109.47 * 0.017453292519943295769139 / 2 ∧
    (109.47 : ℝ) * 0.017453292519943295769139 / 2 < 0.9554 := by
  constructor <;> norm_num

/-- Bounds on the cosine of a number between 0.9553 and 0.9554. -/
theorem cos_bounds (x : ℝ) (h1 : 0.9553 < x) (h2 : x < 0.9554) :
    0.5 < Real.cos x ∧ Real.cos x < 0.59 := by
  have hx : |x| ≤ 1 := by rw [abs_le]; constructor <;> linarith
  have hc := abs_le.mp (Real.cos_bound hx)
  have hx0 : 0 ≤ x := by linarith
  rw [abs_of_nonneg hx0] at hc
  have hx2l : 0.9553 ^ 2 ≤ x ^ 2 := by gcongr
  have hx2u : x ^ 2 ≤ 0.9554 ^ 2 := by gcongr
  have hx4u : x ^ 4 ≤ 0.9554 ^ 4 := by gcongr
  have hx4l : 0 ≤ x ^ 4 := by positivity
  norm_num at hx2l hx2u hx4u
  constructor <;> linarith [hc.1, hc.2]

theorem far_tip5p_sites :
    ∃ y : ℝ, -0.42 < y ∧ y < -0.35 ∧
      (far_tip5p.transform dblMath far_coords).2
        = .ok [.fin 0, .fin y, .fin 0, .fin 0, .fin y, .fin 0] := by
  obtain ⟨h1, h2⟩ := cos_bounds _ half_lpangle_bounds.1 half_lpangle_bounds.2
  have hang : (far_tip5p.parameters.lpangle * degree / 2.0 : Dbl)
      = .fin (109.47 * 0.017453292519943295769139 / 2) := by
    rw [far_tip5p_eq]
    norm_num [degree, Dbl.lit, Dbl.ofReal, DBL_MAX, Dbl.fin_mul, Dbl.fin_div]
  have hrr : far_tip5p.parameters.rOL = .fin 0.7 := by
    rw [far_tip5p_eq]
    norm_num [Dbl.lit, Dbl.ofReal, DBL_MAX]
  have hsb := abs_le.mp (Real.abs_sin_le_one (109.47 * 0.017453292519943295769139 / 2))
  have hcos : dblMath.cos (far_tip5p.parameters.lpangle * degree / 2.0)
      * far_tip5p.parameters.rOL
      = .fin (Real.cos (109.47 * 0.017453292519943295769139 / 2) * 0.7) := by
    rw [hang, hrr]
    show Dbl.fin (Real.cos _) * _ = _
    rw [Dbl.fin_mul, Dbl.ofReal_fin _ (by rw [abs_le]; constructor <;> linarith)]
  have hsin : dblMath.sin (far_tip5p.parameters.lpangle * degree / 2.0)
      * far_tip5p.parameters.rOL
      = .fin (Real.sin (109.47 * 0.017453292519943295769139 / 2) * 0.7) := by
    rw [hang, hrr]
    show Dbl.fin (Real.sin _) * _ = _
    rw [Dbl.fin_mul, Dbl.ofReal_fin _ (by rw [abs_le]; constructor <;> linarith)]
  have hM : sites_M dblMath far_tip5p.parameters far_coords = [] := by
    simp only [sites_M, far_tip5p_eq]
    norm_num [dblMath, Dbl.lit, Dbl.ofReal, DBL_MAX, Dbl.fin_lt]
  have hLc : dblMath.fabs far_tip5p.parameters.rOL > 1.0e-4 := by
    rw [hrr]
    norm_num [dblMath, Dbl.lit, Dbl.ofReal, DBL_MAX, Dbl.fin_lt, abs_of_pos]
  have hCL : 0.35 < Real.cos (109.47 * 0.017453292519943295769139 / 2) * 0.7 ∧
      Real.cos (109.47 * 0.017453292519943295769139 / 2) * 0.7 < 0.42 := by
    constructor <;> linarith
  refine ⟨-(Real.cos (109.47 * 0.017453292519943295769139 / 2) * 0.7), by linarith [hCL.2],
    by linarith [hCL.1], ?_⟩
  rw [(transform_good dblMath far_tip5p far_coords rfl far_not_short far_not_collinear).2, hM,
    List.nil_append]
  unfold sites_LP
  rw [if_pos hLc]
  simp only [vec_c, far_vec_a, far_vec_b, hcos, hsin]
  generalize Real.cos (109.47 * 0.017453292519943295769139 / 2) * 0.7 = CL at *
  generalize Real.sin (109.47 * 0.017453292519943295769139 / 2) * 0.7 = SL at *
  have h0 : Dbl.ofReal 0 = .fin 0 := Dbl.ofReal_fin 0 (by norm_num)
  have hCLf : Dbl.ofReal CL = .fin CL :=
    Dbl.ofReal_fin CL (by rw [abs_le]; constructor <;> linarith [hCL.1, hCL.2])
  have hCLn : Dbl.ofReal (-CL) = .fin (-CL) :=
    Dbl.ofReal_fin (-CL) (by rw [abs_le]; constructor <;> linarith [hCL.1, hCL.2])
  simp only [far_coords, Dbl.fin_mul, Dbl.fin_sub, Dbl.fin_add, zero_mul, one_mul, mul_zero,
    mul_neg, mul_one, neg_zero, sub_zero, add_zero, zero_sub, h0, hCLf, hCLn]

end Watcor
